import Mathlib

/-!
# chezmoi source-state engine: a shallow embedding

The Go sources under `next/internal/chezmoi` are translated function by
function.  Go strings are Lean strings, Go maps are association lists that
hold their keys in one iteration order (theorems that must not depend on that
order quantify over permutations), and code that returns an `error` returns
the new state together with an optional error.  Collaborators that live
outside the repository (the glob matcher, the template engine, the semantic
version parser, the filesystem) are parameters.
-/

set_option autoImplicit false

namespace Chezmoi

/-! ## Strings, the way the Go standard library treats them -/

/-- Byte-wise "less than" on character lists (code point order is the order of the UTF-8 bytes). -/
def lexLt : List Char → List Char → Bool
  | [], [] => false
  | [], _ :: _ => true
  | _ :: _, [] => false
  | a :: as, b :: bs =>
    if a.toNat < b.toNat then true
    else if b.toNat < a.toNat then false
    else lexLt as bs

/-- Go's `a < b` on strings. -/
def strLt (a b : String) : Bool := lexLt a.toList b.toList

/-- Go's `a <= b` on strings. -/
def strLe (a b : String) : Bool := !strLt b a

/-- Insertion of one string into an ascending list. -/
def orderedInsert (a : String) : List String → List String
  | [] => [a]
  | b :: bs => if strLe a b then a :: b :: bs else b :: orderedInsert a bs

/-- The Go call `sort.Strings`: the ascending rearrangement of the slice. -/
def sortStrings : List String → List String
  | [] => []
  | a :: as => orderedInsert a (sortStrings as)

/-- The Go call `strings.HasPrefix`. -/
def HasPrefix (s pre : String) : Bool := pre.toList.isPrefixOf s.toList

/-- The Go call `strings.TrimPrefix`. -/
def TrimPrefix (s pre : String) : String :=
  if HasPrefix s pre then String.mk (s.toList.drop pre.toList.length) else s

/-- Splitting at every slash, as `strings.Split(s, "/")` does: the empty list of characters gives
one empty piece. -/
def splitSlash : List Char → List (List Char)
  | [] => [[]]
  | c :: cs =>
    if c = '/' then [] :: splitSlash cs
    else
      match splitSlash cs with
      | [] => [[c]]
      | piece :: pieces => (c :: piece) :: pieces

/-- Joining pieces with a slash between neighbours, as `strings.Join(pieces, "/")` does. -/
def joinSlash : List (List Char) → List Char
  | [] => []
  | [piece] => piece
  | piece :: pieces => piece ++ '/' :: joinSlash pieces

/-- The element loop of Go's `path.Clean`, on the elements between slashes; `out` holds the kept
elements, the last one first.  Empty and `.` elements are dropped, `..` removes the element before
it when there is one that is not itself `..`, is kept in a relative path and dropped at the root. -/
def cleanElements (rooted : Bool) : List (List Char) → List (List Char) → List (List Char)
  | [], out => out.reverse
  | e :: es, out =>
    if e = [] ∨ e = ['.'] then cleanElements rooted es out
    else if e = ['.', '.'] then
      match out with
      | top :: below =>
        if top = ['.', '.'] then cleanElements rooted es (e :: out)
        else cleanElements rooted es below
      | [] => if rooted then cleanElements rooted es [] else cleanElements rooted es [e]
    else cleanElements rooted es (e :: out)

/-- Go's `path.Clean` on character lists. -/
def cleanChars (p : List Char) : List Char :=
  if p = [] then ['.']
  else
    let rooted := p.head? = some '/'
    let body := joinSlash (cleanElements rooted (splitSlash p) [])
    if rooted then '/' :: body
    else if body = [] then ['.'] else body

/-- The Go call `path.Clean`. -/
def pathClean (p : String) : String := String.mk (cleanChars p.toList)

/-- The Go call `path.Join`: empty elements before the first non-empty one are ignored, the rest is
joined with slashes and cleaned; with nothing but empty elements the result is empty. -/
def pathJoin (elem : List String) : String :=
  match elem.dropWhile (fun e => e = "") with
  | [] => ""
  | rest => String.mk (cleanChars (joinSlash (rest.map String.toList)))

/-- The position just after the last slash of a path (zero when there is none). -/
def afterLastSlash : List Char → Nat
  | [] => 0
  | c :: cs =>
    if cs.contains '/' then afterLastSlash cs + 1
    else if c = '/' then 1 else 0

/-- The Go call `path.Split`: the directory part ends with the final slash, the file part follows it. -/
def pathSplit (p : String) : String × String :=
  let i := afterLastSlash p.toList
  (String.mk (p.toList.take i), String.mk (p.toList.drop i))

/-- The Go call `path.Dir`. -/
def pathDir (p : String) : String := pathClean (pathSplit p).1

/-- The Go predicate `unicode.IsSpace`. -/
def isSpace (c : Char) : Bool :=
  let n := c.toNat
  (9 ≤ n ∧ n ≤ 13) ∨ n = 32 ∨ n = 0x85 ∨ n = 0xA0 ∨ n = 0x1680 ∨ (0x2000 ≤ n ∧ n ≤ 0x200A) ∨
    n = 0x2028 ∨ n = 0x2029 ∨ n = 0x202F ∨ n = 0x205F ∨ n = 0x3000

/-- The Go call `strings.TrimSpace`. -/
def TrimSpace (s : String) : String :=
  String.mk ((s.toList.dropWhile isSpace).reverse.dropWhile isSpace).reverse

/-- The cut `if index := strings.IndexRune(text, r); index != -1 { text = text[:index] }`. -/
def cutAtRune (text : String) (r : Char) : String :=
  String.mk (text.toList.takeWhile (fun c => c ≠ r))

/-- Splitting at every line feed. -/
def splitLF : List Char → List (List Char)
  | [] => [[]]
  | c :: cs =>
    if c = Char.ofNat 10 then [] :: splitLF cs
    else
      match splitLF cs with
      | [] => [[c]]
      | piece :: pieces => (c :: piece) :: pieces

/-- The helper `dropCR` of `bufio.ScanLines`: one trailing carriage return is removed. -/
def dropCR (line : List Char) : List Char :=
  if line.getLast? = some (Char.ofNat 13) then line.dropLast else line

/-- The tokens a `bufio.Scanner` with the default `ScanLines` split function yields for the data:
the text between line feeds without a trailing carriage return; data that ends in a line feed
yields no further empty line.  (This leaves out the scanner's limit on the length of one line,
which `scanTokens` has.) -/
def scanLines (data : String) : List String :=
  let pieces := splitLF data.toList
  let kept := if pieces.getLast? = some [] then pieces.dropLast else pieces
  kept.map (fun line => String.mk (dropCR line))

/-- The constant `bufio.MaxScanTokenSize`, the size that the buffer of a scanner grows to. -/
def MaxScanTokenSize : Nat := 64 * 1024

/-- The text of the error `bufio.ErrTooLong`. -/
def ErrTooLong : String := "bufio.Scanner: token too long"

/-- What the loop `for scanner.Scan()` sees and what `scanner.Err()` returns after it: the scanner
yields the lines as long as a line, with its carriage return, has fewer bytes than the buffer can
hold (a line of `MaxScanTokenSize` bytes or more fills the buffer before its end is found); at
the first longer line it stops with the error `bufio.ErrTooLong`. -/
def scanTokens (data : String) : List String × Option String :=
  let pieces := splitLF data.toList
  let kept := if pieces.getLast? = some [] then pieces.dropLast else pieces
  let short := kept.takeWhile (fun line => decide ((String.mk line).utf8ByteSize < MaxScanTokenSize))
  (short.map (fun line => String.mk (dropCR line)),
    if short.length < kept.length then some ErrTooLong else none)

/-! ## patternset.go -/

/-- The result of the external `doublestar.Match(pattern, name)`: the flag and the error. -/
abbrev Matcher := String → String → Bool × Option String

/-- A `stringSet` (`map[string]struct{}`): its keys, in one iteration order. -/
abbrev stringSet := List String

/-- The method `stringSet.Add`: assigning a key that is present changes nothing. -/
def stringSet.Add (s : stringSet) (elements : List String) : stringSet :=
  elements.foldl (fun acc element => if element ∈ acc then acc else acc ++ [element]) s

/-- The struct `PatternSet`. -/
structure PatternSet where
  includes : stringSet
  excludes : stringSet
deriving DecidableEq, Repr

/-- The constructor `NewPatternSet()` without options. -/
def NewPatternSet : PatternSet := ⟨[], []⟩

/-- The method `PatternSet.Add`: the pattern is validated by a dry match against the empty name. -/
def PatternSet.Add (doublestarMatch : Matcher) (ps : PatternSet) (pattern : String) (incl : Bool) :
    PatternSet × Option String :=
  match (doublestarMatch pattern "").2 with
  | some err => (ps, some err)
  | none =>
    if incl then ({ ps with includes := ps.includes.Add [pattern] }, none)
    else ({ ps with excludes := ps.excludes.Add [pattern] }, none)

/-- One `for pattern := range set` loop of `Match`: does the loop hit a matching pattern? -/
def rangeHits (doublestarMatch : Matcher) (name : String) : List String → Bool
  | [] => false
  | pattern :: rest =>
    if (doublestarMatch pattern name).1 then true else rangeHits doublestarMatch name rest

/-- The method `PatternSet.Match`: a hit among the excludes returns false, then a hit among the
includes returns true, otherwise false. -/
def PatternSet.Match (doublestarMatch : Matcher) (ps : PatternSet) (name : String) : Bool :=
  if rangeHits doublestarMatch name ps.excludes then false
  else if rangeHits doublestarMatch name ps.includes then true
  else false

/-! ## chezmoi.go -/

def PathSeparatorStr : String := "/"
def ignorePrefix : String := "."
def ChezmoiPrefix : String := ".chezmoi"
def dataName : String := ChezmoiPrefix ++ "data"
def ignoreName : String := ChezmoiPrefix ++ "ignore"
def removeName : String := ChezmoiPrefix ++ "remove"
def templatesDirName : String := ChezmoiPrefix ++ "templates"
def versionName : String := ChezmoiPrefix ++ "version"

/-- The error values the source state creates.  Errors of collaborators, and errors made with
`fmt.Errorf`, are kept as their text. -/
inductive Error where
  | text (msg : String)
  | duplicateTarget (targetName : String) (sourcePaths : List String)
  | unsupportedFileType (path : String) (mode : Nat)
deriving DecidableEq, Repr

/-- The method `duplicateTargetError.Error`. -/
def duplicateTargetMessage (targetName : String) (sourcePaths : List String) : String :=
  targetName ++ ": duplicate target (" ++ String.intercalate ", " sourcePaths ++ ")"

/-- The call `multierr.Append(err, e)`, an error value being the list of the errors it holds
(the empty list is `nil`, a list of one is that error itself). -/
def multierrAppend (err : List Error) (e : Error) : List Error := err ++ [e]

/-! ## Attributes and state entries -/

/-- The struct `DirAttributes`. -/
structure DirAttributes where
  Name : String
  Exact : Bool
  Private : Bool
deriving DecidableEq, Repr

/-- The type `SourceFileType`. -/
inductive SourceFileType where
  | SourceFileTypeFile
  | SourceFileTypePresent
  | SourceFileTypeScript
  | SourceFileTypeSymlink
deriving DecidableEq, Repr

/-- The struct `FileAttributes`. -/
structure FileAttributes where
  Name : String
  Type_ : SourceFileType
  Empty : Bool
  Encrypted : Bool
  Executable : Bool
  Once : Bool
  Private : Bool
  Template : Bool
deriving DecidableEq, Repr

/-- The implementations of the interface `TargetStateEntry`, lazy values being held evaluated. -/
inductive TargetStateEntry where
  | TargetStateAbsent
  | TargetStateDir (perm : Nat) (exact : Bool)
  | TargetStateFile (contents : String) (perm : Nat)
  | TargetStatePresent (contents : String) (perm : Nat)
  | TargetStateScript (contents : String) (name : String) (once : Bool)
  | TargetStateSymlink (linkname : String)
deriving DecidableEq, Repr

/-- The implementations of the interface `SourceStateEntry`.  A file keeps what its closures
capture: its attributes, its target name and what reading the source file gives. -/
inductive SourceStateEntry where
  | SourceStateDir (path : String) (Attributes : DirAttributes) (targetStateEntry : TargetStateEntry)
  | SourceStateFile (path : String) (Attributes : FileAttributes) (targetName : String)
      (readFile : Except String String)

/-- The method `Path` of a source state entry. -/
def SourceStateEntry.Path : SourceStateEntry → String
  | .SourceStateDir path _ _ => path
  | .SourceStateFile path _ _ _ => path

/-- The struct `semver.Version`. -/
structure Version where
  Major : Int
  Minor : Int
  Patch : Int
  PreRelease : String
  Metadata : String
deriving DecidableEq, Repr

/-- What the source state takes from outside `sourcestate.go`: the collaborators outside the
repository and the helpers of the repository that other files define.  `TD` is the type of template
data (`map[string]interface{}`); a parsed template is held as its text. -/
structure Env (TD : Type) where
  /-- The function `doublestar.Match`. -/
  doublestarMatch : Matcher
  /-- The function `parseDirAttributes`. -/
  parseDirAttributes : String → DirAttributes
  /-- The function `parseFileAttributes`. -/
  parseFileAttributes : String → FileAttributes
  /-- The method `DirAttributes.Perm`. -/
  dirPerm : DirAttributes → Nat
  /-- The method `FileAttributes.Perm`. -/
  filePerm : FileAttributes → Nat
  /-- The function `strings.ToLower`. -/
  ToLower : String → String
  /-- The table `Formats` with the `Decode` method of its values. -/
  Formats : String → Option (String → Except String TD)
  /-- The function `recursiveMerge(dst, src)`, returning the new `dst`. -/
  recursiveMerge : TD → TD → TD
  /-- Parsing a template text under a name, with the options and functions of the state: the error. -/
  parseTemplate : String → String → Option String
  /-- Adding the partial templates to a parsed template and executing it on the data. -/
  executeTemplate : String → String → List (String × String) → TD → Except String String
  /-- The function `semver.NewVersion`. -/
  NewVersion : String → Except String Version
  /-- The method `semver.Version.LessThan`. -/
  LessThan : Version → Version → Bool
  /-- The method `Decrypt` of the encryption tool. -/
  Decrypt : String → String → Except String String
  /-- The function `isEmpty`. -/
  isEmpty : String → Bool

/-! ## The source directory -/

mutual
/-- What `Lstat` and `ReadFile` see at one path of the source directory: a regular file with its
contents, a directory with its children, or a file of another type with its mode and with what
reading it gives. -/
inductive Node where
  | file (contents : String)
  | dir (children : Entries)
  | other (mode : Nat) (readFile : Except String String)
/-- The children of a directory, in the order in which `vfs.WalkSlash` visits them (ascending by
name). -/
inductive Entries where
  | nil
  | cons (name : String) (node : Node) (rest : Entries)
end

/-- The bit `os.ModeDir`. -/
def ModeDir : Nat := 2 ^ 31

/-- The method `IsDir` of the `os.FileInfo` of a node. -/
def Node.IsDir : Node → Bool
  | .dir _ => true
  | _ => false

/-- The method `Mode().IsRegular` of the `os.FileInfo` of a node. -/
def Node.IsRegular : Node → Bool
  | .file _ => true
  | _ => false

/-- The method `Mode` of the `os.FileInfo` of a node, permission bits left out. -/
def Node.Mode : Node → Nat
  | .file _ => 0
  | .dir _ => ModeDir
  | .other mode _ => mode

/-- The method `System.ReadFile` at the path of a node. -/
def Node.ReadFile (path : String) : Node → Except String String
  | .file contents => .ok contents
  | .dir _ => .error ("read " ++ path ++ ": is a directory")
  | .other _ readFile => readFile

/-- What a walk function tells the walk: go on (`nil`), `vfs.SkipDir`, or fail with an error. -/
inductive Ctl where
  | next
  | skipDir
  | fail (err : Error)
deriving DecidableEq, Repr

/-- The error `filepath.SkipDir`, when it is returned as an error like any other. -/
def skipDirError : Error := Error.text "skip this directory"

mutual
/-- The walk of `vfs.WalkSlash` (go-vfs) below one node.  The function is called on the node.  For
a file that is no directory, what the function returns is returned, `SkipDir` included.  For a
directory, `SkipDir` ends the walk of the directory without an error; after anything else the
children are read and walked in order, so that an error that the function returns for a directory
is dropped.  The function receives the path, the base name and the node. -/
def walk {σ : Type} (fn : σ → String → String → Node → σ × Ctl) (path name : String) (node : Node)
    (s : σ) : σ × Ctl :=
  match node with
  | Node.dir children =>
    match fn s path name (Node.dir children) with
    | (s1, Ctl.skipDir) => (s1, Ctl.next)
    | (s1, _) => walkEntries fn path children s1
  | Node.file contents => fn s path name (Node.file contents)
  | Node.other mode readFile => fn s path name (Node.other mode readFile)
/-- The loop of the walk over the children of the directory at `dirPath`: the first child whose
walk returns an error, `SkipDir` included, ends the walk with that error. -/
def walkEntries {σ : Type} (fn : σ → String → String → Node → σ × Ctl) (dirPath : String)
    (es : Entries) (s : σ) : σ × Ctl :=
  match es with
  | Entries.nil => (s, Ctl.next)
  | Entries.cons name node rest =>
    match walk fn (pathJoin [dirPath, name]) name node s with
    | (s1, Ctl.next) => walkEntries fn dirPath rest s1
    | (s1, c) => (s1, c)
end

/-- The error that a walk returns to its caller: `SkipDir` that reaches the caller is an error. -/
def Ctl.error : Ctl → Option Error
  | Ctl.next => none
  | Ctl.skipDir => some skipDirError
  | Ctl.fail err => some err

/-! ## sourcestate.go: reading the source state -/

/-- Reading a Go map at a key (the first pair with the key). -/
def mapGet {α : Type} : List (String × α) → String → Option α
  | [], _ => none
  | (k, v) :: rest, key => if k = key then some v else mapGet rest key

/-- The assignment `m[key] = v` on a Go map. -/
def mapSet {α : Type} : List (String × α) → String → α → List (String × α)
  | [], key, v => [(key, v)]
  | (k, w) :: rest, key, v => if k = key then (k, v) :: rest else (k, w) :: mapSet rest key v

/-- The keys of a Go map, in its iteration order. -/
def mapKeys {α : Type} (m : List (String × α)) : List String := m.map Prod.fst

/-- The assignment `m[key] = append(m[key], v)` on a Go map of slices. -/
def mapAppend {α : Type} : List (String × List α) → String → α → List (String × List α)
  | [], key, v => [(key, [v])]
  | (k, vs) :: rest, key, v =>
    if k = key then (k, vs ++ [v]) :: rest else (k, vs) :: mapAppend rest key v

/-- The struct `SourceState`; the system is the source directory handed to `Read`, and the umask,
the encryption tool and the template functions and options are part of the environment. -/
structure SourceState (TD : Type) where
  entries : List (String × SourceStateEntry)
  sourcePath : String
  ignore : PatternSet
  minVersion : Version
  priorityTemplateData : TD
  remove : PatternSet
  templateData : TD
  templates : List (String × String)

/-- The constructor `NewSourceState(WithSourcePath(sourcePath))`; `emptyData` is the empty map. -/
def NewSourceState {TD : Type} (emptyData : TD) (sourcePath : String) : SourceState TD :=
  { entries := [], sourcePath := sourcePath, ignore := NewPatternSet,
    minVersion := ⟨0, 0, 0, "", ""⟩, priorityTemplateData := emptyData, remove := NewPatternSet,
    templateData := emptyData, templates := [] }

/-- The local variables of `Read` that the walk function updates: the source state and the map
`allSourceStateEntries`. -/
structure ReadState (TD : Type) where
  s : SourceState TD
  allSourceStateEntries : List (String × List SourceStateEntry)

/-- The return of a walk function that ends in `return err`. -/
def ctlOfErr {σ : Type} (r : σ × Option Error) : σ × Ctl :=
  match r.2 with
  | none => (r.1, Ctl.next)
  | some err => (r.1, Ctl.fail err)

/-- The method `SourceState.ExecuteTemplateData`. -/
def ExecuteTemplateData {TD : Type} (env : Env TD) (s : SourceState TD) (name data : String) :
    Except String String :=
  match env.parseTemplate name data with
  | some err => .error err
  | none => env.executeTemplate name data s.templates s.templateData

/-- The method `SourceState.executeTemplate`. -/
def executeTemplate {TD : Type} (env : Env TD) (s : SourceState TD) (path : String) (node : Node) :
    Except String String :=
  match node.ReadFile path with
  | .error err => .error err
  | .ok data => ExecuteTemplateData env s path data

/-- The `for scanner.Scan()` loop of `addPatterns`, over the lines that the scanner yields. -/
def addPatternsLoop (doublestarMatch : Matcher) (sourcePath dir : String) :
    List String → PatternSet → PatternSet × Option Error
  | [], patternSet => (patternSet, none)
  | line :: rest, patternSet =>
    let text := TrimSpace (cutAtRune line '#')
    if text = "" then addPatternsLoop doublestarMatch sourcePath dir rest patternSet
    else
      let incl := !HasPrefix text "!"
      let text := if HasPrefix text "!" then TrimPrefix text "!" else text
      let pattern := pathJoin [dir, text]
      match patternSet.Add doublestarMatch pattern incl with
      | (patternSet1, some err) => (patternSet1, some (Error.text (sourcePath ++ ": " ++ err)))
      | (patternSet1, none) => addPatternsLoop doublestarMatch sourcePath dir rest patternSet1

/-- The method `SourceState.addPatterns`, returning the new pattern set. -/
def addPatterns {TD : Type} (env : Env TD) (s : SourceState TD) (patternSet : PatternSet)
    (sourcePath relPath : String) (node : Node) : PatternSet × Option Error :=
  match executeTemplate env s sourcePath node with
  | .error err => (patternSet, some (Error.text err))
  | .ok data =>
    let dir := pathDir relPath
    match addPatternsLoop env.doublestarMatch sourcePath dir (scanTokens data).1 patternSet with
    | (patternSet1, some err) => (patternSet1, some err)
    | (patternSet1, none) =>
      match (scanTokens data).2 with
      | some err => (patternSet1, some (Error.text (sourcePath ++ ": " ++ err)))
      | none => (patternSet1, none)

/-- The method `SourceState.addTemplateData`. -/
def addTemplateData {TD : Type} (env : Env TD) (s : SourceState TD) (sourcePath : String)
    (node : Node) : SourceState TD × Option Error :=
  let name := (pathSplit sourcePath).2
  let suffix := TrimPrefix name (dataName ++ ".")
  match env.Formats (env.ToLower suffix) with
  | none => (s, some (Error.text (sourcePath ++ ": unknown format")))
  | some decode =>
    match node.ReadFile sourcePath with
    | .error err => (s, some (Error.text (sourcePath ++ ": " ++ err)))
    | .ok data =>
      match decode data with
      | .error err => (s, some (Error.text (sourcePath ++ ": " ++ err)))
      | .ok templateData =>
        let merged := env.recursiveMerge s.templateData templateData
        ({ s with templateData := env.recursiveMerge merged s.priorityTemplateData }, none)

/-- The walk function of `addTemplatesDir`. -/
def addTemplatesDirFn {TD : Type} (env : Env TD) (templateDir : String) (s : SourceState TD)
    (templatePath _name : String) (node : Node) : SourceState TD × Ctl :=
  if node.IsRegular then
    match node.ReadFile templatePath with
    | .error err => (s, Ctl.fail (Error.text err))
    | .ok contents =>
      let name := TrimPrefix templatePath (templateDir ++ PathSeparatorStr)
      match env.parseTemplate name contents with
      | some err => (s, Ctl.fail (Error.text err))
      | none => ({ s with templates := mapSet s.templates name contents }, Ctl.next)
  else if node.IsDir then (s, Ctl.next)
  else (s, Ctl.fail (Error.unsupportedFileType templatePath node.Mode))

/-- The method `SourceState.addTemplatesDir`. -/
def addTemplatesDir {TD : Type} (env : Env TD) (s : SourceState TD) (templateDir name : String)
    (node : Node) : SourceState TD × Option Error :=
  ((walk (addTemplatesDirFn env templateDir) templateDir name node s).1,
    (walk (addTemplatesDirFn env templateDir) templateDir name node s).2.error)

/-- The method `SourceState.addVersionFile`. -/
def addVersionFile {TD : Type} (env : Env TD) (s : SourceState TD) (sourcePath : String)
    (node : Node) : SourceState TD × Option Error :=
  match node.ReadFile sourcePath with
  | .error err => (s, some (Error.text err))
  | .ok data =>
    match env.NewVersion (TrimSpace data) with
    | .error err => (s, some (Error.text err))
    | .ok version =>
      if env.LessThan s.minVersion version then ({ s with minVersion := version }, none)
      else (s, none)

/-- The method `SourceState.newSourceStateDir`. -/
def newSourceStateDir {TD : Type} (env : Env TD) (sourcePath : String) (da : DirAttributes) :
    SourceStateEntry :=
  SourceStateEntry.SourceStateDir sourcePath da (TargetStateEntry.TargetStateDir (env.dirPerm da) da.Exact)

/-- The method `SourceState.newSourceStateFile`: the closures are kept as what they capture. -/
def newSourceStateFile (sourcePath : String) (fa : FileAttributes) (targetName : String)
    (node : Node) : SourceStateEntry :=
  SourceStateEntry.SourceStateFile sourcePath fa targetName (node.ReadFile sourcePath)

/-- The function `getTargetDirName`. -/
def getTargetDirName {TD : Type} (env : Env TD) (sourceDirName : String) : String :=
  let sourceNames := splitSlash sourceDirName.toList
  let targetNames := sourceNames.map (fun sourceName =>
    (env.parseDirAttributes (String.mk sourceName)).Name.toList)
  String.mk (joinSlash targetNames)

/-- The walk function of `Read` (the closure passed to `vfs.WalkSlash`); `name` is `info.Name()`. -/
def readWalkFn {TD : Type} (env : Env TD) (st : ReadState TD) (sourcePath name : String)
    (node : Node) : ReadState TD × Ctl :=
  if sourcePath = st.s.sourcePath then (st, Ctl.next)
  else
    let sourceDirPrefix := st.s.sourcePath ++ PathSeparatorStr
    let relPath := TrimPrefix sourcePath sourceDirPrefix
    let sourceDirName := (pathSplit relPath).1
    let sourceName := (pathSplit relPath).2
    let targetDirName := getTargetDirName env sourceDirName
    if HasPrefix name dataName then
      let r := addTemplateData env st.s sourcePath node
      ctlOfErr ({ st with s := r.1 }, r.2)
    else if name = ignoreName then
      let r := addPatterns env st.s st.s.ignore sourcePath sourceDirName node
      ctlOfErr ({ st with s := { st.s with ignore := r.1 } }, r.2)
    else if name = removeName then
      let r := addPatterns env st.s st.s.remove sourcePath targetDirName node
      ctlOfErr ({ st with s := { st.s with remove := r.1 } }, r.2)
    else if name = templatesDirName then
      match addTemplatesDir env st.s sourcePath name node with
      | (s1, some err) => ({ st with s := s1 }, Ctl.fail err)
      | (s1, none) => ({ st with s := s1 }, Ctl.skipDir)
    else if name = versionName then
      let r := addVersionFile env st.s sourcePath node
      ctlOfErr ({ st with s := r.1 }, r.2)
    else if HasPrefix name ChezmoiPrefix ∨ HasPrefix name ignorePrefix then
      if node.IsDir then (st, Ctl.skipDir) else (st, Ctl.next)
    else if node.IsDir then
      let da := env.parseDirAttributes sourceName
      let targetName := pathJoin [targetDirName, da.Name]
      if st.s.ignore.Match env.doublestarMatch targetName then (st, Ctl.next)
      else
        let sourceStateEntry := newSourceStateDir env sourcePath da
        ({ st with allSourceStateEntries :=
            mapAppend st.allSourceStateEntries targetName sourceStateEntry }, Ctl.next)
    else if node.IsRegular then
      let fa := env.parseFileAttributes sourceName
      let targetName := pathJoin [targetDirName, fa.Name]
      if st.s.ignore.Match env.doublestarMatch targetName then (st, Ctl.next)
      else
        let sourceStateEntry := newSourceStateFile sourcePath fa targetName node
        ({ st with allSourceStateEntries :=
            mapAppend st.allSourceStateEntries targetName sourceStateEntry }, Ctl.next)
    else (st, Ctl.fail (Error.unsupportedFileType sourcePath node.Mode))

/-- What `s.system.Lstat(s.sourcePath)` gives: nothing there, an error, or a node. -/
inductive Lstat where
  | notExist
  | failed (err : String)
  | info (node : Node)

/-- The loop of `Read` over the sorted target names that collects the duplicate target errors. -/
def duplicateErrors (allSourceStateEntries : List (String × List SourceStateEntry)) :
    List String → List Error → List Error
  | [], err => err
  | targetName :: rest, err =>
    let sourceStateEntries := (mapGet allSourceStateEntries targetName).getD []
    if sourceStateEntries.length = 1 then duplicateErrors allSourceStateEntries rest err
    else
      let sourcePaths := sourceStateEntries.map SourceStateEntry.Path
      duplicateErrors allSourceStateEntries rest
        (multierrAppend err (Error.duplicateTarget targetName sourcePaths))

/-- The last loop of `Read`: `s.entries[targetName] = sourceEntries[0]` for every pair of the map
(an empty slice would stop the program; there is none when the loop is reached). -/
def populateEntries : List (String × List SourceStateEntry) → List (String × SourceStateEntry) →
    List (String × SourceStateEntry)
  | [], entries => entries
  | (targetName, sourceEntries) :: rest, entries =>
    match sourceEntries with
    | sourceEntry :: _ => populateEntries rest (mapSet entries targetName sourceEntry)
    | [] => populateEntries rest entries

/-- The walk of `Read` with its walk function (lines 299 to 365 of `sourcestate.go`). -/
def readWalk {TD : Type} (env : Env TD) (s : SourceState TD) (node : Node) : ReadState TD × Ctl :=
  walk (readWalkFn env) s.sourcePath (pathSplit s.sourcePath).2 node ⟨s, []⟩

/-- The method `SourceState.Read`: the new source state and the error (the empty list is `nil`). -/
def Read {TD : Type} (env : Env TD) (s : SourceState TD) (lstat : Lstat) :
    SourceState TD × List Error :=
  match lstat with
  | Lstat.notExist => (s, [])
  | Lstat.failed err => (s, [Error.text err])
  | Lstat.info node =>
    if !node.IsDir then (s, [Error.text (s.sourcePath ++ ": not a directory")])
    else
      match readWalk env s node with
      | (st, Ctl.fail err) => (st.s, [err])
      | (st, Ctl.skipDir) => (st.s, [skipDirError])
      | (st, Ctl.next) =>
        let targetNames := sortStrings (mapKeys st.allSourceStateEntries)
        let err := duplicateErrors st.allSourceStateEntries targetNames []
        if err ≠ [] then (st.s, err)
        else ({ st.s with entries := populateEntries st.allSourceStateEntries st.s.entries }, [])

/-! ## An environment for concrete runs -/

/-- The behaviour of `doublestar.Match` on a pattern without metacharacters (none of `*`, `?`, `[`,
`\x7b` and the backslash): the name matches when it is the pattern, and there is no error. -/
def literalMatch : Matcher := fun pattern name => (pattern = name, none)

/-- Modelled from the spec: `parseDirAttributes` is not among the sources.  The base name is
`[exact_][private_][dot_]name`; the prefixes are consumed in this order and `dot_` becomes a leading
dot of the name. -/
def specParseDirAttributes (sourceName : String) : DirAttributes :=
  let exact := HasPrefix sourceName "exact_"
  let name := TrimPrefix sourceName "exact_"
  let priv := HasPrefix name "private_"
  let name := TrimPrefix name "private_"
  let name := if HasPrefix name "dot_" then "." ++ TrimPrefix name "dot_" else name
  { Name := name, Exact := exact, Private := priv }

/-- Modelled from the spec: `parseFileAttributes` is not among the sources.  The prefixes
`encrypted_`, `private_`, `empty_`, `exists_`, `executable_`, `run_` (with `once_`), `symlink_` are
consumed in this order, then `dot_` becomes a leading dot and the suffix `.tmpl` sets `template`. -/
def specParseFileAttributes (sourceName : String) : FileAttributes :=
  let encrypted := HasPrefix sourceName "encrypted_"
  let name := TrimPrefix sourceName "encrypted_"
  let priv := HasPrefix name "private_"
  let name := TrimPrefix name "private_"
  let empty := HasPrefix name "empty_"
  let name := TrimPrefix name "empty_"
  let isPresent := HasPrefix name "exists_"
  let name := TrimPrefix name "exists_"
  let executable := HasPrefix name "executable_"
  let name := TrimPrefix name "executable_"
  let isScript := HasPrefix name "run_"
  let name := TrimPrefix name "run_"
  let once := isScript && HasPrefix name "once_"
  let name := if isScript then TrimPrefix name "once_" else name
  let isSymlink := HasPrefix name "symlink_"
  let name := TrimPrefix name "symlink_"
  let name := if HasPrefix name "dot_" then "." ++ TrimPrefix name "dot_" else name
  let template := ".tmpl".toList.reverse.isPrefixOf name.toList.reverse
  let name := if template then String.mk (name.toList.take (name.toList.length - 5)) else name
  { Name := name,
    Type_ := if isSymlink then SourceFileType.SourceFileTypeSymlink
      else if isScript then SourceFileType.SourceFileTypeScript
      else if isPresent then SourceFileType.SourceFileTypePresent
      else SourceFileType.SourceFileTypeFile,
    Empty := empty, Encrypted := encrypted, Executable := executable, Once := once,
    Private := priv, Template := template }

/-- The value of a non-empty run of decimal digits. -/
def decimal (digits : List Char) : Option Nat :=
  if digits = [] then none
  else digits.foldl (fun acc c =>
    match acc with
    | none => none
    | some n => if 48 ≤ c.toNat ∧ c.toNat ≤ 57 then some (10 * n + (c.toNat - 48)) else none)
    (some 0)

/-- The dotted-tri part of `semver.NewVersion`: three decimal numbers separated by dots; anything
else is an error. -/
def dottedTri (version : String) : Except String Version :=
  match (version.toList.splitOn '.').map decimal with
  | [some major, some minor, some patch] => .ok ⟨major, minor, patch, "", ""⟩
  | _ => .error (version ++ " is not in dotted-tri format")

/-- An environment for concrete runs, without template data: no data format is registered,
templates are texts without actions (executing one gives the text itself), versions are dotted
triples compared number by number, and nothing is encrypted. -/
def plainEnv : Env Unit :=
  { doublestarMatch := literalMatch,
    parseDirAttributes := specParseDirAttributes,
    parseFileAttributes := specParseFileAttributes,
    dirPerm := fun da => if da.Private then 0o700 else 0o755,
    filePerm := fun fa =>
      if fa.Private then (if fa.Executable then 0o700 else 0o600)
      else (if fa.Executable then 0o755 else 0o644),
    ToLower := fun text => text,
    Formats := fun _ => none,
    recursiveMerge := fun _ _ => (),
    parseTemplate := fun _ _ => none,
    executeTemplate := fun _ text _ _ => .ok text,
    NewVersion := dottedTri,
    LessThan := fun a b =>
      decide (a.Major < b.Major ∨ (a.Major = b.Major ∧ (a.Minor < b.Minor ∨
        (a.Minor = b.Minor ∧ a.Patch < b.Patch)))),
    Decrypt := fun _ contents => .ok contents,
    isEmpty := fun contents => contents = "" }

/-- The source path of the scenarios of the tests. -/
def testSourcePath : String := "/home/user/.local/share/chezmoi"

/-! ## Properties of the nodes of a source directory -/

mutual
/-- Does the test hold of the node, under its name, and of everything below it? -/
def Node.all (q : String → Node → Bool) : String → Node → Bool
  | name, Node.dir children => q name (Node.dir children) && Entries.all q children
  | name, Node.file contents => q name (Node.file contents)
  | name, Node.other mode readFile => q name (Node.other mode readFile)
/-- Does the test hold of all the children and of everything below them? -/
def Entries.all (q : String → Node → Bool) : Entries → Bool
  | Entries.nil => true
  | Entries.cons name node rest => Node.all q name node && Entries.all q rest
end

/-- The children `es` followed by the children `tail`. -/
def Entries.append : Entries → Entries → Entries
  | Entries.nil, tail => tail
  | Entries.cons name node rest, tail => Entries.cons name node (Entries.append rest tail)

/-- Does the test hold of each child (not looking below the children)? -/
def Entries.allTop (q : String → Node → Bool) : Entries → Bool
  | Entries.nil => true
  | Entries.cons name node rest => q name node && Entries.allTop q rest

/-! ## sourcestate.go: applying the source state -/

/-- The method `lazyContents.Contents` of a source file: `contentsFunc` of `newSourceStateFile`. -/
def contentsFunc {TD : Type} (env : Env TD) (sourcePath : String) (fa : FileAttributes)
    (readFile : Except String String) : Except String String :=
  match readFile with
  | .error err => .error err
  | .ok contents => if !fa.Encrypted then .ok contents else env.Decrypt sourcePath contents

/-- The step shared by the four closures: the contents, executed as a template when the
attributes say so. -/
def templatedContents {TD : Type} (env : Env TD) (s : SourceState TD) (sourcePath : String)
    (fa : FileAttributes) (readFile : Except String String) : Except String String :=
  match contentsFunc env sourcePath fa readFile with
  | .error err => .error err
  | .ok contents =>
    if fa.Template then ExecuteTemplateData env s sourcePath contents else .ok contents

/-- The closure `targetStateEntryFunc` that `newSourceStateFile` builds for the type of the file. -/
def targetStateEntryFunc {TD : Type} (env : Env TD) (s : SourceState TD) (sourcePath : String)
    (fa : FileAttributes) (targetName : String) (readFile : Except String String) :
    Except String TargetStateEntry :=
  match templatedContents env s sourcePath fa readFile with
  | .error err => .error err
  | .ok contents =>
    match fa.Type_ with
    | SourceFileType.SourceFileTypeFile =>
      if !fa.Empty && env.isEmpty contents then .ok TargetStateEntry.TargetStateAbsent
      else .ok (TargetStateEntry.TargetStateFile contents (env.filePerm fa))
    | SourceFileType.SourceFileTypePresent =>
      .ok (TargetStateEntry.TargetStatePresent contents (env.filePerm fa))
    | SourceFileType.SourceFileTypeScript =>
      .ok (TargetStateEntry.TargetStateScript contents targetName fa.Once)
    | SourceFileType.SourceFileTypeSymlink =>
      .ok (TargetStateEntry.TargetStateSymlink (TrimSpace contents))

/-- The method `TargetStateEntry` of a source state entry. -/
def SourceStateEntry.TargetStateEntry {TD : Type} (env : Env TD) (s : SourceState TD) :
    SourceStateEntry → Except String TargetStateEntry
  | .SourceStateDir _ _ targetStateEntry => .ok targetStateEntry
  | .SourceStateFile path fa targetName readFile =>
    targetStateEntryFunc env s path fa targetName readFile

/-- What applying takes from outside `sourcestate.go`, for a target system with states `σ` and
destination state entries `δ`: the methods `ReadDir` (the names of the infos) and `RemoveAll` of the
system, the function `NewDestStateEntry`, the method `Apply` of a target state entry and the method
`IncludeTargetStateEntry` of the include set. -/
structure TargetSystem (σ δ : Type) where
  ReadDir : σ → String → Except String (List String)
  RemoveAll : σ → String → σ × Option String
  NewDestStateEntry : σ → String → Except String δ
  Apply : TargetStateEntry → σ → δ → Nat → σ × Option String
  IncludeTargetStateEntry : TargetStateEntry → Bool

/-- What a call of `ApplyOne` or `ApplyAll` leaves: the target system, the error, and, for the
record, the target names on which `ApplyOne` was called and the paths on which `ApplyOne` itself
called `RemoveAll`, both in the order of the calls. -/
structure ApplyResult (σ : Type) where
  system : σ
  err : Option Error
  applied : List String
  removed : List String

/-- The loop `for _, baseName := range baseNames` of `ApplyOne`. -/
def removeLoop {σ δ : Type} (sys : TargetSystem σ δ) (entries : List (String × SourceStateEntry))
    (targetName targetPath : String) : List String → σ → List String → σ × Option Error × List String
  | [], system, removed => (system, none, removed)
  | baseName :: rest, system, removed =>
    match mapGet entries (pathJoin [targetName, baseName]) with
    | some _ => removeLoop sys entries targetName targetPath rest system removed
    | none =>
      match sys.RemoveAll system (pathJoin [targetPath, baseName]) with
      | (system1, some err) =>
        (system1, some (Error.text err), removed ++ [pathJoin [targetPath, baseName]])
      | (system1, none) =>
        removeLoop sys entries targetName targetPath rest system1
          (removed ++ [pathJoin [targetPath, baseName]])

/-- The names that `ApplyOne` keeps of a directory listing, sorted: all but `.` and `..`. -/
def exactBaseNames (names : List String) : List String :=
  sortStrings (names.filter (fun baseName => baseName ≠ "." ∧ baseName ≠ ".."))

/-- The method `SourceState.ApplyOne`.  (Asking a missing entry for its target state stops the
program; this is returned as an error.) -/
def ApplyOne {TD σ δ : Type} (env : Env TD) (s : SourceState TD) (sys : TargetSystem σ δ)
    (system : σ) (targetDir targetName : String) (umask : Nat) : ApplyResult σ :=
  match mapGet s.entries targetName with
  | none => ⟨system, some (Error.text "invalid memory address or nil pointer dereference"),
      [targetName], []⟩
  | some sourceStateEntry =>
    match sourceStateEntry.TargetStateEntry env s with
    | .error err => ⟨system, some (Error.text err), [targetName], []⟩
    | .ok targetStateEntry =>
      if !sys.IncludeTargetStateEntry targetStateEntry then ⟨system, none, [targetName], []⟩
      else
        let targetPath := pathJoin [targetDir, targetName]
        match sys.NewDestStateEntry system targetPath with
        | .error err => ⟨system, some (Error.text err), [targetName], []⟩
        | .ok destStateEntry =>
          match sys.Apply targetStateEntry system destStateEntry umask with
          | (system1, some err) => ⟨system1, some (Error.text err), [targetName], []⟩
          | (system1, none) =>
            match targetStateEntry with
            | TargetStateEntry.TargetStateDir _ true =>
              match sys.ReadDir system1 targetPath with
              | .error err => ⟨system1, some (Error.text err), [targetName], []⟩
              | .ok names =>
                match removeLoop sys s.entries targetName targetPath (exactBaseNames names)
                    system1 [] with
                | (system2, err, removed) => ⟨system2, err, [targetName], removed⟩
            | _ => ⟨system1, none, [targetName], []⟩

/-- The method `SourceState.sortedTargetNames` (and `TargetNames`, which has the same body). -/
def sortedTargetNames {TD : Type} (s : SourceState TD) : List String :=
  sortStrings (mapKeys s.entries)

/-- The loop of `ApplyAll` over the sorted target names. -/
def applyLoop {TD σ δ : Type} (env : Env TD) (s : SourceState TD) (sys : TargetSystem σ δ)
    (targetDir : String) (umask : Nat) : List String → ApplyResult σ → ApplyResult σ
  | [], acc => acc
  | targetName :: rest, acc =>
    let r := ApplyOne env s sys acc.system targetDir targetName umask
    match r.err with
    | some err => ⟨r.system, some err, acc.applied ++ r.applied, acc.removed ++ r.removed⟩
    | none =>
      applyLoop env s sys targetDir umask rest
        ⟨r.system, none, acc.applied ++ r.applied, acc.removed ++ r.removed⟩

/-- The method `SourceState.ApplyAll`. -/
def ApplyAll {TD σ δ : Type} (env : Env TD) (s : SourceState TD) (sys : TargetSystem σ δ)
    (system : σ) (targetDir : String) (umask : Nat) : ApplyResult σ :=
  applyLoop env s sys targetDir umask (sortedTargetNames s) ⟨system, none, [], []⟩

/-! ## A target system in memory for concrete runs -/

/-- The implementations of the interface `DestStateEntry`, as the spec lists them. -/
inductive DestStateEntry where
  | DestStateAbsent
  | DestStateDir (perm : Nat)
  | DestStateFile (contents : String) (perm : Nat)
  | DestStateSymlink (linkname : String)
deriving DecidableEq, Repr

/-- Modelled from the spec: the interface `System` and its real implementation are not among the
sources.  A destination in memory: the paths that exist with what is there, the scripts that were
run (name and contents), and the keys of the `script` bucket of the persistent state (the contents
of a script stand for its SHA-256). -/
structure MemSystem where
  nodes : List (String × DestStateEntry)
  scripts : List (String × String)
  scriptState : List String
deriving DecidableEq, Repr

/-- The base name under which the path `key` is a child of the directory `dir`, if it is one. -/
def childName (dir key : String) : Option String :=
  let baseName := (pathSplit key).2
  if baseName ≠ "" ∧ key ≠ dir ∧ pathJoin [dir, baseName] = key then some baseName else none

/-- Modelled from the spec: `readdir`, the names of the children of a directory. -/
def MemSystem.ReadDir (system : MemSystem) (path : String) : Except String (List String) :=
  match mapGet system.nodes path with
  | some (DestStateEntry.DestStateDir _) =>
    .ok (system.nodes.filterMap (fun kv => childName path kv.1))
  | some _ => .error ("readdir " ++ path ++ ": not a directory")
  | none => .error ("open " ++ path ++ ": no such file or directory")

/-- Modelled from the spec: `removeall`, which removes the path and everything below it and does
not treat a missing path as an error. -/
def MemSystem.RemoveAll (system : MemSystem) (path : String) : MemSystem × Option String :=
  (⟨system.nodes.filter (fun kv => decide (kv.1 ≠ path) && !HasPrefix kv.1 (path ++ "/")),
    system.scripts, system.scriptState⟩, none)

/-- Writing one node, which needs the parent directory to exist. -/
def MemSystem.put (system : MemSystem) (path : String) (node : DestStateEntry) :
    MemSystem × Option String :=
  match mapGet system.nodes (pathDir path) with
  | some (DestStateEntry.DestStateDir _) =>
    ({ system with nodes := mapSet system.nodes path node }, none)
  | _ => (system, some (path ++ ": no such file or directory"))

/-- Modelled from the spec: the constructor `NewDestStateEntry`, which looks at the path with
`lstat`; the entry keeps its path. -/
def MemSystem.NewDestStateEntry (system : MemSystem) (path : String) :
    Except String (String × DestStateEntry) :=
  .ok (path, (mapGet system.nodes path).getD DestStateEntry.DestStateAbsent)

/-- The permission that is written: `perm & ~umask`. -/
def effectivePerm (perm umask : Nat) : Nat := perm - (perm &&& umask)

/-- Removing what is at the path, then writing a node there. -/
def MemSystem.replace (system : MemSystem) (path : String) (node : DestStateEntry) :
    MemSystem × Option String :=
  (system.RemoveAll path).1.put path node

/-- Modelled from the spec: the method `Apply` of the target state entries, by the apply matrix of
the spec (rows are the target state, columns the destination state). -/
def MemSystem.Apply (target : TargetStateEntry) (system : MemSystem)
    (dest : String × DestStateEntry) (umask : Nat) : MemSystem × Option String :=
  let path := dest.1
  match target, dest.2 with
  | .TargetStateAbsent, .DestStateAbsent => (system, none)
  | .TargetStateAbsent, _ => system.RemoveAll path
  | .TargetStateDir perm _, .DestStateAbsent =>
    system.put path (.DestStateDir (effectivePerm perm umask))
  | .TargetStateDir perm _, .DestStateDir destPerm =>
    if destPerm = effectivePerm perm umask then (system, none)
    else system.put path (.DestStateDir (effectivePerm perm umask))
  | .TargetStateDir perm _, _ => system.replace path (.DestStateDir (effectivePerm perm umask))
  | .TargetStateFile contents perm, .DestStateFile destContents destPerm =>
    if destContents = contents ∧ destPerm = effectivePerm perm umask then (system, none)
    else system.put path (.DestStateFile contents (effectivePerm perm umask))
  | .TargetStateFile contents perm, .DestStateAbsent =>
    system.put path (.DestStateFile contents (effectivePerm perm umask))
  | .TargetStateFile contents perm, _ =>
    system.replace path (.DestStateFile contents (effectivePerm perm umask))
  | .TargetStatePresent _ perm, .DestStateFile destContents destPerm =>
    if destPerm = effectivePerm perm umask then (system, none)
    else system.put path (.DestStateFile destContents (effectivePerm perm umask))
  | .TargetStatePresent contents perm, .DestStateAbsent =>
    system.put path (.DestStateFile contents (effectivePerm perm umask))
  | .TargetStatePresent contents perm, _ =>
    system.replace path (.DestStateFile contents (effectivePerm perm umask))
  | .TargetStateScript contents name once, _ =>
    if once ∧ contents ∈ system.scriptState then (system, none)
    else
      (⟨system.nodes, system.scripts ++ [(name, contents)],
        if once then system.scriptState ++ [contents] else system.scriptState⟩, none)
  | .TargetStateSymlink linkname, .DestStateSymlink destLinkname =>
    if destLinkname = linkname then (system, none)
    else system.put path (.DestStateSymlink linkname)
  | .TargetStateSymlink linkname, .DestStateAbsent => system.put path (.DestStateSymlink linkname)
  | .TargetStateSymlink linkname, _ => system.replace path (.DestStateSymlink linkname)

/-- The target system in memory, with an include set that is given by its test. -/
def memSystem (includes : TargetStateEntry → Bool) :
    TargetSystem MemSystem (String × DestStateEntry) :=
  { ReadDir := MemSystem.ReadDir,
    RemoveAll := MemSystem.RemoveAll,
    NewDestStateEntry := MemSystem.NewDestStateEntry,
    Apply := MemSystem.Apply,
    IncludeTargetStateEntry := includes }

/-- The destination of the scenario "dir_exact" of the tests: `/home/user/foo/bar` is a file. -/
def dirExactDest : MemSystem :=
  { nodes := [("/", .DestStateDir 0o755), ("/home", .DestStateDir 0o755),
      ("/home/user", .DestStateDir 0o755), ("/home/user/foo", .DestStateDir 0o755),
      ("/home/user/foo/bar", .DestStateFile "" 0o644)],
    scripts := [], scriptState := [] }

/-! ## Concrete source directories and states -/

/-- Did the walk return an error to its caller (`SkipDir` that reaches the caller is one)? -/
def Ctl.failed : Ctl → Bool
  | Ctl.next => false
  | _ => true

/-- The source state before `Read` in the scenarios of the tests. -/
def testState : SourceState Unit := NewSourceState () testSourcePath

/-- A source directory in which the file `+x` is walked before `.chezmoiignore`, whose only
pattern is `+x`. -/
def lateIgnoreSource : Lstat :=
  .info (.dir (.cons "+x" (.file "a") (.cons ".chezmoiignore" (.file "+x\n") .nil)))

/-- The source directory of the scenario "chezmoiignore_ignore_file" of the tests, with one more
file. -/
def readmeSource : Entries :=
  .cons ".chezmoiignore" (.file "README.md\n") (.cons "README.md" (.file "") (.cons "foo"
    (.file "bar") .nil))

/-- A source directory that ignores the directory `foo`, which holds the file `bar`. -/
def ignoredDirSource : Lstat :=
  .info (.dir (.cons ".chezmoiignore" (.file "foo\n")
    (.cons "foo" (.dir (.cons "bar" (.file "x") .nil)) .nil)))

/-- The source directory of the scenario "duplicate_target" of the tests. -/
def duplicateSource : Entries :=
  .cons "foo" (.file "bar") (.cons "foo.tmpl" (.file "bar") .nil)

/-- The source directory of the scenario "duplicate_target" with an empty `.chezmoiversion`. -/
def badVersionSource : Entries :=
  .cons ".chezmoiversion" (.file "") duplicateSource

/-- A source directory whose `.chezmoiignore` holds the pattern `a/`. -/
def slashPatternSource : Lstat :=
  .info (.dir (.cons ".chezmoiignore" (.file "a/\n") .nil))

/-- A source directory with pattern files in the directory `dot_config`. -/
def dotConfigSource : Lstat :=
  .info (.dir (.cons "dot_config" (.dir (.cons ".chezmoiignore" (.file "a\n")
    (.cons ".chezmoiremove" (.file "a\n!b # keep\n\n") .nil))) .nil))

/-- A source state with the entries `a` and `b`, where the source file of `a` cannot be read. -/
def unreadableState : SourceState Unit :=
  ⟨[("a", .SourceStateFile (testSourcePath ++ "/a") (specParseFileAttributes "a") "a"
      (.error "permission denied")),
    ("b", .SourceStateFile (testSourcePath ++ "/b") (specParseFileAttributes "b") "b" (.ok "x"))],
   testSourcePath, NewPatternSet, ⟨0, 0, 0, "", ""⟩, (), NewPatternSet, (), []⟩

/-- The source state of the scenario "dir_exact" of the tests: the one entry `foo`, an exact
directory. -/
def dirExactState : SourceState Unit :=
  (Read plainEnv testState (.info (.dir (.cons "exact_foo" (.dir .nil) .nil)))).1

/-- A source state with the exact directory `foo` and the file `foo/bar`. -/
def exactChildState : SourceState Unit :=
  (Read plainEnv testState
    (.info (.dir (.cons "exact_foo" (.dir (.cons "bar" (.file "x") .nil)) .nil)))).1

/-- A source state with the exact directory `foo` and the file `foo/bar`, which is empty. -/
def emptyChildState : SourceState Unit :=
  (Read plainEnv testState
    (.info (.dir (.cons "exact_foo" (.dir (.cons "bar" (.file "") .nil)) .nil)))).1

/-- A destination in which the home directory is empty. -/
def homeDest : MemSystem :=
  { nodes := [("/", .DestStateDir 0o755), ("/home", .DestStateDir 0o755),
      ("/home/user", .DestStateDir 0o755)],
    scripts := [], scriptState := [] }

/-- The source entries that the walk of `Read` collected for a target name: the slice
`allSourceStateEntries[targetName]` when the walk has ended. -/
def walkedEntries {TD : Type} (env : Env TD) (s : SourceState TD) (children : Entries)
    (targetName : String) : List SourceStateEntry :=
  (mapGet (readWalk env s (Node.dir children)).1.allSourceStateEntries targetName).getD []

/-! ## The grammar of pattern files, in the words of the spec -/

/-- The pattern that one line of `.chezmoiignore` or `.chezmoiremove` stands for, as the spec words
it: a `#` starts a comment to the end of the line, whitespace around the rest is trimmed, a blank
rest is no pattern, a leading `!` makes the rest of it an exclude pattern, anything else is an
include pattern.  The flag says whether the pattern is an include pattern. -/
def linePattern (line : String) : Option (Bool × String) :=
  let rest := TrimSpace (cutAtRune line '#')
  if rest = "" then none
  else if HasPrefix rest "!" then some (false, TrimPrefix rest "!")
  else some (true, rest)

/-- The pattern set `new` holds what `old` held and, for each line of `data`, the pattern that the
line stands for joined to the directory `dir` with `path.Join`, among the includes or the excludes
as the line says; and nothing else. -/
def PatternsAdded (old new : PatternSet) (dir data : String) : Prop :=
  (∀ q, q ∈ new.includes ↔ q ∈ old.includes ∨
    ∃ line ∈ scanLines data, ∃ p, linePattern line = some (true, p) ∧ q = pathJoin [dir, p]) ∧
  (∀ q, q ∈ new.excludes ↔ q ∈ old.excludes ∨
    ∃ line ∈ scanLines data, ∃ p, linePattern line = some (false, p) ∧ q = pathJoin [dir, p])

/-- The target-relative directory that the names of the source directories `cs` decode to: the
decoded names, joined with slashes. -/
def decodedDir {TD : Type} (env : Env TD) (cs : List (List Char)) : String :=
  String.mk (joinSlash (cs.map (fun c => (env.parseDirAttributes (String.mk c)).Name.toList)))

/-- An element of a path that `path.Clean` keeps as it is: not empty, not `.`, not `..`, and
without a slash. -/
def plainElement (e : List Char) : Bool :=
  decide (e ≠ []) && decide (e ≠ ['.']) && decide (e ≠ ['.', '.']) && !e.contains '/'


/-- Equality of results (`Except`) can be decided when it can be for errors and for values. -/
instance instDecidableEqExcept {ε α : Type} [DecidableEq ε] [DecidableEq α] :
    DecidableEq (Except ε α)
  | .ok a, .ok b => if h : a = b then isTrue (by rw [h]) else isFalse (fun h2 => by cases h2; exact h rfl)
  | .error a, .error b =>
    if h : a = b then isTrue (by rw [h]) else isFalse (fun h2 => by cases h2; exact h rfl)
  | .ok _, .error _ => isFalse (fun h => by cases h)
  | .error _, .ok _ => isFalse (fun h => by cases h)

/-! ## cmd/chattr.go -/

/-- Splitting at every occurrence of one character, as `strings.Split` with that separator does:
the empty list of characters gives one empty piece. -/
def splitRune (sep : Char) : List Char → List (List Char)
  | [] => [[]]
  | c :: cs =>
    if c = sep then [] :: splitRune sep cs
    else
      match splitRune sep cs with
      | [] => [[c]]
      | piece :: pieces => (c :: piece) :: pieces

/-- The type `boolModifier` with its three constants.  (The type is an `int` whose other values
make `modify` stop the program; no function of the file produces one.) -/
inductive boolModifier where
  | boolModifierSet
  | boolModifierLeaveUnchanged
  | boolModifierClear
deriving DecidableEq, Repr

/-- The struct `attributesModifier`. -/
structure attributesModifier where
  empty : boolModifier
  encrypted : boolModifier
  exact : boolModifier
  executable : boolModifier
  private_ : boolModifier
  template : boolModifier
deriving DecidableEq, Repr

/-- The zero value `&attributesModifier\x7b\x7d`: every field is `boolModifierLeaveUnchanged`. -/
def attributesModifier.zero : attributesModifier :=
  ⟨.boolModifierLeaveUnchanged, .boolModifierLeaveUnchanged, .boolModifierLeaveUnchanged,
    .boolModifierLeaveUnchanged, .boolModifierLeaveUnchanged, .boolModifierLeaveUnchanged⟩

/-- The method `boolModifier.modify`. -/
def boolModifier.modify (m : boolModifier) (b : Bool) : Bool :=
  match m with
  | .boolModifierSet => true
  | .boolModifierLeaveUnchanged => b
  | .boolModifierClear => false

/-- The first `switch` of the loop of `parseAttributesModifier`, on a non-empty item: the modifier
and the attribute that the item names. -/
def splitModifier (modifierStr : String) : boolModifier × String :=
  if modifierStr.toList.head? = some '-' then
    (.boolModifierClear, String.mk (modifierStr.toList.drop 1))
  else if modifierStr.toList.head? = some '+' then
    (.boolModifierSet, String.mk (modifierStr.toList.drop 1))
  else if HasPrefix modifierStr "no" then
    (.boolModifierClear, String.mk (modifierStr.toList.drop 2))
  else (.boolModifierSet, modifierStr)

/-- The second `switch` of the loop of `parseAttributesModifier`: the field of the attribute is
assigned, and an unknown attribute is an error. -/
def setAttribute (am : attributesModifier) (attributeName : String) (bm : boolModifier) :
    Except String attributesModifier :=
  if attributeName = "empty" ∨ attributeName = "e" then .ok { am with empty := bm }
  else if attributeName = "encrypted" then .ok { am with encrypted := bm }
  else if attributeName = "exact" then .ok { am with exact := bm }
  else if attributeName = "executable" ∨ attributeName = "x" then .ok { am with executable := bm }
  else if attributeName = "private" ∨ attributeName = "p" then .ok { am with private_ := bm }
  else if attributeName = "template" ∨ attributeName = "t" then .ok { am with template := bm }
  else .error (attributeName ++ ": unknown attribute")

/-- The loop of `parseAttributesModifier` over the pieces of the input. -/
def parseAttributesModifierLoop : List String → attributesModifier → Except String attributesModifier
  | [], am => .ok am
  | piece :: rest, am =>
    let modifierStr := TrimSpace piece
    if modifierStr = "" then parseAttributesModifierLoop rest am
    else
      match setAttribute am (splitModifier modifierStr).2 (splitModifier modifierStr).1 with
      | .error err => .error err
      | .ok am1 => parseAttributesModifierLoop rest am1

/-- The function `parseAttributesModifier`. -/
def parseAttributesModifier (s : String) : Except String attributesModifier :=
  parseAttributesModifierLoop ((splitRune ',' s.toList).map String.mk) attributesModifier.zero

/-- The method `attributesModifier.modifyDirAttributes`. -/
def attributesModifier.modifyDirAttributes (am : attributesModifier) (da : DirAttributes) :
    DirAttributes :=
  { Name := da.Name, Exact := am.exact.modify da.Exact, Private := am.private_.modify da.Private }

/-- The method `attributesModifier.modifyFileAttributes`; fields that a struct literal of the
source leaves out hold their zero value, and `none` is the end of the program that the source
reaches for a script. -/
def attributesModifier.modifyFileAttributes (am : attributesModifier) (fa : FileAttributes) :
    Option FileAttributes :=
  match fa.Type_ with
  | .SourceFileTypeFile =>
    some { Name := fa.Name, Type_ := .SourceFileTypeFile, Empty := am.empty.modify fa.Empty,
           Encrypted := am.encrypted.modify fa.Encrypted,
           Executable := am.executable.modify fa.Executable, Once := false,
           Private := am.private_.modify fa.Private, Template := am.template.modify fa.Template }
  | .SourceFileTypePresent =>
    some { Name := fa.Name, Type_ := .SourceFileTypePresent, Empty := false,
           Encrypted := am.encrypted.modify fa.Encrypted,
           Executable := am.executable.modify fa.Executable, Once := false,
           Private := am.private_.modify fa.Private, Template := am.template.modify fa.Template }
  | .SourceFileTypeSymlink =>
    some { Name := fa.Name, Type_ := .SourceFileTypeSymlink, Empty := false, Encrypted := false,
           Executable := false, Once := false, Private := false,
           Template := am.template.modify fa.Template }
  | .SourceFileTypeScript => none

/-! ## readonlysystem.go -/

/-- The error `os.ErrPermission`, as its text. -/
def ErrPermission : String := "permission denied"

/-- The error `os.ErrExist`, as its text. -/
def ErrExist : String := "file already exists"

/-- The interface `System`, with the methods that `ReadOnlySystem` implements, over the states `σ`
of a system; `Info` stands for `os.FileInfo` and `Cmd` for `*exec.Cmd`, byte slices are strings.
Every method returns the state that it leaves and its result, an `error` being `none` for `nil`. -/
structure System (σ Info Cmd : Type) where
  Chmod : σ → String → Nat → σ × Option String
  Delete : σ → String → String → σ × Option String
  Get : σ → String → String → σ × Except String String
  Glob : σ → String → σ × Except String (List String)
  IdempotentCmdOutput : σ → Cmd → σ × Except String String
  Lstat : σ → String → σ × Except String Info
  Mkdir : σ → String → Nat → σ × Option String
  RawPath : σ → String → σ × Except String String
  ReadDir : σ → String → σ × Except String (List Info)
  ReadFile : σ → String → σ × Except String String
  Readlink : σ → String → σ × Except String String
  RemoveAll : σ → String → σ × Option String
  Rename : σ → String → String → σ × Option String
  RunCmd : σ → Cmd → σ × Option String
  RunScript : σ → String → String → String → σ × Option String
  Set : σ → String → String → String → σ × Option String
  Stat : σ → String → σ × Except String Info
  WriteFile : σ → String → String → Nat → σ × Option String
  WriteSymlink : σ → String → String → σ × Option String

/-- The constructor `NewReadOnlySystem` with the methods of `ReadOnlySystem`: the state of the
wrapper is the state of the wrapped system `s.s`. -/
def NewReadOnlySystem {σ Info Cmd : Type} (system : System σ Info Cmd) : System σ Info Cmd :=
  { Chmod := fun s _name _perm => (s, some ErrPermission),
    Delete := fun s _bucket _key => (s, some ErrPermission),
    Get := fun s bucket key => system.Get s bucket key,
    Glob := fun s pattern => system.Glob s pattern,
    IdempotentCmdOutput := fun s cmd => system.IdempotentCmdOutput s cmd,
    Lstat := fun s filename => system.Lstat s filename,
    Mkdir := fun s _name _perm => (s, some ErrPermission),
    RawPath := fun s path => system.RawPath s path,
    ReadDir := fun s dirname => system.ReadDir s dirname,
    ReadFile := fun s filename => system.ReadFile s filename,
    Readlink := fun s name => system.Readlink s name,
    RemoveAll := fun s _name => (s, some ErrPermission),
    Rename := fun s _oldpath _newpath => (s, some ErrPermission),
    RunCmd := fun s _cmd => (s, some ErrPermission),
    RunScript := fun s _scriptname _dir _data => (s, some ErrPermission),
    Set := fun s _bucket _key _value => (s, some ErrPermission),
    Stat := fun s name => system.Stat s name,
    WriteFile := fun s _filename _data _perm => (s, some ErrPermission),
    WriteSymlink := fun s _oldname _newname => (s, some ErrPermission) }

/-! ## dumpsystem.go -/

/-- The type `dataType`, a string. -/
abbrev dataType := String

def dataTypeDir : dataType := "dir"
def dataTypeFile : dataType := "file"
def dataTypeScript : dataType := "script"
def dataTypeSymlink : dataType := "symlink"

/-- The values that `DumpSystem` stores in its map: a `dirData`, a `fileData`, a `scriptData` or
a `symlinkData`, each with the fields of the struct in their order. -/
inductive DumpData where
  | dirData (Type_ : dataType) (Name : String) (Perm : Nat)
  | fileData (Type_ : dataType) (Name : String) (Contents : String) (Perm : Nat)
  | scriptData (Type_ : dataType) (Name : String) (Contents : String)
  | symlinkData (Type_ : dataType) (Name : String) (Linkname : String)
deriving DecidableEq, Repr

/-- The field `Type` of a stored value. -/
def DumpData.Type_ : DumpData → dataType
  | .dirData t _ _ => t
  | .fileData t _ _ _ => t
  | .scriptData t _ _ => t
  | .symlinkData t _ _ => t

/-- The field `Name` of a stored value. -/
def DumpData.Name : DumpData → String
  | .dirData _ n _ => n
  | .fileData _ n _ _ => n
  | .scriptData _ n _ => n
  | .symlinkData _ n _ => n

/-- The struct `DumpSystem`: its map `data`.  (The embedded `nullReaderSystem`, which answers the
reading methods, has no field and is left out.) -/
structure DumpSystem where
  data : List (String × DumpData)
deriving DecidableEq, Repr

/-- The constructor `NewDumpSystem`. -/
def NewDumpSystem : DumpSystem := ⟨[]⟩

/-- The method `DumpSystem.Data`. -/
def DumpSystem.Data (s : DumpSystem) : List (String × DumpData) := s.data

/-- The method `DumpSystem.Chmod`. -/
def DumpSystem.Chmod (s : DumpSystem) (_name : String) (_mode : Nat) : DumpSystem × Option String :=
  (s, some ErrPermission)

/-- The method `DumpSystem.Delete`. -/
def DumpSystem.Delete (s : DumpSystem) (_bucket _key : String) : DumpSystem × Option String :=
  (s, some ErrPermission)

/-- The method `DumpSystem.Mkdir`. -/
def DumpSystem.Mkdir (s : DumpSystem) (dirname : String) (perm : Nat) :
    DumpSystem × Option String :=
  match mapGet s.data dirname with
  | some _ => (s, some ErrExist)
  | none => (⟨mapSet s.data dirname (.dirData dataTypeDir dirname perm)⟩, none)

/-- The method `DumpSystem.RemoveAll`. -/
def DumpSystem.RemoveAll (s : DumpSystem) (_name : String) : DumpSystem × Option String :=
  (s, some ErrPermission)

/-- The method `DumpSystem.Rename`. -/
def DumpSystem.Rename (s : DumpSystem) (_oldpath _newpath : String) : DumpSystem × Option String :=
  (s, some ErrPermission)

/-- The method `DumpSystem.RunCmd`. -/
def DumpSystem.RunCmd {Cmd : Type} (s : DumpSystem) (_cmd : Cmd) : DumpSystem × Option String :=
  (s, none)

/-- The method `DumpSystem.RunScript`. -/
def DumpSystem.RunScript (s : DumpSystem) (scriptname _dir data : String) :
    DumpSystem × Option String :=
  match mapGet s.data scriptname with
  | some _ => (s, some ErrExist)
  | none => (⟨mapSet s.data scriptname (.scriptData dataTypeScript scriptname data)⟩, none)

/-- The method `DumpSystem.Set`. -/
def DumpSystem.Set (s : DumpSystem) (_bucket _key _value : String) : DumpSystem × Option String :=
  (s, none)

/-- The method `DumpSystem.WriteFile`. -/
def DumpSystem.WriteFile (s : DumpSystem) (filename data : String) (perm : Nat) :
    DumpSystem × Option String :=
  match mapGet s.data filename with
  | some _ => (s, some ErrExist)
  | none => (⟨mapSet s.data filename (.fileData dataTypeFile filename data perm)⟩, none)

/-- The method `DumpSystem.WriteSymlink`. -/
def DumpSystem.WriteSymlink (s : DumpSystem) (oldname newname : String) :
    DumpSystem × Option String :=
  match mapGet s.data newname with
  | some _ => (s, some ErrExist)
  | none => (⟨mapSet s.data newname (.symlinkData dataTypeSymlink newname oldname)⟩, none)

/-- One call of a mutating method of `DumpSystem`, with its arguments. -/
inductive DumpCall where
  | Chmod (name : String) (mode : Nat)
  | Delete (bucket key : String)
  | Mkdir (dirname : String) (perm : Nat)
  | RemoveAll (name : String)
  | Rename (oldpath newpath : String)
  | RunCmd
  | RunScript (scriptname dir data : String)
  | Set (bucket key value : String)
  | WriteFile (filename data : String) (perm : Nat)
  | WriteSymlink (oldname newname : String)
deriving DecidableEq, Repr

/-- Making one call on a `DumpSystem`. -/
def DumpSystem.call (s : DumpSystem) : DumpCall → DumpSystem × Option String
  | .Chmod name mode => s.Chmod name mode
  | .Delete bucket key => s.Delete bucket key
  | .Mkdir dirname perm => s.Mkdir dirname perm
  | .RemoveAll name => s.RemoveAll name
  | .Rename oldpath newpath => s.Rename oldpath newpath
  | .RunCmd => s.RunCmd ()
  | .RunScript scriptname dir data => s.RunScript scriptname dir data
  | .Set bucket key value => s.Set bucket key value
  | .WriteFile filename data perm => s.WriteFile filename data perm
  | .WriteSymlink oldname newname => s.WriteSymlink oldname newname

/-- Making calls one after the other on a `DumpSystem`, whatever they return. -/
def DumpSystem.calls (s : DumpSystem) : List DumpCall → DumpSystem
  | [] => s
  | c :: rest => DumpSystem.calls (s.call c).1 rest

/-- The variant of a stored value, as the type tag that stands for it. -/
def DumpData.variantTag : DumpData → dataType
  | .dirData _ _ _ => "dir"
  | .fileData _ _ _ _ => "file"
  | .scriptData _ _ _ => "script"
  | .symlinkData _ _ _ => "symlink"

/-- The attribute names that `init` lists for the completion of `chattr`. -/
def attributes : List String :=
  ["empty", "e", "encrypted", "exact", "executable", "x", "private", "p", "template", "t"]

/-- The modifier, in the words of the spec, that gives `bm` to the one attribute that the name
stands for (`e`, `x`, `p`, `t` standing for `empty`, `executable`, `private`, `template`) and leaves
every other attribute unchanged. -/
def modifierOf (name : String) (bm : boolModifier) : attributesModifier :=
  { empty := if name ∈ ["empty", "e"] then bm else .boolModifierLeaveUnchanged,
    encrypted := if name = "encrypted" then bm else .boolModifierLeaveUnchanged,
    exact := if name = "exact" then bm else .boolModifierLeaveUnchanged,
    executable := if name ∈ ["executable", "x"] then bm else .boolModifierLeaveUnchanged,
    private_ := if name ∈ ["private", "p"] then bm else .boolModifierLeaveUnchanged,
    template := if name ∈ ["template", "t"] then bm else .boolModifierLeaveUnchanged }

/-- An item without its sign, in the words of the claim: one leading `+`, `-` or `no` is
removed. -/
def withoutSign (item : String) : String :=
  if HasPrefix item "+" then TrimPrefix item "+"
  else if HasPrefix item "-" then TrimPrefix item "-"
  else if HasPrefix item "no" then TrimPrefix item "no"
  else item

/-- The comma-separated items of the input, each with the whitespace around it trimmed. -/
def modifierItems (s : String) : List String :=
  ((splitRune ',' s.toList).map String.mk).map TrimSpace

/-- An item that names no attribute, in the words of the claim: it is not empty and what is left
of it without its sign is none of the ten attribute names. -/
def unknownItem (item : String) : Bool :=
  decide (item ≠ "") && decide (withoutSign item ∉ attributes)

/-- The tri-state modification of one flag, in the words of the claim: a modifier that is set
makes the flag true, one that is clear makes it false, one that is leave-unchanged keeps it. -/
def triState (m : boolModifier) (old new : Bool) : Prop :=
  (m = .boolModifierSet → new = true) ∧ (m = .boolModifierClear → new = false) ∧
    (m = .boolModifierLeaveUnchanged → new = old)

/-! ## sourcestate.go: removing -/

/-- What a call of `Remove` leaves: the target system, the error, and, for the record, the paths
on which `RemoveAll` was called, in the order of the calls. -/
structure RemoveResult (σ : Type) where
  system : σ
  err : Option Error
  removed : List String

/-- The loop `for _, match := range matches` of `Remove`. -/
def removeMatchLoop (doublestarMatch : Matcher) (remove : PatternSet) (targetDirPrefix : String) :
    List String → stringSet → stringSet
  | [], targetPathsToRemove => targetPathsToRemove
  | m :: rest, targetPathsToRemove =>
    if !remove.Match doublestarMatch (TrimPrefix m targetDirPrefix) then
      removeMatchLoop doublestarMatch remove targetDirPrefix rest targetPathsToRemove
    else
      removeMatchLoop doublestarMatch remove targetDirPrefix rest (targetPathsToRemove.Add [m])

/-- The loop `for include := range s.remove.includes` of `Remove`; `glob` is `system.Glob`. -/
def removeGlobLoop (doublestarMatch : Matcher) (remove : PatternSet)
    (glob : String → Except String (List String)) (targetDir : String) :
    List String → stringSet → Except String stringSet
  | [], targetPathsToRemove => .ok targetPathsToRemove
  | incl :: rest, targetPathsToRemove =>
    match glob (pathJoin [targetDir, incl]) with
    | .error err => .error err
    | .ok found =>
      removeGlobLoop doublestarMatch remove glob targetDir rest
        (removeMatchLoop doublestarMatch remove (targetDir ++ PathSeparatorStr) found
          targetPathsToRemove)

/-- The loop `for _, targetPath := range sortedTargetPathsToRemove` of `Remove`. -/
def removeAllLoop {σ : Type} (RemoveAll : σ → String → σ × Option String) :
    List String → σ → List String → RemoveResult σ
  | [], system, removed => ⟨system, none, removed⟩
  | targetPath :: rest, system, removed =>
    match RemoveAll system targetPath with
    | (system1, some err) => ⟨system1, some (Error.text err), removed ++ [targetPath]⟩
    | (system1, none) => removeAllLoop RemoveAll rest system1 (removed ++ [targetPath])

/-- The method `SourceState.Remove`; `Glob` and `RemoveAll` are the methods of the system. -/
def Remove {TD σ : Type} (env : Env TD) (s : SourceState TD)
    (Glob : σ → String → Except String (List String))
    (RemoveAll : σ → String → σ × Option String) (system : σ) (targetDir : String) :
    RemoveResult σ :=
  match removeGlobLoop env.doublestarMatch s.remove (Glob system) targetDir s.remove.includes [] with
  | .error err => ⟨system, some (Error.text err), []⟩
  | .ok targetPathsToRemove =>
    removeAllLoop RemoveAll (sortStrings targetPathsToRemove) system []

/-- Modelled from the spec: `glob` of the destination in memory, for a pattern without
metacharacters: the path that is the pattern, when it exists. -/
def MemSystem.Glob (system : MemSystem) (pattern : String) : Except String (List String) :=
  .ok ((mapKeys system.nodes).filter (fun path => (literalMatch pattern path).1))

/-- A `Glob` that finds `/home/user/a` and fails on every other pattern. -/
def failingGlob (_system : MemSystem) (pattern : String) : Except String (List String) :=
  if pattern = "/home/user/a" then .ok ["/home/user/a"] else .error "permission denied"

/-- A source state whose `.chezmoiremove` holds the patterns `a` and `b`. -/
def removeTwoState : SourceState Unit :=
  (Read plainEnv testState (.info (.dir (.cons ".chezmoiremove" (.file "a\nb\n") .nil)))).1

/-- A source state whose `.chezmoiremove` holds the pattern `foo` and that has the entry `foo`. -/
def removeEntryState : SourceState Unit :=
  (Read plainEnv testState
    (.info (.dir (.cons ".chezmoiremove" (.file "foo\n") (.cons "foo" (.file "bar") .nil))))).1

/-- A destination in which the home directory holds the files `a`, `b` and `foo`. -/
def filesDest : MemSystem :=
  { nodes := [("/", .DestStateDir 0o755), ("/home", .DestStateDir 0o755),
      ("/home/user", .DestStateDir 0o755), ("/home/user/b", .DestStateFile "" 0o644),
      ("/home/user/a", .DestStateFile "" 0o644), ("/home/user/foo", .DestStateFile "bar" 0o644)],
    scripts := [], scriptState := [] }

/-- A source state whose `.chezmoiremove` holds the patterns `a` and `b` and that has the entry
`foo`. -/
def removeKeepState : SourceState Unit :=
  (Read plainEnv testState
    (.info (.dir (.cons ".chezmoiremove" (.file "a\nb\n") (.cons "foo" (.file "bar") .nil))))).1

/-! ## sourcestate.go: template data -/

mutual
/-- A value of template data (`interface\x7b\x7d`): a mapping (`map[string]interface\x7b\x7d`), or a
value that is no mapping (a scalar or a sequence), held as its text. -/
inductive Value where
  | leaf (text : String)
  | mapping (fields : Fields)
/-- Template data (`map[string]interface\x7b\x7d`): the pairs of the map; reading a key reads the
first pair with the key. -/
inductive Fields where
  | nil
  | cons (key : String) (value : Value) (rest : Fields)
end

/-- Reading a mapping at a key. -/
def Fields.get : Fields → String → Option Value
  | .nil, _ => none
  | .cons k v rest, key => if k = key then some v else Fields.get rest key

/-- The assignment `m[key] = v` on a mapping. -/
def Fields.set : Fields → String → Value → Fields
  | .nil, key, v => .cons key v .nil
  | .cons k w rest, key, v =>
    if k = key then .cons k v rest else .cons k w (Fields.set rest key v)

/-- The value that is no mapping to which the data binds a key path, if it binds the path to
one. -/
def Fields.leafAt (fields : Fields) : List String → Option String
  | [] => none
  | [key] =>
    match fields.get key with
    | some (.leaf text) => some text
    | _ => none
  | key :: next :: rest =>
    match fields.get key with
    | some (.mapping below) => Fields.leafAt below (next :: rest)
    | _ => none

mutual
/-- The value that the merge leaves at a key that holds `old` in the destination and `new` in the
source: two mappings are merged, anything else is replaced by the new value. -/
def mergeValue (old : Option Value) : Value → Value
  | .leaf text => .leaf text
  | .mapping fields =>
    match old with
    | some (.mapping oldFields) => .mapping (specRecursiveMerge oldFields fields)
    | _ => .mapping fields
/-- Modelled from the spec: the function `recursiveMerge(dest, source)` is not among the sources.
It merges at every nested mapping level, and values of `source` that are no mappings replace the
values of `dest`; the result is the new `dest`.  (The pairs of `source` are visited from the last to
the first, so that of two pairs with one key the first, which is the one that reading sees, stays;
a Go map holds a key once.) -/
def specRecursiveMerge (dest : Fields) : Fields → Fields
  | .nil => dest
  | .cons key value rest =>
    (specRecursiveMerge dest rest).set key
      (mergeValue ((specRecursiveMerge dest rest).get key) value)
end

/-- The option `WithPriorityTemplateData`, applied to a source state. -/
def WithPriorityTemplateData {TD : Type} (env : Env TD) (priorityTemplateData : TD)
    (s : SourceState TD) : SourceState TD :=
  ⟨s.entries, s.sourcePath, s.ignore, s.minVersion,
    env.recursiveMerge s.priorityTemplateData priorityTemplateData, s.remove,
    env.recursiveMerge s.templateData
      (env.recursiveMerge s.priorityTemplateData priorityTemplateData), s.templates⟩

/-- The option `WithTemplateData`, applied to a source state. -/
def WithTemplateData {TD : Type} (env : Env TD) (templateData : TD) (s : SourceState TD) :
    SourceState TD :=
  ⟨s.entries, s.sourcePath, s.ignore, s.minVersion, s.priorityTemplateData, s.remove,
    env.recursiveMerge (env.recursiveMerge s.templateData templateData) s.priorityTemplateData,
    s.templates⟩

/-- One step that touches the template data of a source state: one of the two options, or the load
of a `.chezmoidata` file at a path. -/
inductive DataStep (TD : Type) where
  | WithTemplateData (templateData : TD)
  | WithPriorityTemplateData (priorityTemplateData : TD)
  | addTemplateData (sourcePath : String) (node : Node)

/-- Making one step on a source state (a load that fails leaves the state with its error). -/
def DataStep.run {TD : Type} (env : Env TD) (s : SourceState TD) : DataStep TD → SourceState TD
  | .WithTemplateData templateData => Chezmoi.WithTemplateData env templateData s
  | .WithPriorityTemplateData priorityTemplateData =>
    Chezmoi.WithPriorityTemplateData env priorityTemplateData s
  | .addTemplateData sourcePath node => (Chezmoi.addTemplateData env s sourcePath node).1

/-- Making steps one after the other on a source state. -/
def runDataSteps {TD : Type} (env : Env TD) (s : SourceState TD) :
    List (DataStep TD) → SourceState TD
  | [] => s
  | step :: rest => runDataSteps env (step.run env s) rest

/-- A data format for concrete runs: a file holds one value that is no mapping, bound to the key
`value`. -/
def oneValueFormat (data : String) : Except String Fields :=
  .ok (.cons "value" (.leaf data) .nil)

/-- An environment for concrete runs with template data: as `plainEnv`, with the merge of the spec
and with `oneValueFormat` as the format `txt`. -/
def dataEnv : Env Fields :=
  { doublestarMatch := literalMatch,
    parseDirAttributes := specParseDirAttributes,
    parseFileAttributes := specParseFileAttributes,
    dirPerm := plainEnv.dirPerm,
    filePerm := plainEnv.filePerm,
    ToLower := fun text => text,
    Formats := fun name => if name = "txt" then some oneValueFormat else none,
    recursiveMerge := specRecursiveMerge,
    parseTemplate := fun _ _ => none,
    executeTemplate := fun _ text _ _ => .ok text,
    NewVersion := dottedTri,
    LessThan := plainEnv.LessThan,
    Decrypt := fun _ contents => .ok contents,
    isEmpty := fun contents => contents = "" }

/-! ## sourcestate.go: the minimum version -/

/-- The step of `addVersionFile` on the minimum version: it becomes the version of the file when
it is less than that version. -/
def raiseVersion (LessThan : Version → Version → Bool) (minVersion version : Version) : Version :=
  if LessThan minVersion version then version else minVersion

/-- The version that a file (its path and its node) contains, when it can be read and parsed:
`semver.NewVersion(strings.TrimSpace(string(data)))`, as in `addVersionFile`. -/
def versionOf {TD : Type} (env : Env TD) (file : String × Node) : Option Version :=
  match file.2.ReadFile file.1 with
  | .error _ => none
  | .ok data =>
    match env.NewVersion (TrimSpace data) with
    | .error _ => none
    | .ok version => some version

/-- The source directory of the scenario "chezmoiversion_multiple" of the tests. -/
def versionsSource : Entries :=
  .cons ".chezmoiversion" (.file "1.2.3\n")
    (.cons "foo" (.dir (.cons ".chezmoiversion" (.file "2.3.4\n") .nil)) .nil)

/-- A source directory with a `.chezmoiversion` file in the directory `.hidden`. -/
def hiddenVersionSource : Entries :=
  .cons ".hidden" (.dir (.cons ".chezmoiversion" (.file "9.9.9\n") .nil)) .nil

/-- The minimum version after `addVersionFile` has read the files in their order, from the minimum
version `minVersion`. -/
def foldVersions {TD : Type} (env : Env TD) (minVersion : Version) (files : List (String × Node)) :
    Version :=
  (files.filterMap (versionOf env)).foldl (raiseVersion env.LessThan) minVersion

/-! ## cmd/chattr.go: parsing as a fold -/

/-- The modifier that the sign of an item stands for, in the words of the spec: a leading `-` or
`no` clears, a leading `+` or no sign sets. -/
def signOf (item : String) : boolModifier :=
  if HasPrefix item "+" then .boolModifierSet
  else if HasPrefix item "-" ∨ HasPrefix item "no" then .boolModifierClear
  else .boolModifierSet

/-- Overwriting, in a modifier, only the field of the attribute that the name stands for. -/
def attributesModifier.overwrite (am : attributesModifier) (name : String) (bm : boolModifier) :
    attributesModifier :=
  { empty := if name ∈ ["empty", "e"] then bm else am.empty,
    encrypted := if name = "encrypted" then bm else am.encrypted,
    exact := if name = "exact" then bm else am.exact,
    executable := if name ∈ ["executable", "x"] then bm else am.executable,
    private_ := if name ∈ ["private", "p"] then bm else am.private_,
    template := if name ∈ ["template", "t"] then bm else am.template }

/-- One step of the fold of the claim: the item overwrites the field of its attribute; an item
that names no attribute is an error, and an error stays. -/
def foldItem (acc : Except String attributesModifier) (item : String) :
    Except String attributesModifier :=
  match acc with
  | .error err => .error err
  | .ok am =>
    if withoutSign item ∈ attributes then .ok (am.overwrite (withoutSign item) (signOf item))
    else .error (withoutSign item ++ ": unknown attribute")

/-! ## sourcestateentry.go -/

/-- The struct `SourceStateFile`, as far as its method `TargetStateEntry` uses it.  The producer
`targetStateEntryFunc` may read and change what is outside the struct (the file system, the
encryption tool), the world `ω`; it returns the world that it leaves and its pair of entry and
error.  `none` is `nil`. -/
structure SourceStateFile (ω : Type) where
  targetStateEntryFunc : Option (ω → ω × (Option TargetStateEntry × Option String))
  targetStateEntry : Option TargetStateEntry
  targetStateEntryErr : Option String

/-- What a call of `SourceStateFile.TargetStateEntry` leaves and returns: the struct, the world,
the pair of entry and error, and, for the record, how often the producer was invoked. -/
structure MemoResult (ω : Type) where
  file : SourceStateFile ω
  world : ω
  result : Option TargetStateEntry × Option String
  invoked : Nat

/-- The method `SourceStateFile.TargetStateEntry`. -/
def SourceStateFile.TargetStateEntry {ω : Type} (s : SourceStateFile ω) (world : ω) :
    MemoResult ω :=
  match s.targetStateEntryFunc with
  | some targetStateEntryFunc =>
    ⟨⟨none, (targetStateEntryFunc world).2.1, (targetStateEntryFunc world).2.2⟩,
      (targetStateEntryFunc world).1,
      ((targetStateEntryFunc world).2.1, (targetStateEntryFunc world).2.2), 1⟩
  | none => ⟨s, world, (s.targetStateEntry, s.targetStateEntryErr), 0⟩

/-- Calls of `TargetStateEntry` on one `SourceStateFile`, one after the other: what the last call
leaves, the pairs that the calls returned, in order, and how often the producer was invoked. -/
def SourceStateFile.calls {ω : Type} (s : SourceStateFile ω) (world : ω) :
    Nat → SourceStateFile ω × ω × List (Option Chezmoi.TargetStateEntry × Option String) × Nat
  | 0 => (s, world, [], 0)
  | n + 1 =>
    ((SourceStateFile.calls (s.TargetStateEntry world).file (s.TargetStateEntry world).world n).1,
      (SourceStateFile.calls (s.TargetStateEntry world).file (s.TargetStateEntry world).world n).2.1,
      (s.TargetStateEntry world).result ::
        (SourceStateFile.calls (s.TargetStateEntry world).file
          (s.TargetStateEntry world).world n).2.2.1,
      (s.TargetStateEntry world).invoked +
        (SourceStateFile.calls (s.TargetStateEntry world).file
          (s.TargetStateEntry world).world n).2.2.2)

/-- A producer for concrete runs: it counts its invocations in the world and fails. -/
def failingProducer (world : Nat) : Nat × (Option TargetStateEntry × Option String) :=
  (world + 1, (none, some "permission denied"))

/-! ## path_posix.go -/

/-- The Go call `path.IsAbs`: the path begins with a slash. -/
def IsAbs (p : String) : Bool := p.toList.head? = some '/'

/-- The function `PathJoin`. -/
def PathJoin (dir file : String) : String :=
  if ¬ IsAbs file then pathClean (pathJoin [dir, file]) else pathClean file

/-! ## sourcestate.go: entries that `Read` skips -/

/-- The source state of the scenarios of the tests, with template data. -/
def dataTestState : SourceState Fields := NewSourceState Fields.nil testSourcePath

/-- A source directory with the file `.chezmoidatax`, whose name begins with `.chezmoidata` and is
not `.chezmoidata.` with a format, and the file `foo`. -/
def strayDataSource : Entries :=
  .cons ".chezmoidatax" (.file "x") (.cons "foo" (.file "bar") .nil)

/-- A source directory with the hidden file `.gitignore`, the hidden directory `.git`, which holds
a file and a symbolic link, the symbolic link `.chezmoilink` and the file `foo`. -/
def hiddenSource : Entries :=
  .cons ".chezmoilink" (.other (2 ^ 27) (.ok "x"))
    (.cons ".git" (.dir (.cons "config" (.file "x") (.cons "link" (.other (2 ^ 27) (.ok "x")) .nil)))
      (.cons ".gitignore" (.file "x") (.cons "foo" (.file "bar") .nil)))

/-! ## chezmoi.go: the names of file types -/

/-- The bits of `os.FileMode` that make up `os.ModeType`, apart from `os.ModeDir`. -/
def ModeSymlink : Nat := 2 ^ 27
def ModeDevice : Nat := 2 ^ 26
def ModeNamedPipe : Nat := 2 ^ 25
def ModeSocket : Nat := 2 ^ 24
def ModeCharDevice : Nat := 2 ^ 21
def ModeIrregular : Nat := 2 ^ 19

/-- The mask `os.ModeType`. -/
def ModeType : Nat :=
  ModeDir ||| ModeSymlink ||| ModeNamedPipe ||| ModeSocket ||| ModeDevice ||| ModeCharDevice |||
    ModeIrregular

/-- The table `modeTypeNames`. -/
def modeTypeNames (mode : Nat) : Option String :=
  if mode = 0 then some "file"
  else if mode = ModeDir then some "dir"
  else if mode = ModeSymlink then some "symlink"
  else if mode = ModeNamedPipe then some "named pipe"
  else if mode = ModeSocket then some "socket"
  else if mode = ModeDevice then some "device"
  else if mode = ModeCharDevice then some "char device"
  else none

/-- The function `modeTypeName`; the verb `%o` writes the number in base eight. -/
def modeTypeName (mode : Nat) : String :=
  match modeTypeNames (mode &&& ModeType) with
  | some name => name
  | none => "0o" ++ String.mk (Nat.toDigits 8 (mode &&& ModeType)) ++ ": unknown type"

/-- The method `Error` of the error values. -/
def Error.Error : Error → String
  | .text msg => msg
  | .duplicateTarget targetName sourcePaths => duplicateTargetMessage targetName sourcePaths
  | .unsupportedFileType path mode => path ++ ": unsupported file type " ++ modeTypeName mode

/-! ## The calls of the walk function -/

mutual
/-- The calls of the walk function that the walk below one node makes, in their order: the state
before the call, the path, the base name and the node.  This follows `walk` line by line. -/
def walkVisits {σ : Type} (fn : σ → String → String → Node → σ × Ctl) (path name : String)
    (node : Node) (s : σ) : List (σ × String × String × Node) :=
  match node with
  | Node.dir children =>
    (s, path, name, Node.dir children) ::
      match fn s path name (Node.dir children) with
      | (_, Ctl.skipDir) => []
      | (s1, _) => walkEntriesVisits fn path children s1
  | Node.file contents => [(s, path, name, Node.file contents)]
  | Node.other mode readFile => [(s, path, name, Node.other mode readFile)]
/-- The calls of the walk function in the loop of the walk over the children of a directory. -/
def walkEntriesVisits {σ : Type} (fn : σ → String → String → Node → σ × Ctl) (dirPath : String)
    (es : Entries) (s : σ) : List (σ × String × String × Node) :=
  match es with
  | Entries.nil => []
  | Entries.cons name node rest =>
    walkVisits fn (pathJoin [dirPath, name]) name node s ++
      match walk fn (pathJoin [dirPath, name]) name node s with
      | (s1, Ctl.next) => walkEntriesVisits fn dirPath rest s1
      | _ => []
end

/-- The calls of the walk function of `Read` on a source directory, as paths. -/
def readVisits {TD : Type} (env : Env TD) (s : SourceState TD) (children : Entries) :
    List String :=
  (walkVisits (readWalkFn env) s.sourcePath (pathSplit s.sourcePath).2 (Node.dir children)
    ⟨s, []⟩).map (fun v => v.2.1)

/-- The source directory of the scenario "symlink" of the tests. -/
def symlinkSource : Entries := .cons "foo" (.other ModeSymlink (.ok "bar")) .nil

/-- A source directory with the hidden directory `.git`, which holds the symbolic link `link`, and
with the file `foo`. -/
def hiddenLinkSource : Entries :=
  .cons ".git" (.dir (.cons "link" (.other ModeSymlink (.ok "bar")) .nil))
    (.cons "foo" (.file "bar") .nil)

/-! ## cmd/genericsecret.go and cmd/onepassword.go -/

/-- The Go call `strings.Join(pieces, sep)` on character lists, for a separator of one
character. -/
def joinRune (sep : Char) : List (List Char) → List Char
  | [] => []
  | [piece] => piece
  | piece :: pieces => piece ++ sep :: joinRune sep pieces

/-- The character with the code zero. -/
def NUL : Char := Char.ofNat 0

/-- The expression `strings.Join(args, "\x00")`, with which the three helpers compute the key of
their cache. -/
def cacheKey (args : List String) : String := String.mk (joinRune NUL (args.map String.toList))

/-- What the secret helpers take from outside their files.  `ω` is the world in which the
external command runs, `V` the type of a decoded JSON value. -/
structure SecretEnv (ω V : Type) where
  /-- The field `GenericSecret.Command` of the configuration. -/
  GenericSecretCommand : String
  /-- The field `Onepassword.Command` of the configuration. -/
  OnepasswordCommand : String
  /-- The call `c.baseSystem.IdempotentCmdOutput(exec.Command(name, args...))`: the world that the
  command leaves, its output and its error. -/
  IdempotentCmdOutput : ω → String → List String → ω × String × Option String
  /-- The function `chezmoi.ShellQuoteArgs`. -/
  ShellQuoteArgs : List String → String
  /-- The function `json.Unmarshal` into an `interface\x7b\x7d`. -/
  Unmarshal : String → Except String V

/-- One of the cache variables (`secretCache`, `secretJSONCache`, `onepasswordOutputCache`) with
the world and, for the record, the commands that were run: name, arguments, output and error. -/
structure CacheState (ω α : Type) where
  world : ω
  cache : List (String × α)
  commands : List (String × List String × String × Option String)

/-- The value of the `panic` of the helpers:
`fmt.Errorf("%s %s: %w\n%s", name, chezmoi.ShellQuoteArgs(args), err, output)`. -/
def panicValue {ω V : Type} (c : SecretEnv ω V) (name : String) (args : List String)
    (err output : String) : String :=
  name ++ " " ++ c.ShellQuoteArgs args ++ ": " ++ err ++ "\n" ++ output

/-- The method `Config.secretFunc`; an error is the value of the `panic`. -/
def secretFunc {ω V : Type} (c : SecretEnv ω V) (st : CacheState ω String) (args : List String) :
    CacheState ω String × Except String String :=
  let key := cacheKey args
  match mapGet st.cache key with
  | some value => (st, .ok value)
  | none =>
    let name := c.GenericSecretCommand
    let r := c.IdempotentCmdOutput st.world name args
    match r.2.2 with
    | some err =>
      (⟨r.1, st.cache, st.commands ++ [(name, args, r.2.1, some err)]⟩,
        .error (panicValue c name args err r.2.1))
    | none =>
      let value := TrimSpace r.2.1
      (⟨r.1, mapSet st.cache key value, st.commands ++ [(name, args, r.2.1, none)]⟩, .ok value)

/-- The method `Config.secretJSONFunc`; an error is the value of the `panic`. -/
def secretJSONFunc {ω V : Type} (c : SecretEnv ω V) (st : CacheState ω V) (args : List String) :
    CacheState ω V × Except String V :=
  let key := cacheKey args
  match mapGet st.cache key with
  | some value => (st, .ok value)
  | none =>
    let name := c.GenericSecretCommand
    let r := c.IdempotentCmdOutput st.world name args
    match r.2.2 with
    | some err =>
      (⟨r.1, st.cache, st.commands ++ [(name, args, r.2.1, some err)]⟩,
        .error (panicValue c name args err r.2.1))
    | none =>
      match c.Unmarshal r.2.1 with
      | .error err =>
        (⟨r.1, st.cache, st.commands ++ [(name, args, r.2.1, none)]⟩,
          .error (panicValue c name args err r.2.1))
      | .ok value =>
        (⟨r.1, mapSet st.cache key value, st.commands ++ [(name, args, r.2.1, none)]⟩, .ok value)

/-- The method `Config.onepasswordOutput`; an error is the value of the `panic`. -/
def onepasswordOutput {ω V : Type} (c : SecretEnv ω V) (st : CacheState ω String)
    (args : List String) : CacheState ω String × Except String String :=
  let key := cacheKey args
  match mapGet st.cache key with
  | some output => (st, .ok output)
  | none =>
    let name := c.OnepasswordCommand
    let r := c.IdempotentCmdOutput st.world name args
    match r.2.2 with
    | some err =>
      (⟨r.1, st.cache, st.commands ++ [(name, args, r.2.1, some err)]⟩,
        .error (panicValue c name args err r.2.1))
    | none =>
      (⟨r.1, mapSet st.cache key r.2.1, st.commands ++ [(name, args, r.2.1, none)]⟩, .ok r.2.1)

/-- The shape that the three helpers share: the cache is read at the key of the arguments, and
when it holds nothing there the command `name` is run, its output is decoded, and the value is
stored at the key. -/
def cachedCall {ω V α : Type} (c : SecretEnv ω V) (name : String)
    (decode : String → Except String α) (st : CacheState ω α) (args : List String) :
    CacheState ω α × Except String α :=
  match mapGet st.cache (cacheKey args) with
  | some value => (st, .ok value)
  | none =>
    match (c.IdempotentCmdOutput st.world name args).2.2 with
    | some err =>
      (⟨(c.IdempotentCmdOutput st.world name args).1, st.cache,
          st.commands ++ [(name, args, (c.IdempotentCmdOutput st.world name args).2.1, some err)]⟩,
        .error (panicValue c name args err (c.IdempotentCmdOutput st.world name args).2.1))
    | none =>
      match decode (c.IdempotentCmdOutput st.world name args).2.1 with
      | .error err =>
        (⟨(c.IdempotentCmdOutput st.world name args).1, st.cache,
            st.commands ++ [(name, args, (c.IdempotentCmdOutput st.world name args).2.1, none)]⟩,
          .error (panicValue c name args err (c.IdempotentCmdOutput st.world name args).2.1))
      | .ok value =>
        (⟨(c.IdempotentCmdOutput st.world name args).1, mapSet st.cache (cacheKey args) value,
            st.commands ++ [(name, args, (c.IdempotentCmdOutput st.world name args).2.1, none)]⟩,
          .ok value)

/-- Calls of a helper one after the other, with the argument tuples of the list: the state that
the last call leaves and what the calls return, in order. -/
def callAll {σ α : Type} (f : σ → List String → σ × Except String α) :
    List (List String) → σ → σ × List (Except String α)
  | [], st => (st, [])
  | args :: rest, st => ((callAll f rest (f st args).1).1, (f st args).2 :: (callAll f rest (f st args).1).2)

/-- The state of a cache when the process starts: `make(map[string]...)`. -/
def newCache {ω α : Type} (world : ω) : CacheState ω α := ⟨world, [], []⟩

/-- A command for concrete runs: it counts its runs in the world, and its output is the number of
its run, then the number of its arguments, then a line feed. -/
def countingEnv : SecretEnv Nat String :=
  { GenericSecretCommand := "secret",
    OnepasswordCommand := "op",
    IdempotentCmdOutput := fun world _ args =>
      (world + 1, String.mk (Nat.toDigits 10 world ++ Char.ofNat 32 :: Nat.toDigits 10 args.length) ++ "\n",
        none),
    ShellQuoteArgs := fun args => String.intercalate " " args,
    Unmarshal := fun output => .ok (TrimSpace output) }

/-- A tuple with at least one argument and without the character NUL in its arguments. -/
def plainTuple (args : List String) : Bool :=
  !args.isEmpty && args.all (fun a => !a.toList.contains NUL)

/-! ## The attribute codec, in the words of the spec -/

/-- Modelled from the spec: the `dot_` translation of a name when a base name is composed; a
leading dot of the name becomes the prefix `dot_`. -/
def specEncodeDot (name : String) : String :=
  if HasPrefix name "." then "dot_" ++ TrimPrefix name "." else name

/-- Modelled from the spec: `DirAttributes.BaseName` is not among the sources.  The base name is
`[exact_][private_][dot_]name`, the prefixes being emitted in this order. -/
def specDirBaseName (da : DirAttributes) : String :=
  (if da.Exact then "exact_" else "") ++ ((if da.Private then "private_" else "") ++
    specEncodeDot da.Name)

/-- Modelled from the spec: `FileAttributes.BaseName` is not among the sources.  The base name
composes, in this order, the prefixes `encrypted_`, `private_`, `empty_`, `exists_` (for the kind
present), `executable_`, `run_` with `once_` (for the kind script), `symlink_` (for the kind
symlink), then the `dot_` translation of the name, then the suffix `.tmpl` of a template. -/
def specFileBaseName (fa : FileAttributes) : String :=
  (if fa.Encrypted then "encrypted_" else "") ++ ((if fa.Private then "private_" else "") ++
    ((if fa.Empty then "empty_" else "") ++
    ((if fa.Type_ = SourceFileType.SourceFileTypePresent then "exists_" else "") ++
    ((if fa.Executable then "executable_" else "") ++
    ((if fa.Type_ = SourceFileType.SourceFileTypeScript then "run_" else "") ++
    ((if fa.Type_ = SourceFileType.SourceFileTypeScript ∧ fa.Once then "once_" else "") ++
    ((if fa.Type_ = SourceFileType.SourceFileTypeSymlink then "symlink_" else "") ++
    (specEncodeDot fa.Name ++ (if fa.Template then ".tmpl" else "")))))))))

/-- The attributes of a file with `Once` cleared unless the kind is script: what a base name that
`specFileBaseName` composes can carry. -/
def FileAttributes.withoutStrayOnce (fa : FileAttributes) : FileAttributes :=
  { fa with Once := fa.Once && decide (fa.Type_ = SourceFileType.SourceFileTypeScript) }

/-- The flags of the prefixes of a file name, in the order in which `specParseFileAttributes`
looks for them, and the rest of the name. -/
structure FileParts where
  encrypted : Bool
  private_ : Bool
  empty : Bool
  isPresent : Bool
  executable : Bool
  isScript : Bool
  once : Bool
  isSymlink : Bool
  rest : String
deriving DecidableEq, Repr

/-- The prefix steps of `specParseFileAttributes`. -/
def fileParts (sourceName : String) : FileParts :=
  let encrypted := HasPrefix sourceName "encrypted_"
  let name := TrimPrefix sourceName "encrypted_"
  let priv := HasPrefix name "private_"
  let name := TrimPrefix name "private_"
  let empty := HasPrefix name "empty_"
  let name := TrimPrefix name "empty_"
  let isPresent := HasPrefix name "exists_"
  let name := TrimPrefix name "exists_"
  let executable := HasPrefix name "executable_"
  let name := TrimPrefix name "executable_"
  let isScript := HasPrefix name "run_"
  let name := TrimPrefix name "run_"
  let once := isScript && HasPrefix name "once_"
  let name := if isScript then TrimPrefix name "once_" else name
  let isSymlink := HasPrefix name "symlink_"
  let name := TrimPrefix name "symlink_"
  ⟨encrypted, priv, empty, isPresent, executable, isScript, once, isSymlink, name⟩

/-- The `dot_` translation of `specParseFileAttributes` and `specParseDirAttributes`. -/
def specDecodeDot (rest : String) : String :=
  if HasPrefix rest "dot_" then "." ++ TrimPrefix rest "dot_" else rest

/-- Does the name end with `.tmpl`, as `specParseFileAttributes` tests it. -/
def isTemplateName (name : String) : Bool :=
  ".tmpl".toList.reverse.isPrefixOf name.toList.reverse

/-- The name without its last five characters, as `specParseFileAttributes` cuts the suffix. -/
def trimTemplateSuffix (name : String) : String :=
  String.mk (name.toList.take (name.toList.length - 5))

/-- The last steps of `specParseFileAttributes`, on the rest of the name: the `dot_` translation
and the suffix `.tmpl`; the name and whether the file is a template. -/
def fileTail (rest : String) : String × Bool :=
  (if isTemplateName (specDecodeDot rest) then trimTemplateSuffix (specDecodeDot rest)
    else specDecodeDot rest, isTemplateName (specDecodeDot rest))

/-- The attributes that `specParseFileAttributes` makes of the flags of the prefixes and of the
rest of the name. -/
def FileParts.attributes (p : FileParts) : FileAttributes :=
  { Name := (fileTail p.rest).1,
    Type_ := if p.isSymlink then SourceFileType.SourceFileTypeSymlink
      else if p.isScript then SourceFileType.SourceFileTypeScript
      else if p.isPresent then SourceFileType.SourceFileTypePresent
      else SourceFileType.SourceFileTypeFile,
    Empty := p.empty, Encrypted := p.encrypted, Executable := p.executable, Once := p.once,
    Private := p.private_, Template := (fileTail p.rest).2 }

/-- The base name that the flags of the prefixes and a rest compose: each prefix whose flag is set,
in the order of `fileParts`, then the rest. -/
def FileParts.join (p : FileParts) : String :=
  (if p.encrypted then "encrypted_" else "") ++ ((if p.private_ then "private_" else "") ++
    ((if p.empty then "empty_" else "") ++ ((if p.isPresent then "exists_" else "") ++
    ((if p.executable then "executable_" else "") ++ ((if p.isScript then "run_" else "") ++
    ((if p.once then "once_" else "") ++ ((if p.isSymlink then "symlink_" else "") ++
    p.rest)))))))

/-- The composed tail of a name: the `dot_` translation and the suffix `.tmpl`. -/
def encodeTail (nt : String × Bool) : String :=
  specEncodeDot nt.1 ++ (if nt.2 then ".tmpl" else "")

/-- The flags and the rest that `specFileBaseName` composes for the attributes of given parts: the
prefix of one kind only, `once_` for a script only, and the composed tail. -/
def FileParts.canonical (p : FileParts) : FileParts :=
  { p with
    isPresent := p.isPresent && !p.isScript && !p.isSymlink,
    isScript := p.isScript && !p.isSymlink,
    once := p.once && p.isScript && !p.isSymlink,
    rest := encodeTail (fileTail p.rest) }

/-- The prefix that `FileParts.join` emits for a flag, the flags being counted from the last one
(`isSymlink`) to the first one (`encrypted`). -/
def FileParts.piece (p : FileParts) : Nat → String
  | 0 => if p.isSymlink then "symlink_" else ""
  | 1 => if p.once then "once_" else ""
  | 2 => if p.isScript then "run_" else ""
  | 3 => if p.executable then "executable_" else ""
  | 4 => if p.isPresent then "exists_" else ""
  | 5 => if p.empty then "empty_" else ""
  | 6 => if p.private_ then "private_" else ""
  | 7 => if p.encrypted then "encrypted_" else ""
  | _ => ""

/-- The end of the base name that `FileParts.join` composes: the prefixes of the last `n` flags
and the rest. -/
def FileParts.joinLast (p : FileParts) : Nat → String
  | 0 => p.rest
  | n + 1 => p.piece n ++ p.joinLast n

/-- The conditions under which `fileParts` finds the flags and the rest of which a base name was
composed: where a flag is not set, what follows does not begin with its prefix, and `once` is set
for a script only. -/
def FileParts.WellFormed (p : FileParts) : Prop :=
  (p.encrypted = false → HasPrefix (p.joinLast 7) "encrypted_" = false) ∧
  (p.private_ = false → HasPrefix (p.joinLast 6) "private_" = false) ∧
  (p.empty = false → HasPrefix (p.joinLast 5) "empty_" = false) ∧
  (p.isPresent = false → HasPrefix (p.joinLast 4) "exists_" = false) ∧
  (p.executable = false → HasPrefix (p.joinLast 3) "executable_" = false) ∧
  (p.isScript = false → HasPrefix (p.joinLast 2) "run_" = false) ∧
  (p.once = false → p.isScript = true → HasPrefix (p.joinLast 1) "once_" = false) ∧
  (p.once = true → p.isScript = true) ∧
  (p.isSymlink = false → HasPrefix p.rest "symlink_" = false)

/-- The entries named `.chezmoiversion` on which the walk of `Read` calls its walk function, in
the order of the walk, each with its path (`walkVisits` follows the walk call by call; an entry
beneath a directory that the walk skips is not among them, one beneath a directory named
`.chezmoiversion` is). -/
def versionVisits {TD : Type} (env : Env TD) (s : SourceState TD) (children : Entries) :
    List (String × Node) :=
  ((walkVisits (readWalkFn env) s.sourcePath (pathSplit s.sourcePath).2 (Node.dir children)
    ⟨s, []⟩).filter (fun v => decide (v.2.2.1 = versionName ∧ v.2.1 ≠ s.sourcePath))).map
    (fun v => (v.2.1, v.2.2.2))

/-- A source directory with a directory named `.chezmoiversion` that holds a `.chezmoiversion`
file. -/
def versionDirSource : Entries :=
  .cons ".chezmoiversion" (.dir (.cons ".chezmoiversion" (.file "9.9.9\n") .nil)) .nil

/-- Does the walk function of `Read` return `vfs.SkipDir` for a directory of this name, in the
words of the switch of `Read`: the name begins with a dot; it is none of the names for which
`Read` reads a file (`.chezmoidata...`, `.chezmoiignore`, `.chezmoiremove`, `.chezmoiversion`:
reading a directory gives an error); and for `.chezmoitemplates`, `addTemplatesDir` gives no
error. -/
def skipsDirectory {TD : Type} (env : Env TD) (s : SourceState TD) (sourcePath name : String)
    (children : Entries) : Bool :=
  HasPrefix name ignorePrefix && !HasPrefix name dataName && decide (name ≠ ignoreName) &&
    decide (name ≠ removeName) && decide (name ≠ versionName) &&
    (decide (name ≠ templatesDirName) ||
      (addTemplatesDir env s sourcePath name (Node.dir children)).2.isNone)

/-! ## The source entries of a walk, in the words of the spec -/

/-- The names between the slashes of the path of a source entry, taken relative to the source
directory: the names of the directories above the entry, from the source directory down, and
last the name of the entry itself. -/
def sourceComponents (sourcePath path : String) : List (List Char) :=
  splitSlash (TrimPrefix path (sourcePath ++ "/")).toList

/-- The target name that a source path decodes to, as the spec words it ("decode ..., compose the
target name with the decoded ancestor directory names"): the names of the directories above the
entry are decoded as directory names and joined with slashes, and the name of the entry, decoded
as the name of a directory or of a file, is joined to that with `path.Join`. -/
def decodedTargetName {TD : Type} (env : Env TD) (sourcePath path : String) (isDir : Bool) :
    String :=
  let own := String.mk ((sourceComponents sourcePath path).getLast?.getD [])
  pathJoin [
    if (sourceComponents sourcePath path).dropLast = [] then ""
    else decodedDir env (sourceComponents sourcePath path).dropLast ++ "/",
    if isDir then (env.parseDirAttributes own).Name else (env.parseFileAttributes own).Name]

/-- The candidate source entry that a call of the walk function of `Read` stands for, as the spec
words it: the entry is below the source directory, its name does not begin with a dot (names with
a dot are special files or are skipped), it is a directory or a regular file, and the ignore set
as it stands at the call does not match the target name that the entry decodes to.  The candidate
is the target name, the source path and the node. -/
def candidateOf {TD : Type} (env : Env TD) (sourcePath : String)
    (v : ReadState TD × String × String × Node) : Option (String × String × Node) :=
  if v.2.1 ≠ sourcePath ∧ HasPrefix v.2.2.1 ignorePrefix = false ∧
      (v.2.2.2.IsDir = true ∨ v.2.2.2.IsRegular = true) ∧
      v.1.s.ignore.Match env.doublestarMatch
        (decodedTargetName env sourcePath v.2.1 v.2.2.2.IsDir) = false
  then some (decodedTargetName env sourcePath v.2.1 v.2.2.2.IsDir, v.2.1, v.2.2.2)
  else none

/-- The candidate source entries of a source directory, in the order of the walk of `Read`. -/
def candidates {TD : Type} (env : Env TD) (s : SourceState TD) (children : Entries) :
    List (String × String × Node) :=
  (walkVisits (readWalkFn env) s.sourcePath (pathSplit s.sourcePath).2 (Node.dir children)
    ⟨s, []⟩).filterMap (candidateOf env s.sourcePath)

/-- The source paths of the candidates that decode to the target name, in the order of the
walk. -/
def candidatePaths {TD : Type} (env : Env TD) (s : SourceState TD) (children : Entries)
    (targetName : String) : List String :=
  ((candidates env s children).filter (fun c => decide (c.1 = targetName))).map (fun c => c.2.1)

/-- The source state entry of a candidate: a directory with the decoded attributes and the target
state that follows from them, or a file with the decoded attributes, the target name and the
reading of the source file. -/
def candidateEntry {TD : Type} (env : Env TD) (sourcePath : String)
    (c : String × String × Node) : SourceStateEntry :=
  let own := String.mk ((sourceComponents sourcePath c.2.1).getLast?.getD [])
  if c.2.2.IsDir then newSourceStateDir env c.2.1 (env.parseDirAttributes own)
  else newSourceStateFile c.2.1 (env.parseFileAttributes own) c.1 c.2.2

/-- A source directory in which the directory `dot_config` holds `x` and `x.tmpl`, which both
decode to `.config/x`, and the directory `b` holds another `x`. -/
def nestedDuplicateSource : Entries :=
  .cons "b" (.dir (.cons "x" (.file "1") .nil))
    (.cons "dot_config" (.dir (.cons "x" (.file "2") (.cons "x.tmpl" (.file "3") .nil))) .nil)

/-- A template engine for concrete runs that changes the text: every `@` in the text is replaced
by `home`, and every `~` is left out. -/
def expandMarks (text : String) : String :=
  String.mk (text.toList.flatMap (fun c =>
    if c = '@' then "home".toList else if c = '~' then [] else [c]))

/-- An environment for concrete runs in which executing a template and decrypting change the
text: executing replaces every `@` by `home` and leaves out every `~`, and decrypting reverses
the text. -/
def markEnv : Env Unit :=
  { plainEnv with
    executeTemplate := fun _ text _ _ => .ok (expandMarks text),
    Decrypt := fun _ contents => .ok (String.mk contents.toList.reverse) }

/-- A pattern file of one line of `MaxScanTokenSize` bytes. -/
def longLine : String := String.mk (List.replicate MaxScanTokenSize 'a')

/-- A source directory whose `.chezmoitemplates` directory holds a symbolic link, which
`addTemplatesDir` does not accept. -/
def badTemplatesSource : Entries :=
  .cons ".chezmoitemplates" (.dir (.cons ".x" (.other ModeSymlink (.ok "y")) .nil)) .nil

/-! ## cmd/chattr.go: the renaming -/

/-- What `runChattrCmd` takes from outside `chattr.go`, for a source system with states `σ`: the
methods `BaseName` of the directory attributes and of the file attributes, and the method
`Rename` of the source system. -/
structure ChattrEnv (σ : Type) where
  dirBaseName : DirAttributes → String
  fileBaseName : FileAttributes → String
  Rename : σ → String → String → σ × Option String

/-- What the loop of `runChattrCmd` leaves: the source system, the error, and, for the record,
the calls of `Rename` with the old and the new path, in the order of the calls. -/
structure ChattrResult (σ : Type) where
  system : σ
  err : Option String
  renamed : List (String × String)

/-- The loop `for _, targetName := range targetNames` of `runChattrCmd`; `none` is the end of the
program that `MustEntry` reaches for a target name without an entry and `modifyFileAttributes`
for a script. -/
def chattrLoop {σ : Type} (ce : ChattrEnv σ) (SourceDir : String) (am : attributesModifier)
    (entries : List (String × SourceStateEntry)) :
    List String → σ → List (String × String) → Option (ChattrResult σ)
  | [], system, renamed => some ⟨system, none, renamed⟩
  | targetName :: rest, system, renamed =>
    match mapGet entries targetName with
    | none => none
    | some (SourceStateEntry.SourceStateDir path da _) =>
      let sourceName := TrimPrefix path (SourceDir ++ PathSeparatorStr)
      let parentDirName := (pathSplit sourceName).1
      let baseName := (pathSplit sourceName).2
      let newBaseName := ce.dirBaseName (am.modifyDirAttributes da)
      if newBaseName ≠ baseName then
        let newSourcePath := pathJoin [SourceDir, parentDirName, newBaseName]
        match ce.Rename system path newSourcePath with
        | (system1, some err) => some ⟨system1, some err, renamed ++ [(path, newSourcePath)]⟩
        | (system1, none) =>
          chattrLoop ce SourceDir am entries rest system1 (renamed ++ [(path, newSourcePath)])
      else chattrLoop ce SourceDir am entries rest system renamed
    | some (SourceStateEntry.SourceStateFile path fa _ _) =>
      let sourceName := TrimPrefix path (SourceDir ++ PathSeparatorStr)
      let parentDirName := (pathSplit sourceName).1
      let baseName := (pathSplit sourceName).2
      match am.modifyFileAttributes fa with
      | none => none
      | some fa2 =>
        let newBaseName := ce.fileBaseName fa2
        if newBaseName ≠ baseName then
          let newSourcePath := pathJoin [SourceDir, parentDirName, newBaseName]
          match ce.Rename system path newSourcePath with
          | (system1, some err) => some ⟨system1, some err, renamed ++ [(path, newSourcePath)]⟩
          | (system1, none) =>
            chattrLoop ce SourceDir am entries rest system1 (renamed ++ [(path, newSourcePath)])
        else chattrLoop ce SourceDir am entries rest system renamed

/-- The method `Config.runChattrCmd`: `arg` is `args[0]`, `targetNames` is what
`c.getTargetNames` returns for the other arguments, and `entries` are the entries of the source
state.  The target names are sorted in descending order. -/
def runChattrCmd {σ : Type} (ce : ChattrEnv σ) (SourceDir : String) (arg : String)
    (targetNames : Except String (List String)) (entries : List (String × SourceStateEntry))
    (system : σ) : Option (ChattrResult σ) :=
  match parseAttributesModifier arg with
  | .error err => some ⟨system, some err, []⟩
  | .ok am =>
    match targetNames with
    | .error err => some ⟨system, some err, []⟩
    | .ok names => chattrLoop ce SourceDir am entries (sortStrings names).reverse system []

/-- The base name of the source path of an entry, as `runChattrCmd` takes it: the part after the
last slash of the path relative to the source directory. -/
def sourceBaseName (SourceDir : String) (entry : SourceStateEntry) : String :=
  (pathSplit (TrimPrefix entry.Path (SourceDir ++ PathSeparatorStr))).2

/-- An entry that the all-leave-unchanged modifier leaves under its name, in the words of the
amended claim: a directory whose attributes compose the base name of its source path; or a file
that is no script, holds no flag that its kind does not carry, and whose attributes compose the
base name of its source path. -/
def keepsBaseName {σ : Type} (ce : ChattrEnv σ) (SourceDir : String) :
    SourceStateEntry → Prop
  | SourceStateEntry.SourceStateDir path da tse =>
    ce.dirBaseName da = sourceBaseName SourceDir (SourceStateEntry.SourceStateDir path da tse)
  | SourceStateEntry.SourceStateFile path fa targetName readFile =>
    fa.Type_ ≠ SourceFileType.SourceFileTypeScript ∧ fa.Once = false ∧
    (fa.Type_ ≠ SourceFileType.SourceFileTypeFile → fa.Empty = false) ∧
    (fa.Type_ = SourceFileType.SourceFileTypeSymlink →
      fa.Encrypted = false ∧ fa.Executable = false ∧ fa.Private = false) ∧
    ce.fileBaseName fa =
      sourceBaseName SourceDir (SourceStateEntry.SourceStateFile path fa targetName readFile)

/-- A source system for concrete runs, with the base names as the spec composes them: `Rename`
succeeds and the state counts the calls. -/
def specChattrEnv : ChattrEnv Nat :=
  { dirBaseName := specDirBaseName, fileBaseName := specFileBaseName,
    Rename := fun s _ _ => (s + 1, none) }

/-! ## Lemmas on the pattern set -/

theorem rangeHits_iff (m : Matcher) (name : String) (l : List String) :
    rangeHits m name l = true ↔ ∃ p ∈ l, (m p name).1 = true := by
  induction l with
  | nil => simp [rangeHits]
  | cons p rest ih =>
    by_cases h : (m p name).1 = true
    · simp [rangeHits, h]
    · simp [rangeHits, h, ih]

theorem rangeHits_perm (m : Matcher) (name : String) {l₁ l₂ : List String} (h : l₁.Perm l₂) :
    rangeHits m name l₁ = rangeHits m name l₂ := by
  rw [Bool.eq_iff_iff, rangeHits_iff, rangeHits_iff]
  constructor
  · rintro ⟨p, hp, hm⟩
    exact ⟨p, h.mem_iff.mp hp, hm⟩
  · rintro ⟨p, hp, hm⟩
    exact ⟨p, h.mem_iff.mpr hp, hm⟩

theorem Match_iff (m : Matcher) (ps : PatternSet) (name : String) :
    ps.Match m name = true ↔
      (∃ p ∈ ps.includes, (m p name).1 = true) ∧ ∀ p ∈ ps.excludes, (m p name).1 = false := by
  unfold PatternSet.Match
  constructor
  · intro h
    by_cases hE : rangeHits m name ps.excludes = true
    · simp [hE] at h
    · by_cases hI : rangeHits m name ps.includes = true
      · refine ⟨(rangeHits_iff m name ps.includes).mp hI, ?_⟩
        intro p hp
        by_contra hc
        exact hE ((rangeHits_iff m name ps.excludes).mpr ⟨p, hp, by simpa using hc⟩)
      · simp [hE, hI] at h
  · rintro ⟨hex, hall⟩
    have hI := (rangeHits_iff m name ps.includes).mpr hex
    have hE : rangeHits m name ps.excludes = false := by
      by_contra hc
      obtain ⟨p, hp, hm⟩ := (rangeHits_iff m name ps.excludes).mp (by simpa using hc)
      rw [hall p hp] at hm
      cases hm
    simp [hE, hI]

/-! ## Lemmas on the order of strings and on sorting -/

theorem char_toNat_inj (a b : Char) (h : a.toNat = b.toNat) : a = b := by
  apply Char.ext
  apply UInt32.ext
  exact h

theorem lexLt_irrefl (a : List Char) : lexLt a a = false := by
  induction a with
  | nil => rfl
  | cons c cs ih => simp [lexLt, ih]

theorem lexLt_trans : ∀ (a b c : List Char), lexLt a b = true → lexLt b c = true →
    lexLt a c = true
  | [], [], _, h, _ => by simp [lexLt] at h
  | [], _ :: _, [], _, h => by simp [lexLt] at h
  | [], _ :: _, _ :: _, _, _ => by simp [lexLt]
  | _ :: _, [], _, h, _ => by simp [lexLt] at h
  | _ :: _, _ :: _, [], _, h => by simp [lexLt] at h
  | x :: xs, y :: ys, z :: zs, h1, h2 => by
    simp only [lexLt] at h1 h2 ⊢
    split_ifs at h1 h2 ⊢ <;> first
      | rfl
      | omega
      | exact lexLt_trans xs ys zs h1 h2

theorem lexLt_connex : ∀ (a b : List Char), lexLt a b = false → lexLt b a = false → a = b
  | [], [], _, _ => rfl
  | [], _ :: _, h, _ => by simp [lexLt] at h
  | _ :: _, [], _, h => by simp [lexLt] at h
  | x :: xs, y :: ys, h1, h2 => by
    simp only [lexLt] at h1 h2
    split_ifs at h1 h2
    have hxy : x = y := char_toNat_inj x y (by omega)
    rw [hxy, lexLt_connex xs ys h1 h2]

theorem lexLt_asymm (a b : List Char) (h : lexLt a b = true) : lexLt b a = false := by
  cases hba : lexLt b a
  · rfl
  · have := lexLt_trans a b a h hba
    rw [lexLt_irrefl] at this
    cases this

theorem lexLt_append (p q : List Char) (c : Char) : lexLt p (p ++ c :: q) = true := by
  induction p with
  | nil => simp [lexLt]
  | cons x xs ih => simp [lexLt, ih]

theorem strLe_total (a b : String) : strLe a b = true ∨ strLe b a = true := by
  unfold strLe strLt
  cases h : lexLt b.toList a.toList
  · exact Or.inl rfl
  · exact Or.inr (by rw [lexLt_asymm _ _ h]; rfl)

theorem strLe_trans (a b c : String) (h1 : strLe a b = true) (h2 : strLe b c = true) :
    strLe a c = true := by
  unfold strLe strLt at *
  cases h : lexLt c.toList a.toList
  · rfl
  · exfalso
    cases hab : lexLt a.toList b.toList
    · have hba : lexLt b.toList a.toList = false := by simpa using h1
      have e := lexLt_connex _ _ hab hba
      rw [e] at h
      rw [h] at h2
      simp at h2
    · have := lexLt_trans _ _ _ h hab
      rw [this] at h2
      simp at h2

theorem strLt_of_le_of_ne (a b : String) (h : strLe a b = true) (hne : a ≠ b) :
    strLt a b = true := by
  unfold strLe at h
  cases hab : strLt a b
  · exfalso
    apply hne
    have hba : strLt b a = false := by simpa using h
    have e := lexLt_connex _ _ hab hba
    cases a
    cases b
    simp only [String.toList] at e
    rw [e]
  · rfl

theorem orderedInsert_perm (a : String) (l : List String) : (orderedInsert a l).Perm (a :: l) := by
  induction l with
  | nil => simp [orderedInsert]
  | cons b bs ih =>
    simp only [orderedInsert]
    split_ifs
    · exact List.Perm.refl _
    · exact (List.Perm.cons b ih).trans (List.Perm.swap a b bs)

theorem sortStrings_perm (l : List String) : (sortStrings l).Perm l := by
  induction l with
  | nil => simp [sortStrings]
  | cons a as ih =>
    simp only [sortStrings]
    exact (orderedInsert_perm a _).trans (List.Perm.cons a ih)

theorem orderedInsert_sorted (a : String) (l : List String)
    (h : l.Pairwise (fun x y => strLe x y = true)) :
    (orderedInsert a l).Pairwise (fun x y => strLe x y = true) := by
  induction l with
  | nil => simp [orderedInsert]
  | cons b bs ih =>
    simp only [orderedInsert]
    rw [List.pairwise_cons] at h
    split_ifs with hab
    · rw [List.pairwise_cons]
      refine ⟨?_, List.pairwise_cons.mpr h⟩
      intro x hx
      rcases List.mem_cons.mp hx with h1 | h1
      · rw [h1]
        exact hab
      · exact strLe_trans a b x hab (h.1 x h1)
    · rw [List.pairwise_cons]
      refine ⟨?_, ih h.2⟩
      intro x hx
      rcases List.mem_cons.mp ((orderedInsert_perm a bs).mem_iff.mp hx) with h1 | h1
      · rw [h1]
        rcases strLe_total a b with h2 | h2
        · exact absurd h2 hab
        · exact h2
      · exact h.1 x h1

theorem sortStrings_sorted (l : List String) :
    (sortStrings l).Pairwise (fun x y => strLe x y = true) := by
  induction l with
  | nil => simp [sortStrings]
  | cons a as ih => exact orderedInsert_sorted a _ ih

theorem sortStrings_strict (l : List String) (h : l.Nodup) :
    (sortStrings l).Pairwise (fun x y => strLt x y = true) := by
  have hs := sortStrings_sorted l
  have hn : (sortStrings l).Nodup := (sortStrings_perm l).nodup_iff.mpr h
  exact (hs.and hn).imp (fun h => strLt_of_le_of_ne _ _ h.1 h.2)

/-! ## Lemmas on the walk -/

theorem Node.all_self (q : String → Node → Bool) (name : String) (node : Node)
    (h : Node.all q name node = true) : q name node = true := by
  cases node <;> simp [Node.all] at h <;> first | exact h | exact h.1

mutual
theorem walk_inv {σ : Type} (fn : σ → String → String → Node → σ × Ctl) (P : σ → Prop)
    (q : String → Node → Bool)
    (hfn : ∀ s path name node, q name node = true → P s → P (fn s path name node).1) :
    ∀ (node : Node) (path name : String) (s : σ), Node.all q name node = true → P s →
      P (walk fn path name node s).1
  | Node.file c, path, name, s, hq, hp => by
    rw [walk]
    exact hfn s path name (Node.file c) (Node.all_self q name _ hq) hp
  | Node.other m r, path, name, s, hq, hp => by
    rw [walk]
    exact hfn s path name (Node.other m r) (Node.all_self q name _ hq) hp
  | Node.dir es, path, name, s, hq, hp => by
    have hq2 : q name (Node.dir es) = true ∧ Entries.all q es = true := by
      simpa [Node.all] using hq
    have h := hfn s path name (Node.dir es) hq2.1 hp
    rw [walk]
    rcases hr : fn s path name (Node.dir es) with ⟨s1, c1⟩
    rw [hr] at h
    cases c1
    · exact walkEntries_inv fn P q hfn es path s1 hq2.2 h
    · simpa using h
    · exact walkEntries_inv fn P q hfn es path s1 hq2.2 h
theorem walkEntries_inv {σ : Type} (fn : σ → String → String → Node → σ × Ctl) (P : σ → Prop)
    (q : String → Node → Bool)
    (hfn : ∀ s path name node, q name node = true → P s → P (fn s path name node).1) :
    ∀ (es : Entries) (dirPath : String) (s : σ), Entries.all q es = true → P s →
      P (walkEntries fn dirPath es s).1
  | Entries.nil, dirPath, s, _, hp => by
    rw [walkEntries]
    exact hp
  | Entries.cons name node rest, dirPath, s, hq, hp => by
    have hq2 : Node.all q name node = true ∧ Entries.all q rest = true := by
      simpa [Entries.all] using hq
    have h := walk_inv fn P q hfn node (pathJoin [dirPath, name]) name s hq2.1 hp
    rw [walkEntries]
    rcases hr : walk fn (pathJoin [dirPath, name]) name node s with ⟨s1, c1⟩
    rw [hr] at h
    cases c1
    · exact walkEntries_inv fn P q hfn rest dirPath s1 hq2.2 h
    · simpa using h
    · simpa using h
end

theorem Entries.all_true_aux :
    (∀ (node : Node) (name : String), Node.all (fun _ _ => true) name node = true) ∧
      ∀ es : Entries, Entries.all (fun _ _ => true) es = true :=
  ⟨fun node => Node.rec
      (motive_1 := fun node => ∀ name, Node.all (fun _ _ => true) name node = true)
      (motive_2 := fun es => Entries.all (fun _ _ => true) es = true)
      (fun _ _ => by simp [Node.all])
      (fun es ih _ => by simp [Node.all, ih])
      (fun _ _ _ => by simp [Node.all])
      (by simp [Entries.all])
      (fun n node rest ih1 ih2 => by simp [Entries.all, ih1 n, ih2]) node,
   fun es => Entries.rec
      (motive_1 := fun node => ∀ name, Node.all (fun _ _ => true) name node = true)
      (motive_2 := fun es => Entries.all (fun _ _ => true) es = true)
      (fun _ _ => by simp [Node.all])
      (fun es ih _ => by simp [Node.all, ih])
      (fun _ _ _ => by simp [Node.all])
      (by simp [Entries.all])
      (fun n node rest ih1 ih2 => by simp [Entries.all, ih1 n, ih2]) es⟩

/-! ## Lemmas on maps -/

theorem mem_mapKeys_mapAppend {α : Type} (m : List (String × List α)) (key : String) (v : α)
    (k : String) : k ∈ mapKeys (mapAppend m key v) ↔ k ∈ mapKeys m ∨ k = key := by
  induction m with
  | nil => simp [mapAppend, mapKeys]
  | cons hd tl ih =>
    obtain ⟨k1, vs⟩ := hd
    by_cases h : k1 = key
    · subst h
      simp only [mapAppend, if_true, mapKeys, List.map_cons, List.mem_cons]
      constructor
      · intro h1
        exact Or.inl h1
      · rintro (h1 | h1)
        · exact h1
        · exact Or.inl h1
    · simp only [mapAppend, h, if_false, mapKeys, List.map_cons, List.mem_cons]
      simp only [mapKeys] at ih
      rw [ih]
      tauto

theorem mem_mapKeys_mapSet {α : Type} (m : List (String × α)) (key : String) (v : α)
    (k : String) : k ∈ mapKeys (mapSet m key v) ↔ k ∈ mapKeys m ∨ k = key := by
  induction m with
  | nil => simp [mapSet, mapKeys]
  | cons hd tl ih =>
    obtain ⟨k1, w⟩ := hd
    by_cases h : k1 = key
    · subst h
      simp only [mapSet, if_true, mapKeys, List.map_cons, List.mem_cons]
      constructor
      · intro h1
        exact Or.inl h1
      · rintro (h1 | h1)
        · exact h1
        · exact Or.inl h1
    · simp only [mapSet, h, if_false, mapKeys, List.map_cons, List.mem_cons]
      simp only [mapKeys] at ih
      rw [ih]
      tauto

theorem mem_mapKeys_populateEntries (all : List (String × List SourceStateEntry))
    (entries : List (String × SourceStateEntry)) (k : String)
    (h : k ∈ mapKeys (populateEntries all entries)) : k ∈ mapKeys entries ∨ k ∈ mapKeys all := by
  induction all generalizing entries with
  | nil => exact Or.inl (by simpa [populateEntries] using h)
  | cons hd tl ih =>
    obtain ⟨t, es⟩ := hd
    cases es with
    | nil =>
      rcases ih entries (by simpa [populateEntries] using h) with h1 | h1
      · exact Or.inl h1
      · exact Or.inr (by simp [mapKeys] at h1 ⊢; exact Or.inr h1)
    | cons e rest =>
      rcases ih (mapSet entries t e) (by simpa [populateEntries] using h) with h1 | h1
      · rcases (mem_mapKeys_mapSet entries t e k).mp h1 with h2 | h2
        · exact Or.inl h2
        · exact Or.inr (by simp [mapKeys, h2])
      · exact Or.inr (by simp [mapKeys] at h1 ⊢; exact Or.inr h1)

/-! ## Lemmas on the walk function of `Read` -/

section ReadLemmas

variable {TD : Type}

theorem addTemplatesDirFn_frame {α : Type} (f : SourceState TD → α)
    (hf : ∀ (s : SourceState TD) (t : List (String × String)), f { s with templates := t } = f s)
    (env : Env TD) (templateDir : String) (s : SourceState TD) (path name : String) (node : Node) :
    f (addTemplatesDirFn env templateDir s path name node).1 = f s := by
  unfold addTemplatesDirFn
  split_ifs
  · split
    · rfl
    · dsimp only
      split
      · rfl
      · exact hf _ _
  · rfl
  · rfl

theorem addTemplatesDir_frame {α : Type} (f : SourceState TD → α)
    (hf : ∀ (s : SourceState TD) (t : List (String × String)), f { s with templates := t } = f s)
    (env : Env TD) (s : SourceState TD) (templateDir name : String) (node : Node) :
    f (addTemplatesDir env s templateDir name node).1 = f s := by
  have h := walk_inv (addTemplatesDirFn env templateDir) (fun s1 => f s1 = f s) (fun _ _ => true)
    (fun s1 path name node _ hp => by
      simp only at hp ⊢
      rw [addTemplatesDirFn_frame f hf, hp])
    node templateDir name s (Entries.all_true_aux.1 node name) rfl
  unfold addTemplatesDir
  rcases hr : walk (addTemplatesDirFn env templateDir) templateDir name node s with ⟨s1, c1⟩
  rw [hr] at h
  cases c1 <;> simpa using h

theorem addTemplateData_frame {α : Type} (f : SourceState TD → α)
    (hf : ∀ (s : SourceState TD) (t : TD), f { s with templateData := t } = f s)
    (env : Env TD) (s : SourceState TD) (sourcePath : String) (node : Node) :
    f (addTemplateData env s sourcePath node).1 = f s := by
  unfold addTemplateData
  dsimp only
  split
  · rfl
  · split
    · rfl
    · split
      · rfl
      · exact hf _ _

theorem addVersionFile_frame {α : Type} (f : SourceState TD → α)
    (hf : ∀ (s : SourceState TD) (v : Version), f { s with minVersion := v } = f s)
    (env : Env TD) (s : SourceState TD) (sourcePath : String) (node : Node) :
    f (addVersionFile env s sourcePath node).1 = f s := by
  unfold addVersionFile
  split
  · rfl
  · split
    · rfl
    · split_ifs
      · exact hf _ _
      · rfl

theorem ctlOfErr_fst {σ : Type} (r : σ × Option Error) : (ctlOfErr r).1 = r.1 := by
  unfold ctlOfErr
  split <;> rfl

/-- Case analysis on the switch of the walk function of `Read`. -/
theorem readWalkFn_cases (env : Env TD) (st : ReadState TD) (sourcePath name : String)
    (node : Node) (motive : ReadState TD × Ctl → Prop)
    (hroot : sourcePath = st.s.sourcePath → motive (st, Ctl.next))
    (hdata : sourcePath ≠ st.s.sourcePath → HasPrefix name dataName = true →
      motive (ctlOfErr ({ st with s := (addTemplateData env st.s sourcePath node).1 },
        (addTemplateData env st.s sourcePath node).2)))
    (hignore : sourcePath ≠ st.s.sourcePath → name = ignoreName →
      ∀ r, r = addPatterns env st.s st.s.ignore sourcePath
        (pathSplit (TrimPrefix sourcePath (st.s.sourcePath ++ PathSeparatorStr))).1 node →
      motive (ctlOfErr ({ st with s := { st.s with ignore := r.1 } }, r.2)))
    (hremove : sourcePath ≠ st.s.sourcePath → name = removeName →
      ∀ r, r = addPatterns env st.s st.s.remove sourcePath
        (getTargetDirName env
          (pathSplit (TrimPrefix sourcePath (st.s.sourcePath ++ PathSeparatorStr))).1) node →
      motive (ctlOfErr ({ st with s := { st.s with remove := r.1 } }, r.2)))
    (htemplates : sourcePath ≠ st.s.sourcePath → name = templatesDirName →
      ∀ s1 e, addTemplatesDir env st.s sourcePath name node = (s1, e) →
      motive ({ st with s := s1 }, match e with | some err => Ctl.fail err | none => Ctl.skipDir))
    (hversion : sourcePath ≠ st.s.sourcePath → name = versionName →
      motive (ctlOfErr ({ st with s := (addVersionFile env st.s sourcePath node).1 },
        (addVersionFile env st.s sourcePath node).2)))
    (hskip : sourcePath ≠ st.s.sourcePath →
      (HasPrefix name ChezmoiPrefix = true ∨ HasPrefix name ignorePrefix = true) →
      motive (st, if node.IsDir then Ctl.skipDir else Ctl.next))
    (hplain : sourcePath ≠ st.s.sourcePath → HasPrefix name ignorePrefix = false →
      (node.IsDir = true ∨ node.IsRegular = true) →
      ∀ (targetName : String) (sourceStateEntry : SourceStateEntry),
      sourceStateEntry.Path = sourcePath →
      motive (if st.s.ignore.Match env.doublestarMatch targetName then (st, Ctl.next)
        else (⟨st.s, mapAppend st.allSourceStateEntries targetName sourceStateEntry⟩, Ctl.next)))
    (hother : sourcePath ≠ st.s.sourcePath → HasPrefix name ignorePrefix = false →
      node.IsDir = false → node.IsRegular = false →
      motive (st, Ctl.fail (Error.unsupportedFileType sourcePath node.Mode))) :
    motive (readWalkFn env st sourcePath name node) := by
  unfold readWalkFn
  dsimp only
  by_cases h0 : sourcePath = st.s.sourcePath
  · rw [if_pos h0]
    exact hroot h0
  rw [if_neg h0]
  by_cases h1 : HasPrefix name dataName = true
  · rw [if_pos h1]
    exact hdata h0 h1
  rw [if_neg h1]
  by_cases h2 : name = ignoreName
  · rw [if_pos h2]
    exact hignore h0 h2 _ rfl
  rw [if_neg h2]
  by_cases h3 : name = removeName
  · rw [if_pos h3]
    exact hremove h0 h3 _ rfl
  rw [if_neg h3]
  by_cases h4 : name = templatesDirName
  · rw [if_pos h4]
    have h := htemplates h0 h4
    rcases hr : addTemplatesDir env st.s sourcePath name node with ⟨s1, e⟩
    have h5 := h s1 e hr
    cases e <;> exact h5
  rw [if_neg h4]
  by_cases h5 : name = versionName
  · rw [if_pos h5]
    exact hversion h0 h5
  rw [if_neg h5]
  by_cases h6 : HasPrefix name ChezmoiPrefix = true ∨ HasPrefix name ignorePrefix = true
  · rw [if_pos h6]
    have h := hskip h0 h6
    by_cases h7 : node.IsDir = true
    · rw [if_pos h7] at h ⊢
      exact h
    · rw [if_neg h7] at h ⊢
      exact h
  rw [if_neg h6]
  have h6b : HasPrefix name ignorePrefix = false := by
    cases hh : HasPrefix name ignorePrefix
    · rfl
    · exact absurd (Or.inr hh) h6
  by_cases h7 : node.IsDir = true
  · rw [if_pos h7]
    exact hplain h0 h6b (Or.inl h7) _ _ rfl
  rw [if_neg h7]
  by_cases h8 : node.IsRegular = true
  · rw [if_pos h8]
    exact hplain h0 h6b (Or.inr h8) _ _ rfl
  rw [if_neg h8]
  exact hother h0 h6b (by simpa using h7) (by simpa using h8)

/-- The walk function of `Read` never changes the source path. -/
theorem readWalkFn_sourcePath (env : Env TD) (st : ReadState TD) (sourcePath name : String)
    (node : Node) : (readWalkFn env st sourcePath name node).1.s.sourcePath = st.s.sourcePath := by
  refine readWalkFn_cases env st sourcePath name node
    (fun r => r.1.s.sourcePath = st.s.sourcePath) ?_ ?_ ?_ ?_ ?_ ?_ ?_ ?_ ?_
  · intro _
    rfl
  · intro _ _
    rw [ctlOfErr_fst]
    exact addTemplateData_frame (fun s => s.sourcePath) (fun _ _ => rfl) env st.s sourcePath node
  · intro _ _ r _
    rw [ctlOfErr_fst]
  · intro _ _ r _
    rw [ctlOfErr_fst]
  · intro _ _ s1 e he
    have h := addTemplatesDir_frame (fun s => s.sourcePath) (fun _ _ => rfl) env st.s sourcePath
      name node
    rw [he] at h
    exact h
  · intro _ _
    rw [ctlOfErr_fst]
    exact addVersionFile_frame (fun s => s.sourcePath) (fun _ _ => rfl) env st.s sourcePath node
  · intro _ _
    rfl
  · intro _ _ _ targetName e _
    split_ifs <;> rfl
  · intro _ _ _ _
    rfl

/-- A step of the walk on an entry that is not a `.chezmoiignore` file leaves the ignore set as it
is, and the target names it records are not matched by that set. -/
theorem readWalkFn_unmatched (env : Env TD) (ps : PatternSet) (st : ReadState TD)
    (sourcePath name : String) (node : Node) (hname : name ≠ ignoreName)
    (hst : st.s.ignore = ps ∧
      ∀ k ∈ mapKeys st.allSourceStateEntries, ps.Match env.doublestarMatch k = false) :
    (readWalkFn env st sourcePath name node).1.s.ignore = ps ∧
      ∀ k ∈ mapKeys (readWalkFn env st sourcePath name node).1.allSourceStateEntries,
        ps.Match env.doublestarMatch k = false := by
  refine readWalkFn_cases env st sourcePath name node
    (fun r => r.1.s.ignore = ps ∧
      ∀ k ∈ mapKeys r.1.allSourceStateEntries, ps.Match env.doublestarMatch k = false)
    ?_ ?_ ?_ ?_ ?_ ?_ ?_ ?_ ?_
  · intro _
    exact hst
  · intro _ _
    rw [ctlOfErr_fst]
    refine ⟨?_, hst.2⟩
    rw [← hst.1]
    exact addTemplateData_frame (fun s => s.ignore) (fun _ _ => rfl) env st.s sourcePath node
  · intro _ h
    exact absurd h hname
  · intro _ _ r _
    rw [ctlOfErr_fst]
    exact hst
  · intro _ _ s1 e he
    have h := addTemplatesDir_frame (fun s => s.ignore) (fun _ _ => rfl) env st.s sourcePath
      name node
    rw [he] at h
    refine ⟨?_, hst.2⟩
    rw [← hst.1]
    exact h
  · intro _ _
    rw [ctlOfErr_fst]
    refine ⟨?_, hst.2⟩
    rw [← hst.1]
    exact addVersionFile_frame (fun s => s.ignore) (fun _ _ => rfl) env st.s sourcePath node
  · intro _ _
    exact hst
  · intro _ _ _ targetName e _
    by_cases hm : st.s.ignore.Match env.doublestarMatch targetName = true
    · rw [if_pos hm]
      exact hst
    · rw [if_neg hm]
      refine ⟨hst.1, ?_⟩
      intro k hk
      rcases (mem_mapKeys_mapAppend _ _ _ _).mp hk with h1 | h1
      · exact hst.2 k h1
      · rw [h1, ← hst.1]
        simpa using hm
  · intro _ _ _ _
    exact hst

theorem addTemplateData_dir (env : Env TD) (s : SourceState TD) (sourcePath : String)
    (children : Entries) : (addTemplateData env s sourcePath (Node.dir children)).2 ≠ none := by
  unfold addTemplateData
  dsimp only
  split
  · simp
  · simp [Node.ReadFile]

theorem addPatterns_dir (env : Env TD) (s : SourceState TD) (ps : PatternSet)
    (sourcePath relPath : String) (children : Entries) :
    (addPatterns env s ps sourcePath relPath (Node.dir children)).2 ≠ none := by
  simp [addPatterns, executeTemplate, Node.ReadFile]

theorem addVersionFile_dir (env : Env TD) (s : SourceState TD) (sourcePath : String)
    (children : Entries) : (addVersionFile env s sourcePath (Node.dir children)).2 ≠ none := by
  simp [addVersionFile, Node.ReadFile]

theorem ctlOfErr_snd_ne_next {σ : Type} (r : σ × Option Error) (h : r.2 ≠ none) :
    (ctlOfErr r).2 ≠ Ctl.next := by
  unfold ctlOfErr
  split
  · rename_i h1
    exact absurd h1 h
  · simp

/-- A step of the walk on an entry whose name begins with a dot records nothing and does not
descend into a directory. -/
theorem readWalkFn_dot (env : Env TD) (st : ReadState TD) (sourcePath name : String) (node : Node)
    (hname : HasPrefix name ignorePrefix = true) (hpath : sourcePath ≠ st.s.sourcePath) :
    (readWalkFn env st sourcePath name node).1.allSourceStateEntries = st.allSourceStateEntries ∧
      (node.IsDir = true → (readWalkFn env st sourcePath name node).2 ≠ Ctl.next) := by
  refine readWalkFn_cases env st sourcePath name node
    (fun r => r.1.allSourceStateEntries = st.allSourceStateEntries ∧
      (node.IsDir = true → r.2 ≠ Ctl.next)) ?_ ?_ ?_ ?_ ?_ ?_ ?_ ?_ ?_
  · intro h
    exact absurd h hpath
  · intro _ _
    refine ⟨by rw [ctlOfErr_fst], ?_⟩
    intro hd
    cases node with
    | file c => simp [Node.IsDir] at hd
    | other m r => simp [Node.IsDir] at hd
    | dir children => exact ctlOfErr_snd_ne_next _ (addTemplateData_dir env st.s sourcePath children)
  · intro _ _ r hr
    subst hr
    beta_reduce
    refine ⟨by rw [ctlOfErr_fst], ?_⟩
    intro hd
    cases node with
    | file c => simp [Node.IsDir] at hd
    | other m r => simp [Node.IsDir] at hd
    | dir children =>
      exact ctlOfErr_snd_ne_next _ (addPatterns_dir env st.s st.s.ignore sourcePath
        (pathSplit (TrimPrefix sourcePath (st.s.sourcePath ++ PathSeparatorStr))).1 children)
  · intro _ _ r hr
    subst hr
    beta_reduce
    refine ⟨by rw [ctlOfErr_fst], ?_⟩
    intro hd
    cases node with
    | file c => simp [Node.IsDir] at hd
    | other m r => simp [Node.IsDir] at hd
    | dir children =>
      exact ctlOfErr_snd_ne_next _ (addPatterns_dir env st.s st.s.remove sourcePath
        (getTargetDirName env
          (pathSplit (TrimPrefix sourcePath (st.s.sourcePath ++ PathSeparatorStr))).1) children)
  · intro _ _ s1 e _
    refine ⟨rfl, ?_⟩
    intro _
    cases e <;> simp
  · intro _ _
    refine ⟨by rw [ctlOfErr_fst], ?_⟩
    intro hd
    cases node with
    | file c => simp [Node.IsDir] at hd
    | other m r => simp [Node.IsDir] at hd
    | dir children => exact ctlOfErr_snd_ne_next _ (addVersionFile_dir env st.s sourcePath children)
  · intro _ _
    refine ⟨rfl, ?_⟩
    intro hd
    simp [hd]
  · intro _ h
    rw [hname] at h
    cases h
  · intro _ h
    rw [hname] at h
    cases h

/-- The walk of an entry that is no directory and whose name begins with a dot records nothing. -/
theorem walk_dot (env : Env TD) (st : ReadState TD) (sourcePath name : String) (node : Node)
    (hname : HasPrefix name ignorePrefix = true) (hfile : node.IsDir = false)
    (hpath : sourcePath ≠ st.s.sourcePath) :
    (walk (readWalkFn env) sourcePath name node st).1.allSourceStateEntries =
      st.allSourceStateEntries := by
  have h := readWalkFn_dot env st sourcePath name node hname hpath
  cases node with
  | dir children => simp [Node.IsDir] at hfile
  | file c =>
    rw [walk]
    exact h.1
  | other m r =>
    rw [walk]
    exact h.1

theorem walkEntries_sourcePath (env : Env TD) (es : Entries) (dirPath : String)
    (st : ReadState TD) :
    (walkEntries (readWalkFn env) dirPath es st).1.s.sourcePath = st.s.sourcePath :=
  walkEntries_inv (readWalkFn env) (fun st1 => st1.s.sourcePath = st.s.sourcePath)
    (fun _ _ => true)
    (fun st1 path name node _ hp => by
      simp only at hp ⊢
      rw [readWalkFn_sourcePath, hp])
    es dirPath st (Entries.all_true_aux.2 es) rfl

/-- The walk over the children `pre` followed by `rest`, when the entries of `pre` are no
directories and their names begin with a dot: either it ends among `pre` with nothing recorded, or
it goes on over `rest` from a state in which nothing more is recorded. -/
theorem walkEntries_dotPrefix (env : Env TD) (sp : String) (rest : Entries) :
    ∀ (pre : Entries) (st : ReadState TD),
      Entries.allTop (fun name node => HasPrefix name ignorePrefix && !node.IsDir &&
        decide (pathJoin [sp, name] ≠ sp)) pre = true →
      st.s.sourcePath = sp →
      (walkEntries (readWalkFn env) sp (pre.append rest) st).1.allSourceStateEntries =
          st.allSourceStateEntries ∨
        ∃ st1 : ReadState TD, st1.allSourceStateEntries = st.allSourceStateEntries ∧
          st1.s.sourcePath = sp ∧
          walkEntries (readWalkFn env) sp (pre.append rest) st =
            walkEntries (readWalkFn env) sp rest st1
  | Entries.nil, st, _, hsp => Or.inr ⟨st, rfl, hsp, by simp [Entries.append]⟩
  | Entries.cons name node pre, st, hq, hsp => by
    have hq2 : ((HasPrefix name ignorePrefix = true ∧ node.IsDir = false) ∧
          pathJoin [sp, name] ≠ sp) ∧
        Entries.allTop (fun name node => HasPrefix name ignorePrefix && !node.IsDir &&
          decide (pathJoin [sp, name] ≠ sp)) pre = true := by
      simpa [Entries.allTop] using hq
    have hdot := walk_dot env st (pathJoin [sp, name]) name node hq2.1.1.1 hq2.1.1.2
      (by rw [hsp]; exact hq2.1.2)
    have hpath : (walk (readWalkFn env) (pathJoin [sp, name]) name node st).1.s.sourcePath = sp := by
      have h := walk_inv (readWalkFn env) (fun st1 => st1.s.sourcePath = sp) (fun _ _ => true)
        (fun st1 path name node _ hp => by
          simp only at hp ⊢
          rw [readWalkFn_sourcePath, hp])
        node (pathJoin [sp, name]) name st (Entries.all_true_aux.1 node name) hsp
      exact h
    simp only [Entries.append]
    rw [walkEntries]
    rcases hr : walk (readWalkFn env) (pathJoin [sp, name]) name node st with ⟨st1, c1⟩
    rw [hr] at hdot hpath
    cases c1
    · rcases walkEntries_dotPrefix env sp rest pre st1 hq2.2 hpath with h | ⟨st2, h1, h2, h3⟩
      · exact Or.inl (h.trans hdot)
      · exact Or.inr ⟨st2, h1.trans hdot, h2, h3⟩
    · exact Or.inl hdot
    · exact Or.inl hdot

/-- When the entries before the first recorded one are no directories and their names begin with
a dot, and there is no `.chezmoiignore` further on, a successful `Read` leaves no entry that its
ignore set matches. -/
theorem Read_keys_unmatched (env : Env TD) (s s1 : SourceState TD) (pre rest : Entries)
    (hpre : Entries.allTop (fun name node => HasPrefix name ignorePrefix && !node.IsDir &&
        decide (pathJoin [s.sourcePath, name] ≠ s.sourcePath)) pre = true)
    (hrest : Entries.all (fun name _ => decide (name ≠ ignoreName)) rest = true)
    (hentries : s.entries = [])
    (hread : Read env s (Lstat.info (Node.dir (pre.append rest))) = (s1, [])) :
    ∀ t ∈ mapKeys s1.entries, s1.ignore.Match env.doublestarMatch t = false := by
  have key : ∀ stf : ReadState TD, ∀ c : Ctl,
      walkEntries (readWalkFn env) s.sourcePath (pre.append rest) ⟨s, []⟩ = (stf, c) →
      stf.s.entries = [] ∧ ∀ k ∈ mapKeys stf.allSourceStateEntries,
        stf.s.ignore.Match env.doublestarMatch k = false := by
    intro stf c hw
    have hent : stf.s.entries = [] := by
      have h := walkEntries_inv (readWalkFn env) (fun st1 => st1.s.entries = [])
        (fun _ _ => true)
        (fun st1 path name node _ hp => by
          simp only at hp ⊢
          refine readWalkFn_cases env st1 path name node (fun r => r.1.s.entries = [])
            ?_ ?_ ?_ ?_ ?_ ?_ ?_ ?_ ?_
          · intro _
            exact hp
          · intro _ _
            rw [ctlOfErr_fst]
            rw [← hp]
            exact addTemplateData_frame (fun s => s.entries) (fun _ _ => rfl) env st1.s path node
          · intro _ _ r _
            rw [ctlOfErr_fst]
            exact hp
          · intro _ _ r _
            rw [ctlOfErr_fst]
            exact hp
          · intro _ _ s2 e he
            have h := addTemplatesDir_frame (fun s => s.entries) (fun _ _ => rfl) env st1.s path
              name node
            rw [he] at h
            rw [← hp]
            exact h
          · intro _ _
            rw [ctlOfErr_fst]
            rw [← hp]
            exact addVersionFile_frame (fun s => s.entries) (fun _ _ => rfl) env st1.s path node
          · intro _ _
            exact hp
          · intro _ _ _ targetName e _
            split_ifs <;> exact hp
          · intro _ _ _ _
            exact hp)
        (pre.append rest) s.sourcePath ⟨s, []⟩ (Entries.all_true_aux.2 _) hentries
      rw [hw] at h
      exact h
    refine ⟨hent, ?_⟩
    rcases walkEntries_dotPrefix env s.sourcePath rest pre ⟨s, []⟩ hpre rfl with h | ⟨st1, h1, _, h3⟩
    · rw [hw] at h
      simp only at h
      intro k hk
      rw [h] at hk
      simp [mapKeys] at hk
    · have h := walkEntries_inv (readWalkFn env)
        (fun st2 => st2.s.ignore = st1.s.ignore ∧ ∀ k ∈ mapKeys st2.allSourceStateEntries,
          st1.s.ignore.Match env.doublestarMatch k = false)
        (fun name _ => decide (name ≠ ignoreName))
        (fun st2 path name node hq hp =>
          readWalkFn_unmatched env st1.s.ignore st2 path name node (by simpa using hq) hp)
        rest s.sourcePath st1 hrest
        ⟨rfl, by
          intro k hk
          rw [h1] at hk
          simp [mapKeys] at hk⟩
      rw [← h3, hw] at h
      simp only at h
      intro k hk
      rw [h.1]
      exact h.2 k hk
  unfold Read at hread
  simp only [Node.IsDir, Bool.not_true, Bool.false_eq_true, if_false] at hread
  unfold readWalk at hread
  rw [walk] at hread
  have hroot : readWalkFn env ⟨s, []⟩ s.sourcePath (pathSplit s.sourcePath).2
      (Node.dir (pre.append rest)) = (⟨s, []⟩, Ctl.next) := by
    unfold readWalkFn
    simp
  rw [hroot] at hread
  simp only at hread
  rcases hw : walkEntries (readWalkFn env) s.sourcePath (pre.append rest) ⟨s, []⟩ with ⟨stf, c⟩
  rw [hw] at hread
  have hk := key stf c hw
  have fin : ∀ res : SourceState TD × List Error,
      res = (if duplicateErrors stf.allSourceStateEntries
          (sortStrings (mapKeys stf.allSourceStateEntries)) [] ≠ [] then
        (stf.s, duplicateErrors stf.allSourceStateEntries
          (sortStrings (mapKeys stf.allSourceStateEntries)) [])
      else ({ stf.s with entries := populateEntries stf.allSourceStateEntries stf.s.entries }, [])) →
      res = (s1, []) →
      ∀ t ∈ mapKeys s1.entries, s1.ignore.Match env.doublestarMatch t = false := by
    intro res h1 h2
    rw [h2] at h1
    split_ifs at h1 with herr
    · have h3 := congrArg Prod.snd h1
      simp only at h3
      exact absurd h3.symm herr
    · have h3 := congrArg Prod.fst h1
      simp only at h3
      rw [h3]
      intro t ht
      simp only at ht ⊢
      rcases mem_mapKeys_populateEntries _ _ _ ht with h4 | h4
      · rw [hk.1] at h4
        simp [mapKeys] at h4
      · exact hk.2 t h4
  cases c
  · exact fin _ rfl hread
  · simp at hread
  · simp at hread

end ReadLemmas

/-! ## Lemmas on the end of `Read` -/

theorem mapGet_eq_none_iff {α : Type} (m : List (String × α)) (k : String) :
    mapGet m k = none ↔ k ∉ mapKeys m := by
  induction m with
  | nil => simp [mapGet, mapKeys]
  | cons hd tl ih =>
    obtain ⟨k1, v⟩ := hd
    by_cases h : k1 = k
    · simp [mapGet, mapKeys, h]
    · simp only [mapGet, h, if_false, mapKeys, List.map_cons, List.mem_cons, not_or]
      simp only [mapKeys] at ih
      rw [ih]
      constructor
      · intro h1
        exact ⟨fun h2 => h h2.symm, h1⟩
      · intro h1
        exact h1.2

theorem mapGet_mem {α : Type} (m : List (String × α)) (k : String) (v : α)
    (h : mapGet m k = some v) : (k, v) ∈ m := by
  induction m with
  | nil => simp [mapGet] at h
  | cons hd tl ih =>
    obtain ⟨k1, w⟩ := hd
    by_cases h1 : k1 = k
    · simp only [mapGet, h1, if_true, Option.some.injEq] at h
      simp [h1, h]
    · simp only [mapGet, h1, if_false] at h
      exact List.mem_cons_of_mem _ (ih h)

theorem mapGet_mapSet {α : Type} (m : List (String × α)) (key : String) (v : α) (k : String) :
    mapGet (mapSet m key v) k = if k = key then some v else mapGet m k := by
  induction m with
  | nil =>
    by_cases h : k = key
    · simp [mapSet, mapGet, h]
    · simp [mapSet, mapGet, h, Ne.symm h]
  | cons hd tl ih =>
    obtain ⟨k1, w⟩ := hd
    by_cases h1 : k1 = key
    · by_cases h2 : k = key
      · simp [mapSet, mapGet, h1, h2]
      · simp [mapSet, mapGet, h1, h2, Ne.symm h2]
    · by_cases h2 : k1 = k
      · have h3 : k ≠ key := fun h => h1 (h2.trans h)
        simp [mapSet, mapGet, h1, h2, h3]
      · simp [mapSet, mapGet, h1, h2, ih]

theorem mapAppend_nodup {α : Type} (m : List (String × List α)) (key : String) (v : α)
    (h : (mapKeys m).Nodup) : (mapKeys (mapAppend m key v)).Nodup := by
  induction m with
  | nil => simp [mapAppend, mapKeys]
  | cons hd tl ih =>
    obtain ⟨k1, vs⟩ := hd
    simp only [mapKeys, List.map_cons, List.nodup_cons] at h
    by_cases h1 : k1 = key
    · simp only [mapAppend, h1, if_true, mapKeys, List.map_cons, List.nodup_cons]
      rw [h1] at h
      exact h
    · simp only [mapAppend, h1, if_false, mapKeys, List.map_cons, List.nodup_cons]
      refine ⟨?_, ih h.2⟩
      intro hmem
      rcases (mem_mapKeys_mapAppend tl key v k1).mp hmem with h2 | h2
      · exact h.1 h2
      · exact h1 h2

theorem mapAppend_nonempty {α : Type} (m : List (String × List α)) (key : String) (v : α)
    (h : ∀ kv ∈ m, kv.2 ≠ []) : ∀ kv ∈ mapAppend m key v, kv.2 ≠ [] := by
  induction m with
  | nil =>
    intro kv hkv
    simp [mapAppend] at hkv
    simp [hkv]
  | cons hd tl ih =>
    obtain ⟨k1, vs⟩ := hd
    intro kv hkv
    by_cases h1 : k1 = key
    · simp only [mapAppend, h1, if_true, List.mem_cons] at hkv
      rcases hkv with h2 | h2
      · simp [h2]
      · exact h kv (List.mem_cons_of_mem _ h2)
    · simp only [mapAppend, h1, if_false, List.mem_cons] at hkv
      rcases hkv with h2 | h2
      · exact h kv (by simp [h2])
      · exact ih (fun kv hkv => h kv (List.mem_cons_of_mem _ hkv)) kv h2

/-- The loop that collects the duplicate target errors appends, in the order of the names, one
error for each name whose slice has not exactly one element. -/
theorem duplicateErrors_eq (all : List (String × List SourceStateEntry)) (names : List String)
    (err : List Error) :
    duplicateErrors all names err = err ++
      (names.filter (fun t => decide (((mapGet all t).getD []).length ≠ 1))).map
        (fun t => Error.duplicateTarget t (((mapGet all t).getD []).map SourceStateEntry.Path)) := by
  induction names generalizing err with
  | nil => simp [duplicateErrors]
  | cons t rest ih =>
    by_cases h : ((mapGet all t).getD []).length = 1
    · simp [duplicateErrors, h, ih]
    · simp [duplicateErrors, h, ih, multierrAppend]

/-- The last loop of `Read` maps each key of the collected map, when the keys are distinct, to the
first element of its slice, and leaves the other keys as they are. -/
theorem mapGet_populateEntries (all : List (String × List SourceStateEntry))
    (entries : List (String × SourceStateEntry)) (t : String) (h : (mapKeys all).Nodup) :
    mapGet (populateEntries all entries) t =
      match mapGet all t with
      | some (e :: _) => some e
      | _ => mapGet entries t := by
  induction all generalizing entries with
  | nil => simp [populateEntries, mapGet]
  | cons hd tl ih =>
    obtain ⟨k, es⟩ := hd
    simp only [mapKeys, List.map_cons, List.nodup_cons] at h
    have hn : k ∉ mapKeys tl := h.1
    by_cases hk : k = t
    · subst hk
      have htl : mapGet tl k = none := (mapGet_eq_none_iff tl k).mpr hn
      cases es with
      | nil => simp [populateEntries, mapGet, ih entries h.2, htl]
      | cons e rest => simp [populateEntries, mapGet, ih _ h.2, htl, mapGet_mapSet]
    · cases es with
      | nil => simp [populateEntries, mapGet, hk, ih entries h.2]
      | cons e rest =>
        simp only [populateEntries, mapGet, hk, if_false]
        rw [ih _ h.2, mapGet_mapSet]
        simp [Ne.symm hk]

section ReadEnd

variable {TD : Type}

/-- The walk of `Read` keeps the keys of the collected map distinct and its slices non-empty. -/
theorem readWalkFn_wellFormed (env : Env TD) (st : ReadState TD) (sourcePath name : String)
    (node : Node)
    (h : (mapKeys st.allSourceStateEntries).Nodup ∧ ∀ kv ∈ st.allSourceStateEntries, kv.2 ≠ []) :
    (mapKeys (readWalkFn env st sourcePath name node).1.allSourceStateEntries).Nodup ∧
      ∀ kv ∈ (readWalkFn env st sourcePath name node).1.allSourceStateEntries, kv.2 ≠ [] := by
  refine readWalkFn_cases env st sourcePath name node
    (fun r => (mapKeys r.1.allSourceStateEntries).Nodup ∧
      ∀ kv ∈ r.1.allSourceStateEntries, kv.2 ≠ []) ?_ ?_ ?_ ?_ ?_ ?_ ?_ ?_ ?_
  · intro _
    exact h
  · intro _ _
    rw [ctlOfErr_fst]
    exact h
  · intro _ _ r _
    rw [ctlOfErr_fst]
    exact h
  · intro _ _ r _
    rw [ctlOfErr_fst]
    exact h
  · intro _ _ s1 e _
    exact h
  · intro _ _
    rw [ctlOfErr_fst]
    exact h
  · intro _ _
    exact h
  · intro _ _ _ targetName e _
    split_ifs
    · exact h
    · exact ⟨mapAppend_nodup _ _ _ h.1, mapAppend_nonempty _ _ _ h.2⟩
  · intro _ _ _ _
    exact h

theorem readWalk_wellFormed (env : Env TD) (s : SourceState TD) (node : Node) :
    (mapKeys (readWalk env s node).1.allSourceStateEntries).Nodup ∧
      ∀ kv ∈ (readWalk env s node).1.allSourceStateEntries, kv.2 ≠ [] :=
  walk_inv (readWalkFn env)
    (fun st => (mapKeys st.allSourceStateEntries).Nodup ∧
      ∀ kv ∈ st.allSourceStateEntries, kv.2 ≠ [])
    (fun _ _ => true)
    (fun st path name node _ hp => readWalkFn_wellFormed env st path name node hp)
    node s.sourcePath (pathSplit s.sourcePath).2 ⟨s, []⟩ (Entries.all_true_aux.1 node _)
    ⟨by simp [mapKeys], by simp⟩

/-- What `Read` returns once the walk has ended without an error. -/
theorem Read_of_walk (env : Env TD) (s : SourceState TD) (children : Entries)
    (st : ReadState TD) (hwalk : readWalk env s (Node.dir children) = (st, Ctl.next)) :
    Read env s (Lstat.info (Node.dir children)) =
      if duplicateErrors st.allSourceStateEntries
          (sortStrings (mapKeys st.allSourceStateEntries)) [] ≠ [] then
        (st.s, duplicateErrors st.allSourceStateEntries
          (sortStrings (mapKeys st.allSourceStateEntries)) [])
      else (⟨populateEntries st.allSourceStateEntries st.s.entries, st.s.sourcePath, st.s.ignore,
        st.s.minVersion, st.s.priorityTemplateData, st.s.remove, st.s.templateData,
        st.s.templates⟩, []) := by
  unfold Read
  simp only [Node.IsDir, Bool.not_true, Bool.false_eq_true, if_false]
  rw [hwalk]

/-- What `Read` returns when `SkipDir` has reached it from the walk. -/
theorem Read_of_walk_skipDir (env : Env TD) (s : SourceState TD) (children : Entries)
    (st : ReadState TD) (hwalk : readWalk env s (Node.dir children) = (st, Ctl.skipDir)) :
    Read env s (Lstat.info (Node.dir children)) = (st.s, [skipDirError]) := by
  unfold Read
  simp only [Node.IsDir, Bool.not_true, Bool.false_eq_true, if_false]
  rw [hwalk]

/-- What `Read` returns when the walk has ended with an error. -/
theorem Read_of_walk_fail (env : Env TD) (s : SourceState TD) (children : Entries)
    (st : ReadState TD) (err : Error)
    (hwalk : readWalk env s (Node.dir children) = (st, Ctl.fail err)) :
    Read env s (Lstat.info (Node.dir children)) = (st.s, [err]) := by
  unfold Read
  simp only [Node.IsDir, Bool.not_true, Bool.false_eq_true, if_false]
  rw [hwalk]

end ReadEnd

/-! ## Lemmas on applying -/

section ApplyLemmas

variable {TD σ δ : Type}

theorem ApplyOne_applied (env : Env TD) (s : SourceState TD) (sys : TargetSystem σ δ)
    (system : σ) (targetDir targetName : String) (umask : Nat) :
    (ApplyOne env s sys system targetDir targetName umask).applied = [targetName] := by
  unfold ApplyOne
  split
  · rfl
  · split
    · rfl
    · split_ifs
      · rfl
      · dsimp only
        split
        · rfl
        · split
          · rfl
          · split
            · split
              · rfl
              · rfl
            · rfl

/-- The loop of `ApplyAll` calls `ApplyOne` on a beginning of the names, and on all of them when
it ends without an error. -/
theorem applyLoop_applied (env : Env TD) (s : SourceState TD) (sys : TargetSystem σ δ)
    (targetDir : String) (umask : Nat) (names : List String) (acc : ApplyResult σ) :
    ∃ l, l <+: names ∧
      (applyLoop env s sys targetDir umask names acc).applied = acc.applied ++ l ∧
      ((applyLoop env s sys targetDir umask names acc).err = none → acc.err = none → l = names) := by
  induction names generalizing acc with
  | nil => exact ⟨[], List.prefix_refl _, by simp [applyLoop], fun _ _ => rfl⟩
  | cons name rest ih =>
    simp only [applyLoop]
    have ha := ApplyOne_applied env s sys acc.system targetDir name umask
    cases he : (ApplyOne env s sys acc.system targetDir name umask).err with
    | some err =>
      refine ⟨[name], ?_, ?_, ?_⟩
      · exact List.prefix_iff_eq_take.mpr (by simp)
      · simp [ha]
      · intro h
        simp at h
    | none =>
      simp only
      obtain ⟨l, hl1, hl2, hl3⟩ := ih
        ⟨(ApplyOne env s sys acc.system targetDir name umask).system, none,
          acc.applied ++ (ApplyOne env s sys acc.system targetDir name umask).applied,
          acc.removed ++ (ApplyOne env s sys acc.system targetDir name umask).removed⟩
      refine ⟨name :: l, ?_, ?_, ?_⟩
      · exact (List.prefix_cons_inj name).mpr hl1
      · rw [hl2, ha]
        simp
      · intro h _
        rw [hl3 h rfl]

/-- The loop of `ApplyOne` over the base names: when it ends without an error, `RemoveAll` was
called, in order, on the path of each base name that is not the key of an entry. -/
theorem removeLoop_removed (sys : TargetSystem σ δ) (entries : List (String × SourceStateEntry))
    (targetName targetPath : String) (baseNames : List String) (system : σ)
    (removed : List String)
    (h : (removeLoop sys entries targetName targetPath baseNames system removed).2.1 = none) :
    (removeLoop sys entries targetName targetPath baseNames system removed).2.2 = removed ++
      (baseNames.filter (fun baseName =>
        (mapGet entries (pathJoin [targetName, baseName])).isNone)).map
        (fun baseName => pathJoin [targetPath, baseName]) := by
  induction baseNames generalizing system removed with
  | nil => simp [removeLoop]
  | cons baseName rest ih =>
    simp only [removeLoop] at h ⊢
    cases hg : mapGet entries (pathJoin [targetName, baseName]) with
    | some e =>
      rw [hg] at h
      simp only at h ⊢
      rw [ih system removed h]
      simp [hg]
    | none =>
      rw [hg] at h
      simp only at h ⊢
      rcases hr : sys.RemoveAll system (pathJoin [targetPath, baseName]) with ⟨system1, e⟩
      rw [hr] at h
      cases e with
      | some err => simp at h
      | none =>
        simp only at h ⊢
        rw [ih system1 _ h]
        simp [hg]

theorem mem_exactBaseNames (names : List String) (b : String) :
    b ∈ exactBaseNames names ↔ b ∈ names ∧ b ≠ "." ∧ b ≠ ".." := by
  unfold exactBaseNames
  rw [(sortStrings_perm _).mem_iff]
  simp

/-- What a successful `ApplyOne` did for an included directory whose target state is exact. -/
theorem ApplyOne_exact (env : Env TD) (s : SourceState TD) (sys : TargetSystem σ δ)
    (system : σ) (targetDir targetName : String) (umask : Nat) (e : SourceStateEntry) (perm : Nat)
    (hget : mapGet s.entries targetName = some e)
    (htse : e.TargetStateEntry env s = .ok (TargetStateEntry.TargetStateDir perm true))
    (hincl : sys.IncludeTargetStateEntry (TargetStateEntry.TargetStateDir perm true) = true)
    (herr : (ApplyOne env s sys system targetDir targetName umask).err = none) :
    ∃ (dest : δ) (system1 : σ) (names : List String),
      sys.NewDestStateEntry system (pathJoin [targetDir, targetName]) = .ok dest ∧
      sys.Apply (TargetStateEntry.TargetStateDir perm true) system dest umask = (system1, none) ∧
      sys.ReadDir system1 (pathJoin [targetDir, targetName]) = .ok names ∧
      removeLoop sys s.entries targetName (pathJoin [targetDir, targetName])
          (exactBaseNames names) system1 [] =
        ((ApplyOne env s sys system targetDir targetName umask).system, none,
          (ApplyOne env s sys system targetDir targetName umask).removed) := by
  unfold ApplyOne at herr ⊢
  simp only [hget, htse, hincl, Bool.not_true, Bool.false_eq_true, if_false] at herr ⊢
  cases hd : sys.NewDestStateEntry system (pathJoin [targetDir, targetName]) with
  | error err =>
    rw [hd] at herr
    simp at herr
  | ok dest =>
    rw [hd] at herr
    simp only at herr ⊢
    rcases ha : sys.Apply (TargetStateEntry.TargetStateDir perm true) system dest umask
      with ⟨system1, ae⟩
    rw [ha] at herr
    cases ae with
    | some err => simp at herr
    | none =>
      simp only at herr ⊢
      cases hr : sys.ReadDir system1 (pathJoin [targetDir, targetName]) with
      | error err =>
        rw [hr] at herr
        simp at herr
      | ok names =>
        rw [hr] at herr
        simp only at herr ⊢
        rcases hl : removeLoop sys s.entries targetName (pathJoin [targetDir, targetName])
          (exactBaseNames names) system1 [] with ⟨system2, le, removed⟩
        rw [hl] at herr
        simp only at herr ⊢
        refine ⟨dest, system1, names, rfl, ha, hr, ?_⟩
        rw [hl, herr]

/-- The loop of `ApplyOne` over the base names, on a system whose `RemoveAll` leaves in a
directory only children that were there and whose path is not the removed one: every child that is
left and is among the base names is the key of an entry. -/
theorem removeLoop_children (sys : TargetSystem σ δ) (entries : List (String × SourceStateEntry))
    (targetName targetPath : String)
    (hlaw : ∀ (system system1 : σ) (path : String) (names1 : List String),
      sys.RemoveAll system path = (system1, none) → sys.ReadDir system1 targetPath = .ok names1 →
      ∃ names, sys.ReadDir system targetPath = .ok names ∧
        ∀ b ∈ names1, b ∈ names ∧ pathJoin [targetPath, b] ≠ path)
    (baseNames : List String) (system system2 : σ) (removed removed2 : List String)
    (names2 : List String)
    (hloop : removeLoop sys entries targetName targetPath baseNames system removed =
      (system2, none, removed2))
    (hread : sys.ReadDir system2 targetPath = .ok names2) :
    ∃ names, sys.ReadDir system targetPath = .ok names ∧
      ∀ b ∈ names2, b ∈ names ∧
        (b ∈ baseNames → mapGet entries (pathJoin [targetName, b]) ≠ none) := by
  induction baseNames generalizing system removed with
  | nil =>
    simp only [removeLoop, Prod.mk.injEq] at hloop
    rw [hloop.1]
    exact ⟨names2, hread, fun b hb => ⟨hb, fun h => by simp at h⟩⟩
  | cons b0 rest ih =>
    simp only [removeLoop] at hloop
    cases hg : mapGet entries (pathJoin [targetName, b0]) with
    | some e =>
      rw [hg] at hloop
      simp only at hloop
      obtain ⟨names, hn1, hn2⟩ := ih system removed hloop
      refine ⟨names, hn1, fun b hb => ⟨(hn2 b hb).1, ?_⟩⟩
      intro hmem
      rcases List.mem_cons.mp hmem with h1 | h1
      · rw [h1, hg]
        simp
      · exact (hn2 b hb).2 h1
    | none =>
      rw [hg] at hloop
      simp only at hloop
      rcases hr : sys.RemoveAll system (pathJoin [targetPath, b0]) with ⟨system1, e⟩
      rw [hr] at hloop
      cases e with
      | some err => simp at hloop
      | none =>
        simp only at hloop
        obtain ⟨names1, hn1, hn2⟩ := ih system1 _ hloop
        obtain ⟨names, hm1, hm2⟩ := hlaw system system1 _ names1 hr hn1
        refine ⟨names, hm1, fun b hb => ⟨(hm2 b (hn2 b hb).1).1, ?_⟩⟩
        intro hmem
        rcases List.mem_cons.mp hmem with h1 | h1
        · exact absurd (by rw [h1]) (hm2 b (hn2 b hb).1).2
        · exact (hn2 b hb).2 h1

end ApplyLemmas

/-! ## Lemmas on paths -/

theorem splitSlash_noSlash (e : List Char) (h : e.contains '/' = false) : splitSlash e = [e] := by
  induction e with
  | nil => rfl
  | cons c cs ih =>
    simp only [List.contains_cons, Bool.or_eq_false_iff] at h
    have hc : c ≠ '/' := by
      intro hc
      rw [hc] at h
      simp at h
    simp [splitSlash, hc, ih h.2]

theorem splitSlash_append (e t : List Char) (h : e.contains '/' = false) :
    splitSlash (e ++ '/' :: t) = e :: splitSlash t := by
  induction e with
  | nil => simp [splitSlash]
  | cons c cs ih =>
    simp only [List.contains_cons, Bool.or_eq_false_iff] at h
    have hc : c ≠ '/' := by
      intro hc
      rw [hc] at h
      simp at h
    simp [splitSlash, hc, ih h.2]

theorem splitSlash_joinSlash (es : List (List Char)) (hne : es ≠ [])
    (h : ∀ e ∈ es, e.contains '/' = false) : splitSlash (joinSlash es) = es := by
  induction es with
  | nil => exact absurd rfl hne
  | cons e rest ih =>
    cases rest with
    | nil => simpa [joinSlash] using splitSlash_noSlash e (h e (by simp))
    | cons e2 rest2 =>
      simp only [joinSlash]
      rw [splitSlash_append e _ (h e (by simp)),
        ih (by simp) (fun x hx => h x (List.mem_cons_of_mem _ hx))]

theorem joinSlash_append_empty (es : List (List Char)) (hne : es ≠ []) :
    joinSlash (es ++ [[]]) = joinSlash es ++ ['/'] := by
  induction es with
  | nil => exact absurd rfl hne
  | cons e rest ih =>
    cases rest with
    | nil => simp [joinSlash]
    | cons e2 rest2 =>
      have := ih (by simp)
      simp only [List.cons_append, joinSlash, List.append_eq] at this ⊢
      rw [this]
      simp

theorem plainElement_spec (e : List Char) (h : plainElement e = true) :
    e ≠ [] ∧ e ≠ ['.'] ∧ e ≠ ['.', '.'] ∧ e.contains '/' = false := by
  unfold plainElement at h
  simp only [Bool.and_eq_true, decide_eq_true_eq, Bool.not_eq_true'] at h
  exact ⟨h.1.1.1, h.1.1.2, h.1.2, h.2⟩

theorem cleanElements_plain (rooted : Bool) (es out : List (List Char))
    (h : ∀ e ∈ es, plainElement e = true) :
    cleanElements rooted es out = out.reverse ++ es := by
  induction es generalizing out with
  | nil => simp [cleanElements]
  | cons e rest ih =>
    obtain ⟨h1, h2, h3, _⟩ := plainElement_spec e (h e (by simp))
    simp only [cleanElements, h1, h2, h3, false_or, if_false]
    rw [ih _ (fun x hx => h x (List.mem_cons_of_mem _ hx))]
    simp

theorem cleanElements_snoc_empty (rooted : Bool) (es out : List (List Char)) :
    cleanElements rooted (es ++ [[]]) out = cleanElements rooted es out := by
  induction es generalizing out with
  | nil => simp [cleanElements]
  | cons e rest ih =>
    simp only [List.cons_append, cleanElements, List.append_eq]
    by_cases h1 : e = [] ∨ e = ['.']
    · simp only [h1, if_true]
      exact ih _
    · simp only [h1, if_false]
      by_cases h2 : e = ['.', '.']
      · simp only [h2, if_true]
        cases out with
        | nil => cases rooted <;> simp [ih]
        | cons top below => by_cases h3 : top = ['.', '.'] <;> simp [h3, ih]
      · simp only [h2, if_false]
        exact ih _

theorem joinSlash_head (es : List (List Char)) (hne : es ≠ [])
    (h : ∀ e ∈ es, plainElement e = true) :
    joinSlash es ≠ [] ∧ (joinSlash es).head? ≠ some '/' := by
  cases es with
  | nil => exact absurd rfl hne
  | cons e rest =>
    obtain ⟨h1, _, _, h4⟩ := plainElement_spec e (h e (by simp))
    cases e with
    | nil => exact absurd rfl h1
    | cons c cs =>
      have hc : c ≠ '/' := by
        intro hc
        rw [hc] at h4
        simp at h4
      cases rest with
      | nil => simp [joinSlash, hc]
      | cons e2 rest2 => simp [joinSlash, hc]

/-- `path.Clean` leaves a relative path of plain elements as it is. -/
theorem cleanChars_joinSlash (es : List (List Char)) (hne : es ≠ [])
    (h : ∀ e ∈ es, plainElement e = true) : cleanChars (joinSlash es) = joinSlash es := by
  obtain ⟨h1, h2⟩ := joinSlash_head es hne h
  unfold cleanChars
  simp only [h1, if_false, h2, decide_False, Bool.false_eq_true]
  rw [splitSlash_joinSlash es hne (fun e he => (plainElement_spec e (h e he)).2.2.2),
    cleanElements_plain false es [] h]
  simp [h1]

/-- `path.Clean` removes the slash at the end of a relative path of plain elements. -/
theorem cleanChars_joinSlash_slash (es : List (List Char)) (hne : es ≠ [])
    (h : ∀ e ∈ es, plainElement e = true) :
    cleanChars (joinSlash es ++ ['/']) = joinSlash es := by
  obtain ⟨h1, h2⟩ := joinSlash_head es hne h
  have h3 : (joinSlash es ++ ['/']).head? ≠ some '/' := by
    cases hj : joinSlash es with
    | nil => exact absurd hj h1
    | cons c cs =>
      rw [hj] at h2
      simpa using h2
  unfold cleanChars
  simp only [List.append_eq_nil, List.cons_ne_self, and_false, if_false, h3, decide_False,
    Bool.false_eq_true]
  rw [← joinSlash_append_empty es hne, splitSlash_joinSlash (es ++ [[]]) (by simp)
    (fun e he => by
      rcases List.mem_append.mp he with h5 | h5
      · exact (plainElement_spec e (h e h5)).2.2.2
      · simp at h5
        simp [h5]),
    cleanElements_snoc_empty, cleanElements_plain false es [] h]
  simp [h1]

theorem afterLastSlash_slash (a : List Char) : afterLastSlash (a ++ ['/']) = a.length + 1 := by
  induction a with
  | nil => simp [afterLastSlash]
  | cons c cs ih =>
    simp only [List.cons_append, afterLastSlash]
    simp [ih]

/-- `path.Dir` of a relative directory name of plain elements that ends in a slash is the name
without the slash. -/
theorem pathDir_joinSlash_slash (es : List (List Char)) (hne : es ≠ [])
    (h : ∀ e ∈ es, plainElement e = true) :
    pathDir (String.mk (joinSlash es ++ ['/'])) = String.mk (joinSlash es) := by
  unfold pathDir pathSplit pathClean
  simp only [String.toList, afterLastSlash_slash]
  have : (joinSlash es ++ ['/']).take ((joinSlash es).length + 1) = joinSlash es ++ ['/'] := by
    rw [List.take_of_length_le]
    simp
  rw [this, cleanChars_joinSlash_slash es hne h]

/-- `path.Join(".", p)` is `p` when `p` is a relative path of plain elements. -/
theorem pathJoin_dot (es : List (List Char)) (hne : es ≠ [])
    (h : ∀ e ∈ es, plainElement e = true) :
    pathJoin [".", String.mk (joinSlash es)] = String.mk (joinSlash es) := by
  obtain ⟨h1, h2⟩ := joinSlash_head es hne h
  have hd : ("." : String) ≠ "" := by decide
  unfold pathJoin
  simp only [List.dropWhile, hd, decide_False, List.map_cons, List.map_nil, String.toList]
  have hj : joinSlash [".".data, joinSlash es] = ['.'] ++ '/' :: joinSlash es := by
    simp [joinSlash]
  rw [hj]
  congr 1
  unfold cleanChars
  simp only [List.append_eq_nil, List.cons_ne_self, false_and, if_false]
  rw [splitSlash_append ['.'] _ (by decide),
    splitSlash_joinSlash es hne (fun e he => (plainElement_spec e (h e he)).2.2.2)]
  have hc : cleanElements false (['.'] :: es) [] = es := by
    simp only [cleanElements, List.cons_ne_self, or_true, if_true]
    rw [cleanElements_plain false es [] h]
    simp
  simp [hc, h1]

/-! ## Lemmas on pattern files -/

theorem getTargetDirName_dir {TD : Type} (env : Env TD) (cs : List (List Char)) (hne : cs ≠ [])
    (hcs : ∀ c ∈ cs, c.contains '/' = false) (hempty : (env.parseDirAttributes "").Name = "") :
    getTargetDirName env (String.mk (joinSlash cs ++ ['/'])) =
      String.mk (joinSlash (cs.map (fun c => (env.parseDirAttributes (String.mk c)).Name.toList))
        ++ ['/']) := by
  unfold getTargetDirName
  simp only [String.toList]
  rw [← joinSlash_append_empty cs hne, splitSlash_joinSlash (cs ++ [[]]) (by simp)
    (fun e he => by
      rcases List.mem_append.mp he with h5 | h5
      · exact hcs e h5
      · simp at h5
        simp [h5])]
  have h0 : (env.parseDirAttributes (String.mk [])).Name.data = [] := by
    have : String.mk [] = "" := rfl
    rw [this, hempty]
  rw [List.map_append, List.map_cons, List.map_nil]
  simp only [String.toList, h0]
  rw [joinSlash_append_empty _ (by simpa using hne)]

theorem mem_stringSet_Add (s : stringSet) (x q : String) : q ∈ s.Add [x] ↔ q ∈ s ∨ q = x := by
  unfold stringSet.Add
  simp only [List.foldl_cons, List.foldl_nil]
  split_ifs with h
  · constructor
    · exact Or.inl
    · rintro (h1 | h1)
      · exact h1
      · rw [h1]
        exact h
  · simp

theorem PatternSet.Add_ok (m : Matcher) (ps ps1 : PatternSet) (pattern : String) (incl : Bool)
    (h : ps.Add m pattern incl = (ps1, none)) :
    ps1 = if incl then ⟨ps.includes.Add [pattern], ps.excludes⟩
      else ⟨ps.includes, ps.excludes.Add [pattern]⟩ := by
  unfold PatternSet.Add at h
  split at h
  · simp at h
  · split_ifs at h with hi
    · simp only [Prod.mk.injEq, and_true] at h
      rw [← h]
      simp [hi]
    · simp only [Prod.mk.injEq, and_true] at h
      rw [← h]
      simp [hi]

/-- The loop of `addPatterns`, when it ends without an error, has added for each line the pattern
that the line stands for by the grammar of the spec, joined to the directory, and nothing else. -/
theorem addPatternsLoop_mem (m : Matcher) (sourcePath dir : String) (lines : List String)
    (ps ps1 : PatternSet) (h : addPatternsLoop m sourcePath dir lines ps = (ps1, none)) :
    (∀ q, q ∈ ps1.includes ↔ q ∈ ps.includes ∨
      ∃ line ∈ lines, ∃ p, linePattern line = some (true, p) ∧ q = pathJoin [dir, p]) ∧
    (∀ q, q ∈ ps1.excludes ↔ q ∈ ps.excludes ∨
      ∃ line ∈ lines, ∃ p, linePattern line = some (false, p) ∧ q = pathJoin [dir, p]) := by
  induction lines generalizing ps with
  | nil =>
    simp only [addPatternsLoop, Prod.mk.injEq, and_true] at h
    rw [h]
    simp
  | cons line rest ih =>
    simp only [addPatternsLoop] at h
    by_cases h1 : TrimSpace (cutAtRune line '#') = ""
    · rw [if_pos h1] at h
      have hl : linePattern line = none := by simp [linePattern, h1]
      obtain ⟨i1, i2⟩ := ih ps h
      constructor
      · intro q
        rw [i1 q]
        simp [hl]
      · intro q
        rw [i2 q]
        simp [hl]
    · rw [if_neg h1] at h
      by_cases h2 : HasPrefix (TrimSpace (cutAtRune line '#')) "!" = true
      · simp only [h2, Bool.not_true, if_true] at h
        have hl : linePattern line =
            some (false, TrimPrefix (TrimSpace (cutAtRune line '#')) "!") := by
          simp [linePattern, h1, h2]
        rcases ha : ps.Add m (pathJoin [dir, TrimPrefix (TrimSpace (cutAtRune line '#')) "!"])
          false with ⟨ps2, e⟩
        rw [ha] at h
        cases e with
        | some err => simp at h
        | none =>
          simp only at h
          have hps2 := PatternSet.Add_ok m ps ps2 _ false ha
          simp only [Bool.false_eq_true, if_false] at hps2
          obtain ⟨i1, i2⟩ := ih ps2 h
          constructor
          · intro q
            rw [i1 q, hps2]
            simp [hl]
          · intro q
            rw [i2 q, hps2]
            simp only [mem_stringSet_Add, List.mem_cons, exists_eq_or_imp, hl, Option.some.injEq,
              Prod.mk.injEq, true_and]
            constructor
            · rintro ((h3 | h3) | h3)
              · exact Or.inl h3
              · exact Or.inr (Or.inl ⟨_, rfl, h3⟩)
              · exact Or.inr (Or.inr h3)
            · rintro (h3 | ⟨p, hp, h3⟩ | h3)
              · exact Or.inl (Or.inl h3)
              · exact Or.inl (Or.inr (by rw [h3, ← hp]))
              · exact Or.inr h3
      · have h2f : HasPrefix (TrimSpace (cutAtRune line '#')) "!" = false := by
          simpa using h2
        simp only [h2f, Bool.not_false, Bool.false_eq_true, if_false] at h
        have hl : linePattern line = some (true, TrimSpace (cutAtRune line '#')) := by
          simp [linePattern, h1, h2f]
        rcases ha : ps.Add m (pathJoin [dir, TrimSpace (cutAtRune line '#')]) true with ⟨ps2, e⟩
        rw [ha] at h
        cases e with
        | some err => simp at h
        | none =>
          simp only at h
          have hps2 := PatternSet.Add_ok m ps ps2 _ true ha
          simp only [if_true] at hps2
          obtain ⟨i1, i2⟩ := ih ps2 h
          constructor
          · intro q
            rw [i1 q, hps2]
            simp only [mem_stringSet_Add, List.mem_cons, exists_eq_or_imp, hl, Option.some.injEq,
              Prod.mk.injEq, true_and]
            constructor
            · rintro ((h3 | h3) | h3)
              · exact Or.inl h3
              · exact Or.inr (Or.inl ⟨_, rfl, h3⟩)
              · exact Or.inr (Or.inr h3)
            · rintro (h3 | ⟨p, hp, h3⟩ | h3)
              · exact Or.inl (Or.inl h3)
              · exact Or.inl (Or.inr (by rw [h3, ← hp]))
              · exact Or.inr h3
          · intro q
            rw [i2 q, hps2]
            simp [hl]

theorem walkedEntries_length {TD : Type} (env : Env TD) (s : SourceState TD) (children : Entries)
    (t : String) :
    (walkedEntries env s children t).length ≠ 1 ↔ (2 ≤ (walkedEntries env s children t).length ∨
      t ∉ mapKeys (readWalk env s (Node.dir children)).1.allSourceStateEntries) := by
  unfold walkedEntries
  have hwf := readWalk_wellFormed env s (Node.dir children)
  cases hg : mapGet (readWalk env s (Node.dir children)).1.allSourceStateEntries t with
  | none =>
    have := (mapGet_eq_none_iff _ _).mp hg
    simp [this]
  | some l =>
    have hne := hwf.2 _ (mapGet_mem _ _ _ hg)
    have hmem : t ∈ mapKeys (readWalk env s (Node.dir children)).1.allSourceStateEntries := by
      by_contra hc
      rw [(mapGet_eq_none_iff _ _).mpr hc] at hg
      cases hg
    simp only [Option.getD_some, hmem, not_true_eq_false, or_false]
    cases l with
    | nil => exact absurd rfl hne
    | cons a l2 =>
      cases l2 with
      | nil => simp
      | cons b l3 => simp

/-- The error of `Read` after a walk without an error: one duplicate target error for each key of
the collected map that has two or more source entries, in the ascending order of the keys. -/
theorem Read_errors {TD : Type} (env : Env TD) (s : SourceState TD) (children : Entries)
    (hwalk : (readWalk env s (Node.dir children)).2.failed = false) :
    (Read env s (Lstat.info (Node.dir children))).2 =
      ((sortStrings (mapKeys (readWalk env s (Node.dir children)).1.allSourceStateEntries)).filter
        (fun t => decide (2 ≤ (walkedEntries env s children t).length))).map
        (fun t => Error.duplicateTarget t
          ((walkedEntries env s children t).map SourceStateEntry.Path)) := by
  rcases hw : readWalk env s (Node.dir children) with ⟨st, c⟩
  have hc : c = Ctl.next := by
    rw [hw] at hwalk
    cases c <;> simp [Ctl.failed] at hwalk ⊢
  subst hc
  rw [Read_of_walk env s children st hw]
  have hl := fun t => walkedEntries_length env s children t
  unfold walkedEntries at hl ⊢
  rw [hw] at hl ⊢
  simp only at hl ⊢
  have herr : duplicateErrors st.allSourceStateEntries
      (sortStrings (mapKeys st.allSourceStateEntries)) [] =
      ((sortStrings (mapKeys st.allSourceStateEntries)).filter
        (fun t => decide (2 ≤ ((mapGet st.allSourceStateEntries t).getD []).length))).map
        (fun t => Error.duplicateTarget t
          (((mapGet st.allSourceStateEntries t).getD []).map SourceStateEntry.Path)) := by
    rw [duplicateErrors_eq, List.nil_append]
    congr 1
    apply List.filter_congr
    intro t ht
    have hmem : t ∈ mapKeys st.allSourceStateEntries := (sortStrings_perm _).mem_iff.mp ht
    have := hl t
    simp only [hmem, not_true_eq_false, or_false] at this
    simp only [decide_eq_decide]
    exact this
  rw [← herr]
  split_ifs with h
  · rfl
  · simp only
    push_neg at h
    exact h.symm

/-! ## Lemmas on the pattern files in the walk -/

section PatternWalk

variable {TD : Type}

/-- A scanner that ends without an error has yielded all the lines of the data. -/
theorem scanTokens_of_none (data : String) (h : (scanTokens data).2 = none) :
    (scanTokens data).1 = scanLines data := by
  unfold scanTokens at h ⊢
  unfold scanLines
  simp only at h ⊢
  generalize (if (splitLF data.toList).getLast? = some [] then (splitLF data.toList).dropLast
    else splitLF data.toList) = kept at h ⊢
  by_cases h1 : (kept.takeWhile
      (fun line => decide ((String.mk line).utf8ByteSize < MaxScanTokenSize))).length < kept.length
  · rw [if_pos h1] at h
    cases h
  · rw [(List.takeWhile_sublist _).eq_of_length_le (Nat.le_of_not_lt h1)]

/-- The scanner ends without an error exactly when no line is too long. -/
theorem scanTokens_none_iff (data : String) :
    (scanTokens data).2 = none ↔
      ∀ line ∈ splitLF data.toList, (String.mk line).utf8ByteSize < MaxScanTokenSize := by
  unfold scanTokens
  simp only
  have hall : ∀ (l : List (List Char)) (p : List Char → Bool),
      ¬ (l.takeWhile p).length < l.length ↔ ∀ x ∈ l, p x = true := by
    intro l p
    induction l with
    | nil => simp
    | cons a t ih =>
      by_cases ha : p a = true
      · simp only [List.takeWhile_cons, ha, if_true, List.length_cons, List.mem_cons,
          forall_eq_or_imp, true_and, Nat.add_lt_add_iff_right]
        exact ih
      · simp [List.takeWhile_cons, ha]
  have hlast : ∀ l : List (List Char), l.getLast? = some [] →
      ((∀ x ∈ l.dropLast, (String.mk x).utf8ByteSize < MaxScanTokenSize) ↔
        ∀ x ∈ l, (String.mk x).utf8ByteSize < MaxScanTokenSize) := by
    intro l hl
    have hl2 : l = l.dropLast ++ [[]] := by
      rcases List.eq_nil_or_concat l with h | ⟨t, a, h⟩
      · rw [h] at hl
        simp at hl
      · rw [h] at hl ⊢
        simp only [List.concat_eq_append, List.getLast?_append, List.getLast?_singleton,
          Option.or, Option.some.injEq] at hl
        simp [hl]
    constructor
    · intro h x hx
      rw [hl2] at hx
      rcases List.mem_append.mp hx with h3 | h3
      · exact h x h3
      · simp only [List.mem_singleton] at h3
        rw [h3]
        decide
    · intro h x hx
      exact h x (List.dropLast_subset l hx)
  constructor
  · intro h
    split_ifs at h with h1 h2 h2
    · have := (hall _ _).mp h2
      simp only [decide_eq_true_eq] at this
      exact (hlast _ h1).mp this
    · have := (hall _ _).mp h2
      simpa using this
  · intro h
    by_cases h1 : (splitLF data.toList).getLast? = some []
    · simp only [h1, if_true]
      rw [if_neg]
      rw [hall]
      simp only [decide_eq_true_eq]
      exact (hlast _ h1).mpr h
    · simp only [h1, if_false]
      rw [if_neg]
      rw [hall]
      simpa using h

theorem addPatterns_ok (env : Env TD) (s : SourceState TD) (patternSet : PatternSet)
    (sourcePath relPath : String) (node : Node)
    (hok : (addPatterns env s patternSet sourcePath relPath node).2 = none) :
    ∃ data, executeTemplate env s sourcePath node = .ok data ∧
      PatternsAdded patternSet (addPatterns env s patternSet sourcePath relPath node).1
        (pathDir relPath) data := by
  unfold addPatterns at hok ⊢
  cases he : executeTemplate env s sourcePath node with
  | error err =>
    rw [he] at hok
    simp at hok
  | ok data =>
    rw [he] at hok
    simp only at hok ⊢
    refine ⟨data, rfl, ?_⟩
    rcases hl : addPatternsLoop env.doublestarMatch sourcePath (pathDir relPath)
      (scanTokens data).1 patternSet with ⟨ps1, e1⟩
    rw [hl] at hok
    cases e1 with
    | some err => simp at hok
    | none =>
      simp only at hok ⊢
      cases hs : (scanTokens data).2 with
      | some err =>
        rw [hs] at hok
        simp at hok
      | none =>
        rw [scanTokens_of_none data hs] at hl
        simp only
        exact addPatternsLoop_mem env.doublestarMatch sourcePath (pathDir relPath)
          (scanLines data) patternSet _ hl

theorem ctlOfErr_next {σ : Type} (r : σ × Option Error) (h : (ctlOfErr r).2 = Ctl.next) :
    r.2 = none := by
  unfold ctlOfErr at h
  split at h
  · assumption
  · simp at h

theorem readWalkFn_remove (env : Env TD) (st : ReadState TD) (sourcePath : String) (node : Node)
    (hpath : sourcePath ≠ st.s.sourcePath) :
    readWalkFn env st sourcePath removeName node =
      ctlOfErr (⟨{ st.s with remove := (addPatterns env st.s st.s.remove sourcePath
        (getTargetDirName env
          (pathSplit (TrimPrefix sourcePath (st.s.sourcePath ++ PathSeparatorStr))).1) node).1 },
          st.allSourceStateEntries⟩,
        (addPatterns env st.s st.s.remove sourcePath
        (getTargetDirName env
          (pathSplit (TrimPrefix sourcePath (st.s.sourcePath ++ PathSeparatorStr))).1) node).2) := by
  have h1 : HasPrefix removeName dataName = false := by decide
  have h2 : removeName ≠ ignoreName := by decide
  unfold readWalkFn
  dsimp only
  rw [if_neg hpath, h1, if_neg (by simp), if_neg h2, if_pos rfl]

theorem readWalkFn_ignore (env : Env TD) (st : ReadState TD) (sourcePath : String) (node : Node)
    (hpath : sourcePath ≠ st.s.sourcePath) :
    readWalkFn env st sourcePath ignoreName node =
      ctlOfErr (⟨{ st.s with ignore := (addPatterns env st.s st.s.ignore sourcePath
          (pathSplit (TrimPrefix sourcePath (st.s.sourcePath ++ PathSeparatorStr))).1 node).1 },
          st.allSourceStateEntries⟩,
        (addPatterns env st.s st.s.ignore sourcePath
          (pathSplit (TrimPrefix sourcePath (st.s.sourcePath ++ PathSeparatorStr))).1 node).2) := by
  have h1 : HasPrefix ignoreName dataName = false := by decide
  unfold readWalkFn
  dsimp only
  rw [if_neg hpath, h1, if_neg (by simp), if_pos rfl]

end PatternWalk

/-! ## Lemmas for the order of applying -/

theorem strLt_child (p c : String) : strLt p (p ++ "/" ++ c) = true := by
  unfold strLt
  have : (p ++ "/" ++ c).toList = p.toList ++ '/' :: c.toList := by
    simp [String.toList, String.data_append]
  rw [this]
  exact lexLt_append _ _ _

theorem strLt_irrefl (a : String) : strLt a a = false := lexLt_irrefl _

theorem strLt_asymm (a b : String) (h : strLt a b = true) : strLt b a = false :=
  lexLt_asymm _ _ h

/-- In a strictly ascending list the smaller of two members comes first. -/
theorem before_of_strLt (l : List String) (h : l.Pairwise (fun a b => strLt a b = true))
    (a b : String) (ha : a ∈ l) (hb : b ∈ l) (hab : strLt a b = true) :
    ∃ l1 l2 l3, l = l1 ++ a :: l2 ++ b :: l3 := by
  obtain ⟨l1, r, hl⟩ := List.append_of_mem ha
  rw [hl] at hb h
  rw [List.pairwise_append] at h
  obtain ⟨_, h2, h3⟩ := h
  rcases List.mem_append.mp hb with hb1 | hb1
  · have := h3 b hb1 a (by simp)
    rw [strLt_asymm a b hab] at this
    cases this
  · rcases List.mem_cons.mp hb1 with hb2 | hb2
    · rw [hb2, strLt_irrefl] at hab
      cases hab
    · obtain ⟨l2, l3, hr⟩ := List.append_of_mem hb2
      exact ⟨l1, l2, l3, by rw [hl, hr]; simp⟩

/-! ## Lemmas on the target system in memory -/

theorem mapGet_filter_key {α : Type} (g : String → Bool) (l : List (String × α)) (k : String) :
    mapGet (l.filter (fun kv => g kv.1)) k = if g k = true then mapGet l k else none := by
  induction l with
  | nil => simp [mapGet]
  | cons hd tl ih =>
    obtain ⟨k1, v⟩ := hd
    by_cases h1 : g k1 = true
    · simp only [List.filter, h1, mapGet]
      by_cases h2 : k1 = k
      · rw [h2] at h1
        simp [h2, h1]
      · simp only [h2, if_false]
        exact ih
    · have h1f : g k1 = false := by simpa using h1
      simp only [List.filter, h1f, mapGet]
      by_cases h2 : k1 = k
      · rw [h2] at h1f
        rw [ih]
        simp [h2, h1f]
      · simp only [h2, if_false]
        exact ih

theorem childName_some (dir key b : String) (h : childName dir key = some b) :
    pathJoin [dir, b] = key := by
  unfold childName at h
  simp only at h
  split_ifs at h with hc
  simp only [Option.some.injEq] at h
  rw [← h]
  exact hc.2.2

theorem MemSystem.ReadDir_ok (system : MemSystem) (path : String) (names : List String)
    (h : system.ReadDir path = .ok names) :
    (∃ perm, mapGet system.nodes path = some (DestStateEntry.DestStateDir perm)) ∧
      names = system.nodes.filterMap (fun kv => childName path kv.1) := by
  unfold MemSystem.ReadDir at h
  split at h
  · rename_i perm hg
    simp only [Except.ok.injEq] at h
    exact ⟨⟨perm, hg⟩, h.symm⟩
  · cases h
  · cases h

/-- The `RemoveAll` of the system in memory leaves in a directory only children that were there
and whose path is not the removed one. -/
theorem memSystem_RemoveAll_law (includes : TargetStateEntry → Bool) (targetPath : String)
    (system system1 : MemSystem) (path : String) (names1 : List String)
    (hr : (memSystem includes).RemoveAll system path = (system1, none))
    (hd : (memSystem includes).ReadDir system1 targetPath = .ok names1) :
    ∃ names, (memSystem includes).ReadDir system targetPath = .ok names ∧
      ∀ b ∈ names1, b ∈ names ∧ pathJoin [targetPath, b] ≠ path := by
  simp only [memSystem, MemSystem.RemoveAll, Prod.mk.injEq, and_true] at hr hd ⊢
  obtain ⟨⟨perm, hg⟩, hn⟩ := MemSystem.ReadDir_ok system1 targetPath names1 hd
  rw [← hr] at hg hn
  simp only at hg hn
  rw [mapGet_filter_key (fun k => decide (k ≠ path) && !HasPrefix k (path ++ "/"))] at hg
  split_ifs at hg with hk
  refine ⟨system.nodes.filterMap (fun kv => childName targetPath kv.1), ?_, ?_⟩
  · unfold MemSystem.ReadDir
    rw [hg]
  · intro b hb
    rw [hn] at hb
    obtain ⟨kv, hkv, hc⟩ := List.mem_filterMap.mp hb
    rw [List.mem_filter] at hkv
    refine ⟨List.mem_filterMap.mpr ⟨kv, hkv.1, hc⟩, ?_⟩
    rw [childName_some targetPath kv.1 b hc]
    have := hkv.2
    simp only [Bool.and_eq_true, decide_eq_true_eq] at this
    exact this.1

/-! ## Lemmas on the dump system -/

theorem mem_mapSet {α : Type} (m : List (String × α)) (key : String) (v : α) (kv : String × α)
    (h : kv ∈ mapSet m key v) : kv ∈ m ∨ kv = (key, v) := by
  induction m with
  | nil =>
    simp only [mapSet, List.mem_singleton] at h
    exact Or.inr h
  | cons hd tl ih =>
    obtain ⟨k1, w⟩ := hd
    by_cases h1 : k1 = key
    · simp only [mapSet, h1, if_true, List.mem_cons] at h
      rcases h with h | h
      · exact Or.inr h
      · exact Or.inl (List.mem_cons_of_mem _ h)
    · simp only [mapSet, h1, if_false, List.mem_cons] at h
      rcases h with h | h
      · exact Or.inl (by rw [h]; exact List.mem_cons_self _ _)
      · rcases ih h with h2 | h2
        · exact Or.inl (List.mem_cons_of_mem _ h2)
        · exact Or.inr h2

/-- What holds of every value that a `DumpSystem` stores: its name is its key and its type tag is
the tag of its variant. -/
theorem DumpSystem.call_inv (s : DumpSystem) (c : DumpCall)
    (h : ∀ kv ∈ s.data, kv.2.Name = kv.1 ∧ kv.2.Type_ = kv.2.variantTag) :
    ∀ kv ∈ (s.call c).1.data, kv.2.Name = kv.1 ∧ kv.2.Type_ = kv.2.variantTag := by
  cases c with
  | Chmod name mode => exact h
  | Delete bucket key => exact h
  | RemoveAll name => exact h
  | Rename oldpath newpath => exact h
  | RunCmd => exact h
  | Set bucket key value => exact h
  | Mkdir dirname perm =>
    simp only [DumpSystem.call, DumpSystem.Mkdir]
    cases hg : mapGet s.data dirname with
    | some r => exact h
    | none =>
      intro kv hkv
      rcases mem_mapSet _ _ _ _ hkv with h1 | h1
      · exact h kv h1
      · rw [h1]
        exact ⟨rfl, rfl⟩
  | RunScript scriptname dir data =>
    simp only [DumpSystem.call, DumpSystem.RunScript]
    cases hg : mapGet s.data scriptname with
    | some r => exact h
    | none =>
      intro kv hkv
      rcases mem_mapSet _ _ _ _ hkv with h1 | h1
      · exact h kv h1
      · rw [h1]
        exact ⟨rfl, rfl⟩
  | WriteFile filename data perm =>
    simp only [DumpSystem.call, DumpSystem.WriteFile]
    cases hg : mapGet s.data filename with
    | some r => exact h
    | none =>
      intro kv hkv
      rcases mem_mapSet _ _ _ _ hkv with h1 | h1
      · exact h kv h1
      · rw [h1]
        exact ⟨rfl, rfl⟩
  | WriteSymlink oldname newname =>
    simp only [DumpSystem.call, DumpSystem.WriteSymlink]
    cases hg : mapGet s.data newname with
    | some r => exact h
    | none =>
      intro kv hkv
      rcases mem_mapSet _ _ _ _ hkv with h1 | h1
      · exact h kv h1
      · rw [h1]
        exact ⟨rfl, rfl⟩

theorem DumpSystem.calls_inv (cs : List DumpCall) (s : DumpSystem)
    (h : ∀ kv ∈ s.data, kv.2.Name = kv.1 ∧ kv.2.Type_ = kv.2.variantTag) :
    ∀ kv ∈ (s.calls cs).data, kv.2.Name = kv.1 ∧ kv.2.Type_ = kv.2.variantTag := by
  induction cs generalizing s with
  | nil => exact h
  | cons c rest ih => exact ih (s.call c).1 (DumpSystem.call_inv s c h)

/-! ## Lemmas on the modifiers of `chattr` -/

theorem setAttribute_error_iff (am : attributesModifier) (a : String) (bm : boolModifier) :
    (a ∉ attributes → setAttribute am a bm = .error (a ++ ": unknown attribute")) ∧
      (a ∈ attributes → ∃ am1, setAttribute am a bm = .ok am1) := by
  unfold setAttribute
  constructor
  · intro h
    simp only [attributes, List.mem_cons, List.mem_singleton, List.not_mem_nil, or_false,
      not_or] at h
    obtain ⟨h1, h2, h3, h4, h5, h6, h7, h8, h9, h10⟩ := h
    simp [h1, h2, h3, h4, h5, h6, h7, h8, h9, h10]
  · intro _
    split_ifs
    all_goals first | exact ⟨_, rfl⟩ | skip
    rename_i h1 h2 h3 h4 h5 h6
    simp only [attributes, List.mem_cons, List.mem_singleton, List.not_mem_nil, or_false] at *
    tauto

theorem splitModifier_snd (m : String) : (splitModifier m).2 = withoutSign m := by
  obtain ⟨l⟩ := m
  unfold splitModifier withoutSign HasPrefix TrimPrefix HasPrefix
  cases l with
  | nil => simp
  | cons c cs =>
    by_cases h1 : c = '-'
    · subst h1
      simp
    · by_cases h2 : c = '+'
      · subst h2
        simp
      · have h3 : ¬ '-' = c := fun h => h1 h.symm
        have h4 : ¬ '+' = c := fun h => h2 h.symm
        simp [h1, h2, h3, h4]
        split_ifs <;> rfl

theorem exists_first_split {α : Type} (p : α → Bool) (l : List α) (h : ∃ x ∈ l, p x = true) :
    ∃ pre item post, l = pre ++ item :: post ∧ (∀ x ∈ pre, p x = false) ∧ p item = true := by
  induction l with
  | nil =>
    obtain ⟨x, hx, _⟩ := h
    cases hx
  | cons a rest ih =>
    cases ha : p a with
    | true => exact ⟨[], a, rest, rfl, by simp, ha⟩
    | false =>
      have h2 : ∃ x ∈ rest, p x = true := by
        obtain ⟨x, hx, hpx⟩ := h
        rcases List.mem_cons.mp hx with h3 | h3
        · rw [h3, ha] at hpx
          cases hpx
        · exact ⟨x, h3, hpx⟩
      obtain ⟨pre, item, post, h3, h4, h5⟩ := ih h2
      refine ⟨a :: pre, item, post, by rw [h3]; rfl, ?_, h5⟩
      intro x hx
      rcases List.mem_cons.mp hx with h6 | h6
      · rw [h6]
        exact ha
      · exact h4 x h6

/-- One turn of the loop of `parseAttributesModifier` on a piece that is no unknown item. -/
theorem parseAttributesModifierLoop_known (piece : String) (rest : List String)
    (am : attributesModifier) (h : unknownItem (TrimSpace piece) = false) :
    ∃ am1, parseAttributesModifierLoop (piece :: rest) am = parseAttributesModifierLoop rest am1 := by
  simp only [parseAttributesModifierLoop]
  by_cases h1 : TrimSpace piece = ""
  · rw [if_pos h1]
    exact ⟨am, rfl⟩
  · rw [if_neg h1]
    have h2 : withoutSign (TrimSpace piece) ∈ attributes := by
      simpa [unknownItem, h1] using h
    rw [splitModifier_snd]
    obtain ⟨am1, h3⟩ := (setAttribute_error_iff am (withoutSign (TrimSpace piece))
      (splitModifier (TrimSpace piece)).1).2 h2
    rw [h3]
    exact ⟨am1, rfl⟩

theorem parseAttributesModifierLoop_ok (l : List String) (am : attributesModifier)
    (h : ∀ x ∈ l.map TrimSpace, unknownItem x = false) :
    ∃ am1, parseAttributesModifierLoop l am = .ok am1 := by
  induction l generalizing am with
  | nil => exact ⟨am, rfl⟩
  | cons piece rest ih =>
    obtain ⟨am1, h1⟩ := parseAttributesModifierLoop_known piece rest am
      (h _ (by simp))
    rw [h1]
    exact ih am1 (fun x hx => h x (by
      simp only [List.map_cons, List.mem_cons]
      exact Or.inr hx))

theorem parseAttributesModifierLoop_error (pre : List String) (item : String)
    (post : List String) (hpre : ∀ x ∈ pre, unknownItem x = false)
    (hitem : unknownItem item = true) (l : List String) (am : attributesModifier)
    (hl : l.map TrimSpace = pre ++ item :: post) :
    parseAttributesModifierLoop l am = .error (withoutSign item ++ ": unknown attribute") := by
  induction pre generalizing l am with
  | nil =>
    cases l with
    | nil => simp at hl
    | cons piece rest =>
      simp only [List.map_cons, List.nil_append, List.cons.injEq] at hl
      have h1 : TrimSpace piece ≠ "" ∧ withoutSign (TrimSpace piece) ∉ attributes := by
        rw [hl.1]
        simpa [unknownItem] using hitem
      simp only [parseAttributesModifierLoop]
      rw [if_neg h1.1, splitModifier_snd,
        (setAttribute_error_iff am _ (splitModifier (TrimSpace piece)).1).1 h1.2, hl.1]
  | cons x pre ih =>
    cases l with
    | nil => simp at hl
    | cons piece rest =>
      simp only [List.map_cons, List.cons_append, List.cons.injEq] at hl
      obtain ⟨am1, h1⟩ := parseAttributesModifierLoop_known piece rest am
        (by rw [hl.1]; exact hpre x (List.mem_cons_self _ _))
      rw [h1]
      exact ih (fun y hy => hpre y (List.mem_cons_of_mem _ hy)) rest am1 hl.2

theorem triState_modify (m : boolModifier) (b : Bool) : triState m b (m.modify b) := by
  cases m <;> simp [triState, boolModifier.modify]

/-! ## Lemmas on removing -/

theorem nodup_stringSet_Add (s : stringSet) (x : String) (h : s.Nodup) : (s.Add [x]).Nodup := by
  unfold stringSet.Add
  simp only [List.foldl_cons, List.foldl_nil]
  split_ifs with h1
  · exact h
  · exact List.Nodup.append h (List.nodup_singleton x) (by simpa using h1)

theorem mem_removeMatchLoop (m : Matcher) (remove : PatternSet) (pre : String)
    (found : List String) (set : stringSet) (p : String) :
    p ∈ removeMatchLoop m remove pre found set ↔
      p ∈ set ∨ (p ∈ found ∧ remove.Match m (TrimPrefix p pre) = true) := by
  induction found generalizing set with
  | nil => simp [removeMatchLoop]
  | cons a rest ih =>
    simp only [removeMatchLoop]
    cases hm : remove.Match m (TrimPrefix a pre) with
    | false =>
      simp only [Bool.not_false, if_true]
      rw [ih]
      constructor
      · rintro (h | h)
        · exact Or.inl h
        · exact Or.inr ⟨List.mem_cons_of_mem _ h.1, h.2⟩
      · rintro (h | ⟨h1, h2⟩)
        · exact Or.inl h
        · rcases List.mem_cons.mp h1 with h3 | h3
          · rw [h3, hm] at h2
            cases h2
          · exact Or.inr ⟨h3, h2⟩
    | true =>
      simp only [Bool.not_true, Bool.false_eq_true, if_false]
      rw [ih, mem_stringSet_Add]
      constructor
      · rintro ((h | h) | h)
        · exact Or.inl h
        · exact Or.inr ⟨by rw [h]; exact List.mem_cons_self _ _, by rw [h]; exact hm⟩
        · exact Or.inr ⟨List.mem_cons_of_mem _ h.1, h.2⟩
      · rintro (h | ⟨h1, h2⟩)
        · exact Or.inl (Or.inl h)
        · rcases List.mem_cons.mp h1 with h3 | h3
          · exact Or.inl (Or.inr h3)
          · exact Or.inr ⟨h3, h2⟩

theorem removeMatchLoop_nodup (m : Matcher) (remove : PatternSet) (pre : String)
    (found : List String) (set : stringSet) (h : set.Nodup) :
    (removeMatchLoop m remove pre found set).Nodup := by
  induction found generalizing set with
  | nil => exact h
  | cons a rest ih =>
    simp only [removeMatchLoop]
    split_ifs
    · exact ih set h
    · exact ih _ (nodup_stringSet_Add set a h)

/-- The loop of `Remove` over the include patterns, when no `Glob` fails: the set holds what it
held and the matches whose name relative to the target directory the remove set matches. -/
theorem removeGlobLoop_ok (m : Matcher) (remove : PatternSet)
    (glob : String → Except String (List String)) (targetDir : String) (includes : List String)
    (set set1 : stringSet)
    (h : removeGlobLoop m remove glob targetDir includes set = .ok set1) :
    (set.Nodup → set1.Nodup) ∧
      ∀ p, p ∈ set1 ↔ p ∈ set ∨ ∃ incl ∈ includes, ∃ found,
        glob (pathJoin [targetDir, incl]) = .ok found ∧ p ∈ found ∧
        remove.Match m (TrimPrefix p (targetDir ++ PathSeparatorStr)) = true := by
  induction includes generalizing set with
  | nil =>
    simp only [removeGlobLoop, Except.ok.injEq] at h
    subst h
    simp
  | cons incl rest ih =>
    simp only [removeGlobLoop] at h
    cases hg : glob (pathJoin [targetDir, incl]) with
    | error err =>
      rw [hg] at h
      cases h
    | ok found =>
      rw [hg] at h
      simp only at h
      obtain ⟨h1, h2⟩ := ih _ h
      refine ⟨fun hn => h1 (removeMatchLoop_nodup _ _ _ _ _ hn), ?_⟩
      intro p
      rw [h2, mem_removeMatchLoop]
      constructor
      · rintro ((h3 | h3) | ⟨i, hi, f, h4, h5⟩)
        · exact Or.inl h3
        · exact Or.inr ⟨incl, List.mem_cons_self _ _, found, hg, h3.1, h3.2⟩
        · exact Or.inr ⟨i, List.mem_cons_of_mem _ hi, f, h4, h5⟩
      · rintro (h3 | ⟨i, hi, f, h4, h5⟩)
        · exact Or.inl (Or.inl h3)
        · rcases List.mem_cons.mp hi with h6 | h6
          · rw [h6, hg] at h4
            simp only [Except.ok.injEq] at h4
            rw [← h4] at h5
            exact Or.inl (Or.inr h5)
          · exact Or.inr ⟨i, h6, f, h4, h5⟩

/-- The loop of `Remove` over the include patterns fails exactly when a `Glob` fails. -/
theorem removeGlobLoop_error_iff (m : Matcher) (remove : PatternSet)
    (glob : String → Except String (List String)) (targetDir : String) (includes : List String)
    (set : stringSet) :
    (∃ err, removeGlobLoop m remove glob targetDir includes set = .error err) ↔
      ∃ incl ∈ includes, ∃ err, glob (pathJoin [targetDir, incl]) = .error err := by
  induction includes generalizing set with
  | nil => simp [removeGlobLoop]
  | cons incl rest ih =>
    simp only [removeGlobLoop]
    cases hg : glob (pathJoin [targetDir, incl]) with
    | error err =>
      simp only [Except.error.injEq, exists_eq', true_iff]
      exact ⟨incl, List.mem_cons_self _ _, err, hg⟩
    | ok found =>
      simp only
      rw [ih]
      constructor
      · rintro ⟨i, hi, e, he⟩
        exact ⟨i, List.mem_cons_of_mem _ hi, e, he⟩
      · rintro ⟨i, hi, e, he⟩
        rcases List.mem_cons.mp hi with h6 | h6
        · rw [h6, hg] at he
          cases he
        · exact ⟨i, h6, e, he⟩

/-- The loop of `Remove` over the sorted paths calls `RemoveAll` on a beginning of the paths: on
all of them when it ends without an error, and otherwise up to the first call that fails. -/
theorem removeAllLoop_spec {σ : Type} (RemoveAll : σ → String → σ × Option String)
    (paths : List String) (system : σ) (removed : List String) :
    ∃ l, l <+: paths ∧ (removeAllLoop RemoveAll paths system removed).removed = removed ++ l ∧
      ((removeAllLoop RemoveAll paths system removed).err = none → l = paths) ∧
      ∀ e, (removeAllLoop RemoveAll paths system removed).err = some e →
        ∃ pre p msg, l = pre ++ [p] ∧ (removeAllLoop RemoveAll pre system removed).err = none ∧
          RemoveAll (removeAllLoop RemoveAll pre system removed).system p =
            ((removeAllLoop RemoveAll paths system removed).system, some msg) ∧
          e = Error.text msg := by
  induction paths generalizing system removed with
  | nil => exact ⟨[], List.prefix_refl _, by simp [removeAllLoop], fun _ => rfl,
      fun e he => by simp [removeAllLoop] at he⟩
  | cons p rest ih =>
    simp only [removeAllLoop]
    rcases hr : RemoveAll system p with ⟨system1, e1⟩
    cases e1 with
    | some msg =>
      refine ⟨[p], List.prefix_iff_eq_take.mpr (by simp), rfl, fun h => by simp at h, ?_⟩
      intro e he
      simp only [Option.some.injEq] at he
      exact ⟨[], p, msg, rfl, rfl, by simpa [removeAllLoop] using hr, he.symm⟩
    | none =>
      simp only
      obtain ⟨l, hl1, hl2, hl3, hl4⟩ := ih system1 (removed ++ [p])
      refine ⟨p :: l, (List.prefix_cons_inj p).mpr hl1, by rw [hl2]; simp,
        fun h => by rw [hl3 h], ?_⟩
      intro e he
      obtain ⟨pre, q, msg, h1, h2, h3, h4⟩ := hl4 e he
      refine ⟨p :: pre, q, msg, by rw [h1]; rfl, ?_, ?_, h4⟩
      · simp only [removeAllLoop, hr]
        exact h2
      · simp only [removeAllLoop, hr]
        exact h3

theorem TrimPrefix_append (a b : String) : TrimPrefix (a ++ b) a = b := by
  unfold TrimPrefix HasPrefix
  have h : (a ++ b).toList = a.toList ++ b.toList := by
    simp [String.toList]
  rw [h]
  simp

/-- Every path on which `Remove` calls `RemoveAll` was found by a `Glob` for an include pattern
of the remove set, and the remove set matches its name relative to the target directory. -/
theorem Remove_removed {TD σ : Type} (env : Env TD) (s : SourceState TD)
    (Glob : σ → String → Except String (List String))
    (RemoveAll : σ → String → σ × Option String) (system : σ) (targetDir : String) (p : String)
    (hp : p ∈ (Remove env s Glob RemoveAll system targetDir).removed) :
    ∃ incl ∈ s.remove.includes, ∃ found,
      Glob system (pathJoin [targetDir, incl]) = .ok found ∧ p ∈ found ∧
      s.remove.Match env.doublestarMatch (TrimPrefix p (targetDir ++ PathSeparatorStr)) = true := by
  unfold Remove at hp
  cases hg : removeGlobLoop env.doublestarMatch s.remove (Glob system) targetDir
      s.remove.includes [] with
  | error err =>
    rw [hg] at hp
    cases hp
  | ok set1 =>
    rw [hg] at hp
    simp only at hp
    obtain ⟨l, hl1, hl2, _, _⟩ := removeAllLoop_spec RemoveAll (sortStrings set1) system []
    rw [hl2, List.nil_append] at hp
    have h1 : p ∈ set1 := (sortStrings_perm set1).mem_iff.mp (hl1.subset hp)
    rcases ((removeGlobLoop_ok _ _ _ _ _ _ _ hg).2 p).mp h1 with h2 | h2
    · cases h2
    · exact h2

/-! ## Lemmas on template data -/

theorem Fields.get_set : ∀ (fields : Fields) (key : String) (v : Value) (k : String),
    (fields.set key v).get k = if k = key then some v else fields.get k
  | .nil, key, v, k => by
    by_cases h : k = key
    · simp [Fields.set, Fields.get, h]
    · simp [Fields.set, Fields.get, h, Ne.symm h]
  | .cons k1 w rest, key, v, k => by
    have ih := Fields.get_set rest key v k
    by_cases h1 : k1 = key
    · by_cases h2 : k = key
      · simp [Fields.set, Fields.get, h1, h2]
      · simp [Fields.set, Fields.get, h1, h2, Ne.symm h2]
    · by_cases h2 : k1 = k
      · have h3 : k ≠ key := fun h => h1 (h2.trans h)
        simp [Fields.set, Fields.get, h1, h2, h3]
      · simp [Fields.set, Fields.get, h1, h2, ih]

mutual
theorem mergeValue_keeps : ∀ (value : Value) (old : Option Value),
    (∀ text, value = .leaf text → mergeValue old value = .leaf text) ∧
      ∀ fields, value = .mapping fields → ∃ merged, mergeValue old value = .mapping merged ∧
        ∀ path v, fields.leafAt path = some v → merged.leafAt path = some v
  | .leaf text, old => by
    refine ⟨fun t h => ?_, fun f h => by cases h⟩
    cases h
    simp [mergeValue]
  | .mapping fields, old => by
    refine ⟨fun t h => (by cases h), fun f h => ?_⟩
    cases h
    cases old with
    | none => exact ⟨fields, by simp [mergeValue], fun _ _ h => h⟩
    | some o =>
      cases o with
      | leaf t => exact ⟨fields, by simp [mergeValue], fun _ _ h => h⟩
      | mapping oldFields =>
        exact ⟨specRecursiveMerge oldFields fields, by simp [mergeValue],
          specRecursiveMerge_keeps fields oldFields⟩
theorem specRecursiveMerge_keeps : ∀ (source dest : Fields) (path : List String) (v : String),
    source.leafAt path = some v → (specRecursiveMerge dest source).leafAt path = some v
  | .nil, dest, path, v, h => by
    cases path with
    | nil => simp [Fields.leafAt] at h
    | cons k rest =>
      cases rest <;> simp [Fields.leafAt, Fields.get] at h
  | .cons key value rest, dest, path, v, h => by
    have hv := mergeValue_keeps value ((specRecursiveMerge dest rest).get key)
    have hr := specRecursiveMerge_keeps rest dest
    cases path with
    | nil => simp [Fields.leafAt] at h
    | cons k path1 =>
      by_cases hk : key = k
      · subst hk
        cases path1 with
        | nil =>
          simp only [Fields.leafAt, Fields.get, if_true] at h
          cases value with
          | leaf text =>
            simp only [Option.some.injEq] at h
            simp only [specRecursiveMerge, Fields.leafAt, Fields.get_set, if_true,
              hv.1 text rfl]
            rw [h]
          | mapping fields => simp at h
        | cons k2 path2 =>
          simp only [Fields.leafAt, Fields.get, if_true] at h
          cases value with
          | leaf text => simp at h
          | mapping fields =>
            simp only at h
            obtain ⟨merged, h1, h2⟩ := hv.2 fields rfl
            simp only [specRecursiveMerge, Fields.leafAt, Fields.get_set, if_true, h1]
            exact h2 _ _ h
      · have hk2 : ¬ k = key := fun h => hk h.symm
        have h3 : (Fields.cons key value rest).leafAt (k :: path1) = rest.leafAt (k :: path1) := by
          cases path1 <;> simp [Fields.leafAt, Fields.get, hk]
        rw [h3] at h
        have h4 := hr (k :: path1) v h
        have h5 : (specRecursiveMerge dest (Fields.cons key value rest)).leafAt (k :: path1) =
            (specRecursiveMerge dest rest).leafAt (k :: path1) := by
          cases path1 <;> simp [specRecursiveMerge, Fields.leafAt, Fields.get_set, hk2]
        rw [h5]
        exact h4
end

/-- A step that touches the template data ends with the merge of the priority data into the
template data, or, when a load fails, leaves the state. -/
theorem DataStep.run_merged (env : Env Fields) (s : SourceState Fields) (step : DataStep Fields) :
    step.run env s = s ∨ ∃ data,
      (step.run env s).templateData =
        env.recursiveMerge data (step.run env s).priorityTemplateData := by
  cases step with
  | WithTemplateData templateData => exact Or.inr ⟨_, rfl⟩
  | WithPriorityTemplateData priorityTemplateData => exact Or.inr ⟨_, rfl⟩
  | addTemplateData sourcePath node =>
    simp only [DataStep.run]
    unfold Chezmoi.addTemplateData
    dsimp only
    split
    · exact Or.inl rfl
    · split
      · exact Or.inl rfl
      · split
        · exact Or.inl rfl
        · exact Or.inr ⟨_, rfl⟩

/-! ## Lemmas on the minimum version -/

section VersionWalk

variable {TD : Type}

theorem HasPrefix_trans (s p q : String) (h1 : HasPrefix s p = true) (h2 : HasPrefix p q = true) :
    HasPrefix s q = true := by
  unfold HasPrefix at *
  rw [List.isPrefixOf_iff_prefix] at *
  exact h2.trans h1

theorem HasPrefix_refl (s : String) : HasPrefix s s = true := by
  unfold HasPrefix
  rw [List.isPrefixOf_iff_prefix]

theorem ctlOfErr_ne_skipDir {σ : Type} (r : σ × Option Error) : (ctlOfErr r).2 ≠ Ctl.skipDir := by
  unfold ctlOfErr
  split <;> simp

theorem readWalkFn_versionName (env : Env TD) (st : ReadState TD) (sourcePath : String)
    (node : Node) (hpath : sourcePath ≠ st.s.sourcePath) :
    readWalkFn env st sourcePath versionName node =
      ctlOfErr (⟨(addVersionFile env st.s sourcePath node).1, st.allSourceStateEntries⟩,
        (addVersionFile env st.s sourcePath node).2) := by
  have h1 : HasPrefix versionName dataName = false := by decide
  have h2 : versionName ≠ ignoreName := by decide
  have h3 : versionName ≠ removeName := by decide
  have h4 : versionName ≠ templatesDirName := by decide
  unfold readWalkFn
  dsimp only
  rw [if_neg hpath, h1, if_neg (by simp), if_neg h2, if_neg h3, if_neg h4, if_pos rfl]

/-- What a successful `addVersionFile` does: the file holds a version, and the minimum version is
raised to it. -/
theorem addVersionFile_ok (env : Env TD) (s : SourceState TD) (sourcePath : String) (node : Node)
    (h : (addVersionFile env s sourcePath node).2 = none) :
    ∃ v, versionOf env (sourcePath, node) = some v ∧
      (addVersionFile env s sourcePath node).1.minVersion =
        raiseVersion env.LessThan s.minVersion v ∧
      (addVersionFile env s sourcePath node).1.sourcePath = s.sourcePath ∧
      node.IsDir = false := by
  unfold addVersionFile at h ⊢
  unfold versionOf
  cases hr : node.ReadFile sourcePath with
  | error err =>
    rw [hr] at h
    simp at h
  | ok data =>
    have hdir : node.IsDir = false := by
      cases node with
      | dir children => simp [Node.ReadFile] at hr
      | file c => rfl
      | other m r => rfl
    rw [hr] at h
    simp only at h ⊢
    cases hv : env.NewVersion (TrimSpace data) with
    | error err =>
      rw [hv] at h
      simp at h
    | ok version =>
      simp only
      refine ⟨version, rfl, ?_, ?_, hdir⟩
      · unfold raiseVersion
        split_ifs <;> rfl
      · split_ifs <;> rfl


/-- A step of the walk on an entry that is no `.chezmoiversion` file keeps the minimum version. -/
theorem readWalkFn_minVersion (env : Env TD) (st : ReadState TD) (sourcePath name : String)
    (node : Node) (h : sourcePath = st.s.sourcePath ∨ name ≠ versionName) :
    (readWalkFn env st sourcePath name node).1.s.minVersion = st.s.minVersion := by
  refine readWalkFn_cases env st sourcePath name node
    (fun r => r.1.s.minVersion = st.s.minVersion) ?_ ?_ ?_ ?_ ?_ ?_ ?_ ?_ ?_
  · intro _
    rfl
  · intro _ _
    rw [ctlOfErr_fst]
    exact addTemplateData_frame (fun s => s.minVersion) (fun _ _ => rfl) env st.s sourcePath node
  · intro _ _ r _
    rw [ctlOfErr_fst]
  · intro _ _ r _
    rw [ctlOfErr_fst]
  · intro _ _ s1 e hr
    have hf := addTemplatesDir_frame (fun s => s.minVersion) (fun _ _ => rfl) env st.s sourcePath
      name node
    rw [hr] at hf
    exact hf
  · intro hp hn
    rcases h with h | h
    · exact absurd h hp
    · exact absurd hn h
  · intro _ _
    rfl
  · intro _ _ _ targetName sourceStateEntry _
    split_ifs <;> rfl
  · intro _ _ _ _
    rfl

theorem raiseFold_mem (lt : Version → Version → Bool) (vs : List Version) (cur : Version) :
    vs.foldl (raiseVersion lt) cur ∈ cur :: vs := by
  induction vs generalizing cur with
  | nil => simp
  | cons v rest ih =>
    simp only [List.foldl_cons]
    rcases List.mem_cons.mp (ih (raiseVersion lt cur v)) with h | h
    · rw [h]
      unfold raiseVersion
      split_ifs <;> simp
    · exact List.mem_cons_of_mem _ (List.mem_cons_of_mem _ h)

theorem raiseFold_ge (lt : Version → Version → Bool)
    (htrans : ∀ a b c, lt a b = true → lt b c = true → lt a c = true) (vs : List Version)
    (cur : Version) :
    vs.foldl (raiseVersion lt) cur = cur ∨ lt cur (vs.foldl (raiseVersion lt) cur) = true := by
  induction vs generalizing cur with
  | nil => exact Or.inl rfl
  | cons v rest ih =>
    simp only [List.foldl_cons]
    by_cases h : lt cur v = true
    · have h1 : raiseVersion lt cur v = v := by simp [raiseVersion, h]
      rw [h1]
      rcases ih v with h2 | h2
      · rw [h2]
        exact Or.inr h
      · exact Or.inr (htrans _ _ _ h h2)
    · have h1 : raiseVersion lt cur v = cur := by simp [raiseVersion, h]
      rw [h1]
      exact ih cur

theorem raiseFold_max (lt : Version → Version → Bool) (hirr : ∀ a, lt a a = false)
    (htrans : ∀ a b c, lt a b = true → lt b c = true → lt a c = true) (vs : List Version)
    (cur : Version) : ∀ x ∈ cur :: vs, lt (vs.foldl (raiseVersion lt) cur) x = false := by
  induction vs generalizing cur with
  | nil =>
    intro x hx
    simp only [List.mem_singleton] at hx
    rw [hx]
    exact hirr cur
  | cons v rest ih =>
    intro x hx
    simp only [List.foldl_cons]
    have hnot : ∀ a b, lt a b = false ∨ lt a b = true := fun a b => by cases lt a b <;> simp
    by_cases h : lt cur v = true
    · have h1 : raiseVersion lt cur v = v := by simp [raiseVersion, h]
      rw [h1]
      rcases List.mem_cons.mp hx with h2 | h2
      · rw [h2]
        rcases hnot (rest.foldl (raiseVersion lt) v) cur with h3 | h3
        · exact h3
        · have h4 := htrans _ _ _ h3 h
          rw [ih v v (List.mem_cons_self _ _)] at h4
          cases h4
      · exact ih v x h2
    · have h1 : raiseVersion lt cur v = cur := by simp [raiseVersion, h]
      rw [h1]
      rcases List.mem_cons.mp hx with h2 | h2
      · rw [h2]
        exact ih cur cur (List.mem_cons_self _ _)
      · rcases List.mem_cons.mp h2 with h3 | h3
        · rw [h3]
          rcases hnot (rest.foldl (raiseVersion lt) cur) v with h4 | h4
          · exact h4
          · rcases raiseFold_ge lt htrans rest cur with h5 | h5
            · rw [h5] at h4
              exact absurd h4 h
            · exact absurd (htrans _ _ _ h5 h4) h
        · exact ih cur x (List.mem_cons_of_mem _ h3)

/-- The step of `addVersionFile` keeps the minimum version or raises it. -/
theorem addVersionFile_raises (env : Env TD) (s : SourceState TD) (sourcePath : String)
    (node : Node) :
    (addVersionFile env s sourcePath node).1.minVersion = s.minVersion ∨
      env.LessThan s.minVersion (addVersionFile env s sourcePath node).1.minVersion = true := by
  unfold addVersionFile
  split
  · exact Or.inl rfl
  · split
    · exact Or.inl rfl
    · split_ifs with h
      · exact Or.inr h
      · exact Or.inl rfl

/-- The minimum version when `Read` returns, after a walk that did not fail. -/
theorem plainEnv_LessThan_irrefl (a : Version) : plainEnv.LessThan a a = false := by
  simp [plainEnv]

theorem plainEnv_LessThan_trans (a b c : Version) (h1 : plainEnv.LessThan a b = true)
    (h2 : plainEnv.LessThan b c = true) : plainEnv.LessThan a c = true := by
  simp only [plainEnv, decide_eq_true_eq] at *
  omega

end VersionWalk

/-! ## Lemmas on the end of `ApplyAll` -/

theorem applyLoop_append {TD σ δ : Type} (env : Env TD) (s : SourceState TD)
    (sys : TargetSystem σ δ) (targetDir : String) (umask : Nat) (l1 l2 : List String)
    (acc : ApplyResult σ)
    (h : (applyLoop env s sys targetDir umask l1 acc).err = none) (hacc : acc.err = none) :
    applyLoop env s sys targetDir umask (l1 ++ l2) acc =
      applyLoop env s sys targetDir umask l2 (applyLoop env s sys targetDir umask l1 acc) := by
  induction l1 generalizing acc with
  | nil =>
    obtain ⟨system, err, applied, removed⟩ := acc
    simp only at hacc
    subst hacc
    simp [applyLoop]
  | cons name rest ih =>
    simp only [List.cons_append, applyLoop] at h ⊢
    cases he : (ApplyOne env s sys acc.system targetDir name umask).err with
    | some err =>
      rw [he] at h
      simp at h
    | none =>
      rw [he] at h
      simp only at h ⊢
      exact ih _ h rfl

/-! ## Lemmas on parsing modifiers as a fold -/

theorem splitModifier_fst (m : String) : (splitModifier m).1 = signOf m := by
  obtain ⟨l⟩ := m
  unfold splitModifier signOf HasPrefix
  cases l with
  | nil => simp
  | cons c cs =>
    by_cases h1 : c = '-'
    · subst h1
      simp
    · by_cases h2 : c = '+'
      · subst h2
        simp
      · have h3 : ¬ '-' = c := fun h => h1 h.symm
        have h4 : ¬ '+' = c := fun h => h2 h.symm
        simp [h1, h2, h3, h4]
        split_ifs <;> rfl

theorem setAttribute_eq (am : attributesModifier) (a : String) (bm : boolModifier) :
    setAttribute am a bm =
      if a ∈ attributes then .ok (am.overwrite a bm)
      else .error (a ++ ": unknown attribute") := by
  by_cases h : a ∈ attributes
  · rw [if_pos h]
    simp only [attributes, List.mem_cons, List.mem_singleton, List.not_mem_nil, or_false] at h
    rcases h with h | h | h | h | h | h | h | h | h | h <;> subst h <;>
      simp [setAttribute, attributesModifier.overwrite]
  · rw [if_neg h]
    exact (setAttribute_error_iff am a bm).1 h

theorem foldl_foldItem_error (items : List String) (err : String) :
    items.foldl foldItem (.error err) = .error err := by
  induction items with
  | nil => rfl
  | cons item rest ih => simpa [foldItem] using ih

/-- The loop of `parseAttributesModifier` is the fold over the trimmed items that are not
empty. -/
theorem parseAttributesModifierLoop_fold (pieces : List String) (am : attributesModifier) :
    parseAttributesModifierLoop pieces am =
      ((pieces.map TrimSpace).filter (fun item => decide (item ≠ ""))).foldl foldItem (.ok am) := by
  induction pieces generalizing am with
  | nil => rfl
  | cons piece rest ih =>
    simp only [parseAttributesModifierLoop, List.map_cons]
    by_cases h : TrimSpace piece = ""
    · rw [if_pos h, ih]
      simp [List.filter, h]
    · rw [if_neg h, splitModifier_snd, splitModifier_fst, setAttribute_eq]
      have hf : List.filter (fun item => decide (item ≠ "")) (TrimSpace piece ::
          List.map TrimSpace rest) = TrimSpace piece ::
          List.filter (fun item => decide (item ≠ "")) (List.map TrimSpace rest) := by
        simp [List.filter, h]
      rw [hf, List.foldl_cons]
      by_cases h2 : withoutSign (TrimSpace piece) ∈ attributes
      · simp only [h2, if_true, foldItem]
        exact ih _
      · simp only [h2, if_false, foldItem]
        rw [foldl_foldItem_error]

/-! ## Lemmas on what the dump system keeps -/

theorem mapGet_mapSet_absent {α : Type} (m : List (String × α)) (key : String) (v : α)
    (k : String) (r : α) (hkey : mapGet m key = none) (hk : mapGet m k = some r) :
    mapGet (mapSet m key v) k = some r := by
  rw [mapGet_mapSet]
  have hne : k ≠ key := by
    intro h
    rw [h, hkey] at hk
    cases hk
  rw [if_neg hne]
  exact hk

/-- A call never changes what is recorded under a key. -/
theorem DumpSystem.call_keeps (s : DumpSystem) (c : DumpCall) (k : String) (r : DumpData)
    (h : mapGet s.data k = some r) : mapGet (s.call c).1.data k = some r := by
  cases c with
  | Chmod name mode => exact h
  | Delete bucket key => exact h
  | RemoveAll name => exact h
  | Rename oldpath newpath => exact h
  | RunCmd => exact h
  | Set bucket key value => exact h
  | Mkdir dirname perm =>
    simp only [DumpSystem.call, DumpSystem.Mkdir]
    cases hg : mapGet s.data dirname with
    | some r1 => exact h
    | none => exact mapGet_mapSet_absent _ _ _ _ _ hg h
  | RunScript scriptname dir data =>
    simp only [DumpSystem.call, DumpSystem.RunScript]
    cases hg : mapGet s.data scriptname with
    | some r1 => exact h
    | none => exact mapGet_mapSet_absent _ _ _ _ _ hg h
  | WriteFile filename data perm =>
    simp only [DumpSystem.call, DumpSystem.WriteFile]
    cases hg : mapGet s.data filename with
    | some r1 => exact h
    | none => exact mapGet_mapSet_absent _ _ _ _ _ hg h
  | WriteSymlink oldname newname =>
    simp only [DumpSystem.call, DumpSystem.WriteSymlink]
    cases hg : mapGet s.data newname with
    | some r1 => exact h
    | none => exact mapGet_mapSet_absent _ _ _ _ _ hg h

theorem DumpSystem.calls_keep (cs : List DumpCall) (s : DumpSystem) (k : String) (r : DumpData)
    (h : mapGet s.data k = some r) : mapGet (s.calls cs).data k = some r := by
  induction cs generalizing s with
  | nil => exact h
  | cons c rest ih => exact ih (s.call c).1 (DumpSystem.call_keeps s c k r h)

theorem mem_mapKeys_iff_mapGet {α : Type} (m : List (String × α)) (k : String) :
    k ∈ mapKeys m ↔ ∃ v, mapGet m k = some v := by
  constructor
  · intro h
    cases hg : mapGet m k with
    | none => exact absurd h ((mapGet_eq_none_iff m k).mp hg)
    | some v => exact ⟨v, rfl⟩
  · rintro ⟨v, hv⟩
    by_contra hn
    rw [(mapGet_eq_none_iff m k).mpr hn] at hv
    cases hv

/-! ## Lemmas on the memo of a source file -/

theorem SourceStateFile.TargetStateEntry_nil {ω : Type} (s : SourceStateFile ω) (world : ω)
    (h : s.targetStateEntryFunc = none) :
    s.TargetStateEntry world = ⟨s, world, (s.targetStateEntry, s.targetStateEntryErr), 0⟩ := by
  unfold SourceStateFile.TargetStateEntry
  rw [h]

theorem SourceStateFile.TargetStateEntry_stored {ω : Type} (s : SourceStateFile ω) (world : ω) :
    (s.TargetStateEntry world).file.targetStateEntryFunc = none ∧
      ((s.TargetStateEntry world).file.targetStateEntry,
        (s.TargetStateEntry world).file.targetStateEntryErr) = (s.TargetStateEntry world).result ∧
      (s.TargetStateEntry world).invoked ≤ 1 ∧
      ((s.TargetStateEntry world).invoked = 1 ↔ s.targetStateEntryFunc ≠ none) := by
  unfold SourceStateFile.TargetStateEntry
  cases h : s.targetStateEntryFunc with
  | none => simp [h]
  | some f => simp

theorem SourceStateFile.calls_nil {ω : Type} (n : Nat) (s : SourceStateFile ω) (world : ω)
    (h : s.targetStateEntryFunc = none) :
    s.calls world n =
      (s, world, List.replicate n (s.targetStateEntry, s.targetStateEntryErr), 0) := by
  induction n with
  | zero => rfl
  | succ n ih =>
    simp only [SourceStateFile.calls, SourceStateFile.TargetStateEntry_nil s world h, ih,
      List.replicate_succ]

/-! ## Lemmas on `PathJoin` -/

theorem cleanChars_rooted (p : List Char) (h : p.head? = some '/') :
    (cleanChars p).head? = some '/' := by
  unfold cleanChars
  have hne : p ≠ [] := by
    intro h0
    rw [h0] at h
    cases h
  simp [hne, h]

theorem IsAbs_pathClean (p : String) (h : IsAbs p = true) : IsAbs (pathClean p) = true := by
  unfold IsAbs at *
  unfold pathClean
  simp only [decide_eq_true_eq] at *
  exact cleanChars_rooted _ h

/-- What `PathJoin` returns is the cleaned file when the file is absolute, and the cleaned join of
the directory and the file otherwise; it is absolute when the file or the directory is. -/
theorem PathJoin_spec (dir file : String) :
    (IsAbs file = true → PathJoin dir file = pathClean file ∧ IsAbs (PathJoin dir file) = true) ∧
    (IsAbs file = false → PathJoin dir file = pathClean (pathJoin [dir, file])) ∧
    (IsAbs file = false → IsAbs dir = true → IsAbs (PathJoin dir file) = true) := by
  refine ⟨fun h => ?_, fun h => ?_, fun h hd => ?_⟩
  · have heq : PathJoin dir file = pathClean file := by
      unfold PathJoin
      simp [h]
    exact ⟨heq, by rw [heq]; exact IsAbs_pathClean _ h⟩
  · unfold PathJoin
    simp [h]
  · have heq : PathJoin dir file = pathClean (pathJoin [dir, file]) := by
      unfold PathJoin
      simp [h]
    rw [heq]
    apply IsAbs_pathClean
    have hdne : dir ≠ "" := by
      intro h0
      rw [h0] at hd
      revert hd
      decide
    unfold pathJoin
    simp only [List.dropWhile, hdne, decide_False]
    unfold IsAbs at *
    simp only [decide_eq_true_eq] at *
    apply cleanChars_rooted
    simp only [List.map, joinSlash]
    cases hl : dir.toList with
    | nil => rw [hl] at hd; cases hd
    | cons c cs =>
      rw [hl] at hd
      simpa using hd

/-! ## Lemmas on the entries that `Read` skips -/

theorem readWalkFn_skipped {TD : Type} (env : Env TD) (st : ReadState TD)
    (sourcePath name : String) (node : Node)
    (hname : HasPrefix name ChezmoiPrefix = true ∨ HasPrefix name ignorePrefix = true)
    (hdata : HasPrefix name dataName = false) (hignore : name ≠ ignoreName)
    (hremove : name ≠ removeName) (htemplates : name ≠ templatesDirName)
    (hversion : name ≠ versionName) (hpath : sourcePath ≠ st.s.sourcePath) :
    readWalkFn env st sourcePath name node =
      (st, if node.IsDir then Ctl.skipDir else Ctl.next) := by
  unfold readWalkFn
  dsimp only
  rw [if_neg hpath, hdata, if_neg (by simp), if_neg hignore, if_neg hremove, if_neg htemplates,
    if_neg hversion, if_pos hname]
  cases node <;> rfl

theorem walk_skipped {TD : Type} (env : Env TD) (st : ReadState TD)
    (sourcePath name : String) (node : Node)
    (hname : HasPrefix name ChezmoiPrefix = true ∨ HasPrefix name ignorePrefix = true)
    (hdata : HasPrefix name dataName = false) (hignore : name ≠ ignoreName)
    (hremove : name ≠ removeName) (htemplates : name ≠ templatesDirName)
    (hversion : name ≠ versionName) (hpath : sourcePath ≠ st.s.sourcePath) :
    walk (readWalkFn env) sourcePath name node st = (st, Ctl.next) := by
  have h := readWalkFn_skipped env st sourcePath name node hname hdata hignore hremove htemplates
    hversion hpath
  cases node <;> rw [walk, h] <;> rfl

theorem walk_sourcePath {TD : Type} (env : Env TD) (node : Node) (path name : String)
    (st : ReadState TD) :
    (walk (readWalkFn env) path name node st).1.s.sourcePath = st.s.sourcePath :=
  walk_inv (readWalkFn env) (fun st1 => st1.s.sourcePath = st.s.sourcePath) (fun _ _ => true)
    (fun st1 path name node _ hp => by
      simp only at hp ⊢
      rw [readWalkFn_sourcePath, hp])
    node path name st (Entries.all_true_aux.1 node name) rfl

/-- The walk of a directory does not change when two lists of later children are exchanged that
are walked alike from every state with the source path of the state at hand. -/
theorem walkEntries_append_congr {TD : Type} (env : Env TD) (dirPath sp : String)
    (x y : Entries)
    (h : ∀ st : ReadState TD, st.s.sourcePath = sp →
      walkEntries (readWalkFn env) dirPath x st = walkEntries (readWalkFn env) dirPath y st) :
    ∀ (pre : Entries) (st : ReadState TD), st.s.sourcePath = sp →
      walkEntries (readWalkFn env) dirPath (pre.append x) st =
        walkEntries (readWalkFn env) dirPath (pre.append y) st
  | Entries.nil, st, hsp => by
    simp only [Entries.append]
    exact h st hsp
  | Entries.cons name node pre, st, hsp => by
    have hp := walk_sourcePath env node (pathJoin [dirPath, name]) name st
    simp only [Entries.append]
    rw [walkEntries, walkEntries]
    rcases hr : walk (readWalkFn env) (pathJoin [dirPath, name]) name node st with ⟨st1, c1⟩
    rw [hr] at hp
    cases c1
    · exact walkEntries_append_congr env dirPath sp x y h pre st1 (hp.trans hsp)
    · rfl
    · rfl

/-! ## Lemmas on the calls of the walk function -/

mutual
/-- When the walk function returns an error, or `SkipDir`, at a call on a file that is no
directory, the walk ends there and returns it. -/
theorem walkVisits_stop {σ : Type} (fn : σ → String → String → Node → σ × Ctl)
    (v : σ × String × String × Node) (s2 : σ) (c : Ctl)
    (hv : fn v.1 v.2.1 v.2.2.1 v.2.2.2 = (s2, c)) (hc : c ≠ Ctl.next)
    (hfile : v.2.2.2.IsDir = false) :
    ∀ (node : Node) (path name : String) (s : σ), v ∈ walkVisits fn path name node s →
      walk fn path name node s = (s2, c)
  | Node.file contents, path, name, s, hmem => by
    rw [walkVisits] at hmem
    rw [walk]
    simp only [List.mem_cons, List.not_mem_nil, or_false] at hmem
    rw [hmem] at hv
    exact hv
  | Node.other m r, path, name, s, hmem => by
    rw [walkVisits] at hmem
    rw [walk]
    simp only [List.mem_cons, List.not_mem_nil, or_false] at hmem
    rw [hmem] at hv
    exact hv
  | Node.dir es, path, name, s, hmem => by
    rw [walkVisits] at hmem
    rw [walk]
    have hhead : v ≠ (s, path, name, Node.dir es) := by
      intro h
      rw [h] at hfile
      simp [Node.IsDir] at hfile
    rcases hr : fn s path name (Node.dir es) with ⟨s1, c1⟩
    rw [hr] at hmem
    cases c1
    · simp only [List.mem_cons] at hmem
      rcases hmem with hmem | hmem
      · exact absurd hmem hhead
      · exact walkEntriesVisits_stop fn v s2 c hv hc hfile es path s1 hmem
    · simp only [List.mem_cons, List.not_mem_nil, or_false] at hmem
      exact absurd hmem hhead
    · simp only [List.mem_cons] at hmem
      rcases hmem with hmem | hmem
      · exact absurd hmem hhead
      · exact walkEntriesVisits_stop fn v s2 c hv hc hfile es path s1 hmem
theorem walkEntriesVisits_stop {σ : Type} (fn : σ → String → String → Node → σ × Ctl)
    (v : σ × String × String × Node) (s2 : σ) (c : Ctl)
    (hv : fn v.1 v.2.1 v.2.2.1 v.2.2.2 = (s2, c)) (hc : c ≠ Ctl.next)
    (hfile : v.2.2.2.IsDir = false) :
    ∀ (es : Entries) (dirPath : String) (s : σ), v ∈ walkEntriesVisits fn dirPath es s →
      walkEntries fn dirPath es s = (s2, c)
  | Entries.nil, dirPath, s, hmem => by
    rw [walkEntriesVisits] at hmem
    cases hmem
  | Entries.cons name node rest, dirPath, s, hmem => by
    rw [walkEntriesVisits] at hmem
    rw [walkEntries]
    rw [List.mem_append] at hmem
    rcases hmem with hmem | hmem
    · rw [walkVisits_stop fn v s2 c hv hc hfile node (pathJoin [dirPath, name]) name s hmem]
      cases c
      · exact absurd rfl hc
      · rfl
      · rfl
    · rcases hr : walk fn (pathJoin [dirPath, name]) name node s with ⟨s1, c1⟩
      rw [hr] at hmem
      cases c1
      · exact walkEntriesVisits_stop fn v s2 c hv hc hfile rest dirPath s1 hmem
      · cases hmem
      · cases hmem
end

mutual
theorem walkVisits_inv {σ : Type} (fn : σ → String → String → Node → σ × Ctl) (P : σ → Prop)
    (hfn : ∀ s path name node, P s → P (fn s path name node).1) :
    ∀ (node : Node) (path name : String) (s : σ), P s →
      ∀ v ∈ walkVisits fn path name node s, P v.1
  | Node.file contents, path, name, s, hp, v, hmem => by
    rw [walkVisits] at hmem
    simp only [List.mem_cons, List.not_mem_nil, or_false] at hmem
    rw [hmem]
    exact hp
  | Node.other m r, path, name, s, hp, v, hmem => by
    rw [walkVisits] at hmem
    simp only [List.mem_cons, List.not_mem_nil, or_false] at hmem
    rw [hmem]
    exact hp
  | Node.dir es, path, name, s, hp, v, hmem => by
    have h1 := hfn s path name (Node.dir es) hp
    rw [walkVisits] at hmem
    rcases hr : fn s path name (Node.dir es) with ⟨s1, c1⟩
    rw [hr] at hmem h1
    cases c1
    · simp only [List.mem_cons] at hmem
      rcases hmem with hmem | hmem
      · rw [hmem]
        exact hp
      · exact walkEntriesVisits_inv fn P hfn es path s1 h1 v hmem
    · simp only [List.mem_cons, List.not_mem_nil, or_false] at hmem
      rw [hmem]
      exact hp
    · simp only [List.mem_cons] at hmem
      rcases hmem with hmem | hmem
      · rw [hmem]
        exact hp
      · exact walkEntriesVisits_inv fn P hfn es path s1 h1 v hmem
theorem walkEntriesVisits_inv {σ : Type} (fn : σ → String → String → Node → σ × Ctl)
    (P : σ → Prop) (hfn : ∀ s path name node, P s → P (fn s path name node).1) :
    ∀ (es : Entries) (dirPath : String) (s : σ), P s →
      ∀ v ∈ walkEntriesVisits fn dirPath es s, P v.1
  | Entries.nil, dirPath, s, _, v, hmem => by
    rw [walkEntriesVisits] at hmem
    cases hmem
  | Entries.cons name node rest, dirPath, s, hp, v, hmem => by
    rw [walkEntriesVisits] at hmem
    rw [List.mem_append] at hmem
    rcases hmem with hmem | hmem
    · exact walkVisits_inv fn P hfn node (pathJoin [dirPath, name]) name s hp v hmem
    · have h1 := walk_inv fn P (fun _ _ => true) (fun s0 path0 name0 node0 _ h0 =>
        hfn s0 path0 name0 node0 h0) node (pathJoin [dirPath, name]) name s
        (Entries.all_true_aux.1 node name) hp
      rcases hr : walk fn (pathJoin [dirPath, name]) name node s with ⟨s1, c1⟩
      rw [hr] at hmem h1
      cases c1
      · exact walkEntriesVisits_inv fn P hfn rest dirPath s1 h1 v hmem
      · cases hmem
      · cases hmem
end

theorem readWalkFn_entries {TD : Type} (env : Env TD) (st : ReadState TD)
    (sourcePath name : String) (node : Node) :
    (readWalkFn env st sourcePath name node).1.s.entries = st.s.entries := by
  refine readWalkFn_cases env st sourcePath name node (fun r => r.1.s.entries = st.s.entries)
    ?_ ?_ ?_ ?_ ?_ ?_ ?_ ?_ ?_
  · intro _
    rfl
  · intro _ _
    rw [ctlOfErr_fst]
    exact addTemplateData_frame (fun s => s.entries) (fun _ _ => rfl) env st.s sourcePath node
  · intro _ _ r _
    rw [ctlOfErr_fst]
  · intro _ _ r _
    rw [ctlOfErr_fst]
  · intro _ _ s2 e he
    have h := addTemplatesDir_frame (fun s => s.entries) (fun _ _ => rfl) env st.s sourcePath
      name node
    rw [he] at h
    exact h
  · intro _ _
    rw [ctlOfErr_fst]
    exact addVersionFile_frame (fun s => s.entries) (fun _ _ => rfl) env st.s sourcePath node
  · intro _ _
    rfl
  · intro _ _ _ targetName e _
    split_ifs <;> rfl
  · intro _ _ _ _
    rfl

theorem readWalkFn_other {TD : Type} (env : Env TD) (st : ReadState TD)
    (sourcePath name : String) (node : Node) (hpath : sourcePath ≠ st.s.sourcePath)
    (hname : HasPrefix name ignorePrefix = false) (hdir : node.IsDir = false)
    (hreg : node.IsRegular = false) :
    readWalkFn env st sourcePath name node =
      (st, Ctl.fail (Error.unsupportedFileType sourcePath node.Mode)) := by
  refine readWalkFn_cases env st sourcePath name node
    (fun r => r = (st, Ctl.fail (Error.unsupportedFileType sourcePath node.Mode)))
    ?_ ?_ ?_ ?_ ?_ ?_ ?_ ?_ ?_
  · intro h
    exact absurd h hpath
  · intro _ h
    have h2 := HasPrefix_trans name dataName ignorePrefix h (by decide)
    rw [hname] at h2
    cases h2
  · intro _ h
    rw [h] at hname
    exact absurd hname (by decide)
  · intro _ h
    rw [h] at hname
    exact absurd hname (by decide)
  · intro _ h
    rw [h] at hname
    exact absurd hname (by decide)
  · intro _ h
    rw [h] at hname
    exact absurd hname (by decide)
  · intro _ h
    rcases h with h | h
    · have h2 := HasPrefix_trans name ChezmoiPrefix ignorePrefix h (by decide)
      rw [hname] at h2
      cases h2
    · rw [hname] at h
      cases h
  · intro _ _ h
    rcases h with h | h
    · rw [hdir] at h
      cases h
    · rw [hreg] at h
      cases h
  · intro _ _ _ _
    rfl

/-! ## Lemmas on the caches of the secret helpers -/

theorem secretFunc_eq {ω V : Type} (c : SecretEnv ω V) (st : CacheState ω String)
    (args : List String) :
    secretFunc c st args =
      cachedCall c c.GenericSecretCommand (fun output => .ok (TrimSpace output)) st args := by
  unfold secretFunc cachedCall
  dsimp only
  cases mapGet st.cache (cacheKey args) with
  | some value => rfl
  | none =>
    cases (c.IdempotentCmdOutput st.world c.GenericSecretCommand args).2.2 <;> rfl

theorem secretJSONFunc_eq {ω V : Type} (c : SecretEnv ω V) (st : CacheState ω V)
    (args : List String) :
    secretJSONFunc c st args = cachedCall c c.GenericSecretCommand c.Unmarshal st args := by
  unfold secretJSONFunc cachedCall
  dsimp only

theorem onepasswordOutput_eq {ω V : Type} (c : SecretEnv ω V) (st : CacheState ω String)
    (args : List String) :
    onepasswordOutput c st args =
      cachedCall c c.OnepasswordCommand (fun output => .ok output) st args := by
  unfold onepasswordOutput cachedCall
  dsimp only
  cases mapGet st.cache (cacheKey args) with
  | some value => rfl
  | none =>
    cases (c.IdempotentCmdOutput st.world c.OnepasswordCommand args).2.2 <;> rfl

theorem cachedCall_hit {ω V α : Type} (c : SecretEnv ω V) (name : String)
    (decode : String → Except String α) (st : CacheState ω α) (args : List String) (value : α)
    (h : mapGet st.cache (cacheKey args) = some value) :
    cachedCall c name decode st args = (st, .ok value) := by
  unfold cachedCall
  rw [h]

/-- A successful call that finds nothing in the cache has run the command once, without an error,
returns the decoded output and has stored it at the key. -/
theorem cachedCall_miss {ω V α : Type} (c : SecretEnv ω V) (name : String)
    (decode : String → Except String α) (st : CacheState ω α) (args : List String) (value : α)
    (h : mapGet st.cache (cacheKey args) = none)
    (hok : (cachedCall c name decode st args).2 = .ok value) :
    cachedCall c name decode st args =
        (⟨(c.IdempotentCmdOutput st.world name args).1, mapSet st.cache (cacheKey args) value,
          st.commands ++ [(name, args, (c.IdempotentCmdOutput st.world name args).2.1, none)]⟩,
          .ok value) ∧
      decode (c.IdempotentCmdOutput st.world name args).2.1 = .ok value := by
  unfold cachedCall at hok ⊢
  rw [h] at hok ⊢
  dsimp only at hok ⊢
  cases he : (c.IdempotentCmdOutput st.world name args).2.2 with
  | some err =>
    rw [he] at hok
    cases hok
  | none =>
    rw [he] at hok
    dsimp only at hok ⊢
    cases hd : decode (c.IdempotentCmdOutput st.world name args).2.1 with
    | error err =>
      rw [hd] at hok
      cases hok
    | ok v =>
      rw [hd] at hok
      dsimp only at hok ⊢
      cases hok
      exact ⟨rfl, rfl⟩

theorem callAll_hit {ω V α : Type} (c : SecretEnv ω V) (name : String)
    (decode : String → Except String α) (st : CacheState ω α) (args : List String) (value : α)
    (h : mapGet st.cache (cacheKey args) = some value) (n : Nat) :
    callAll (cachedCall c name decode) (List.replicate n args) st =
      (st, List.replicate n (.ok value)) := by
  induction n with
  | zero => rfl
  | succ n ih =>
    simp only [List.replicate_succ, callAll, cachedCall_hit c name decode st args value h, ih]

theorem splitRune_noSep (sep : Char) (e : List Char) (h : e.contains sep = false) :
    splitRune sep e = [e] := by
  induction e with
  | nil => rfl
  | cons c cs ih =>
    simp only [List.contains_cons, Bool.or_eq_false_iff] at h
    have hc : c ≠ sep := by
      intro hc
      rw [hc] at h
      simp at h
    simp [splitRune, hc, ih h.2]

theorem splitRune_append (sep : Char) (e t : List Char) (h : e.contains sep = false) :
    splitRune sep (e ++ sep :: t) = e :: splitRune sep t := by
  induction e with
  | nil => simp [splitRune]
  | cons c cs ih =>
    simp only [List.contains_cons, Bool.or_eq_false_iff] at h
    have hc : c ≠ sep := by
      intro hc
      rw [hc] at h
      simp at h
    simp [splitRune, hc, ih h.2]

theorem splitRune_joinRune (sep : Char) (es : List (List Char)) (hne : es ≠ [])
    (h : ∀ e ∈ es, e.contains sep = false) : splitRune sep (joinRune sep es) = es := by
  induction es with
  | nil => exact absurd rfl hne
  | cons e rest ih =>
    cases rest with
    | nil => simpa [joinRune] using splitRune_noSep sep e (h e (by simp))
    | cons e2 rest2 =>
      simp only [joinRune]
      rw [splitRune_append sep e _ (h e (by simp)),
        ih (by simp) (fun x hx => h x (List.mem_cons_of_mem _ hx))]

theorem plainTuple_iff (args : List String) :
    plainTuple args = true ↔ args ≠ [] ∧ ∀ a ∈ args, a.toList.contains NUL = false := by
  unfold plainTuple
  cases args with
  | nil => simp
  | cons a rest => simp

/-- On tuples with at least one argument and without NUL in their arguments the key determines
the tuple. -/
theorem cacheKey_injective (A B : List String) (hA : plainTuple A = true)
    (hB : plainTuple B = true) (h : cacheKey A = cacheKey B) : A = B := by
  rw [plainTuple_iff] at hA hB
  unfold cacheKey at h
  have h1 : joinRune NUL (A.map String.toList) = joinRune NUL (B.map String.toList) := by
    have h2 := congrArg String.toList h
    exact h2
  have h3 := congrArg (splitRune NUL) h1
  rw [splitRune_joinRune NUL _ (by simpa using hA.1) (by simpa using hA.2),
    splitRune_joinRune NUL _ (by simpa using hB.1) (by simpa using hB.2)] at h3
  have h4 := congrArg (List.map String.mk) h3
  have hid : (String.mk ∘ String.toList) = id := funext fun _ => rfl
  rw [List.map_map, List.map_map, hid, List.map_id, List.map_id] at h4
  exact h4

/-- Every value of the cache was decoded from the output of a run of the command whose arguments
have the key of the value, when this holds before the call and the tuple of the call is plain. -/
theorem cachedCall_inv {ω V α : Type} (c : SecretEnv ω V) (name : String)
    (decode : String → Except String α) (st : CacheState ω α) (args : List String)
    (hargs : plainTuple args = true)
    (hinv : ∀ k v, mapGet st.cache k = some v → ∃ a output, plainTuple a = true ∧
      cacheKey a = k ∧ (name, a, output, none) ∈ st.commands ∧ decode output = .ok v) :
    ∀ k v, mapGet (cachedCall c name decode st args).1.cache k = some v →
      ∃ a output, plainTuple a = true ∧ cacheKey a = k ∧
        (name, a, output, none) ∈ (cachedCall c name decode st args).1.commands ∧
        decode output = .ok v := by
  intro k v hk
  unfold cachedCall at hk ⊢
  cases hm : mapGet st.cache (cacheKey args) with
  | some value =>
    rw [hm] at hk
    exact hinv k v hk
  | none =>
    rw [hm] at hk
    dsimp only at hk ⊢
    cases he : (c.IdempotentCmdOutput st.world name args).2.2 with
    | some err =>
      rw [he] at hk
      dsimp only at hk ⊢
      obtain ⟨a, output, h1, h2, h3, h4⟩ := hinv k v hk
      exact ⟨a, output, h1, h2, List.mem_append_left _ h3, h4⟩
    | none =>
      rw [he] at hk
      dsimp only at hk ⊢
      cases hd : decode (c.IdempotentCmdOutput st.world name args).2.1 with
      | error err =>
        rw [hd] at hk
        dsimp only at hk ⊢
        obtain ⟨a, output, h1, h2, h3, h4⟩ := hinv k v hk
        exact ⟨a, output, h1, h2, List.mem_append_left _ h3, h4⟩
      | ok value =>
        rw [hd] at hk
        dsimp only at hk ⊢
        rw [mapGet_mapSet] at hk
        by_cases hkk : k = cacheKey args
        · rw [if_pos hkk] at hk
          cases hk
          exact ⟨args, _, hargs, hkk.symm, List.mem_append_right _ (List.mem_singleton.mpr rfl),
            hd⟩
        · rw [if_neg hkk] at hk
          obtain ⟨a, output, h1, h2, h3, h4⟩ := hinv k v hk
          exact ⟨a, output, h1, h2, List.mem_append_left _ h3, h4⟩

theorem callAll_inv {ω V α : Type} (c : SecretEnv ω V) (name : String)
    (decode : String → Except String α) :
    ∀ (history : List (List String)) (st : CacheState ω α),
      (∀ t ∈ history, plainTuple t = true) →
      (∀ k v, mapGet st.cache k = some v → ∃ a output, plainTuple a = true ∧
        cacheKey a = k ∧ (name, a, output, none) ∈ st.commands ∧ decode output = .ok v) →
      ∀ k v, mapGet (callAll (cachedCall c name decode) history st).1.cache k = some v →
        ∃ a output, plainTuple a = true ∧ cacheKey a = k ∧
          (name, a, output, none) ∈ (callAll (cachedCall c name decode) history st).1.commands ∧
          decode output = .ok v
  | [], st, _, hinv => hinv
  | args :: rest, st, hplain, hinv => by
    simp only [callAll]
    exact callAll_inv c name decode rest _
      (fun t ht => hplain t (List.mem_cons_of_mem _ ht))
      (cachedCall_inv c name decode st args (hplain args (List.mem_cons_self _ _)) hinv)

/-- After calls with plain tuples in a new process, the value that a successful call with a plain
tuple returns was decoded from the output of a run of the command with this tuple. -/
theorem cachedCall_own {ω V α : Type} (c : SecretEnv ω V) (name : String)
    (decode : String → Except String α) (world : ω) (history : List (List String))
    (A : List String) (value : α) (hplain : ∀ t ∈ A :: history, plainTuple t = true)
    (hok : (cachedCall c name decode
      (callAll (cachedCall c name decode) history (newCache world)).1 A).2 = .ok value) :
    ∃ output, (name, A, output, none) ∈ (cachedCall c name decode
        (callAll (cachedCall c name decode) history (newCache world)).1 A).1.commands ∧
      decode output = .ok value := by
  have hinv := callAll_inv c name decode history (newCache world)
    (fun t ht => hplain t (List.mem_cons_of_mem _ ht))
    (fun k v hk => by simp [newCache, mapGet] at hk)
  have hA := hplain A (List.mem_cons_self _ _)
  cases hm : mapGet (callAll (cachedCall c name decode) history (newCache world)).1.cache
      (cacheKey A) with
  | some v =>
    rw [cachedCall_hit c name decode _ A v hm] at hok ⊢
    cases hok
    obtain ⟨a, output, h1, h2, h3, h4⟩ := hinv _ _ hm
    have ha := cacheKey_injective a A h1 hA h2
    rw [ha] at h3
    exact ⟨output, h3, h4⟩
  | none =>
    obtain ⟨h1, h2⟩ := cachedCall_miss c name decode _ A value hm hok
    rw [h1]
    exact ⟨_, List.mem_append_right _ (List.mem_singleton.mpr rfl), h2⟩

/-! ## Lemmas on the attribute codec -/

theorem specParseFileAttributes_eq (b : String) :
    specParseFileAttributes b = (fileParts b).attributes := by
  unfold specParseFileAttributes FileParts.attributes fileParts fileTail specDecodeDot isTemplateName
    trimTemplateSuffix
  dsimp only

theorem HasPrefix_append_self (p s : String) : HasPrefix (p ++ s) p = true := by
  unfold HasPrefix
  have h : (p ++ s).toList = p.toList ++ s.toList := by simp [String.toList]
  rw [h, List.isPrefixOf_iff_prefix]
  exact List.prefix_append _ _

theorem TrimPrefix_of_not (s p : String) (h : HasPrefix s p = false) : TrimPrefix s p = s := by
  unfold TrimPrefix
  rw [h]
  rfl

theorem append_TrimPrefix (s p : String) (h : HasPrefix s p = true) : p ++ TrimPrefix s p = s := by
  unfold TrimPrefix
  rw [h]
  unfold HasPrefix at h
  rw [List.isPrefixOf_iff_prefix] at h
  obtain ⟨t, ht⟩ := h
  apply String.ext
  simp only [if_true, String.data_append]
  show p.toList ++ List.drop p.toList.length s.toList = s.toList
  rw [← ht]
  simp

theorem HasPrefix_mismatch (s p q : String) (hq : HasPrefix s q = true)
    (h1 : HasPrefix q p = false) (h2 : HasPrefix p q = false) : HasPrefix s p = false := by
  unfold HasPrefix at *
  cases h : p.toList.isPrefixOf s.toList with
  | false => rfl
  | true =>
    rw [List.isPrefixOf_iff_prefix] at hq h
    rcases List.prefix_or_prefix_of_prefix hq h with h3 | h3
    · rw [← List.isPrefixOf_iff_prefix] at h3
      rw [h3] at h2
      cases h2
    · rw [← List.isPrefixOf_iff_prefix] at h3
      rw [h3] at h1
      cases h1

theorem FileParts.join_eq (p : FileParts) : p.join = p.joinLast 8 := rfl

theorem strip_piece (f : Bool) (p X : String) (h : f = false → HasPrefix X p = false) :
    HasPrefix ((if f then p else "") ++ X) p = f ∧
      TrimPrefix ((if f then p else "") ++ X) p = X := by
  cases f with
  | true => exact ⟨HasPrefix_append_self p X, TrimPrefix_append p X⟩
  | false =>
    have h1 := h rfl
    have e : (if false = true then p else "") ++ X = X := by
      apply String.ext
      simp
    rw [e]
    exact ⟨h1, TrimPrefix_of_not X p h1⟩

theorem fileParts_joinLast (p : FileParts) (h : p.WellFormed) : fileParts (p.joinLast 8) = p := by
  obtain ⟨h1, h2, h3, h4, h5, h6, h7, h8, h9⟩ := h
  obtain ⟨e1, e2, e3, e4, e5, e6, e7, e8, r⟩ := p
  simp only at h1 h2 h3 h4 h5 h6 h7 h8 h9
  have s1 := strip_piece e1 "encrypted_" ((FileParts.mk e1 e2 e3 e4 e5 e6 e7 e8 r).joinLast 7) h1
  have s2 := strip_piece e2 "private_" ((FileParts.mk e1 e2 e3 e4 e5 e6 e7 e8 r).joinLast 6) h2
  have s3 := strip_piece e3 "empty_" ((FileParts.mk e1 e2 e3 e4 e5 e6 e7 e8 r).joinLast 5) h3
  have s4 := strip_piece e4 "exists_" ((FileParts.mk e1 e2 e3 e4 e5 e6 e7 e8 r).joinLast 4) h4
  have s5 := strip_piece e5 "executable_" ((FileParts.mk e1 e2 e3 e4 e5 e6 e7 e8 r).joinLast 3) h5
  have s6 := strip_piece e6 "run_" ((FileParts.mk e1 e2 e3 e4 e5 e6 e7 e8 r).joinLast 2) h6
  have s8 := strip_piece e8 "symlink_" r h9
  unfold fileParts
  dsimp only
  have j8 : (FileParts.mk e1 e2 e3 e4 e5 e6 e7 e8 r).joinLast 8 =
      (if e1 then "encrypted_" else "") ++ (FileParts.mk e1 e2 e3 e4 e5 e6 e7 e8 r).joinLast 7 := rfl
  have j7 : (FileParts.mk e1 e2 e3 e4 e5 e6 e7 e8 r).joinLast 7 =
      (if e2 then "private_" else "") ++ (FileParts.mk e1 e2 e3 e4 e5 e6 e7 e8 r).joinLast 6 := rfl
  have j6 : (FileParts.mk e1 e2 e3 e4 e5 e6 e7 e8 r).joinLast 6 =
      (if e3 then "empty_" else "") ++ (FileParts.mk e1 e2 e3 e4 e5 e6 e7 e8 r).joinLast 5 := rfl
  have j5 : (FileParts.mk e1 e2 e3 e4 e5 e6 e7 e8 r).joinLast 5 =
      (if e4 then "exists_" else "") ++ (FileParts.mk e1 e2 e3 e4 e5 e6 e7 e8 r).joinLast 4 := rfl
  have j4 : (FileParts.mk e1 e2 e3 e4 e5 e6 e7 e8 r).joinLast 4 =
      (if e5 then "executable_" else "") ++ (FileParts.mk e1 e2 e3 e4 e5 e6 e7 e8 r).joinLast 3 := rfl
  have j3 : (FileParts.mk e1 e2 e3 e4 e5 e6 e7 e8 r).joinLast 3 =
      (if e6 then "run_" else "") ++ (FileParts.mk e1 e2 e3 e4 e5 e6 e7 e8 r).joinLast 2 := rfl
  have j2 : (FileParts.mk e1 e2 e3 e4 e5 e6 e7 e8 r).joinLast 2 =
      (if e7 then "once_" else "") ++ (FileParts.mk e1 e2 e3 e4 e5 e6 e7 e8 r).joinLast 1 := rfl
  have j1 : (FileParts.mk e1 e2 e3 e4 e5 e6 e7 e8 r).joinLast 1 =
      (if e8 then "symlink_" else "") ++ r := rfl
  rw [j8, s1.1, s1.2, j7, s2.1, s2.2, j6, s3.1, s3.2, j5, s4.1, s4.2, j4, s5.1, s5.2, j3, s6.1, s6.2]
  cases e6 with
  | true =>
    have s7 := strip_piece e7 "once_" ((FileParts.mk e1 e2 e3 e4 e5 true e7 e8 r).joinLast 1)
      (fun h => h7 h rfl)
    simp only [if_true, Bool.true_and]
    rw [j2, s7.1, s7.2, j1, s8.1, s8.2]
  | false =>
    have he7 : e7 = false := by
      cases e7 with
      | false => rfl
      | true => exact absurd (h8 rfl) (by simp)
    subst he7
    have e : (FileParts.mk e1 e2 e3 e4 e5 false false e8 r).joinLast 2 =
        (FileParts.mk e1 e2 e3 e4 e5 false false e8 r).joinLast 1 := by
      rw [j2]
      apply String.ext
      simp
    simp only [Bool.false_and, Bool.false_eq_true, if_false]
    rw [e, j1, s8.1, s8.2]

theorem str_append_assoc (a b c : String) : (a ++ b) ++ c = a ++ (b ++ c) := by
  apply String.ext
  simp

theorem str_empty_append (a : String) : "" ++ a = a := by
  apply String.ext
  simp

theorem str_append_empty (a : String) : a ++ "" = a := by
  apply String.ext
  simp

theorem isTemplateName_append (m : String) :
    isTemplateName (m ++ ".tmpl") = true ∧ trimTemplateSuffix (m ++ ".tmpl") = m := by
  unfold isTemplateName trimTemplateSuffix
  have h : (m ++ ".tmpl").toList = m.toList ++ ".tmpl".toList := by simp [String.toList]
  rw [h]
  constructor
  · rw [List.reverse_append, List.isPrefixOf_iff_prefix]
    exact List.prefix_append _ _
  · apply String.ext
    have h5 : ".tmpl".toList.length = 5 := by decide
    simp [h5]

theorem trimTemplateSuffix_append (n : String) (h : isTemplateName n = true) :
    trimTemplateSuffix n ++ ".tmpl" = n := by
  unfold isTemplateName at h
  rw [List.isPrefixOf_iff_prefix] at h
  obtain ⟨t, ht⟩ := h
  have h2 : n.toList = t.reverse ++ ".tmpl".toList := by
    have := congrArg List.reverse ht
    simpa using this.symm
  have h3 : n = String.mk t.reverse ++ ".tmpl" := by
    apply String.ext
    simpa [String.toList] using h2
  rw [h3, (isTemplateName_append _).2]

theorem specDecodeDot_dot (r : String) : specDecodeDot ("dot_" ++ r) = "." ++ r := by
  unfold specDecodeDot
  rw [HasPrefix_append_self, TrimPrefix_append]
  rfl

theorem specDecodeDot_other (s : String) (h : HasPrefix s "dot_" = false) :
    specDecodeDot s = s := by
  unfold specDecodeDot
  rw [h]
  rfl

theorem specEncodeDot_dot (m : String) (h : HasPrefix m "." = true) :
    specEncodeDot m = "dot_" ++ TrimPrefix m "." ∧ "." ++ TrimPrefix m "." = m := by
  unfold specEncodeDot
  rw [h]
  exact ⟨rfl, append_TrimPrefix m "." h⟩

theorem specEncodeDot_other (m : String) (h : HasPrefix m "." = false) : specEncodeDot m = m := by
  unfold specEncodeDot
  rw [h]
  rfl

/-- Composing the tail of a decoded rest changes neither the name after the `dot_` translation
nor, with it, what the tail decodes to; and the composed tail is the rest, or begins with `dot_`,
or is `.tmpl`. -/
theorem encodeTail_fileTail (s : String) :
    specDecodeDot (encodeTail (fileTail s)) = specDecodeDot s ∧
      (encodeTail (fileTail s) = s ∨ HasPrefix (encodeTail (fileTail s)) "dot_" = true ∨
        encodeTail (fileTail s) = ".tmpl") := by
  unfold encodeTail fileTail
  dsimp only
  cases ht : isTemplateName (specDecodeDot s) with
  | false =>
    simp only [Bool.false_eq_true, if_false]
    rw [str_append_empty]
    cases hd : HasPrefix s "dot_" with
    | true =>
      have hs := append_TrimPrefix s "dot_" hd
      have e1 : specDecodeDot s = "." ++ TrimPrefix s "dot_" := by
        rw [← hs, specDecodeDot_dot, TrimPrefix_append]
      have e2 := specEncodeDot_dot ("." ++ TrimPrefix s "dot_") (HasPrefix_append_self _ _)
      rw [TrimPrefix_append] at e2
      rw [e1, e2.1, hs]
      exact ⟨e1, Or.inl rfl⟩
    | false =>
      have e1 := specDecodeDot_other s hd
      rw [e1]
      cases hp : HasPrefix s "." with
      | true =>
        have e2 := specEncodeDot_dot s hp
        rw [e2.1, specDecodeDot_dot, e2.2]
        exact ⟨rfl, Or.inr (Or.inl (HasPrefix_append_self _ _))⟩
      | false =>
        rw [specEncodeDot_other s hp]
        exact ⟨e1, Or.inl rfl⟩
  | true =>
    simp only [if_true]
    have hn := trimTemplateSuffix_append _ ht
    generalize trimTemplateSuffix (specDecodeDot s) = m at hn
    cases hp : HasPrefix m "." with
    | true =>
      have e2 := specEncodeDot_dot m hp
      rw [e2.1, str_append_assoc, specDecodeDot_dot, ← str_append_assoc, e2.2, hn]
      exact ⟨rfl, Or.inr (Or.inl (HasPrefix_append_self _ _))⟩
    | false =>
      rw [specEncodeDot_other m hp]
      cases hd : HasPrefix s "dot_" with
      | false =>
        have e1 := specDecodeDot_other s hd
        rw [e1] at hn
        rw [hn]
        exact ⟨rfl, Or.inl rfl⟩
      | true =>
        have hs := append_TrimPrefix s "dot_" hd
        have e1 : specDecodeDot s = "." ++ TrimPrefix s "dot_" := by
          rw [← hs, specDecodeDot_dot, TrimPrefix_append]
        rw [e1] at hn
        have hm : m = "" := by
          have h1 := congrArg String.toList hn
          have h2 : (m ++ ".tmpl").toList = m.toList ++ ".tmpl".toList := by simp [String.toList]
          have h3 : ("." ++ TrimPrefix s "dot_").toList = '.' :: (TrimPrefix s "dot_").toList := by
            simp [String.toList]
          rw [h2, h3] at h1
          unfold HasPrefix at hp
          apply String.ext
          cases hml : m.toList with
          | nil => exact hml
          | cons c cs =>
            rw [hml] at h1 hp
            have hc : c = '.' := by
              have := List.head_eq_of_cons_eq h1
              exact this
            rw [hc] at hp
            revert hp
            simp
        rw [hm] at hn ⊢
        rw [str_empty_append] at hn ⊢
        refine ⟨?_, Or.inr (Or.inr rfl)⟩
        rw [e1, ← hn]
        exact specDecodeDot_other _ (by decide)

/-- What `fileParts` leaves as the rest does not begin with the prefix of a flag that is not set,
when no later flag is set; and `once` is set for a script only. -/
theorem fileParts_rest (b : String) :
    ((fileParts b).isSymlink = false → HasPrefix (fileParts b).rest "symlink_" = false) ∧
    ((fileParts b).isScript = true → (fileParts b).once = false →
      (fileParts b).isSymlink = false → HasPrefix (fileParts b).rest "once_" = false) ∧
    ((fileParts b).isScript = false → (fileParts b).isSymlink = false →
      HasPrefix (fileParts b).rest "run_" = false) ∧
    ((fileParts b).executable = false → (fileParts b).isScript = false →
      (fileParts b).isSymlink = false → HasPrefix (fileParts b).rest "executable_" = false) ∧
    ((fileParts b).isPresent = false → (fileParts b).executable = false →
      (fileParts b).isScript = false → (fileParts b).isSymlink = false →
      HasPrefix (fileParts b).rest "exists_" = false) ∧
    ((fileParts b).empty = false → (fileParts b).isPresent = false →
      (fileParts b).executable = false → (fileParts b).isScript = false →
      (fileParts b).isSymlink = false → HasPrefix (fileParts b).rest "empty_" = false) ∧
    ((fileParts b).private_ = false → (fileParts b).empty = false →
      (fileParts b).isPresent = false → (fileParts b).executable = false →
      (fileParts b).isScript = false → (fileParts b).isSymlink = false →
      HasPrefix (fileParts b).rest "private_" = false) ∧
    ((fileParts b).encrypted = false → (fileParts b).private_ = false →
      (fileParts b).empty = false → (fileParts b).isPresent = false →
      (fileParts b).executable = false → (fileParts b).isScript = false →
      (fileParts b).isSymlink = false → HasPrefix (fileParts b).rest "encrypted_" = false) ∧
    ((fileParts b).once = true → (fileParts b).isScript = true) := by
  unfold fileParts
  dsimp only
  refine ⟨?_, ?_, ?_, ?_, ?_, ?_, ?_, ?_, ?_⟩
  · intro h8
    rw [TrimPrefix_of_not _ _ h8]
    exact h8
  · intro h6 h7 h8
    rw [TrimPrefix_of_not _ _ h8]
    rw [h6] at h7 ⊢
    simp only [Bool.true_and, if_true] at h7 ⊢
    rw [TrimPrefix_of_not _ _ h7]
    exact h7
  · intro h6 h8
    rw [TrimPrefix_of_not _ _ h8, h6]
    simp only [Bool.false_eq_true, if_false]
    rw [TrimPrefix_of_not _ _ h6]
    exact h6
  · intro h5 h6 h8
    rw [TrimPrefix_of_not _ _ h8, h6]
    simp only [Bool.false_eq_true, if_false]
    rw [TrimPrefix_of_not _ _ h6, TrimPrefix_of_not _ _ h5]
    exact h5
  · intro h4 h5 h6 h8
    rw [TrimPrefix_of_not _ _ h8, h6]
    simp only [Bool.false_eq_true, if_false]
    rw [TrimPrefix_of_not _ _ h6, TrimPrefix_of_not _ _ h5, TrimPrefix_of_not _ _ h4]
    exact h4
  · intro h3 h4 h5 h6 h8
    rw [TrimPrefix_of_not _ _ h8, h6]
    simp only [Bool.false_eq_true, if_false]
    rw [TrimPrefix_of_not _ _ h6, TrimPrefix_of_not _ _ h5, TrimPrefix_of_not _ _ h4,
      TrimPrefix_of_not _ _ h3]
    exact h3
  · intro h2 h3 h4 h5 h6 h8
    rw [TrimPrefix_of_not _ _ h8, h6]
    simp only [Bool.false_eq_true, if_false]
    rw [TrimPrefix_of_not _ _ h6, TrimPrefix_of_not _ _ h5, TrimPrefix_of_not _ _ h4,
      TrimPrefix_of_not _ _ h3, TrimPrefix_of_not _ _ h2]
    exact h2
  · intro h1 h2 h3 h4 h5 h6 h8
    rw [TrimPrefix_of_not _ _ h8, h6]
    simp only [Bool.false_eq_true, if_false]
    rw [TrimPrefix_of_not _ _ h6, TrimPrefix_of_not _ _ h5, TrimPrefix_of_not _ _ h4,
      TrimPrefix_of_not _ _ h3, TrimPrefix_of_not _ _ h2, TrimPrefix_of_not _ _ h1]
    exact h1
  · intro h
    rw [Bool.and_eq_true] at h
    exact h.1

/-- A name that begins with the prefix of one flag does not begin with the prefix of another. -/
theorem filePrefix_mismatch :
    (∀ X : String, HasPrefix ("private_" ++ X) "encrypted_" = false) ∧
    (∀ X : String, HasPrefix ("empty_" ++ X) "encrypted_" = false) ∧
    (∀ X : String, HasPrefix ("exists_" ++ X) "encrypted_" = false) ∧
    (∀ X : String, HasPrefix ("executable_" ++ X) "encrypted_" = false) ∧
    (∀ X : String, HasPrefix ("run_" ++ X) "encrypted_" = false) ∧
    (∀ X : String, HasPrefix ("once_" ++ X) "encrypted_" = false) ∧
    (∀ X : String, HasPrefix ("symlink_" ++ X) "encrypted_" = false) ∧
    (∀ X : String, HasPrefix ("encrypted_" ++ X) "private_" = false) ∧
    (∀ X : String, HasPrefix ("empty_" ++ X) "private_" = false) ∧
    (∀ X : String, HasPrefix ("exists_" ++ X) "private_" = false) ∧
    (∀ X : String, HasPrefix ("executable_" ++ X) "private_" = false) ∧
    (∀ X : String, HasPrefix ("run_" ++ X) "private_" = false) ∧
    (∀ X : String, HasPrefix ("once_" ++ X) "private_" = false) ∧
    (∀ X : String, HasPrefix ("symlink_" ++ X) "private_" = false) ∧
    (∀ X : String, HasPrefix ("encrypted_" ++ X) "empty_" = false) ∧
    (∀ X : String, HasPrefix ("private_" ++ X) "empty_" = false) ∧
    (∀ X : String, HasPrefix ("exists_" ++ X) "empty_" = false) ∧
    (∀ X : String, HasPrefix ("executable_" ++ X) "empty_" = false) ∧
    (∀ X : String, HasPrefix ("run_" ++ X) "empty_" = false) ∧
    (∀ X : String, HasPrefix ("once_" ++ X) "empty_" = false) ∧
    (∀ X : String, HasPrefix ("symlink_" ++ X) "empty_" = false) ∧
    (∀ X : String, HasPrefix ("encrypted_" ++ X) "exists_" = false) ∧
    (∀ X : String, HasPrefix ("private_" ++ X) "exists_" = false) ∧
    (∀ X : String, HasPrefix ("empty_" ++ X) "exists_" = false) ∧
    (∀ X : String, HasPrefix ("executable_" ++ X) "exists_" = false) ∧
    (∀ X : String, HasPrefix ("run_" ++ X) "exists_" = false) ∧
    (∀ X : String, HasPrefix ("once_" ++ X) "exists_" = false) ∧
    (∀ X : String, HasPrefix ("symlink_" ++ X) "exists_" = false) ∧
    (∀ X : String, HasPrefix ("encrypted_" ++ X) "executable_" = false) ∧
    (∀ X : String, HasPrefix ("private_" ++ X) "executable_" = false) ∧
    (∀ X : String, HasPrefix ("empty_" ++ X) "executable_" = false) ∧
    (∀ X : String, HasPrefix ("exists_" ++ X) "executable_" = false) ∧
    (∀ X : String, HasPrefix ("run_" ++ X) "executable_" = false) ∧
    (∀ X : String, HasPrefix ("once_" ++ X) "executable_" = false) ∧
    (∀ X : String, HasPrefix ("symlink_" ++ X) "executable_" = false) ∧
    (∀ X : String, HasPrefix ("encrypted_" ++ X) "run_" = false) ∧
    (∀ X : String, HasPrefix ("private_" ++ X) "run_" = false) ∧
    (∀ X : String, HasPrefix ("empty_" ++ X) "run_" = false) ∧
    (∀ X : String, HasPrefix ("exists_" ++ X) "run_" = false) ∧
    (∀ X : String, HasPrefix ("executable_" ++ X) "run_" = false) ∧
    (∀ X : String, HasPrefix ("once_" ++ X) "run_" = false) ∧
    (∀ X : String, HasPrefix ("symlink_" ++ X) "run_" = false) ∧
    (∀ X : String, HasPrefix ("encrypted_" ++ X) "once_" = false) ∧
    (∀ X : String, HasPrefix ("private_" ++ X) "once_" = false) ∧
    (∀ X : String, HasPrefix ("empty_" ++ X) "once_" = false) ∧
    (∀ X : String, HasPrefix ("exists_" ++ X) "once_" = false) ∧
    (∀ X : String, HasPrefix ("executable_" ++ X) "once_" = false) ∧
    (∀ X : String, HasPrefix ("run_" ++ X) "once_" = false) ∧
    (∀ X : String, HasPrefix ("symlink_" ++ X) "once_" = false) ∧
    (∀ X : String, HasPrefix ("encrypted_" ++ X) "symlink_" = false) ∧
    (∀ X : String, HasPrefix ("private_" ++ X) "symlink_" = false) ∧
    (∀ X : String, HasPrefix ("empty_" ++ X) "symlink_" = false) ∧
    (∀ X : String, HasPrefix ("exists_" ++ X) "symlink_" = false) ∧
    (∀ X : String, HasPrefix ("executable_" ++ X) "symlink_" = false) ∧
    (∀ X : String, HasPrefix ("run_" ++ X) "symlink_" = false) ∧
    (∀ X : String, HasPrefix ("once_" ++ X) "symlink_" = false) := by
  refine ⟨?_, ?_, ?_, ?_, ?_, ?_, ?_, ?_, ?_, ?_, ?_, ?_, ?_, ?_, ?_, ?_, ?_, ?_, ?_, ?_, ?_, ?_, ?_, ?_, ?_, ?_, ?_, ?_, ?_, ?_, ?_, ?_, ?_, ?_, ?_, ?_, ?_, ?_, ?_, ?_, ?_, ?_, ?_, ?_, ?_, ?_, ?_, ?_, ?_, ?_, ?_, ?_, ?_, ?_, ?_, ?_⟩ <;>
    · intro X
      exact HasPrefix_mismatch _ _ _ (HasPrefix_append_self _ X) (by decide) (by decide)

theorem encodeTail_noPrefix (s q : String) (hq1 : HasPrefix "dot_" q = false)
    (hq2 : HasPrefix q "dot_" = false) (hq3 : HasPrefix ".tmpl" q = false)
    (h : HasPrefix s q = false) : HasPrefix (encodeTail (fileTail s)) q = false := by
  rcases (encodeTail_fileTail s).2 with h1 | h1 | h1
  · rw [h1]
    exact h
  · exact HasPrefix_mismatch _ _ _ h1 hq1 hq2
  · rw [h1]
    exact hq3

set_option maxHeartbeats 8000000 in
theorem canonical_wellFormed (b : String) : (fileParts b).canonical.WellFormed := by
  obtain ⟨r8, r7, r6, r5, r4, r3, r2, r1, r0⟩ := fileParts_rest b
  generalize fileParts b = p at *
  obtain ⟨e1, e2, e3, e4, e5, e6, e7, e8, r⟩ := p
  simp only at r8 r7 r6 r5 r4 r3 r2 r1 r0
  have n8 := encodeTail_noPrefix r "symlink_" (by decide) (by decide) (by decide)
  have n7 := encodeTail_noPrefix r "once_" (by decide) (by decide) (by decide)
  have n6 := encodeTail_noPrefix r "run_" (by decide) (by decide) (by decide)
  have n5 := encodeTail_noPrefix r "executable_" (by decide) (by decide) (by decide)
  have n4 := encodeTail_noPrefix r "exists_" (by decide) (by decide) (by decide)
  have n3 := encodeTail_noPrefix r "empty_" (by decide) (by decide) (by decide)
  have n2 := encodeTail_noPrefix r "private_" (by decide) (by decide) (by decide)
  have n1 := encodeTail_noPrefix r "encrypted_" (by decide) (by decide) (by decide)
  unfold FileParts.WellFormed FileParts.canonical
  simp only [FileParts.joinLast, FileParts.piece]
  generalize encodeTail (fileTail r) = T at *
  cases e8 <;> cases e6 <;> cases e7 <;> cases e4 <;> cases e5 <;> cases e3 <;> cases e2 <;>
    cases e1 <;>
    simp_all only [Bool.and_true, Bool.not_false, Bool.not_true, Bool.and_false, Bool.false_and,
      Bool.true_and, if_true, if_false, Bool.false_eq_true, Bool.true_eq_false, str_empty_append,
      forall_const, true_implies, false_implies, imp_self, and_self, and_true, true_and,
      implies_true, filePrefix_mismatch, not_true_eq_false, not_false_eq_true,
      IsEmpty.forall_iff, reduceCtorEq]

theorem specFileBaseName_attributes (p : FileParts) :
    specFileBaseName p.attributes = p.canonical.joinLast 8 := by
  obtain ⟨e1, e2, e3, e4, e5, e6, e7, e8, r⟩ := p
  unfold specFileBaseName FileParts.attributes FileParts.canonical encodeTail
  simp only [FileParts.joinLast, FileParts.piece]
  cases e8 <;> cases e6 <;> cases e7 <;> cases e4 <;>
    simp only [Bool.and_true, Bool.not_false, Bool.not_true, Bool.and_false, Bool.false_and,
      Bool.true_and, if_true, if_false, Bool.false_eq_true, reduceCtorEq, false_and, true_and,
      and_true, and_false]

theorem fileTail_congr (s t : String) (h : specDecodeDot s = specDecodeDot t) :
    fileTail s = fileTail t := by
  unfold fileTail
  rw [h]

theorem canonical_attributes (p : FileParts) :
    p.canonical.attributes = p.attributes.withoutStrayOnce := by
  obtain ⟨e1, e2, e3, e4, e5, e6, e7, e8, r⟩ := p
  unfold FileParts.attributes FileParts.canonical FileAttributes.withoutStrayOnce
  simp only
  rw [fileTail_congr _ _ (encodeTail_fileTail r).1]
  cases e8 <;> cases e6 <;> cases e7 <;> cases e4 <;> simp

/-- Decoding the base name composed for decoded file attributes gives the attributes back, with
`Once` cleared when the kind is not script. -/
theorem specParseFileAttributes_baseName (b : String) :
    specParseFileAttributes (specFileBaseName (specParseFileAttributes b)) =
      (specParseFileAttributes b).withoutStrayOnce := by
  rw [specParseFileAttributes_eq b, specFileBaseName_attributes, specParseFileAttributes_eq,
    fileParts_joinLast _ (canonical_wellFormed b), canonical_attributes]

theorem specFileBaseName_withoutStrayOnce (fa : FileAttributes) :
    specFileBaseName fa.withoutStrayOnce = specFileBaseName fa := by
  unfold specFileBaseName FileAttributes.withoutStrayOnce
  simp only
  by_cases h : fa.Type_ = SourceFileType.SourceFileTypeScript
  · simp [h]
  · simp [h]

theorem specEncodeDot_specDecodeDot (r : String) :
    specDecodeDot (specEncodeDot (specDecodeDot r)) = specDecodeDot r ∧
      (specEncodeDot (specDecodeDot r) = r ∨
        HasPrefix (specEncodeDot (specDecodeDot r)) "dot_" = true) := by
  cases hd : HasPrefix r "dot_" with
  | true =>
    have hs := append_TrimPrefix r "dot_" hd
    have e1 : specDecodeDot r = "." ++ TrimPrefix r "dot_" := by
      rw [← hs, specDecodeDot_dot, TrimPrefix_append]
    have e2 := specEncodeDot_dot ("." ++ TrimPrefix r "dot_") (HasPrefix_append_self _ _)
    rw [TrimPrefix_append] at e2
    rw [e1, e2.1, hs]
    exact ⟨e1, Or.inl rfl⟩
  | false =>
    have e1 := specDecodeDot_other r hd
    rw [e1]
    cases hp : HasPrefix r "." with
    | true =>
      have e2 := specEncodeDot_dot r hp
      rw [e2.1, specDecodeDot_dot, e2.2]
      exact ⟨rfl, Or.inr (HasPrefix_append_self _ _)⟩
    | false =>
      rw [specEncodeDot_other r hp]
      exact ⟨e1, Or.inl rfl⟩

theorem specParseDirAttributes_eq (b : String) :
    specParseDirAttributes b =
      ⟨specDecodeDot (TrimPrefix (TrimPrefix b "exact_") "private_"), HasPrefix b "exact_",
        HasPrefix (TrimPrefix b "exact_") "private_"⟩ := by
  unfold specParseDirAttributes specDecodeDot
  dsimp only

/-- Decoding the base name composed for decoded directory attributes gives the attributes back. -/
theorem specParseDirAttributes_baseName (b : String) :
    specParseDirAttributes (specDirBaseName (specParseDirAttributes b)) =
      specParseDirAttributes b := by
  rw [specParseDirAttributes_eq b]
  unfold specDirBaseName
  simp only
  generalize hf1 : HasPrefix b "exact_" = f1
  have ht1 : f1 = false → TrimPrefix b "exact_" = b := by
    intro h
    rw [h] at hf1
    exact TrimPrefix_of_not b _ hf1
  generalize TrimPrefix b "exact_" = t1 at *
  generalize hf2 : HasPrefix t1 "private_" = f2
  have hr : f2 = false → TrimPrefix t1 "private_" = t1 := by
    intro h
    rw [h] at hf2
    exact TrimPrefix_of_not t1 _ hf2
  generalize TrimPrefix t1 "private_" = r at *
  obtain ⟨hT1, hT2⟩ := specEncodeDot_specDecodeDot r
  have n2 : f2 = false → HasPrefix (specEncodeDot (specDecodeDot r)) "private_" = false := by
    intro h
    rcases hT2 with h1 | h1
    · rw [h1, hr h, ← h]
      exact hf2
    · exact HasPrefix_mismatch _ _ _ h1 (by decide) (by decide)
  have s2 := strip_piece f2 "private_" (specEncodeDot (specDecodeDot r)) n2
  have n1 : f1 = false → HasPrefix ((if f2 then "private_" else "") ++
      specEncodeDot (specDecodeDot r)) "exact_" = false := by
    intro h
    cases hf : f2 with
    | true =>
      exact HasPrefix_mismatch _ _ _ (HasPrefix_append_self _ _) (by decide) (by decide)
    | false =>
      simp only [Bool.false_eq_true, if_false, str_empty_append]
      rcases hT2 with h1 | h1
      · rw [h1, hr hf, ht1 h, ← h]
        exact hf1
      · exact HasPrefix_mismatch _ _ _ h1 (by decide) (by decide)
  have s1 := strip_piece f1 "exact_" ((if f2 then "private_" else "") ++
    specEncodeDot (specDecodeDot r)) n1
  rw [specParseDirAttributes_eq, s1.1, s1.2, s2.1, s2.2, hT1]

/-- A base name without a prefix of the directory grammar decodes to itself without flags. -/
theorem specParseDirAttributes_plain (b : String) (h1 : HasPrefix b "exact_" = false)
    (h2 : HasPrefix b "private_" = false) (h3 : HasPrefix b "dot_" = false) :
    specParseDirAttributes b = ⟨b, false, false⟩ := by
  rw [specParseDirAttributes_eq, TrimPrefix_of_not b _ h1, TrimPrefix_of_not b _ h2,
    specDecodeDot_other b h3, h1, h2]

/-- A base name without a prefix and without the suffix of the file grammar decodes to itself
with the kind file and without flags. -/
theorem specParseFileAttributes_plain (b : String) (h1 : HasPrefix b "encrypted_" = false)
    (h2 : HasPrefix b "private_" = false) (h3 : HasPrefix b "empty_" = false)
    (h4 : HasPrefix b "exists_" = false) (h5 : HasPrefix b "executable_" = false)
    (h6 : HasPrefix b "run_" = false) (h8 : HasPrefix b "symlink_" = false)
    (h9 : HasPrefix b "dot_" = false) (h10 : isTemplateName b = false) :
    specParseFileAttributes b =
      ⟨b, SourceFileType.SourceFileTypeFile, false, false, false, false, false, false⟩ := by
  rw [specParseFileAttributes_eq]
  have hp : fileParts b = ⟨false, false, false, false, false, false, false, false, b⟩ := by
    unfold fileParts
    simp only [TrimPrefix_of_not b _ h1, TrimPrefix_of_not b _ h2, TrimPrefix_of_not b _ h3,
      TrimPrefix_of_not b _ h4, TrimPrefix_of_not b _ h5, TrimPrefix_of_not b _ h6,
      TrimPrefix_of_not b _ h8, h1, h2, h3, h4, h5, h6, h8, Bool.false_and, Bool.false_eq_true,
      if_false]
  rw [hp]
  unfold FileParts.attributes fileTail
  simp only [specDecodeDot_other b h9, h10, Bool.false_eq_true, if_false]

theorem FileAttributes.withoutStrayOnce_eq (fa : FileAttributes)
    (h : fa.Once = true → fa.Type_ = SourceFileType.SourceFileTypeScript) :
    fa.withoutStrayOnce = fa := by
  obtain ⟨name, type, empty, encrypted, executable, once, priv, template⟩ := fa
  unfold FileAttributes.withoutStrayOnce
  cases once with
  | false => rfl
  | true =>
    have h1 : type = SourceFileType.SourceFileTypeScript := h rfl
    simp [h1]

/-! ## The walk as a fold over the calls of the walk function -/

mutual
/-- A quantity of the state that every call of the walk function changes in a way that the call
determines is, after the walk, the fold of these changes over the calls of the walk. -/
theorem walk_measure {σ α : Type} (fn : σ → String → String → Node → σ × Ctl) (P : σ → Prop)
    (f : σ → α) (g : α → σ × String × String × Node → α)
    (hP : ∀ s path name node, P s → P (fn s path name node).1)
    (hfn : ∀ s path name node, P s → f (fn s path name node).1 = g (f s) (s, path, name, node)) :
    ∀ (node : Node) (path name : String) (s : σ), P s →
      f (walk fn path name node s).1 = (walkVisits fn path name node s).foldl g (f s)
  | Node.file contents, path, name, s, hp => by
    rw [walk, walkVisits]
    exact hfn s path name _ hp
  | Node.other m r, path, name, s, hp => by
    rw [walk, walkVisits]
    exact hfn s path name _ hp
  | Node.dir es, path, name, s, hp => by
    have h1 := hfn s path name (Node.dir es) hp
    have h2 := hP s path name (Node.dir es) hp
    rw [walk, walkVisits]
    rcases hr : fn s path name (Node.dir es) with ⟨s1, c1⟩
    rw [hr] at h1 h2
    cases c1
    · simp only [List.foldl_cons]
      rw [← h1]
      exact walkEntries_measure fn P f g hP hfn es path s1 h2
    · simp only [List.foldl_cons, List.foldl_nil]
      exact h1
    · simp only [List.foldl_cons]
      rw [← h1]
      exact walkEntries_measure fn P f g hP hfn es path s1 h2
theorem walkEntries_measure {σ α : Type} (fn : σ → String → String → Node → σ × Ctl)
    (P : σ → Prop) (f : σ → α) (g : α → σ × String × String × Node → α)
    (hP : ∀ s path name node, P s → P (fn s path name node).1)
    (hfn : ∀ s path name node, P s → f (fn s path name node).1 = g (f s) (s, path, name, node)) :
    ∀ (es : Entries) (dirPath : String) (s : σ), P s →
      f (walkEntries fn dirPath es s).1 = (walkEntriesVisits fn dirPath es s).foldl g (f s)
  | Entries.nil, dirPath, s, _ => by
    rw [walkEntries, walkEntriesVisits]
    rfl
  | Entries.cons name node rest, dirPath, s, hp => by
    have h1 := walk_measure fn P f g hP hfn node (pathJoin [dirPath, name]) name s hp
    have h2 := walk_inv fn P (fun _ _ => true) (fun s0 path0 name0 node0 _ h0 =>
      hP s0 path0 name0 node0 h0) node (pathJoin [dirPath, name]) name s
      (Entries.all_true_aux.1 node name) hp
    rw [walkEntries, walkEntriesVisits, List.foldl_append, ← h1]
    rcases hr : walk fn (pathJoin [dirPath, name]) name node s with ⟨s1, c1⟩
    rw [hr] at h2
    cases c1
    · exact walkEntries_measure fn P f g hP hfn rest dirPath s1 h2
    · rfl
    · rfl
end

/-! ## Lemmas on the minimum version -/

theorem addVersionFile_minVersion {TD : Type} (env : Env TD) (s : SourceState TD)
    (sourcePath : String) (node : Node) :
    (addVersionFile env s sourcePath node).1.minVersion =
      match versionOf env (sourcePath, node) with
      | some v => raiseVersion env.LessThan s.minVersion v
      | none => s.minVersion := by
  unfold addVersionFile versionOf raiseVersion
  simp only
  cases node.ReadFile sourcePath with
  | error e => rfl
  | ok data =>
    simp only
    cases env.NewVersion (TrimSpace data) with
    | error e => rfl
    | ok v =>
      simp only
      split_ifs <;> rfl

theorem foldl_versionStep {TD σ : Type} (env : Env TD) (sp : String)
    (visits : List (σ × String × String × Node)) (m : Version) :
    visits.foldl (fun (a : Version) (v : σ × String × String × Node) =>
        if v.2.2.1 = versionName ∧ v.2.1 ≠ sp then
          match versionOf env (v.2.1, v.2.2.2) with
          | some ver => raiseVersion env.LessThan a ver
          | none => a
        else a) m =
      foldVersions env m ((visits.filter
        (fun v => decide (v.2.2.1 = versionName ∧ v.2.1 ≠ sp))).map
        (fun v => (v.2.1, v.2.2.2))) := by
  induction visits generalizing m with
  | nil => rfl
  | cons v rest ih =>
    simp only [List.foldl_cons, List.filter_cons]
    by_cases h : v.2.2.1 = versionName ∧ v.2.1 ≠ sp
    · have hd : decide (v.2.2.1 = versionName ∧ v.2.1 ≠ sp) = true := decide_eq_true h
      rw [if_pos h, ih, hd]
      simp only [if_true, List.map_cons]
      unfold foldVersions
      simp only [List.filterMap_cons]
      cases versionOf env (v.2.1, v.2.2.2) <;> rfl
    · have hd : decide (v.2.2.1 = versionName ∧ v.2.1 ≠ sp) = false := decide_eq_false h
      rw [if_neg h, ih, hd]
      rfl

/-- After a walk of `Read` without an error, the minimum version is what `addVersionFile` makes of
the minimum version before and of the `.chezmoiversion` entries that the walk function was called
on, and each of these that is no directory holds a version. -/
theorem Read_minVersion {TD : Type} (env : Env TD) (s : SourceState TD) (children : Entries)
    (hwalk : (readWalk env s (Node.dir children)).2 = Ctl.next) :
    (Read env s (Lstat.info (Node.dir children))).1.minVersion =
        foldVersions env s.minVersion (versionVisits env s children) ∧
      ∀ f ∈ versionVisits env s children, f.2.IsDir = false →
        (versionOf env f).isSome = true := by
  constructor
  · have hm := walk_measure (readWalkFn env) (fun st => st.s.sourcePath = s.sourcePath)
      (fun st => st.s.minVersion)
      (fun (a : Version) (v : ReadState TD × String × String × Node) =>
        if v.2.2.1 = versionName ∧ v.2.1 ≠ s.sourcePath then
          match versionOf env (v.2.1, v.2.2.2) with
          | some ver => raiseVersion env.LessThan a ver
          | none => a
        else a)
      (fun st path name node hp => by
        simp only at hp ⊢
        rw [readWalkFn_sourcePath, hp])
      (fun st path name node hp => by
        simp only at hp ⊢
        by_cases h : name = versionName ∧ path ≠ s.sourcePath
        · rw [if_pos h, h.1, readWalkFn_versionName env st path node (by rw [hp]; exact h.2),
            ctlOfErr_fst]
          exact addVersionFile_minVersion env st.s path node
        · rw [if_neg h]
          apply readWalkFn_minVersion
          by_cases hpth : path = s.sourcePath
          · exact Or.inl (hpth.trans hp.symm)
          · exact Or.inr (fun hn => h ⟨hn, hpth⟩))
      (Node.dir children) s.sourcePath (pathSplit s.sourcePath).2 ⟨s, []⟩ rfl
    rw [foldl_versionStep] at hm
    rcases hw : readWalk env s (Node.dir children) with ⟨st, c⟩
    rw [hw] at hwalk
    simp only at hwalk
    subst hwalk
    rw [Read_of_walk env s children st hw]
    unfold readWalk at hw
    rw [hw] at hm
    simp only at hm
    unfold versionVisits
    rw [← hm]
    split_ifs <;> rfl
  · intro f hf hdir
    unfold versionVisits at hf
    simp only [List.mem_map, List.mem_filter, decide_eq_true_eq] at hf
    obtain ⟨v, ⟨hv, hname, hpath⟩, hfv⟩ := hf
    obtain ⟨st, path, name, node⟩ := v
    simp only at hname hpath hfv
    subst hfv
    simp only at hdir
    cases hver : versionOf env (path, node) with
    | some ver => rfl
    | none =>
      exfalso
      have hsp : st.s.sourcePath = s.sourcePath :=
        walkVisits_inv (readWalkFn env) (fun st1 => st1.s.sourcePath = s.sourcePath)
          (fun st1 path1 name1 node1 hp => by
            simp only at hp ⊢
            rw [readWalkFn_sourcePath, hp])
          (Node.dir children) s.sourcePath (pathSplit s.sourcePath).2 ⟨s, []⟩ rfl _ hv
      have hfn := readWalkFn_versionName env st path node (by rw [hsp]; exact hpath)
      have herr : (addVersionFile env st.s path node).2 ≠ none := by
        intro h0
        obtain ⟨ver, h1, _⟩ := addVersionFile_ok env st.s path node h0
        rw [hver] at h1
        cases h1
      cases he : (addVersionFile env st.s path node).2 with
      | none => exact herr he
      | some err =>
        have hfn2 : readWalkFn env st path name node =
            (⟨(addVersionFile env st.s path node).1, st.allSourceStateEntries⟩,
              Ctl.fail err) := by
          rw [hname, hfn]
          unfold ctlOfErr
          simp only [he]
        have hstop := walkVisits_stop (readWalkFn env) (st, path, name, node) _ _ hfn2 (by simp)
          hdir (Node.dir children) s.sourcePath (pathSplit s.sourcePath).2 ⟨s, []⟩ hv
        unfold readWalk at hwalk
        rw [hstop] at hwalk
        cases hwalk

theorem readWalkFn_skipDir_iff {TD : Type} (env : Env TD) (st : ReadState TD)
    (sourcePath name : String) (children : Entries) (hpath : sourcePath ≠ st.s.sourcePath) :
    (readWalkFn env st sourcePath name (Node.dir children)).2 = Ctl.skipDir ↔
      skipsDirectory env st.s sourcePath name children = true := by
  unfold skipsDirectory readWalkFn
  dsimp only
  rw [if_neg hpath]
  by_cases h1 : HasPrefix name dataName = true
  · rw [if_pos h1]
    simp [h1, ctlOfErr_ne_skipDir]
  rw [if_neg h1]
  by_cases h2 : name = ignoreName
  · rw [if_pos h2]
    simp [h2, ctlOfErr_ne_skipDir]
  rw [if_neg h2]
  by_cases h3 : name = removeName
  · rw [if_pos h3]
    simp [h3, ctlOfErr_ne_skipDir]
  rw [if_neg h3]
  by_cases h4 : name = templatesDirName
  · rw [if_pos h4]
    subst h4
    have h5 : HasPrefix templatesDirName ignorePrefix = true := by decide
    have h6 : templatesDirName ≠ versionName := by decide
    rcases he : addTemplatesDir env st.s sourcePath templatesDirName (Node.dir children)
      with ⟨s1, e⟩
    cases e <;> simp [h1, h2, h3, h5, h6]
  rw [if_neg h4]
  by_cases h5 : name = versionName
  · rw [if_pos h5]
    simp [h5, ctlOfErr_ne_skipDir]
  rw [if_neg h5]
  by_cases h6 : HasPrefix name ChezmoiPrefix = true ∨ HasPrefix name ignorePrefix = true
  · rw [if_pos h6]
    have h7 : HasPrefix name ignorePrefix = true := by
      rcases h6 with h | h
      · exact HasPrefix_trans name ChezmoiPrefix ignorePrefix h (by decide)
      · exact h
    simp [Node.IsDir, h1, h2, h3, h4, h5, h7]
  rw [if_neg h6]
  have h7 : HasPrefix name ignorePrefix = false := by
    cases h : HasPrefix name ignorePrefix
    · rfl
    · exact absurd (Or.inr h) h6
  simp only [Node.IsDir, if_true, h7, Bool.false_and, Bool.false_eq_true, iff_false]
  split_ifs <;> simp

/-- The walk of `Read` enters a directory other than the source directory unless the walk function
returns `vfs.SkipDir` for it. -/
theorem walkVisits_readWalkFn_dir {TD : Type} (env : Env TD) (st : ReadState TD)
    (sourcePath name : String) (children : Entries) (hpath : sourcePath ≠ st.s.sourcePath) :
    walkVisits (readWalkFn env) sourcePath name (Node.dir children) st =
      (st, sourcePath, name, Node.dir children) ::
        if skipsDirectory env st.s sourcePath name children then []
        else walkEntriesVisits (readWalkFn env) sourcePath children
          (readWalkFn env st sourcePath name (Node.dir children)).1 := by
  have h := readWalkFn_skipDir_iff env st sourcePath name children hpath
  rw [walkVisits]
  rcases hr : readWalkFn env st sourcePath name (Node.dir children) with ⟨s1, c⟩
  rw [hr] at h
  cases c
  · have h2 : skipsDirectory env st.s sourcePath name children = false := by
      cases hs : skipsDirectory env st.s sourcePath name children
      · rfl
      · exact absurd (h.2 hs) (by simp)
    rw [h2]
    rfl
  · rw [h.1 rfl]
    rfl
  · have h2 : skipsDirectory env st.s sourcePath name children = false := by
      cases hs : skipsDirectory env st.s sourcePath name children
      · rfl
      · exact absurd (h.2 hs) (by simp)
    rw [h2]
    rfl

/-! ## Lemmas on the candidates of a walk -/

theorem splitSlash_ne_nil (p : List Char) : splitSlash p ≠ [] := by
  cases p with
  | nil => simp [splitSlash]
  | cons c cs =>
    simp only [splitSlash]
    split_ifs
    · simp
    · split <;> simp

theorem splitSlash_length_of_contains (p : List Char) (h : p.contains '/' = true) :
    ∃ q r qs, splitSlash p = q :: r :: qs := by
  induction p with
  | nil => simp at h
  | cons c cs ih =>
    simp only [splitSlash]
    by_cases hc : c = '/'
    · rw [if_pos hc]
      cases hs : splitSlash cs with
      | nil => exact absurd hs (splitSlash_ne_nil cs)
      | cons r qs => exact ⟨[], r, qs, rfl⟩
    · rw [if_neg hc]
      have h2 : cs.contains '/' = true := by
        simp only [List.contains_cons, Bool.or_eq_true, beq_iff_eq] at h
        rcases h with h | h
        · exact absurd h.symm hc
        · exact h
      obtain ⟨q, r, qs, hq⟩ := ih h2
      rw [hq]
      exact ⟨c :: q, r, qs, rfl⟩

/-- The two parts that `path.Split` gives, in the names between the slashes: the directory part
holds all names but the last, each followed by a slash, and the file part is the last name. -/
theorem pathSplit_components (p : List Char) :
    splitSlash (p.take (afterLastSlash p)) = (splitSlash p).dropLast ++ [[]] ∧
      p.drop (afterLastSlash p) = (splitSlash p).getLast?.getD [] := by
  induction p with
  | nil => simp [afterLastSlash, splitSlash]
  | cons c cs ih =>
    by_cases hs : cs.contains '/' = true
    · obtain ⟨q, r, qs, hq⟩ := splitSlash_length_of_contains cs hs
      simp only [afterLastSlash, hs, if_true, List.take_succ_cons, List.drop_succ_cons]
      rw [hq] at ih
      by_cases hc : c = '/'
      · simp only [splitSlash, hc, if_true, ih.1, hq]
        refine ⟨by simp [List.dropLast], ?_⟩
        rw [ih.2]
        simp [List.getLast?]
      · simp only [splitSlash, hc, if_false, ih.1, hq]
        refine ⟨by simp [List.dropLast], ?_⟩
        rw [ih.2]
        simp [List.getLast?]
    · have hs2 : cs.contains '/' = false := by simpa using hs
      have hcs := splitSlash_noSlash cs hs2
      have hi : afterLastSlash (c :: cs) = if c = '/' then 1 else 0 := by
        simp only [afterLastSlash, hs2, Bool.false_eq_true, if_false]
      rw [hi]
      by_cases hc : c = '/'
      · simp [hc, splitSlash, hcs, List.getLast?]
      · simp [hc, splitSlash, hcs, List.getLast?]

theorem getTargetDirName_split {TD : Type} (env : Env TD) (rel : String)
    (hempty : (env.parseDirAttributes "").Name = "") :
    getTargetDirName env (pathSplit rel).1 =
      if (splitSlash rel.toList).dropLast = [] then ""
      else decodedDir env (splitSlash rel.toList).dropLast ++ "/" := by
  have h0 : (env.parseDirAttributes (String.mk [])).Name.data = [] := by
    have : String.mk [] = "" := rfl
    rw [this, hempty]
  unfold getTargetDirName pathSplit decodedDir
  simp only [String.toList]
  rw [(pathSplit_components rel.data).1, List.map_append, List.map_cons, List.map_nil]
  simp only [String.toList, h0]
  by_cases hd : (splitSlash rel.data).dropLast = []
  · rw [if_pos hd, hd]
    rfl
  · rw [if_neg hd, joinSlash_append_empty _ (fun h => hd (List.map_eq_nil_iff.mp h))]
    rfl

theorem pathSplit_snd (rel : String) :
    (pathSplit rel).2 = String.mk ((splitSlash rel.toList).getLast?.getD []) := by
  unfold pathSplit
  simp only [String.toList]
  rw [(pathSplit_components rel.data).2]

theorem mapGet_mapAppend {α : Type} (m : List (String × List α)) (key : String) (v : α)
    (t : String) :
    (mapGet (mapAppend m key v) t).getD [] =
      (mapGet m t).getD [] ++ if key = t then [v] else [] := by
  induction m with
  | nil =>
    by_cases h : key = t
    · simp [mapAppend, mapGet, h]
    · simp [mapAppend, mapGet, h]
  | cons hd tl ih =>
    obtain ⟨k1, vs⟩ := hd
    by_cases h1 : k1 = key
    · by_cases h2 : key = t
      · simp [mapAppend, mapGet, h1, h2]
      · simp [mapAppend, mapGet, h1, h2]
    · by_cases h2 : k1 = t
      · have h3 : key ≠ t := fun h => h1 (h2.trans h.symm)
        simp [mapAppend, mapGet, h1, h2, h3, Ne.symm h3]
      · simp only [mapAppend, h1, if_false, mapGet, h2]
        exact ih

/-- One call of the walk function of `Read` appends the candidate that the call stands for, when
there is one, to the entries collected for its target name, and changes nothing else in the
collected map. -/
theorem readWalkFn_candidate {TD : Type} (env : Env TD) (st : ReadState TD)
    (sourcePath name : String) (node : Node) (t : String)
    (hempty : (env.parseDirAttributes "").Name = "") :
    (mapGet (readWalkFn env st sourcePath name node).1.allSourceStateEntries t).getD [] =
      (mapGet st.allSourceStateEntries t).getD [] ++
        match candidateOf env st.s.sourcePath (st, sourcePath, name, node) with
        | some c => if c.1 = t then [candidateEntry env st.s.sourcePath c] else []
        | none => [] := by
  have hdir := getTargetDirName_split env
    (TrimPrefix sourcePath (st.s.sourcePath ++ PathSeparatorStr)) hempty
  have hown := pathSplit_snd (TrimPrefix sourcePath (st.s.sourcePath ++ PathSeparatorStr))
  have hnone : ∀ l : List SourceStateEntry, HasPrefix name ignorePrefix = true →
      l = l ++ match candidateOf env st.s.sourcePath (st, sourcePath, name, node) with
        | some c => if c.1 = t then [candidateEntry env st.s.sourcePath c] else []
        | none => [] := by
    intro l h
    unfold candidateOf
    simp [h]
  unfold readWalkFn
  dsimp only
  by_cases h0 : sourcePath = st.s.sourcePath
  · rw [if_pos h0]
    unfold candidateOf
    simp [h0]
  rw [if_neg h0]
  by_cases h1 : HasPrefix name dataName = true
  · rw [if_pos h1, ctlOfErr_fst]
    exact hnone _ (HasPrefix_trans name dataName ignorePrefix h1 (by decide))
  rw [if_neg h1]
  by_cases h2 : name = ignoreName
  · rw [if_pos h2, ctlOfErr_fst]
    exact hnone _ (by rw [h2]; decide)
  rw [if_neg h2]
  by_cases h3 : name = removeName
  · rw [if_pos h3, ctlOfErr_fst]
    exact hnone _ (by rw [h3]; decide)
  rw [if_neg h3]
  by_cases h4 : name = templatesDirName
  · rw [if_pos h4]
    have := hnone ((mapGet st.allSourceStateEntries t).getD []) (by rw [h4]; decide)
    split <;> exact this
  rw [if_neg h4]
  by_cases h5 : name = versionName
  · rw [if_pos h5, ctlOfErr_fst]
    exact hnone _ (by rw [h5]; decide)
  rw [if_neg h5]
  by_cases h6 : HasPrefix name ChezmoiPrefix = true ∨ HasPrefix name ignorePrefix = true
  · rw [if_pos h6]
    have h7 : HasPrefix name ignorePrefix = true := by
      rcases h6 with h | h
      · exact HasPrefix_trans name ChezmoiPrefix ignorePrefix h (by decide)
      · exact h
    have := hnone ((mapGet st.allSourceStateEntries t).getD []) h7
    split_ifs <;> exact this
  rw [if_neg h6]
  have h7 : HasPrefix name ignorePrefix = false := by
    cases h : HasPrefix name ignorePrefix
    · rfl
    · exact absurd (Or.inr h) h6
  have hsep : st.s.sourcePath ++ PathSeparatorStr = st.s.sourcePath ++ "/" := rfl
  rw [hsep] at hdir hown ⊢
  rw [hdir, hown]
  unfold candidateOf candidateEntry decodedTargetName sourceComponents
  simp only [h7, ne_eq, h0, not_false_eq_true, true_and]
  by_cases hd : node.IsDir = true
  · simp only [hd, if_true, true_or, true_and]
    generalize (if (splitSlash (TrimPrefix sourcePath (st.s.sourcePath ++ "/")).toList).dropLast = []
      then "" else decodedDir env
        (splitSlash (TrimPrefix sourcePath (st.s.sourcePath ++ "/")).toList).dropLast ++ "/") = D
    obtain ⟨own, hown2⟩ : ∃ own, String.mk ((splitSlash
      (TrimPrefix sourcePath (st.s.sourcePath ++ "/")).toList).getLast?.getD []) = own := ⟨_, rfl⟩
    simp only [hown2]
    by_cases hm : st.s.ignore.Match env.doublestarMatch
        (pathJoin [D, (env.parseDirAttributes own).Name]) = true
    · simp [hm]
    · have hm2 : st.s.ignore.Match env.doublestarMatch
          (pathJoin [D, (env.parseDirAttributes own).Name]) = false := by simpa using hm
      simp only [hm2, Bool.false_eq_true, if_false, if_true, mapGet_mapAppend, hd, hown2]
  · have hd2 : node.IsDir = false := by simpa using hd
    simp only [hd2, Bool.false_eq_true, if_false, false_or]
    by_cases hr : node.IsRegular = true
    · simp only [hr, if_true, true_and]
      generalize (if (splitSlash (TrimPrefix sourcePath (st.s.sourcePath ++ "/")).toList).dropLast = []
        then "" else decodedDir env
          (splitSlash (TrimPrefix sourcePath (st.s.sourcePath ++ "/")).toList).dropLast ++ "/") = D
      obtain ⟨own, hown2⟩ : ∃ own, String.mk ((splitSlash
        (TrimPrefix sourcePath (st.s.sourcePath ++ "/")).toList).getLast?.getD []) = own :=
        ⟨_, rfl⟩
      simp only [hown2]
      by_cases hm : st.s.ignore.Match env.doublestarMatch
          (pathJoin [D, (env.parseFileAttributes own).Name]) = true
      · simp [hm]
      · have hm2 : st.s.ignore.Match env.doublestarMatch
            (pathJoin [D, (env.parseFileAttributes own).Name]) = false := by simpa using hm
        simp only [hm2, Bool.false_eq_true, if_false, if_true, mapGet_mapAppend, hd2, hown2]
    · simp [hr]
theorem candidateEntry_Path {TD : Type} (env : Env TD) (sourcePath : String)
    (c : String × String × Node) : (candidateEntry env sourcePath c).Path = c.2.1 := by
  unfold candidateEntry
  dsimp only
  split_ifs <;> rfl

theorem foldl_candidates {TD : Type} (env : Env TD) (sp t : String)
    (visits : List (ReadState TD × String × String × Node)) (l : List SourceStateEntry) :
    visits.foldl (fun (a : List SourceStateEntry) (v : ReadState TD × String × String × Node) =>
        a ++ match candidateOf env sp v with
          | some c => if c.1 = t then [candidateEntry env sp c] else []
          | none => []) l =
      l ++ ((visits.filterMap (candidateOf env sp)).filter (fun c => decide (c.1 = t))).map
        (candidateEntry env sp) := by
  induction visits generalizing l with
  | nil => simp
  | cons v rest ih =>
    rw [List.foldl_cons, ih, List.filterMap_cons]
    cases hc : candidateOf env sp v with
    | none => simp
    | some c =>
      by_cases ht : c.1 = t
      · simp [ht, List.filter_cons]
      · simp [ht, List.filter_cons]

/-- The entries that the walk of `Read` has collected for a target name when it ends are the
candidates that decode to the target name, in the order of the walk. -/
theorem walkedEntries_candidates {TD : Type} (env : Env TD) (s : SourceState TD)
    (children : Entries) (t : String) (hempty : (env.parseDirAttributes "").Name = "") :
    walkedEntries env s children t =
      ((candidates env s children).filter (fun c => decide (c.1 = t))).map
        (candidateEntry env s.sourcePath) := by
  have hm := walk_measure (readWalkFn env) (fun st => st.s.sourcePath = s.sourcePath)
    (fun st => (mapGet st.allSourceStateEntries t).getD [])
    (fun (a : List SourceStateEntry) (v : ReadState TD × String × String × Node) =>
      a ++ match candidateOf env s.sourcePath v with
        | some c => if c.1 = t then [candidateEntry env s.sourcePath c] else []
        | none => [])
    (fun st path name node hp => by
      simp only at hp ⊢
      rw [readWalkFn_sourcePath, hp])
    (fun st path name node hp => by
      simp only at hp ⊢
      rw [readWalkFn_candidate env st path name node t hempty, hp])
    (Node.dir children) s.sourcePath (pathSplit s.sourcePath).2 ⟨s, []⟩ rfl
  rw [foldl_candidates] at hm
  simp only [mapGet, Option.getD_none, List.nil_append] at hm
  unfold walkedEntries readWalk candidates
  exact hm

theorem walkedEntries_paths {TD : Type} (env : Env TD) (s : SourceState TD)
    (children : Entries) (t : String) (hempty : (env.parseDirAttributes "").Name = "") :
    (walkedEntries env s children t).map SourceStateEntry.Path =
      candidatePaths env s children t := by
  rw [walkedEntries_candidates env s children t hempty, List.map_map]
  unfold candidatePaths
  apply List.map_congr_left
  intro c _
  exact candidateEntry_Path env s.sourcePath c

/-- The error of `Read` after a walk without an error, by the candidates of the walk: one duplicate
target error for each target name that two or more candidates decode to, with the source paths of
these candidates in the order of the walk, in strictly ascending order of the target names. -/
theorem Read_duplicates {TD : Type} (env : Env TD) (s : SourceState TD) (children : Entries)
    (hempty : (env.parseDirAttributes "").Name = "")
    (hwalk : (readWalk env s (Node.dir children)).2 = Ctl.next) :
    ∃ names : List String, names.Pairwise (fun a b => strLt a b = true) ∧
      (∀ t, t ∈ names ↔ 2 ≤ (candidatePaths env s children t).length) ∧
      (Read env s (Lstat.info (Node.dir children))).2 =
        names.map (fun t => Error.duplicateTarget t (candidatePaths env s children t)) := by
  have herr := Read_errors env s children (by rw [hwalk]; rfl)
  have hwf := readWalk_wellFormed env s (Node.dir children)
  have hlen : ∀ t, (walkedEntries env s children t).length =
      (candidatePaths env s children t).length := by
    intro t
    rw [← walkedEntries_paths env s children t hempty, List.length_map]
  refine ⟨(sortStrings (mapKeys (readWalk env s (Node.dir children)).1.allSourceStateEntries)).filter
    (fun t => decide (2 ≤ (walkedEntries env s children t).length)), ?_, ?_, ?_⟩
  · exact (sortStrings_strict _ hwf.1).sublist (List.filter_sublist _)
  · intro t
    simp only [List.mem_filter, decide_eq_true_eq, hlen]
    constructor
    · exact fun h => h.2
    · intro ht
      refine ⟨?_, ht⟩
      rw [(sortStrings_perm _).mem_iff]
      by_contra hc
      have h2 := hlen t
      unfold walkedEntries at h2
      rw [(mapGet_eq_none_iff _ _).mpr hc] at h2
      simp only [Option.getD_none, List.length_nil] at h2
      omega
  · rw [herr]
    apply List.map_congr_left
    intro t _
    rw [walkedEntries_paths env s children t hempty]
/-- The entries of the source state after a `Read` without an error, by the candidates of the
walk: a target name that a candidate decodes to is mapped to the source entry of the first such
candidate, and any other name is mapped as before `Read`. -/
theorem Read_entries {TD : Type} (env : Env TD) (s : SourceState TD) (children : Entries)
    (hempty : (env.parseDirAttributes "").Name = "")
    (hwalk : (readWalk env s (Node.dir children)).2 = Ctl.next)
    (hnil : (Read env s (Lstat.info (Node.dir children))).2 = []) (t : String) :
    mapGet (Read env s (Lstat.info (Node.dir children))).1.entries t =
      match (candidates env s children).filter (fun c => decide (c.1 = t)) with
      | c :: _ => some (candidateEntry env s.sourcePath c)
      | [] => mapGet s.entries t := by
  have hwf := readWalk_wellFormed env s (Node.dir children)
  have hcand := walkedEntries_candidates env s children t hempty
  have hent : (readWalk env s (Node.dir children)).1.s.entries = s.entries :=
    walk_inv (readWalkFn env) (fun st1 => st1.s.entries = s.entries) (fun _ _ => true)
      (fun st1 path name node _ hp => by
        simp only at hp ⊢
        rw [readWalkFn_entries, hp])
      (Node.dir children) s.sourcePath (pathSplit s.sourcePath).2 ⟨s, []⟩
      (Entries.all_true_aux.1 _ _) rfl
  rcases hw : readWalk env s (Node.dir children) with ⟨st, c⟩
  rw [hw] at hwalk hwf hent
  simp only at hwalk hwf hent
  subst hwalk
  rw [Read_of_walk env s children st hw] at hnil ⊢
  unfold walkedEntries at hcand
  rw [hw] at hcand
  simp only at hcand
  split_ifs at hnil ⊢ with h
  · simp only at hnil
    exact absurd hnil h
  · simp only
    rw [mapGet_populateEntries _ _ _ hwf.1, hent]
    cases hg : mapGet st.allSourceStateEntries t with
    | none =>
      rw [hg] at hcand
      simp only [Option.getD_none] at hcand
      cases hf : (candidates env s children).filter (fun c => decide (c.1 = t)) with
      | nil => rfl
      | cons c0 rest =>
        rw [hf] at hcand
        simp at hcand
    | some l =>
      have hne := hwf.2 _ (mapGet_mem _ _ _ hg)
      rw [hg] at hcand
      simp only [Option.getD_some] at hcand
      cases hf : (candidates env s children).filter (fun c => decide (c.1 = t)) with
      | nil =>
        rw [hf] at hcand
        simp only [List.map_nil] at hcand
        exact absurd hcand hne
      | cons c0 rest =>
        rw [hf] at hcand
        rw [hcand]
        rfl

/-! ## Lemmas on the loop of `addPatterns` -/

/-- The loop of `addPatterns` ends without an error exactly when `doublestar.Match` accepts the
pattern of every line. -/
theorem addPatternsLoop_none_iff (m : Matcher) (sourcePath dir : String) (lines : List String)
    (ps : PatternSet) :
    (addPatternsLoop m sourcePath dir lines ps).2 = none ↔
      ∀ line ∈ lines, ∀ (incl : Bool) (p : String), linePattern line = some (incl, p) →
        (m (pathJoin [dir, p]) "").2 = none := by
  induction lines generalizing ps with
  | nil => simp [addPatternsLoop]
  | cons line rest ih =>
    simp only [addPatternsLoop, List.mem_cons, forall_eq_or_imp]
    by_cases h1 : TrimSpace (cutAtRune line '#') = ""
    · rw [if_pos h1, ih]
      have hl : linePattern line = none := by simp [linePattern, h1]
      simp [hl]
    · rw [if_neg h1]
      by_cases h2 : HasPrefix (TrimSpace (cutAtRune line '#')) "!" = true
      · have hl : linePattern line =
            some (false, TrimPrefix (TrimSpace (cutAtRune line '#')) "!") := by
          simp [linePattern, h1, h2]
        simp only [h2, Bool.not_true, if_true, hl, Option.some.injEq, Prod.mk.injEq]
        unfold PatternSet.Add
        cases hm : (m (pathJoin [dir, TrimPrefix (TrimSpace (cutAtRune line '#')) "!"]) "").2 with
        | some err =>
          simp only [Bool.false_eq_true, if_false]
          constructor
          · intro h
            cases h
          · intro h
            have := h.1 false _ ⟨rfl, rfl⟩
            rw [hm] at this
            cases this
        | none =>
          simp only [Bool.false_eq_true, if_false, ih]
          constructor
          · intro h
            refine ⟨?_, h⟩
            rintro incl p ⟨_, hp⟩
            rw [← hp]
            exact hm
          · intro h
            exact h.2
      · have h2f : HasPrefix (TrimSpace (cutAtRune line '#')) "!" = false := by simpa using h2
        have hl : linePattern line = some (true, TrimSpace (cutAtRune line '#')) := by
          simp [linePattern, h1, h2f]
        simp only [h2f, Bool.not_false, Bool.false_eq_true, if_false, hl, Option.some.injEq,
          Prod.mk.injEq]
        unfold PatternSet.Add
        cases hm : (m (pathJoin [dir, TrimSpace (cutAtRune line '#')]) "").2 with
        | some err =>
          simp only [if_true]
          constructor
          · intro h
            cases h
          · intro h
            have := h.1 true _ ⟨rfl, rfl⟩
            rw [hm] at this
            cases this
        | none =>
          simp only [if_true, ih]
          constructor
          · intro h
            refine ⟨?_, h⟩
            rintro incl p ⟨_, hp⟩
            rw [← hp]
            exact hm
          · intro h
            exact h.2

theorem scanTokens_subset (data : String) : ∀ line ∈ (scanTokens data).1, line ∈ scanLines data := by
  intro line hl
  unfold scanTokens at hl
  unfold scanLines
  simp only [List.mem_map] at hl ⊢
  obtain ⟨a, ha, hal⟩ := hl
  exact ⟨a, (List.takeWhile_sublist _).subset ha, hal⟩

theorem scanTokens_err (data : String) (err : String) (h : (scanTokens data).2 = some err) :
    err = ErrTooLong := by
  unfold scanTokens at h
  simp only at h
  split_ifs at h <;> (injection h with h2; exact h2.symm)

/-- The method `executeTemplate` on a file that is read, parsed and executed without an error. -/
theorem executeTemplate_of_data {TD : Type} (env : Env TD) (s : SourceState TD)
    (sourcePath : String) (node : Node) (raw data : String)
    (hread : node.ReadFile sourcePath = .ok raw)
    (hparse : env.parseTemplate sourcePath raw = none)
    (hexec : env.executeTemplate sourcePath raw s.templates s.templateData = .ok data) :
    executeTemplate env s sourcePath node = .ok data := by
  unfold executeTemplate ExecuteTemplateData
  rw [hread]
  simp only [hparse, hexec]

theorem splitLF_replicate (n : Nat) : splitLF (List.replicate n 'a') = [List.replicate n 'a'] := by
  induction n with
  | zero => rfl
  | succ k ih =>
    have h : ('a' = Char.ofNat 10) = False := by decide
    simp only [List.replicate_succ, splitLF, h, if_false, ih]

theorem utf8ByteSize_replicate (n : Nat) :
    (String.mk (List.replicate n 'a')).utf8ByteSize = n := by
  induction n with
  | zero => rfl
  | succ k ih =>
    have h : Char.utf8Size 'a' = 1 := by decide
    simp only [String.utf8ByteSize, List.replicate_succ, String.utf8ByteSize.go, h] at ih ⊢
    rw [ih]

/-! ## Lemmas on the errors of the walk -/

/-- An error that the walk function of `Read` returns for an entry that is no directory ends the
walk, and `Read` returns this error alone. -/
theorem Read_of_visit_fail {TD : Type} (env : Env TD) (s : SourceState TD) (children : Entries)
    (v : ReadState TD × String × String × Node) (err : Error)
    (hv : v ∈ walkVisits (readWalkFn env) s.sourcePath (pathSplit s.sourcePath).2
      (Node.dir children) ⟨s, []⟩)
    (hdir : v.2.2.2.IsDir = false)
    (herr : (readWalkFn env v.1 v.2.1 v.2.2.1 v.2.2.2).2 = Ctl.fail err) :
    (Read env s (Lstat.info (Node.dir children))).2 = [err] := by
  have hstop := walkVisits_stop (readWalkFn env) v (readWalkFn env v.1 v.2.1 v.2.2.1 v.2.2.2).1
    (Ctl.fail err) (Prod.ext rfl herr) (by simp) hdir (Node.dir children) s.sourcePath
    (pathSplit s.sourcePath).2 ⟨s, []⟩ hv
  rw [Read_of_walk_fail env s children _ err hstop]

theorem ctlOfErr_some {σ : Type} (r : σ × Option Error) (err : Error) (h : r.2 = some err) :
    (ctlOfErr r).2 = Ctl.fail err := by
  unfold ctlOfErr
  rw [h]

theorem readWalkFn_dataName {TD : Type} (env : Env TD) (st : ReadState TD)
    (sourcePath name : String) (node : Node) (hpath : sourcePath ≠ st.s.sourcePath)
    (hname : HasPrefix name dataName = true) :
    readWalkFn env st sourcePath name node =
      ctlOfErr (⟨(addTemplateData env st.s sourcePath node).1, st.allSourceStateEntries⟩,
        (addTemplateData env st.s sourcePath node).2) := by
  unfold readWalkFn
  dsimp only
  rw [if_neg hpath, if_pos hname]

/-! ## Lemmas on the renaming of `chattr` -/

theorem zero_modifyFileAttributes (fa : FileAttributes)
    (h1 : fa.Type_ ≠ SourceFileType.SourceFileTypeScript) (h2 : fa.Once = false)
    (h3 : fa.Type_ ≠ SourceFileType.SourceFileTypeFile → fa.Empty = false)
    (h4 : fa.Type_ = SourceFileType.SourceFileTypeSymlink →
      fa.Encrypted = false ∧ fa.Executable = false ∧ fa.Private = false) :
    attributesModifier.zero.modifyFileAttributes fa = some fa := by
  obtain ⟨name, type, empty, encrypted, executable, once, priv, template⟩ := fa
  simp only at h1 h2 h3 h4
  subst h2
  cases type
  · rfl
  · have := h3 (by simp)
    subst this
    rfl
  · exact absurd rfl h1
  · have := h3 (by simp)
    subst this
    obtain ⟨h5, h6, h7⟩ := h4 rfl
    subst h5 h6 h7
    rfl

/-- With the all-leave-unchanged modifier the loop of `runChattrCmd` calls `Rename` for no target
whose entry keeps its base name. -/
theorem chattrLoop_zero {σ : Type} (ce : ChattrEnv σ) (SourceDir : String)
    (entries : List (String × SourceStateEntry)) (targetNames : List String) (system : σ)
    (renamed : List (String × String))
    (h : ∀ t ∈ targetNames, ∃ e, mapGet entries t = some e ∧ keepsBaseName ce SourceDir e) :
    chattrLoop ce SourceDir attributesModifier.zero entries targetNames system renamed =
      some ⟨system, none, renamed⟩ := by
  induction targetNames with
  | nil => rfl
  | cons t rest ih =>
    obtain ⟨e, he, hk⟩ := h t (List.mem_cons_self _ _)
    have ih2 := ih (fun t2 ht2 => h t2 (List.mem_cons_of_mem _ ht2))
    rw [chattrLoop, he]
    cases e with
    | SourceStateDir path da tse =>
      simp only [keepsBaseName, sourceBaseName, SourceStateEntry.Path] at hk
      have hz : attributesModifier.zero.modifyDirAttributes da = da := rfl
      simp only [hz, hk, ne_eq, not_true_eq_false, if_false]
      exact ih2
    | SourceStateFile path fa targetName readFile =>
      simp only [keepsBaseName, sourceBaseName, SourceStateEntry.Path] at hk
      obtain ⟨h1, h2, h3, h4, h5⟩ := hk
      simp only [zero_modifyFileAttributes fa h1 h2 h3 h4, h5, ne_eq, not_true_eq_false, if_false]
      exact ih2

/-! ## Lemmas on the calls of a helper with one tuple among other calls -/

/-- One call of a helper leaves the cache as it was at every key but the key of its tuple, and
adds to the record of commands nothing but runs with its tuple. -/
theorem cachedCall_frame {ω V α : Type} (c : SecretEnv ω V) (name : String)
    (decode : String → Except String α) (st : CacheState ω α) (args : List String) :
    ∃ extra, (cachedCall c name decode st args).1.commands = st.commands ++ extra ∧
      (∀ r ∈ extra, r.2.1 = args) ∧
      ∀ k, k ≠ cacheKey args →
        mapGet (cachedCall c name decode st args).1.cache k = mapGet st.cache k := by
  unfold cachedCall
  cases mapGet st.cache (cacheKey args) with
  | some value => exact ⟨[], by simp, by simp, fun _ _ => rfl⟩
  | none =>
    dsimp only
    cases (c.IdempotentCmdOutput st.world name args).2.2 with
    | some err => exact ⟨[_], rfl, by simp, fun _ _ => rfl⟩
    | none =>
      dsimp only
      cases decode (c.IdempotentCmdOutput st.world name args).2.1 with
      | error err => exact ⟨[_], rfl, by simp, fun _ _ => rfl⟩
      | ok value =>
        refine ⟨[_], rfl, by simp, fun k hk => ?_⟩
        dsimp only
        rw [mapGet_mapSet, if_neg hk]

/-- Once the cache holds a value at the key of the tuple `A`, further calls, of which none has
another tuple with the key of `A`, return this value for `A` and run no command with `A`. -/
theorem callAll_after {ω V α : Type} (c : SecretEnv ω V) (name : String)
    (decode : String → Except String α) (A : List String) (value : α) :
    ∀ (history : List (List String)) (st : CacheState ω α),
      mapGet st.cache (cacheKey A) = some value →
      (∀ B ∈ history, cacheKey B = cacheKey A → B = A) →
      (∃ extra, (callAll (cachedCall c name decode) history st).1.commands =
          st.commands ++ extra ∧ ∀ r ∈ extra, r.2.1 ≠ A) ∧
        ∀ p ∈ history.zip (callAll (cachedCall c name decode) history st).2,
          p.1 = A → p.2 = .ok value
  | [], st, _, _ => ⟨⟨[], by simp [callAll], by simp⟩, by simp [callAll]⟩
  | B :: rest, st, hget, hkey => by
    have hrest : ∀ B2 ∈ rest, cacheKey B2 = cacheKey A → B2 = A :=
      fun B2 h2 => hkey B2 (List.mem_cons_of_mem _ h2)
    simp only [callAll, List.zip_cons_cons, List.mem_cons, forall_eq_or_imp]
    by_cases hB : B = A
    · subst hB
      rw [cachedCall_hit c name decode st B value hget]
      obtain ⟨h1, h2⟩ := callAll_after c name decode B value rest st hget hrest
      exact ⟨h1, fun _ => rfl, h2⟩
    · have hk : cacheKey A ≠ cacheKey B := fun h => hB (hkey B (List.mem_cons_self _ _) h.symm)
      obtain ⟨e1, he1, he2, he3⟩ := cachedCall_frame c name decode st B
      obtain ⟨⟨e2, h1, h1b⟩, h2⟩ := callAll_after c name decode A value rest
        (cachedCall c name decode st B).1 (by rw [he3 _ hk]; exact hget) hrest
      refine ⟨⟨e1 ++ e2, ?_, ?_⟩, fun h => absurd h hB, h2⟩
      · rw [h1, he1, List.append_assoc]
      · intro r hr
        rcases List.mem_append.mp hr with h | h
        · rw [he2 r h]
          exact hB
        · exact h1b r h

/-- From a cache that holds nothing at the key of the tuple `A`, calls of which none has another
tuple with the key of `A` and in which every call with `A` succeeds: all calls with `A` return
one value, decoded from the output of the one run of the command with `A`. -/
theorem callAll_first {ω V α : Type} (c : SecretEnv ω V) (name : String)
    (decode : String → Except String α) (A : List String) :
    ∀ (history : List (List String)) (st : CacheState ω α),
      mapGet st.cache (cacheKey A) = none →
      (∀ B ∈ history, cacheKey B = cacheKey A → B = A) →
      (∀ p ∈ history.zip (callAll (cachedCall c name decode) history st).2,
        p.1 = A → p.2.isOk = true) →
      A ∈ history →
      ∃ value output extra,
        (callAll (cachedCall c name decode) history st).1.commands = st.commands ++ extra ∧
        extra.filter (fun r => decide (r.2.1 = A)) = [(name, A, output, none)] ∧
        decode output = .ok value ∧
        ∀ p ∈ history.zip (callAll (cachedCall c name decode) history st).2,
          p.1 = A → p.2 = .ok value
  | [], st, _, _, _, hA => by simp at hA
  | B :: rest, st, hget, hkey, hok, hA => by
    have hrest : ∀ B2 ∈ rest, cacheKey B2 = cacheKey A → B2 = A :=
      fun B2 h2 => hkey B2 (List.mem_cons_of_mem _ h2)
    simp only [callAll, List.zip_cons_cons, List.mem_cons, forall_eq_or_imp] at hok ⊢
    by_cases hB : B = A
    · subst hB
      have hfirst := hok.1 rfl
      cases hr : (cachedCall c name decode st B).2 with
      | error err =>
        rw [hr] at hfirst
        cases hfirst
      | ok value =>
        obtain ⟨h1, h2⟩ := cachedCall_miss c name decode st B value hget hr
        obtain ⟨⟨e2, h3, h3b⟩, h4⟩ := callAll_after c name decode B value rest
          (cachedCall c name decode st B).1 (by rw [h1]; simp [mapGet_mapSet]) hrest
        refine ⟨value, (c.IdempotentCmdOutput st.world name B).2.1,
          (name, B, (c.IdempotentCmdOutput st.world name B).2.1, none) :: e2, ?_, ?_, h2,
          fun _ => rfl, h4⟩
        · rw [h3, h1]
          simp
        · rw [List.filter_cons]
          simp only [decide_True, if_true, List.cons.injEq, true_and]
          rw [List.filter_eq_nil_iff]
          intro r hr2
          simpa using h3b r hr2
    · have hk : cacheKey A ≠ cacheKey B := fun h => hB (hkey B (List.mem_cons_self _ _) h.symm)
      obtain ⟨e1, he1, he2, he3⟩ := cachedCall_frame c name decode st B
      have hA2 : A ∈ rest := by
        rcases List.mem_cons.mp hA with h | h
        · exact absurd h.symm hB
        · exact h
      obtain ⟨value, output, e2, h1, h2, h3, h4⟩ := callAll_first c name decode A rest
        (cachedCall c name decode st B).1 (by rw [he3 _ hk]; exact hget) hrest hok.2 hA2
      refine ⟨value, output, e1 ++ e2, ?_, ?_, h3, fun h => absurd h hB, h4⟩
      · rw [h1, he1, List.append_assoc]
      · rw [List.filter_append, h2]
        have : e1.filter (fun r => decide (r.2.1 = A)) = [] := by
          rw [List.filter_eq_nil_iff]
          intro r hr
          rw [he2 r hr]
          simpa using hB
        rw [this]
        rfl

/-- The calls of a helper in a new process, of which none has another tuple with the key of the
tuple `A`, and in which `A` is called and every call with `A` succeeds: all calls with `A` return
one value, and the command was run with `A` exactly once. -/
theorem callAll_once {ω V α : Type} (c : SecretEnv ω V) (name : String)
    (decode : String → Except String α) (world : ω) (history : List (List String))
    (A : List String) (hA : A ∈ history)
    (hkey : ∀ B ∈ history, cacheKey B = cacheKey A → B = A)
    (hok : ∀ p ∈ history.zip (callAll (cachedCall c name decode) history (newCache world)).2,
      p.1 = A → p.2.isOk = true) :
    ∃ value output,
      (∀ p ∈ history.zip (callAll (cachedCall c name decode) history (newCache world)).2,
        p.1 = A → p.2 = .ok value) ∧
      (callAll (cachedCall c name decode) history (newCache world)).1.commands.filter
        (fun r => decide (r.2.1 = A)) = [(name, A, output, none)] ∧
      decode output = .ok value := by
  obtain ⟨value, output, extra, h1, h2, h3, h4⟩ := callAll_first c name decode A history
    (newCache world) rfl hkey hok hA
  refine ⟨value, output, h4, ?_, h3⟩
  rw [h1]
  simpa [newCache] using h2

/-! ## Claims -/

/-- C1: `PatternSet.Match` is true exactly when the name matches some include pattern and no
exclude pattern; a set without include patterns matches nothing; and the result is the same for
every iteration order of the two sets. -/
theorem C1_Match_spec (doublestarMatch : Matcher) (ps : PatternSet) (name : String) :
    (ps.Match doublestarMatch name = true ↔
      (∃ p ∈ ps.includes, (doublestarMatch p name).1 = true) ∧
        ∀ p ∈ ps.excludes, (doublestarMatch p name).1 = false) ∧
    (∀ excludes : stringSet, (PatternSet.mk [] excludes).Match doublestarMatch name = false) ∧
    (∀ ps2 : PatternSet, ps2.includes.Perm ps.includes → ps2.excludes.Perm ps.excludes →
      ps2.Match doublestarMatch name = ps.Match doublestarMatch name) := by
  refine ⟨Match_iff doublestarMatch ps name, ?_, ?_⟩
  · intro excludes
    unfold PatternSet.Match
    simp [rangeHits]
  · intro ps2 hi he
    unfold PatternSet.Match
    rw [rangeHits_perm doublestarMatch name hi, rangeHits_perm doublestarMatch name he]

/-- C1, at a concrete input: the set with the includes `a`, `b` and the exclude `c` matches `b`, in
either order of the includes. -/
theorem C1_Match_spec_witness :
    (PatternSet.mk ["a", "b"] ["c"]).Match literalMatch "b" = true ∧
      (PatternSet.mk ["b", "a"] ["c"]).Match literalMatch "b" =
        (PatternSet.mk ["a", "b"] ["c"]).Match literalMatch "b" :=
  ⟨(C1_Match_spec literalMatch ⟨["a", "b"], ["c"]⟩ "b").1.mpr
      ⟨⟨"b", by decide, by decide⟩, by decide⟩,
    (C1_Match_spec literalMatch ⟨["a", "b"], ["c"]⟩ "b").2.2 ⟨["b", "a"], ["c"]⟩
      (List.Perm.swap "a" "b" []) (List.Perm.refl _)⟩

/-- C2 fails as stated: in `lateIgnoreSource` the file `+x` is walked before `.chezmoiignore` is
read, so `Read` succeeds with the key `+x` in `entries` although the final ignore set matches
`+x`. -/
theorem C2_counterexample :
    (Read plainEnv testState lateIgnoreSource).2 = [] ∧
      ¬ ∀ t : String,
        (Read plainEnv testState lateIgnoreSource).1.ignore.Match plainEnv.doublestarMatch t = true →
          t ∉ mapKeys (Read plainEnv testState lateIgnoreSource).1.entries := by
  refine ⟨by decide, ?_⟩
  intro h
  exact h "+x" (by decide) (by decide)

/-- C2, amended: after `Read` succeeds for a new source state on a source directory in which the
entries walked before the first recorded one are no directories and have names that begin with a
dot (`pre`, which may hold the `.chezmoiignore` of the root) and which has no entry named
`.chezmoiignore` further on, at any depth (`rest`), no key of `entries` is matched by the final
ignore set. -/
theorem C2_keys_not_ignored {TD : Type} (env : Env TD) (s : SourceState TD)
    (pre rest : Entries)
    (hpre : Entries.allTop (fun name node => HasPrefix name ignorePrefix && !node.IsDir &&
        decide (pathJoin [s.sourcePath, name] ≠ s.sourcePath)) pre = true)
    (hrest : Entries.all (fun name _ => decide (name ≠ ignoreName)) rest = true)
    (hentries : s.entries = [])
    (hread : (Read env s (Lstat.info (Node.dir (pre.append rest)))).2 = []) :
    ∀ t : String,
      (Read env s (Lstat.info (Node.dir (pre.append rest)))).1.ignore.Match
          env.doublestarMatch t = true →
        t ∉ mapKeys (Read env s (Lstat.info (Node.dir (pre.append rest)))).1.entries := by
  intro t ht hmem
  have h := Read_keys_unmatched env s _ pre rest hpre hrest hentries (Prod.ext rfl hread) t hmem
  rw [h] at ht
  cases ht

/-- C2, amended, at a concrete input: the source directory `readmeSource`, where `.chezmoiignore`
comes first; the final ignore set matches `README.md`, which is no key. -/
theorem C2_keys_not_ignored_witness :
    mapKeys (Read plainEnv testState (Lstat.info (Node.dir readmeSource))).1.entries = ["foo"] ∧
      (Read plainEnv testState (Lstat.info (Node.dir readmeSource))).1.ignore.Match
        plainEnv.doublestarMatch "README.md" = true ∧
      ∀ t : String,
        (Read plainEnv testState (Lstat.info (Node.dir readmeSource))).1.ignore.Match
            plainEnv.doublestarMatch t = true →
          t ∉ mapKeys (Read plainEnv testState (Lstat.info (Node.dir readmeSource))).1.entries :=
  ⟨by decide, by decide,
    C2_keys_not_ignored plainEnv testState
      (.cons ".chezmoiignore" (.file "README.md\n") .nil)
      (.cons "README.md" (.file "") (.cons "foo" (.file "bar") .nil))
      (by decide) (by decide) rfl (by decide)⟩

/-- C3 fails as stated: in `lateIgnoreSource` the file `+x` is walked before `.chezmoiignore` is
read; `Read` succeeds, the final ignore set matches `+x`, `+x` is a key of `entries`, and
`ApplyAll` applies it and writes the file `/home/user/+x`. -/
theorem C3_counterexample :
    (Read plainEnv testState lateIgnoreSource).2 = [] ∧
      (Read plainEnv testState lateIgnoreSource).1.ignore.Match plainEnv.doublestarMatch "+x" =
        true ∧
      "+x" ∈ mapKeys (Read plainEnv testState lateIgnoreSource).1.entries ∧
      (ApplyAll plainEnv (Read plainEnv testState lateIgnoreSource).1
        (memSystem (fun _ => true)) homeDest "/home/user" 0o22).applied = ["+x"] ∧
      mapGet (ApplyAll plainEnv (Read plainEnv testState lateIgnoreSource).1
        (memSystem (fun _ => true)) homeDest "/home/user" 0o22).system.nodes "/home/user/+x" =
        some (DestStateEntry.DestStateFile "a" 0o644) := by
  refine ⟨by decide, by decide, by decide, by decide, by decide⟩

/-- C3, amended: after `Read` succeeds for a new source state on a source directory of the shape
of C2, a name that the final ignore set matches is not itself a key of `entries`, and `ApplyAll`
does not call `ApplyOne` on it, on any target system. -/
theorem C3_ignored_not_applied {TD σ δ : Type} (env : Env TD) (s : SourceState TD)
    (pre rest : Entries) (sys : TargetSystem σ δ) (system : σ) (targetDir : String) (umask : Nat)
    (hpre : Entries.allTop (fun name node => HasPrefix name ignorePrefix && !node.IsDir &&
        decide (pathJoin [s.sourcePath, name] ≠ s.sourcePath)) pre = true)
    (hrest : Entries.all (fun name _ => decide (name ≠ ignoreName)) rest = true)
    (hentries : s.entries = [])
    (hread : (Read env s (Lstat.info (Node.dir (pre.append rest)))).2 = []) :
    ∀ n : String,
      (Read env s (Lstat.info (Node.dir (pre.append rest)))).1.ignore.Match
          env.doublestarMatch n = true →
        n ∉ mapKeys (Read env s (Lstat.info (Node.dir (pre.append rest)))).1.entries ∧
        n ∉ (ApplyAll env (Read env s (Lstat.info (Node.dir (pre.append rest)))).1 sys system
          targetDir umask).applied := by
  intro n hn
  have hkey : n ∉ mapKeys (Read env s (Lstat.info (Node.dir (pre.append rest)))).1.entries := by
    intro hmem
    have h := Read_keys_unmatched env s _ pre rest hpre hrest hentries (Prod.ext rfl hread) n hmem
    rw [h] at hn
    cases hn
  refine ⟨hkey, ?_⟩
  intro happ
  obtain ⟨l, hl1, hl2, _⟩ := applyLoop_applied env
    (Read env s (Lstat.info (Node.dir (pre.append rest)))).1 sys targetDir umask
    (sortedTargetNames (Read env s (Lstat.info (Node.dir (pre.append rest)))).1)
    ⟨system, none, [], []⟩
  unfold ApplyAll at happ
  rw [hl2] at happ
  simp only [List.nil_append] at happ
  have h1 := hl1.subset happ
  exact hkey ((sortStrings_perm _).mem_iff.mp h1)

/-- C3, amended, at a concrete input: the source directory `readmeSource` applied to the
destination `homeDest`; the ignore set matches `README.md`, and only `foo` is applied. -/
theorem C3_ignored_not_applied_witness :
    (ApplyAll plainEnv (Read plainEnv testState (Lstat.info (Node.dir readmeSource))).1
        (memSystem (fun _ => true)) homeDest "/home/user" 0o22).applied = ["foo"] ∧
      "README.md" ∉ (ApplyAll plainEnv
        (Read plainEnv testState (Lstat.info (Node.dir readmeSource))).1
        (memSystem (fun _ => true)) homeDest "/home/user" 0o22).applied ∧
      ∀ n : String,
        (Read plainEnv testState (Lstat.info (Node.dir readmeSource))).1.ignore.Match
            plainEnv.doublestarMatch n = true →
          n ∉ mapKeys (Read plainEnv testState (Lstat.info (Node.dir readmeSource))).1.entries ∧
          n ∉ (ApplyAll plainEnv (Read plainEnv testState (Lstat.info (Node.dir readmeSource))).1
            (memSystem (fun _ => true)) homeDest "/home/user" 0o22).applied :=
  ⟨by decide,
    ((C3_ignored_not_applied plainEnv testState
      (.cons ".chezmoiignore" (.file "README.md\n") .nil)
      (.cons "README.md" (.file "") (.cons "foo" (.file "bar") .nil))
      (memSystem (fun _ => true)) homeDest "/home/user" 0o22
      (by decide) (by decide) rfl (by decide)) "README.md" (by decide)).2,
    C3_ignored_not_applied plainEnv testState
      (.cons ".chezmoiignore" (.file "README.md\n") .nil)
      (.cons "README.md" (.file "") (.cons "foo" (.file "bar") .nil))
      (memSystem (fun _ => true)) homeDest "/home/user" 0o22
      (by decide) (by decide) rfl (by decide)⟩

/-- The walk of `Read` goes on inside a directory that the ignore set matches: in
`ignoredDirSource` the ignore set matches `foo`, and `Read` succeeds with the key `foo/bar`. -/
theorem ignored_directory_entered :
    (Read plainEnv testState ignoredDirSource).2 = [] ∧
      (Read plainEnv testState ignoredDirSource).1.ignore.Match plainEnv.doublestarMatch "foo" =
        true ∧
      mapKeys (Read plainEnv testState ignoredDirSource).1.entries = ["foo/bar"] := by
  refine ⟨by decide, by decide, by decide⟩

/-- C4: when the walk of `Read` returns no error, `Read` returns a duplicate target error for a
target name exactly when two or more candidates decode to it (`candidates`: the directories and
regular files below the source directory that the walk function is called on, whose names do not
begin with a dot and whose target name, composed of the decoded names of the directories above
and the decoded name of the entry, the ignore set does not match at the call); the error holds
the source paths of all these candidates in the order of the walk, and its message is
`<t>: duplicate target (<p1>, <p2>, ...)` with these paths; the errors are nothing but these, in
strictly ascending order of the target names; and without a duplicate there is no error and
`entries` maps every target name that a candidate decodes to to the source entry of that
candidate, and every other name as before.  (When the source path is missing, cannot be examined
or is no directory, there is no walk and no duplicate target error.)  The decoding of the empty
name is taken to give the empty name. -/
theorem C4_duplicate_detection {TD : Type} (env : Env TD) (s : SourceState TD)
    (children : Entries) (hempty : (env.parseDirAttributes "").Name = "")
    (hwalk : (readWalk env s (Node.dir children)).2 = Ctl.next) :
    (∀ t : String, (∃ paths, Error.duplicateTarget t paths ∈
        (Read env s (Lstat.info (Node.dir children))).2) ↔
      2 ≤ (candidatePaths env s children t).length) ∧
    (∀ (t : String) (paths : List String),
      Error.duplicateTarget t paths ∈ (Read env s (Lstat.info (Node.dir children))).2 →
      paths = candidatePaths env s children t ∧
      (Error.duplicateTarget t paths).Error =
        t ++ ": duplicate target (" ++
          String.intercalate ", " (candidatePaths env s children t) ++ ")") ∧
    (∃ names : List String, names.Pairwise (fun a b => strLt a b = true) ∧
      (Read env s (Lstat.info (Node.dir children))).2 = names.map (fun t =>
        Error.duplicateTarget t (candidatePaths env s children t))) ∧
    ((∀ t : String, (candidatePaths env s children t).length < 2) →
      (Read env s (Lstat.info (Node.dir children))).2 = [] ∧
      ∀ t : String, mapGet (Read env s (Lstat.info (Node.dir children))).1.entries t =
        match (candidates env s children).filter (fun c => decide (c.1 = t)) with
        | c :: _ => some (candidateEntry env s.sourcePath c)
        | [] => mapGet s.entries t) ∧
    (∀ lstat : Lstat, (∀ es : Entries, lstat ≠ Lstat.info (Node.dir es)) →
      ∀ (t : String) (paths : List String),
        Error.duplicateTarget t paths ∉ (Read env s lstat).2) := by
  obtain ⟨names, hsorted, hnames, herr⟩ := Read_duplicates env s children hempty hwalk
  refine ⟨?_, ?_, ⟨names, hsorted, herr⟩, ?_, ?_⟩
  · intro t
    rw [herr, ← hnames t]
    constructor
    · rintro ⟨paths, hp⟩
      simp only [List.mem_map] at hp
      obtain ⟨t2, h2, h3⟩ := hp
      injection h3 with h4 _
      rw [← h4]
      exact h2
    · intro ht
      exact ⟨_, List.mem_map.mpr ⟨t, ht, rfl⟩⟩
  · intro t paths hp
    rw [herr] at hp
    simp only [List.mem_map] at hp
    obtain ⟨t2, _, h3⟩ := hp
    injection h3 with h4 h5
    rw [← h5, ← h4]
    exact ⟨rfl, rfl⟩
  · intro hno
    have hnil : (Read env s (Lstat.info (Node.dir children))).2 = [] := by
      rw [herr, List.map_eq_nil_iff]
      cases names with
      | nil => rfl
      | cons t rest =>
        have h1 := (hnames t).mp (List.mem_cons_self _ _)
        have h2 := hno t
        omega
    exact ⟨hnil, fun t => Read_entries env s children hempty hwalk hnil t⟩
  · intro lstat hl t paths
    cases lstat with
    | notExist => simp [Read]
    | failed err => simp [Read]
    | info node =>
      cases node with
      | file contents => simp [Read, Node.IsDir]
      | other mode readFile => simp [Read, Node.IsDir]
      | dir es => exact absurd rfl (hl es)

/-- C4, at concrete inputs: the scenario "duplicate_target" of the tests (`foo` and `foo.tmpl`),
and a source directory in which `dot_config/x` and `dot_config/x.tmpl` both decode to `.config/x`
while `b/x` decodes to `b/x`: the one error names `.config/x` with the two source paths in the
order of the walk. -/
theorem C4_duplicate_detection_witness :
    (Read plainEnv testState (Lstat.info (Node.dir duplicateSource))).2 =
        [Error.duplicateTarget "foo" ["/home/user/.local/share/chezmoi/foo",
          "/home/user/.local/share/chezmoi/foo.tmpl"]] ∧
      candidatePaths plainEnv testState duplicateSource "foo" =
        ["/home/user/.local/share/chezmoi/foo", "/home/user/.local/share/chezmoi/foo.tmpl"] ∧
      ((∃ paths, Error.duplicateTarget "foo" paths ∈
          (Read plainEnv testState (Lstat.info (Node.dir duplicateSource))).2) ↔
        2 ≤ (candidatePaths plainEnv testState duplicateSource "foo").length) ∧
      (Read plainEnv testState (Lstat.info (Node.dir nestedDuplicateSource))).2 =
        [Error.duplicateTarget ".config/x" ["/home/user/.local/share/chezmoi/dot_config/x",
          "/home/user/.local/share/chezmoi/dot_config/x.tmpl"]] ∧
      (candidates plainEnv testState nestedDuplicateSource).map (fun c => (c.1, c.2.1)) =
        [("b", "/home/user/.local/share/chezmoi/b"),
          ("b/x", "/home/user/.local/share/chezmoi/b/x"),
          (".config", "/home/user/.local/share/chezmoi/dot_config"),
          (".config/x", "/home/user/.local/share/chezmoi/dot_config/x"),
          (".config/x", "/home/user/.local/share/chezmoi/dot_config/x.tmpl")] ∧
      ((∃ paths, Error.duplicateTarget ".config/x" paths ∈
          (Read plainEnv testState (Lstat.info (Node.dir nestedDuplicateSource))).2) ↔
        2 ≤ (candidatePaths plainEnv testState nestedDuplicateSource ".config/x").length) ∧
      (Error.duplicateTarget ".config/x" ["/home/user/.local/share/chezmoi/dot_config/x",
          "/home/user/.local/share/chezmoi/dot_config/x.tmpl"]).Error =
        ".config/x: duplicate target (/home/user/.local/share/chezmoi/dot_config/x, " ++
          "/home/user/.local/share/chezmoi/dot_config/x.tmpl)" :=
  ⟨by decide, by decide,
    (C4_duplicate_detection plainEnv testState duplicateSource (by decide) (by decide)).1 "foo",
    by decide, by decide,
    (C4_duplicate_detection plainEnv testState nestedDuplicateSource (by decide)
      (by decide)).1 ".config/x", by decide⟩

/-- C5 fails as stated: `badVersionSource` holds a malformed `.chezmoiversion` and the two source
files `foo` and `foo.tmpl` of one target (without the version file `Read` reports the duplicate
target), and the error that `Read` returns for it is the version error alone. -/
theorem C5_counterexample :
    (Read plainEnv testState (Lstat.info (Node.dir badVersionSource))).2 =
        [Error.text " is not in dotted-tri format"] ∧
      (Read plainEnv testState (Lstat.info (Node.dir duplicateSource))).2 =
        [Error.duplicateTarget "foo" ["/home/user/.local/share/chezmoi/foo",
          "/home/user/.local/share/chezmoi/foo.tmpl"]] := by
  constructor <;> decide

/-- C5, amended: when the walk function of `Read` is called on an entry that is no directory and
returns an error there, `Read` returns that error alone; this holds for the error of
`addTemplateData` at a `.chezmoidata` file, of `addPatterns` at a `.chezmoiignore` or
`.chezmoiremove` file and of `addVersionFile` at a `.chezmoiversion` file, as for any other
error of the walk function.  When the walk returns no error, the error that `Read` returns
reports every target name that two or more candidates decode to, with the source paths of these
candidates. -/
theorem C5_errors_reported {TD : Type} (env : Env TD) (s : SourceState TD) (children : Entries) :
    (∀ v ∈ walkVisits (readWalkFn env) s.sourcePath (pathSplit s.sourcePath).2
        (Node.dir children) ⟨s, []⟩,
      v.2.1 ≠ s.sourcePath → v.2.2.2.IsDir = false →
      (∀ err, HasPrefix v.2.2.1 dataName = true →
        (addTemplateData env v.1.s v.2.1 v.2.2.2).2 = some err →
        (Read env s (Lstat.info (Node.dir children))).2 = [err]) ∧
      (∀ err, v.2.2.1 = ignoreName →
        (addPatterns env v.1.s v.1.s.ignore v.2.1
          (pathSplit (TrimPrefix v.2.1 (s.sourcePath ++ "/"))).1 v.2.2.2).2 = some err →
        (Read env s (Lstat.info (Node.dir children))).2 = [err]) ∧
      (∀ err, v.2.2.1 = removeName →
        (addPatterns env v.1.s v.1.s.remove v.2.1
          (getTargetDirName env (pathSplit (TrimPrefix v.2.1 (s.sourcePath ++ "/"))).1)
          v.2.2.2).2 = some err →
        (Read env s (Lstat.info (Node.dir children))).2 = [err]) ∧
      (∀ err, v.2.2.1 = versionName →
        (addVersionFile env v.1.s v.2.1 v.2.2.2).2 = some err →
        (Read env s (Lstat.info (Node.dir children))).2 = [err]) ∧
      (∀ err, (readWalkFn env v.1 v.2.1 v.2.2.1 v.2.2.2).2 = Ctl.fail err →
        (Read env s (Lstat.info (Node.dir children))).2 = [err])) ∧
    ((env.parseDirAttributes "").Name = "" →
      (readWalk env s (Node.dir children)).2 = Ctl.next →
      ∀ t : String, 2 ≤ (candidatePaths env s children t).length →
        Error.duplicateTarget t (candidatePaths env s children t) ∈
          (Read env s (Lstat.info (Node.dir children))).2) := by
  constructor
  · intro v hv hpath hdir
    have hsp : v.1.s.sourcePath = s.sourcePath :=
      walkVisits_inv (readWalkFn env) (fun st1 => st1.s.sourcePath = s.sourcePath)
        (fun st1 path1 name1 node1 hp => by
          simp only at hp ⊢
          rw [readWalkFn_sourcePath, hp])
        (Node.dir children) s.sourcePath (pathSplit s.sourcePath).2 ⟨s, []⟩ rfl _ hv
    have hpath2 : v.2.1 ≠ v.1.s.sourcePath := by rw [hsp]; exact hpath
    have hfail := Read_of_visit_fail env s children v
    refine ⟨?_, ?_, ?_, ?_, fun err h => hfail err hv hdir h⟩
    · intro err hname herr
      apply hfail err hv hdir
      rw [readWalkFn_dataName env v.1 v.2.1 v.2.2.1 v.2.2.2 hpath2 hname]
      exact ctlOfErr_some _ err herr
    · intro err hname herr
      apply hfail err hv hdir
      rw [hname, readWalkFn_ignore env v.1 v.2.1 v.2.2.2 hpath2, hsp]
      exact ctlOfErr_some _ err herr
    · intro err hname herr
      apply hfail err hv hdir
      rw [hname, readWalkFn_remove env v.1 v.2.1 v.2.2.2 hpath2, hsp]
      exact ctlOfErr_some _ err herr
    · intro err hname herr
      apply hfail err hv hdir
      rw [hname, readWalkFn_versionName env v.1 v.2.1 v.2.2.2 hpath2]
      exact ctlOfErr_some _ err herr
  · intro hempty hwalk t ht
    obtain ⟨names, _, hnames, herr⟩ := Read_duplicates env s children hempty hwalk
    rw [herr]
    exact List.mem_map.mpr ⟨t, (hnames t).mpr ht, rfl⟩

/-- C5, amended, at concrete inputs: the version error of `badVersionSource` is returned alone,
and the duplicate target of `duplicateSource` is reported. -/
theorem C5_errors_reported_witness :
    (addVersionFile plainEnv testState (testSourcePath ++ "/.chezmoiversion") (Node.file "")).2 =
        some (Error.text " is not in dotted-tri format") ∧
      (Read plainEnv testState (Lstat.info (Node.dir badVersionSource))).2 =
        [Error.text " is not in dotted-tri format"] ∧
      candidatePaths plainEnv testState duplicateSource "foo" =
        ["/home/user/.local/share/chezmoi/foo", "/home/user/.local/share/chezmoi/foo.tmpl"] ∧
      Error.duplicateTarget "foo" (candidatePaths plainEnv testState duplicateSource "foo") ∈
        (Read plainEnv testState (Lstat.info (Node.dir duplicateSource))).2 :=
  ⟨by decide,
    ((C5_errors_reported plainEnv testState badVersionSource).1
      (⟨testState, []⟩, testSourcePath ++ "/.chezmoiversion", ".chezmoiversion", Node.file "")
      (List.Mem.tail _ (List.Mem.head _)) (by decide) rfl).2.2.2.1 _ rfl (by decide),
    by decide,
    (C5_errors_reported plainEnv testState duplicateSource).2 (by decide) (by decide) "foo"
      (by decide)⟩

/-- An error that `addTemplatesDir` returns for the directory `.chezmoitemplates` is not
reported: the walk drops an error returned for a directory and goes on inside it, and `Read`
succeeds. -/
theorem templates_error_dropped :
    (addTemplatesDir plainEnv testState (testSourcePath ++ "/.chezmoitemplates")
        ".chezmoitemplates" (Node.dir (.cons ".x" (.other ModeSymlink (.ok "y")) .nil))).2 =
      some (Error.unsupportedFileType (testSourcePath ++ "/.chezmoitemplates/.x") ModeSymlink) ∧
    (Read plainEnv testState (Lstat.info (Node.dir badTemplatesSource))).2 = [] := by
  constructor <;> decide

/-- C6 fails as stated: the `.chezmoiignore` at the root of `slashPatternSource` holds the pattern
`a/`, and after `Read` the ignore set holds `a`, not the pattern itself. -/
theorem C6_counterexample :
    (Read plainEnv testState slashPatternSource).2 = [] ∧
      linePattern "a/" = some (true, "a/") ∧
      (Read plainEnv testState slashPatternSource).1.ignore.includes = ["a"] ∧
      "a/" ∉ (Read plainEnv testState slashPatternSource).1.ignore.includes := by
  refine ⟨by decide, by decide, by decide, by decide⟩

/-- C6, amended: when the walk of `Read` reads without an error a `.chezmoiremove` file that lies
in the source directories `cs`, whose names decode to plain path elements, the remove set gains
exactly the patterns of the file, each joined with `path.Join` to the decoded target-relative
directory; for a `.chezmoiremove` or `.chezmoiignore` file at the source root the patterns are
joined to `.`, which gives the pattern itself when it is a clean relative path. -/
theorem C6_pattern_directory {TD : Type} (env : Env TD) (st : ReadState TD) (sourcePath : String)
    (node : Node) (hempty : (env.parseDirAttributes "").Name = "")
    (hpath : sourcePath ≠ st.s.sourcePath) :
    (∀ cs : List (List Char), cs ≠ [] → (∀ c ∈ cs, c.contains '/' = false) →
      (∀ c ∈ cs, plainElement (env.parseDirAttributes (String.mk c)).Name.toList = true) →
      (pathSplit (TrimPrefix sourcePath (st.s.sourcePath ++ PathSeparatorStr))).1 =
        String.mk (joinSlash cs ++ ['/']) →
      (readWalkFn env st sourcePath removeName node).2 = Ctl.next →
      ∃ data, executeTemplate env st.s sourcePath node = .ok data ∧
        PatternsAdded st.s.remove (readWalkFn env st sourcePath removeName node).1.s.remove
          (decodedDir env cs) data) ∧
    ((pathSplit (TrimPrefix sourcePath (st.s.sourcePath ++ PathSeparatorStr))).1 = "" →
      (readWalkFn env st sourcePath removeName node).2 = Ctl.next →
      ∃ data, executeTemplate env st.s sourcePath node = .ok data ∧
        PatternsAdded st.s.remove (readWalkFn env st sourcePath removeName node).1.s.remove
          "." data) ∧
    ((pathSplit (TrimPrefix sourcePath (st.s.sourcePath ++ PathSeparatorStr))).1 = "" →
      (readWalkFn env st sourcePath ignoreName node).2 = Ctl.next →
      ∃ data, executeTemplate env st.s sourcePath node = .ok data ∧
        PatternsAdded st.s.ignore (readWalkFn env st sourcePath ignoreName node).1.s.ignore
          "." data) ∧
    (∀ es : List (List Char), es ≠ [] → (∀ e ∈ es, plainElement e = true) →
      pathJoin [".", String.mk (joinSlash es)] = String.mk (joinSlash es)) := by
  have hroot : getTargetDirName env "" = "" := by
    have h1 : String.mk [] = "" := rfl
    show String.mk (joinSlash (List.map
      (fun sourceName => (env.parseDirAttributes (String.mk sourceName)).Name.toList)
      (splitSlash []))) = ""
    simp only [splitSlash, List.map_cons, List.map_nil, joinSlash, h1, hempty]
    rfl
  have hdot : pathDir "" = "." := by decide
  refine ⟨?_, ?_, ?_, pathJoin_dot⟩
  · intro cs hne hcs hds hdir hok
    rw [readWalkFn_remove env st sourcePath node hpath] at hok ⊢
    have hnone := ctlOfErr_next _ hok
    simp only at hnone
    obtain ⟨data, hd1, hd2⟩ := addPatterns_ok env st.s st.s.remove sourcePath _ node hnone
    refine ⟨data, hd1, ?_⟩
    rw [ctlOfErr_fst]
    simp only
    rw [hdir, getTargetDirName_dir env cs hne hcs hempty] at hd2 ⊢
    rw [pathDir_joinSlash_slash _ (by simpa using hne)
        (fun e he => by
          obtain ⟨c, hc, hce⟩ := List.mem_map.mp he
          rw [← hce]
          exact hds c hc)] at hd2
    exact hd2
  · intro hdir hok
    rw [readWalkFn_remove env st sourcePath node hpath] at hok ⊢
    have hnone := ctlOfErr_next _ hok
    simp only at hnone
    obtain ⟨data, hd1, hd2⟩ := addPatterns_ok env st.s st.s.remove sourcePath _ node hnone
    refine ⟨data, hd1, ?_⟩
    rw [ctlOfErr_fst]
    simp only
    rw [hdir, hroot] at hd2 ⊢
    rw [hdot] at hd2
    exact hd2
  · intro hdir hok
    rw [readWalkFn_ignore env st sourcePath node hpath] at hok ⊢
    have hnone := ctlOfErr_next _ hok
    simp only at hnone
    obtain ⟨data, hd1, hd2⟩ := addPatterns_ok env st.s st.s.ignore sourcePath _ node hnone
    refine ⟨data, hd1, ?_⟩
    rw [ctlOfErr_fst]
    simp only
    rw [hdir] at hd2 ⊢
    rw [hdot] at hd2
    exact hd2

/-- C6, amended, at a concrete input: the file `dot_config/.chezmoiremove`, whose patterns are
joined to `.config`. -/
theorem C6_pattern_directory_witness :
    (Read plainEnv testState dotConfigSource).1.remove = ⟨[".config/a"], [".config/b"]⟩ ∧
      decodedDir plainEnv ["dot_config".toList] = ".config" ∧
      ∃ data, executeTemplate plainEnv testState
          (testSourcePath ++ "/dot_config/.chezmoiremove") (Node.file "a\n!b # keep\n\n") =
            .ok data ∧
        PatternsAdded testState.remove
          (readWalkFn plainEnv ⟨testState, []⟩ (testSourcePath ++ "/dot_config/.chezmoiremove")
            removeName (Node.file "a\n!b # keep\n\n")).1.s.remove
          (decodedDir plainEnv ["dot_config".toList]) data :=
  ⟨by decide, by decide,
    (C6_pattern_directory plainEnv ⟨testState, []⟩
      (testSourcePath ++ "/dot_config/.chezmoiremove") (Node.file "a\n!b # keep\n\n")
      (by decide) (by decide)).1 ["dot_config".toList] (by decide) (by decide) (by decide)
      (by decide) (by decide)⟩

/-- The `.chezmoiignore` of a directory is joined to the name of the source directory, not to the
decoded name: in `dotConfigSource` the pattern `a` of `dot_config/.chezmoiignore` is added as
`dot_config/a`, where the `.chezmoiremove` beside it gives `.config/a`. -/
theorem ignore_joined_to_source_directory :
    (Read plainEnv testState dotConfigSource).1.ignore = ⟨["dot_config/a"], []⟩ ∧
      (Read plainEnv testState dotConfigSource).1.remove = ⟨[".config/a"], [".config/b"]⟩ := by
  constructor <;> decide

/-- C7: for a pattern file that is read as `raw` and that the template engine (`parseTemplate`,
`executeTemplate` of the environment) expands to `data`, `addPatterns` ends without an error
exactly when no line of `data` has `bufio.MaxScanTokenSize` bytes or more and `doublestar.Match`
accepts the pattern of every line; then the pattern set holds what it held and, for every line of
`data`, the pattern that the line stands for by `linePattern` (the text before the first `#`,
trimmed; nothing when that is empty; the rest after a leading `!` as an exclude pattern; otherwise
the text as an include pattern), stored joined to the directory of the file; and nothing else.
With a line that is too long, and patterns that are accepted, the error is
`<path>: bufio.Scanner: token too long`. -/
theorem C7_pattern_grammar {TD : Type} (env : Env TD) (s : SourceState TD)
    (patternSet : PatternSet) (sourcePath relPath : String) (node : Node) (raw data : String)
    (hread : node.ReadFile sourcePath = .ok raw)
    (hparse : env.parseTemplate sourcePath raw = none)
    (hexec : env.executeTemplate sourcePath raw s.templates s.templateData = .ok data) :
    ((addPatterns env s patternSet sourcePath relPath node).2 = none ↔
      (∀ line ∈ splitLF data.toList, (String.mk line).utf8ByteSize < MaxScanTokenSize) ∧
      ∀ line ∈ scanLines data, ∀ (incl : Bool) (p : String), linePattern line = some (incl, p) →
        (env.doublestarMatch (pathJoin [pathDir relPath, p]) "").2 = none) ∧
    ((addPatterns env s patternSet sourcePath relPath node).2 = none →
      PatternsAdded patternSet (addPatterns env s patternSet sourcePath relPath node).1
        (pathDir relPath) data) ∧
    ((∃ line ∈ splitLF data.toList, MaxScanTokenSize ≤ (String.mk line).utf8ByteSize) →
      (∀ line ∈ scanLines data, ∀ (incl : Bool) (p : String), linePattern line = some (incl, p) →
        (env.doublestarMatch (pathJoin [pathDir relPath, p]) "").2 = none) →
      (addPatterns env s patternSet sourcePath relPath node).2 =
        some (Error.text (sourcePath ++ ": " ++ "bufio.Scanner: token too long"))) := by
  have hdata := executeTemplate_of_data env s sourcePath node raw data hread hparse hexec
  have hloop := addPatternsLoop_none_iff env.doublestarMatch sourcePath (pathDir relPath)
  refine ⟨?_, ?_, ?_⟩
  · constructor
    · intro hok
      unfold addPatterns at hok
      rw [hdata] at hok
      simp only at hok
      rcases hl : addPatternsLoop env.doublestarMatch sourcePath (pathDir relPath)
        (scanTokens data).1 patternSet with ⟨ps1, e1⟩
      rw [hl] at hok
      cases e1 with
      | some err => simp at hok
      | none =>
        simp only at hok
        cases hs : (scanTokens data).2 with
        | some err =>
          rw [hs] at hok
          simp at hok
        | none =>
          refine ⟨(scanTokens_none_iff data).mp hs, ?_⟩
          rw [← scanTokens_of_none data hs]
          exact (hloop _ patternSet).mp (by rw [hl])
    · rintro ⟨hshort, hvalid⟩
      have hs := (scanTokens_none_iff data).mpr hshort
      have hl := (hloop (scanTokens data).1 patternSet).mpr
        (by rw [scanTokens_of_none data hs]; exact hvalid)
      unfold addPatterns
      rw [hdata]
      simp only
      rcases hl2 : addPatternsLoop env.doublestarMatch sourcePath (pathDir relPath)
        (scanTokens data).1 patternSet with ⟨ps1, e1⟩
      rw [hl2] at hl
      simp only at hl
      subst hl
      simp only [hs]
  · intro hok
    obtain ⟨data2, hd2, hadded⟩ := addPatterns_ok env s patternSet sourcePath relPath node hok
    rw [hdata] at hd2
    injection hd2 with hd3
    rw [hd3]
    exact hadded
  · rintro ⟨line, hline, hlong⟩ hvalid
    have hs : (scanTokens data).2 ≠ none := by
      intro h
      have := (scanTokens_none_iff data).mp h line hline
      omega
    have hl := (hloop (scanTokens data).1 patternSet).mpr
      (fun l hl => hvalid l (scanTokens_subset data l hl))
    unfold addPatterns
    rw [hdata]
    simp only
    rcases hl2 : addPatternsLoop env.doublestarMatch sourcePath (pathDir relPath)
      (scanTokens data).1 patternSet with ⟨ps1, e1⟩
    rw [hl2] at hl
    simp only at hl
    subst hl
    cases hs2 : (scanTokens data).2 with
    | none => exact absurd hs2 hs
    | some err =>
      simp only
      rw [scanTokens_err data err hs2]
      rfl

/-- C7, at concrete inputs: a file with a comment, a blank line and an exclude pattern, in an
environment whose template engine replaces `@` by `home`: `addPatterns` ends without an error
and the patterns are those of the expanded file; and a file of one line of `MaxScanTokenSize`
bytes, for which `addPatterns` returns the error of the scanner. -/
theorem C7_pattern_grammar_witness :
    (addPatterns markEnv testState NewPatternSet (testSourcePath ++ "/.chezmoiignore") ""
        (Node.file "@/README.md # docs\n\n  !keep.txt\n")).1 =
          ⟨["home/README.md"], ["keep.txt"]⟩ ∧
      (addPatterns markEnv testState NewPatternSet (testSourcePath ++ "/.chezmoiignore") ""
        (Node.file "@/README.md # docs\n\n  !keep.txt\n")).2 = none ∧
      PatternsAdded NewPatternSet
        (addPatterns markEnv testState NewPatternSet (testSourcePath ++ "/.chezmoiignore") ""
          (Node.file "@/README.md # docs\n\n  !keep.txt\n")).1 (pathDir "")
        "home/README.md # docs\n\n  !keep.txt\n" ∧
      (addPatterns plainEnv testState NewPatternSet (testSourcePath ++ "/.chezmoiignore") ""
        (Node.file longLine)).2 =
          some (Error.text (testSourcePath ++ "/.chezmoiignore" ++ ": " ++
            "bufio.Scanner: token too long")) :=
  ⟨by decide,
    (C7_pattern_grammar markEnv testState NewPatternSet (testSourcePath ++ "/.chezmoiignore") ""
      (Node.file "@/README.md # docs\n\n  !keep.txt\n") "@/README.md # docs\n\n  !keep.txt\n"
      "home/README.md # docs\n\n  !keep.txt\n" (by decide) (by decide) (by decide)).1.mpr
      ⟨by decide, fun _ _ _ _ _ => rfl⟩,
    (C7_pattern_grammar markEnv testState NewPatternSet (testSourcePath ++ "/.chezmoiignore") ""
      (Node.file "@/README.md # docs\n\n  !keep.txt\n") "@/README.md # docs\n\n  !keep.txt\n"
      "home/README.md # docs\n\n  !keep.txt\n" (by decide) (by decide) (by decide)).2.1
      (by decide),
    (C7_pattern_grammar plainEnv testState NewPatternSet (testSourcePath ++ "/.chezmoiignore") ""
      (Node.file longLine) longLine longLine rfl rfl rfl).2.2
      ⟨List.replicate MaxScanTokenSize 'a',
        by
          show List.replicate MaxScanTokenSize 'a' ∈ splitLF (List.replicate MaxScanTokenSize 'a')
          rw [splitLF_replicate]
          exact List.mem_singleton.mpr rfl,
        by rw [utf8ByteSize_replicate]⟩
      (fun _ _ _ _ _ => rfl)⟩

/-- C8 fails as stated: the source file of the entry `a` of `unreadableState` cannot be read, so
`ApplyOne` fails on `a`, `ApplyAll` returns that error, and the key `b` is never applied. -/
theorem C8_counterexample :
    (ApplyAll plainEnv unreadableState (memSystem (fun _ => true)) homeDest "/home/user"
        0o22).err = some (Error.text "permission denied") ∧
      ¬ ∀ k ∈ mapKeys unreadableState.entries,
        k ∈ (ApplyAll plainEnv unreadableState (memSystem (fun _ => true)) homeDest "/home/user"
          0o22).applied := by
  refine ⟨by decide, ?_⟩
  intro h
  have h1 := h "b" (by decide)
  revert h1
  decide

/-- C8, amended: `ApplyAll` calls `ApplyOne` on a beginning of the sorted target names, and on all
of them when no call fails; the sorted target names are the keys of `entries`, each once, in
strictly ascending byte-wise order, so a key `p` comes before a key `p/c`. -/
theorem C8_apply_order {TD σ δ : Type} (env : Env TD) (s : SourceState TD)
    (sys : TargetSystem σ δ) (system : σ) (targetDir : String) (umask : Nat)
    (hmap : (mapKeys s.entries).Nodup) :
    (ApplyAll env s sys system targetDir umask).applied <+: sortedTargetNames s ∧
    ((ApplyAll env s sys system targetDir umask).err = none →
      (ApplyAll env s sys system targetDir umask).applied = sortedTargetNames s) ∧
    (sortedTargetNames s).Perm (mapKeys s.entries) ∧
    (sortedTargetNames s).Pairwise (fun a b => strLt a b = true) ∧
    (∀ p c : String, p ∈ mapKeys s.entries → (p ++ "/" ++ c) ∈ mapKeys s.entries →
      ∃ l1 l2 l3, sortedTargetNames s = l1 ++ p :: l2 ++ (p ++ "/" ++ c) :: l3) := by
  obtain ⟨l, hl1, hl2, hl3⟩ := applyLoop_applied env s sys targetDir umask (sortedTargetNames s)
    ⟨system, none, [], []⟩
  have happ : (ApplyAll env s sys system targetDir umask).applied = l := by
    unfold ApplyAll
    rw [hl2]
    rfl
  have hsorted := sortStrings_strict (mapKeys s.entries) hmap
  refine ⟨by rw [happ]; exact hl1, ?_, sortStrings_perm _, hsorted, ?_⟩
  · intro herr
    rw [happ]
    exact hl3 herr rfl
  · intro p c hp hc
    exact before_of_strLt _ hsorted p (p ++ "/" ++ c)
      ((sortStrings_perm _).mem_iff.mpr hp) ((sortStrings_perm _).mem_iff.mpr hc)
      (strLt_child p c)

/-- C8, amended, at a concrete input: the exact directory `foo` and the file `foo/bar` are applied
in this order to the destination `homeDest`. -/
theorem C8_apply_order_witness :
    (ApplyAll plainEnv exactChildState (memSystem (fun _ => true)) homeDest "/home/user"
        0o22).applied = ["foo", "foo/bar"] ∧
      ((ApplyAll plainEnv exactChildState (memSystem (fun _ => true)) homeDest "/home/user"
          0o22).err = none →
        (ApplyAll plainEnv exactChildState (memSystem (fun _ => true)) homeDest "/home/user"
          0o22).applied = sortedTargetNames exactChildState) :=
  ⟨by decide,
    (C8_apply_order plainEnv exactChildState (memSystem (fun _ => true)) homeDest "/home/user"
      0o22 (by decide)).2.1⟩

/-- C9 fails as stated: with an include set that leaves directories out, `ApplyOne` succeeds for
the exact directory `foo` of the scenario "dir_exact" without calling `RemoveAll`, although the
destination directory lists the child `bar` and `foo/bar` is not a key of `entries`. -/
theorem C9_counterexample :
    (ApplyOne plainEnv dirExactState (memSystem (fun _ => false)) dirExactDest "/home/user" "foo"
        0o22).err = none ∧
      ((mapGet dirExactState.entries "foo").bind
        (fun e => (e.TargetStateEntry plainEnv dirExactState).toOption)) =
          some (TargetStateEntry.TargetStateDir 0o755 true) ∧
      ((memSystem (fun _ => false)).ReadDir dirExactDest "/home/user/foo").toOption =
        some ["bar"] ∧
      (mapGet dirExactState.entries (pathJoin ["foo", "bar"])).isNone = true ∧
      (ApplyOne plainEnv dirExactState (memSystem (fun _ => false)) dirExactDest "/home/user" "foo"
        0o22).removed = [] := by
  refine ⟨by decide, by decide, by decide, by decide, by decide⟩

/-- C9, amended: when `ApplyOne` succeeds for a target name whose target state is an exact
directory, either the include set leaves the directory out, and then `ApplyOne` lists nothing, removes nothing
and leaves the target system as it is; or the destination directory is listed after the directory
is applied, and `ApplyOne` calls `RemoveAll` on the destination path of exactly those listed
children, other than `.` and `..`, whose name joined to the target name is not a key of
`entries`, in ascending order of the children. -/
theorem C9_exact_reconciliation {TD σ δ : Type} (env : Env TD) (s : SourceState TD)
    (sys : TargetSystem σ δ) (system : σ) (targetDir targetName : String) (umask : Nat)
    (e : SourceStateEntry) (perm : Nat)
    (hget : mapGet s.entries targetName = some e)
    (htse : e.TargetStateEntry env s = .ok (TargetStateEntry.TargetStateDir perm true))
    (herr : (ApplyOne env s sys system targetDir targetName umask).err = none) :
    (sys.IncludeTargetStateEntry (TargetStateEntry.TargetStateDir perm true) = false ∧
      (ApplyOne env s sys system targetDir targetName umask).removed = [] ∧
      (ApplyOne env s sys system targetDir targetName umask).system = system) ∨
    (sys.IncludeTargetStateEntry (TargetStateEntry.TargetStateDir perm true) = true ∧
      ∃ (dest : δ) (system1 : σ) (names : List String),
        sys.NewDestStateEntry system (pathJoin [targetDir, targetName]) = .ok dest ∧
        sys.Apply (TargetStateEntry.TargetStateDir perm true) system dest umask =
          (system1, none) ∧
        sys.ReadDir system1 (pathJoin [targetDir, targetName]) = .ok names ∧
        (ApplyOne env s sys system targetDir targetName umask).removed =
          ((exactBaseNames names).filter (fun baseName =>
            (mapGet s.entries (pathJoin [targetName, baseName])).isNone)).map
            (fun baseName => pathJoin [pathJoin [targetDir, targetName], baseName]) ∧
        (exactBaseNames names).Pairwise (fun a b => strLe a b = true) ∧
        ∀ b : String, b ∈ exactBaseNames names ↔ b ∈ names ∧ b ≠ "." ∧ b ≠ "..") := by
  cases hincl : sys.IncludeTargetStateEntry (TargetStateEntry.TargetStateDir perm true) with
  | false =>
    refine Or.inl ⟨rfl, ?_, ?_⟩
    · unfold ApplyOne
      simp [hget, htse, hincl]
    · unfold ApplyOne
      simp [hget, htse, hincl]
  | true =>
    refine Or.inr ⟨rfl, ?_⟩
    obtain ⟨dest, system1, names, h1, h2, h3, h4⟩ :=
      ApplyOne_exact env s sys system targetDir targetName umask e perm hget htse hincl herr
    refine ⟨dest, system1, names, h1, h2, h3, ?_, sortStrings_sorted _, mem_exactBaseNames names⟩
    have h5 := removeLoop_removed sys s.entries targetName (pathJoin [targetDir, targetName])
      (exactBaseNames names) system1 [] (by rw [h4])
    rw [h4] at h5
    simpa using h5

/-- C9, amended, at a concrete input: the scenario "dir_exact" of the tests, where `foo/bar` is
removed. -/
theorem C9_exact_reconciliation_witness :
    (ApplyOne plainEnv dirExactState (memSystem (fun _ => true)) dirExactDest "/home/user" "foo"
        0o22).removed = ["/home/user/foo/bar"] ∧
      ((memSystem (fun _ => true)).IncludeTargetStateEntry
          (TargetStateEntry.TargetStateDir 0o755 true) = false ∧
        (ApplyOne plainEnv dirExactState (memSystem (fun _ => true)) dirExactDest "/home/user"
          "foo" 0o22).removed = [] ∧
        (ApplyOne plainEnv dirExactState (memSystem (fun _ => true)) dirExactDest "/home/user"
          "foo" 0o22).system = dirExactDest ∨
      (memSystem (fun _ => true)).IncludeTargetStateEntry
          (TargetStateEntry.TargetStateDir 0o755 true) = true ∧
        ∃ (dest : String × DestStateEntry) (system1 : MemSystem) (names : List String),
          (memSystem (fun _ => true)).NewDestStateEntry dirExactDest
            (pathJoin ["/home/user", "foo"]) = .ok dest ∧
          (memSystem (fun _ => true)).Apply (TargetStateEntry.TargetStateDir 0o755 true)
            dirExactDest dest 0o22 = (system1, none) ∧
          (memSystem (fun _ => true)).ReadDir system1 (pathJoin ["/home/user", "foo"]) =
            .ok names ∧
          (ApplyOne plainEnv dirExactState (memSystem (fun _ => true)) dirExactDest "/home/user"
            "foo" 0o22).removed =
            ((exactBaseNames names).filter (fun baseName =>
              (mapGet dirExactState.entries (pathJoin ["foo", baseName])).isNone)).map
              (fun baseName => pathJoin [pathJoin ["/home/user", "foo"], baseName]) ∧
          (exactBaseNames names).Pairwise (fun a b => strLe a b = true) ∧
          ∀ b : String, b ∈ exactBaseNames names ↔ b ∈ names ∧ b ≠ "." ∧ b ≠ "..") :=
  ⟨by decide,
    C9_exact_reconciliation plainEnv dirExactState (memSystem (fun _ => true)) dirExactDest
      "/home/user" "foo" 0o22
      (SourceStateEntry.SourceStateDir "/home/user/.local/share/chezmoi/exact_foo"
        ⟨"foo", true, false⟩ (TargetStateEntry.TargetStateDir 0o755 true)) 0o755
      rfl rfl (by decide)⟩

/-- C10 fails as stated: `emptyChildState` holds the exact directory `foo` and the file `foo/bar`,
whose contents are empty, so that its target state is absent.  After `ApplyAll` succeeds on a
destination without `foo` (and already after `ApplyOne` on `foo`), the directory `/home/user/foo`
has no child, although the key `foo/bar` of `entries` has the parent `foo` and the base name
`bar`. -/
theorem C10_counterexample :
    (ApplyAll plainEnv emptyChildState (memSystem (fun _ => true)) homeDest "/home/user"
        0o22).err = none ∧
      (ApplyAll plainEnv emptyChildState (memSystem (fun _ => true)) homeDest "/home/user"
        0o22).applied = ["foo", "foo/bar"] ∧
      ((memSystem (fun _ => true)).ReadDir
        (ApplyAll plainEnv emptyChildState (memSystem (fun _ => true)) homeDest "/home/user"
          0o22).system "/home/user/foo").toOption = some [] ∧
      ((memSystem (fun _ => true)).ReadDir
        (ApplyOne plainEnv emptyChildState (memSystem (fun _ => true)) homeDest "/home/user" "foo"
          0o22).system "/home/user/foo").toOption = some [] ∧
      "foo/bar" ∈ mapKeys emptyChildState.entries ∧
      pathSplit "foo/bar" = ("foo/", "bar") := by
  refine ⟨by decide, by decide, by decide, by decide, by decide, by decide⟩

/-- C10, amended: after `ApplyOne` succeeds for a target name whose target state is an exact
directory that the include set admits, on a target system whose `RemoveAll` leaves in a directory
only children that were there and whose path is not the removed one, every child of the
destination directory other than `.` and `..` has its name joined to the target name among the
keys of `entries`.  (Children of `entries` that are not yet applied may be missing.) -/
theorem C10_exact_children {TD σ δ : Type} (env : Env TD) (s : SourceState TD)
    (sys : TargetSystem σ δ) (system : σ) (targetDir targetName : String) (umask : Nat)
    (e : SourceStateEntry) (perm : Nat)
    (hget : mapGet s.entries targetName = some e)
    (htse : e.TargetStateEntry env s = .ok (TargetStateEntry.TargetStateDir perm true))
    (hincl : sys.IncludeTargetStateEntry (TargetStateEntry.TargetStateDir perm true) = true)
    (herr : (ApplyOne env s sys system targetDir targetName umask).err = none)
    (hlaw : ∀ (system0 system1 : σ) (path : String) (names1 : List String),
      sys.RemoveAll system0 path = (system1, none) →
      sys.ReadDir system1 (pathJoin [targetDir, targetName]) = .ok names1 →
      ∃ names, sys.ReadDir system0 (pathJoin [targetDir, targetName]) = .ok names ∧
        ∀ b ∈ names1, b ∈ names ∧ pathJoin [pathJoin [targetDir, targetName], b] ≠ path) :
    ∀ names2 : List String,
      sys.ReadDir (ApplyOne env s sys system targetDir targetName umask).system
        (pathJoin [targetDir, targetName]) = .ok names2 →
      ∀ b ∈ names2, b ≠ "." → b ≠ ".." →
        (mapGet s.entries (pathJoin [targetName, b])).isSome = true := by
  intro names2 hread b hb hdot hdotdot
  obtain ⟨dest, system1, names, _, _, h3, h4⟩ :=
    ApplyOne_exact env s sys system targetDir targetName umask e perm hget htse hincl herr
  obtain ⟨names0, hn1, hn2⟩ := removeLoop_children sys s.entries targetName
    (pathJoin [targetDir, targetName]) hlaw (exactBaseNames names) system1 _ [] _ names2 h4 hread
  rw [h3] at hn1
  injection hn1 with hn1
  have hb2 := hn2 b hb
  rw [← hn1] at hb2
  have hmem : b ∈ exactBaseNames names := (mem_exactBaseNames names b).mpr ⟨hb2.1, hdot, hdotdot⟩
  have := hb2.2 hmem
  cases hg : mapGet s.entries (pathJoin [targetName, b]) with
  | none => exact absurd hg this
  | some v => rfl

/-- C10, amended, at a concrete input: after the scenario "dir_exact" of the tests the directory
`/home/user/foo` has no child left. -/
theorem C10_exact_children_witness :
    ((memSystem (fun _ => true)).ReadDir
        (ApplyOne plainEnv dirExactState (memSystem (fun _ => true)) dirExactDest "/home/user"
          "foo" 0o22).system "/home/user/foo").toOption = some [] ∧
      ∀ names2 : List String,
        (memSystem (fun _ => true)).ReadDir
          (ApplyOne plainEnv dirExactState (memSystem (fun _ => true)) dirExactDest "/home/user"
            "foo" 0o22).system (pathJoin ["/home/user", "foo"]) = .ok names2 →
        ∀ b ∈ names2, b ≠ "." → b ≠ ".." →
          (mapGet dirExactState.entries (pathJoin ["foo", b])).isSome = true :=
  ⟨by decide,
    C10_exact_children plainEnv dirExactState (memSystem (fun _ => true)) dirExactDest
      "/home/user" "foo" 0o22
      (SourceStateEntry.SourceStateDir "/home/user/.local/share/chezmoi/exact_foo"
        ⟨"foo", true, false⟩ (TargetStateEntry.TargetStateDir 0o755 true)) 0o755
      rfl rfl rfl (by decide)
      (memSystem_RemoveAll_law (fun _ => true) (pathJoin ["/home/user", "foo"]))⟩

/-- C11 fails as stated: the remove set of `removeTwoState` has the include patterns `a` and `b`;
`failingGlob` finds `/home/user/a` for the first and fails for the second, so `Remove` returns the
error and calls `RemoveAll` on nothing, although `/home/user/a` was found for an include pattern and
the remove set matches its relative name `a`. -/
theorem C11_counterexample :
    "a" ∈ removeTwoState.remove.includes ∧
      failingGlob filesDest (pathJoin ["/home/user", "a"]) = .ok ["/home/user/a"] ∧
      removeTwoState.remove.Match plainEnv.doublestarMatch
        (TrimPrefix "/home/user/a" ("/home/user" ++ PathSeparatorStr)) = true ∧
      (Remove plainEnv removeTwoState failingGlob MemSystem.RemoveAll filesDest
        "/home/user").removed = [] ∧
      (Remove plainEnv removeTwoState failingGlob MemSystem.RemoveAll filesDest
        "/home/user").err = some (Error.text "permission denied") := by
  decide

/-- C11, amended: when a `Glob` for an include pattern fails, `Remove` returns an error, calls
`RemoveAll` on nothing and leaves the system.  When every `Glob` succeeds, let `paths` be the paths
found by `Glob(join(targetDir, inc))` for some include pattern `inc` whose name relative to
`targetDir` the remove set matches, each once, in strictly ascending order: `Remove` calls
`RemoveAll` on a beginning of `paths`, in this order, on all of them when it returns no error, and
otherwise up to the first call of `RemoveAll` that fails, whose error it returns.  No path on which
`RemoveAll` is called has a relative name that an exclude pattern of the remove set matches. -/
theorem C11_Remove_paths {TD σ : Type} (env : Env TD) (s : SourceState TD)
    (Glob : σ → String → Except String (List String))
    (RemoveAll : σ → String → σ × Option String) (system : σ) (targetDir : String) :
    ((∃ incl ∈ s.remove.includes, ∃ err, Glob system (pathJoin [targetDir, incl]) = .error err) →
      (Remove env s Glob RemoveAll system targetDir).removed = [] ∧
      (Remove env s Glob RemoveAll system targetDir).system = system ∧
      ∃ err, (Remove env s Glob RemoveAll system targetDir).err = some (Error.text err)) ∧
    ((∀ incl ∈ s.remove.includes, ∃ found, Glob system (pathJoin [targetDir, incl]) = .ok found) →
      ∃ paths : List String,
        (∀ p, p ∈ paths ↔ ∃ incl ∈ s.remove.includes, ∃ found,
          Glob system (pathJoin [targetDir, incl]) = .ok found ∧ p ∈ found ∧
          s.remove.Match env.doublestarMatch (TrimPrefix p (targetDir ++ PathSeparatorStr)) =
            true) ∧
        paths.Pairwise (fun a b => strLt a b = true) ∧
        (Remove env s Glob RemoveAll system targetDir).removed <+: paths ∧
        ((Remove env s Glob RemoveAll system targetDir).err = none →
          (Remove env s Glob RemoveAll system targetDir).removed = paths) ∧
        ∀ e, (Remove env s Glob RemoveAll system targetDir).err = some e →
          ∃ pre p msg, (Remove env s Glob RemoveAll system targetDir).removed = pre ++ [p] ∧
            (removeAllLoop RemoveAll pre system []).err = none ∧
            RemoveAll (removeAllLoop RemoveAll pre system []).system p =
              ((Remove env s Glob RemoveAll system targetDir).system, some msg) ∧
            e = Error.text msg) ∧
    (∀ p ∈ (Remove env s Glob RemoveAll system targetDir).removed,
      ∀ x ∈ s.remove.excludes,
        (env.doublestarMatch x (TrimPrefix p (targetDir ++ PathSeparatorStr))).1 = false) := by
  refine ⟨?_, ?_, ?_⟩
  · intro h
    obtain ⟨err, herr⟩ := (removeGlobLoop_error_iff env.doublestarMatch s.remove (Glob system)
      targetDir s.remove.includes []).mpr h
    unfold Remove
    rw [herr]
    exact ⟨rfl, rfl, err, rfl⟩
  · intro h
    cases hg : removeGlobLoop env.doublestarMatch s.remove (Glob system) targetDir
        s.remove.includes [] with
    | error err =>
      obtain ⟨incl, hi, e, he⟩ := (removeGlobLoop_error_iff env.doublestarMatch s.remove
        (Glob system) targetDir s.remove.includes []).mp ⟨err, hg⟩
      obtain ⟨found, hf⟩ := h incl hi
      rw [hf] at he
      cases he
    | ok set1 =>
      obtain ⟨h1, h2⟩ := removeGlobLoop_ok _ _ _ _ _ _ _ hg
      obtain ⟨l, hl1, hl2, hl3, hl4⟩ := removeAllLoop_spec RemoveAll (sortStrings set1) system []
      have hrem : Remove env s Glob RemoveAll system targetDir =
          removeAllLoop RemoveAll (sortStrings set1) system [] := by
        unfold Remove
        rw [hg]
      rw [hrem]
      rw [List.nil_append] at hl2
      refine ⟨sortStrings set1, ?_, sortStrings_strict set1 (h1 List.nodup_nil), ?_, ?_, ?_⟩
      · intro p
        rw [(sortStrings_perm set1).mem_iff, h2]
        simp
      · rw [hl2]
        exact hl1
      · intro he
        rw [hl2]
        exact hl3 he
      · intro e he
        obtain ⟨pre, p, msg, h3, h4, h5, h6⟩ := hl4 e he
        exact ⟨pre, p, msg, by rw [hl2]; exact h3, h4, h5, h6⟩
  · intro p hp x hx
    obtain ⟨_, _, _, _, _, hm⟩ := Remove_removed env s Glob RemoveAll system targetDir p hp
    exact ((Match_iff env.doublestarMatch s.remove _).mp hm).2 x hx

/-- C11, amended, at a concrete input: with the patterns `a` and `b` the files `/home/user/a` and
`/home/user/b` of `filesDest` are removed, in this order. -/
theorem C11_Remove_paths_witness :
    (Remove plainEnv removeTwoState MemSystem.Glob MemSystem.RemoveAll filesDest
        "/home/user").removed = ["/home/user/a", "/home/user/b"] ∧
      ∃ paths : List String,
        paths.Pairwise (fun a b => strLt a b = true) ∧
        (Remove plainEnv removeTwoState MemSystem.Glob MemSystem.RemoveAll filesDest
          "/home/user").removed <+: paths :=
  ⟨by decide,
    ((C11_Remove_paths plainEnv removeTwoState MemSystem.Glob MemSystem.RemoveAll filesDest
      "/home/user").2.1 (fun _ _ => ⟨_, rfl⟩)).imp (fun _ h => ⟨h.2.1, h.2.2.1⟩)⟩

/-- C12 fails as stated: the remove set of `removeEntryState` holds the pattern `foo`, and `foo`
is a key of `entries`; `Remove` calls `RemoveAll` on `/home/user/foo`. -/
theorem C12_counterexample :
    "foo" ∈ mapKeys removeEntryState.entries ∧
      pathJoin ["/home/user", "foo"] ∈
        (Remove plainEnv removeEntryState MemSystem.Glob MemSystem.RemoveAll filesDest
          "/home/user").removed := by
  decide

/-- C12, amended: `Remove` calls `RemoveAll` only on paths whose name relative to the target
directory the remove set matches; so it never calls `RemoveAll` on the destination path of a key
`t` of `entries` that the remove set does not match. -/
theorem C12_Remove_only_matched {TD σ : Type} (env : Env TD) (s : SourceState TD)
    (Glob : σ → String → Except String (List String))
    (RemoveAll : σ → String → σ × Option String) (system : σ) (targetDir : String) :
    (∀ p ∈ (Remove env s Glob RemoveAll system targetDir).removed,
      s.remove.Match env.doublestarMatch (TrimPrefix p (targetDir ++ PathSeparatorStr)) = true) ∧
    (∀ t ∈ mapKeys s.entries, s.remove.Match env.doublestarMatch t = false →
      (targetDir ++ PathSeparatorStr ++ t) ∉
        (Remove env s Glob RemoveAll system targetDir).removed) ∧
    (∀ t ∈ mapKeys s.entries,
      s.remove.Match env.doublestarMatch
        (TrimPrefix (pathJoin [targetDir, t]) (targetDir ++ PathSeparatorStr)) = false →
      pathJoin [targetDir, t] ∉ (Remove env s Glob RemoveAll system targetDir).removed) := by
  have hall : ∀ p ∈ (Remove env s Glob RemoveAll system targetDir).removed,
      s.remove.Match env.doublestarMatch (TrimPrefix p (targetDir ++ PathSeparatorStr)) = true := by
    intro p hp
    obtain ⟨_, _, _, _, _, hm⟩ := Remove_removed env s Glob RemoveAll system targetDir p hp
    exact hm
  refine ⟨hall, ?_, ?_⟩
  · intro t _ ht hmem
    have h := hall _ hmem
    rw [TrimPrefix_append, ht] at h
    cases h
  · intro t _ ht hmem
    have h := hall _ hmem
    rw [ht] at h
    cases h

/-- C12, amended, at a concrete input: with the patterns `a` and `b` and the entry `foo`, `Remove`
does not call `RemoveAll` on `/home/user/foo`. -/
theorem C12_Remove_only_matched_witness :
    mapKeys removeKeepState.entries = ["foo"] ∧
      (Remove plainEnv removeKeepState MemSystem.Glob MemSystem.RemoveAll filesDest
        "/home/user").removed = ["/home/user/a", "/home/user/b"] ∧
      pathJoin ["/home/user", "foo"] ∉
        (Remove plainEnv removeKeepState MemSystem.Glob MemSystem.RemoveAll filesDest
          "/home/user").removed :=
  ⟨by decide, by decide,
    (C12_Remove_only_matched plainEnv removeKeepState MemSystem.Glob MemSystem.RemoveAll filesDest
      "/home/user").2.2 "foo" (by decide) (by decide)⟩

/-- C13: for a source file that is read as `raw`, decrypted to `decrypted` by the encryption tool
when the attributes say encrypted (`decrypted` is `raw` otherwise) and expanded to `contents` by
the template engine when the attributes say template (`contents` is `decrypted` otherwise): for
kind file the target state entry is Absent exactly when the `empty` attribute is false and
`isEmpty(contents)` holds, and otherwise it is a File with `contents` and the permissions of the
attributes; for kind present it is a Present with `contents` and the permissions, for kind script
a Script with `contents`, the target name and the `once` attribute, for kind symlink a Symlink to
the trimmed `contents`.  For the kinds present, script and symlink the target state entry is
never Absent, whatever reading, decrypting and expanding give.  When reading, decrypting, parsing
or executing fails, there is that error and no entry. -/
theorem C13_empty_content_policy {TD : Type} (env : Env TD) (s : SourceState TD)
    (sourcePath : String) (fa : FileAttributes) (targetName : String) (node : Node) :
    (∀ raw decrypted contents : String, node.ReadFile sourcePath = .ok raw →
      (fa.Encrypted = true → env.Decrypt sourcePath raw = .ok decrypted) →
      (fa.Encrypted = false → decrypted = raw) →
      (fa.Template = true → env.parseTemplate sourcePath decrypted = none ∧
        env.executeTemplate sourcePath decrypted s.templates s.templateData = .ok contents) →
      (fa.Template = false → contents = decrypted) →
      (fa.Type_ = .SourceFileTypeFile →
        ((newSourceStateFile sourcePath fa targetName node).TargetStateEntry env s =
            .ok TargetStateEntry.TargetStateAbsent ↔
          fa.Empty = false ∧ env.isEmpty contents = true) ∧
        (¬ (fa.Empty = false ∧ env.isEmpty contents = true) →
          (newSourceStateFile sourcePath fa targetName node).TargetStateEntry env s =
            .ok (TargetStateEntry.TargetStateFile contents (env.filePerm fa)))) ∧
      (fa.Type_ = .SourceFileTypePresent →
        (newSourceStateFile sourcePath fa targetName node).TargetStateEntry env s =
          .ok (TargetStateEntry.TargetStatePresent contents (env.filePerm fa))) ∧
      (fa.Type_ = .SourceFileTypeScript →
        (newSourceStateFile sourcePath fa targetName node).TargetStateEntry env s =
          .ok (TargetStateEntry.TargetStateScript contents targetName fa.Once)) ∧
      (fa.Type_ = .SourceFileTypeSymlink →
        (newSourceStateFile sourcePath fa targetName node).TargetStateEntry env s =
          .ok (TargetStateEntry.TargetStateSymlink (TrimSpace contents)))) ∧
    (fa.Type_ ≠ .SourceFileTypeFile →
      (newSourceStateFile sourcePath fa targetName node).TargetStateEntry env s ≠
        .ok TargetStateEntry.TargetStateAbsent) ∧
    (∀ err, node.ReadFile sourcePath = .error err →
      (newSourceStateFile sourcePath fa targetName node).TargetStateEntry env s = .error err) ∧
    (∀ raw err, node.ReadFile sourcePath = .ok raw → fa.Encrypted = true →
      env.Decrypt sourcePath raw = .error err →
      (newSourceStateFile sourcePath fa targetName node).TargetStateEntry env s = .error err) ∧
    (∀ raw decrypted err, node.ReadFile sourcePath = .ok raw →
      (fa.Encrypted = true → env.Decrypt sourcePath raw = .ok decrypted) →
      (fa.Encrypted = false → decrypted = raw) → fa.Template = true →
      (env.parseTemplate sourcePath decrypted = some err ∨
        (env.parseTemplate sourcePath decrypted = none ∧
          env.executeTemplate sourcePath decrypted s.templates s.templateData = .error err)) →
      (newSourceStateFile sourcePath fa targetName node).TargetStateEntry env s = .error err) := by
  have hcontents : ∀ raw decrypted : String, node.ReadFile sourcePath = .ok raw →
      (fa.Encrypted = true → env.Decrypt sourcePath raw = .ok decrypted) →
      (fa.Encrypted = false → decrypted = raw) →
      contentsFunc env sourcePath fa (node.ReadFile sourcePath) = .ok decrypted := by
    intro raw decrypted hread hd1 hd2
    unfold contentsFunc
    rw [hread]
    cases he : fa.Encrypted with
    | true => simpa using hd1 he
    | false => simp [hd2 he]
  simp only [newSourceStateFile, SourceStateEntry.TargetStateEntry, targetStateEntryFunc]
  refine ⟨?_, ?_, ?_, ?_, ?_⟩
  · intro raw decrypted contents hread hd1 hd2 ht1 ht2
    have hc : templatedContents env s sourcePath fa (node.ReadFile sourcePath) = .ok contents := by
      unfold templatedContents
      rw [hcontents raw decrypted hread hd1 hd2]
      cases ht : fa.Template with
      | true =>
        obtain ⟨hp, hx⟩ := ht1 ht
        simp [ExecuteTemplateData, hp, hx]
      | false => simp [ht2 ht]
    rw [hc]
    refine ⟨?_, ?_, ?_, ?_⟩
    · intro hkind
      rw [hkind]
      simp only
      by_cases h : fa.Empty = false ∧ env.isEmpty contents = true
      · simp [h.1, h.2]
      · have h2 : (!fa.Empty && env.isEmpty contents) = false := by
          cases h3 : fa.Empty <;> cases h4 : env.isEmpty contents <;> simp_all
        simp [h2, h]
    · intro hkind
      rw [hkind]
    · intro hkind
      rw [hkind]
    · intro hkind
      rw [hkind]
  · intro hkind
    cases hc : templatedContents env s sourcePath fa (node.ReadFile sourcePath) with
    | error err => simp
    | ok contents =>
      simp only
      cases ht : fa.Type_ with
      | SourceFileTypeFile => exact absurd ht hkind
      | SourceFileTypePresent => simp
      | SourceFileTypeScript => simp
      | SourceFileTypeSymlink => simp
  · intro err hread
    simp [templatedContents, contentsFunc, hread]
  · intro raw err hread he hd
    simp [templatedContents, contentsFunc, hread, he, hd]
  · intro raw decrypted err hread hd1 hd2 ht hfail
    have hc : templatedContents env s sourcePath fa (node.ReadFile sourcePath) = .error err := by
      unfold templatedContents
      rw [hcontents raw decrypted hread hd1 hd2]
      rcases hfail with hp | ⟨hp, hx⟩
      · simp [ExecuteTemplateData, ht, hp]
      · simp [ExecuteTemplateData, ht, hp, hx]
    rw [hc]

/-- C13, at concrete inputs, in an environment where decrypting reverses the text and executing a
template replaces `@` by `home` and leaves out `~`: the encrypted template that holds `~` has
the resolved contents `""` and gives Absent; with the `empty` attribute it gives a File with
the contents `""`; the encrypted template that holds the reverse of `hello @` gives a File with
`hello home`; and the scenarios "file_remove_empty" and "file_create_empty" of the tests. -/
theorem C13_empty_content_policy_witness :
    (newSourceStateFile (testSourcePath ++ "/encrypted_foo.tmpl")
        ⟨"foo", .SourceFileTypeFile, false, true, false, false, false, true⟩ "foo"
        (Node.file "~")).TargetStateEntry markEnv testState =
        .ok TargetStateEntry.TargetStateAbsent ∧
      (newSourceStateFile (testSourcePath ++ "/encrypted_empty_foo.tmpl")
        ⟨"foo", .SourceFileTypeFile, true, true, false, false, false, true⟩ "foo"
        (Node.file "~")).TargetStateEntry markEnv testState =
        .ok (TargetStateEntry.TargetStateFile "" 0o644) ∧
      (newSourceStateFile (testSourcePath ++ "/encrypted_foo.tmpl")
        ⟨"foo", .SourceFileTypeFile, false, true, false, false, false, true⟩ "foo"
        (Node.file "@ olleh")).TargetStateEntry markEnv testState =
        .ok (TargetStateEntry.TargetStateFile "hello home" 0o644) ∧
      (newSourceStateFile (testSourcePath ++ "/empty_foo") (specParseFileAttributes "empty_foo")
        "foo" (Node.file "")).TargetStateEntry plainEnv testState =
        .ok (TargetStateEntry.TargetStateFile "" 0o644) ∧
      (newSourceStateFile (testSourcePath ++ "/foo") (specParseFileAttributes "foo") "foo"
        (Node.file "")).TargetStateEntry plainEnv testState =
        .ok TargetStateEntry.TargetStateAbsent :=
  ⟨(((C13_empty_content_policy markEnv testState (testSourcePath ++ "/encrypted_foo.tmpl")
      ⟨"foo", .SourceFileTypeFile, false, true, false, false, false, true⟩ "foo"
      (Node.file "~")).1 "~" "~" "" rfl (fun _ => by decide) (fun h => by cases h)
      (fun _ => by decide) (fun h => by cases h)).1 rfl).1.mpr (by decide),
    (((C13_empty_content_policy markEnv testState (testSourcePath ++ "/encrypted_empty_foo.tmpl")
      ⟨"foo", .SourceFileTypeFile, true, true, false, false, false, true⟩ "foo"
      (Node.file "~")).1 "~" "~" "" rfl (fun _ => by decide) (fun h => by cases h)
      (fun _ => by decide) (fun h => by cases h)).1 rfl).2 (by decide),
    (((C13_empty_content_policy markEnv testState (testSourcePath ++ "/encrypted_foo.tmpl")
      ⟨"foo", .SourceFileTypeFile, false, true, false, false, false, true⟩ "foo"
      (Node.file "@ olleh")).1 "@ olleh" "hello @" "hello home" rfl (fun _ => by decide)
      (fun h => by cases h) (fun _ => by decide) (fun h => by cases h)).1 rfl).2 (by decide),
    (((C13_empty_content_policy plainEnv testState (testSourcePath ++ "/empty_foo")
      (specParseFileAttributes "empty_foo") "foo" (Node.file "")).1 "" "" "" rfl
      (fun h => absurd h (by decide)) (fun _ => rfl) (fun h => absurd h (by decide))
      (fun _ => rfl)).1 (by decide)).2 (by decide),
    (((C13_empty_content_policy plainEnv testState (testSourcePath ++ "/foo")
      (specParseFileAttributes "foo") "foo" (Node.file "")).1 "" "" "" rfl
      (fun h => absurd h (by decide)) (fun _ => rfl) (fun h => absurd h (by decide))
      (fun _ => rfl)).1 (by decide)).1.mpr (by decide)⟩

/-- C14 fails as stated: in `hiddenVersionSource` the file `.hidden/.chezmoiversion` holds the
version 9.9.9, which is greater than the zero version; `Read` succeeds and does not go down into
`.hidden`, so the minimum version stays the zero version. -/
theorem C14_counterexample :
    (Read plainEnv testState (Lstat.info (Node.dir hiddenVersionSource))).2 = [] ∧
      (Read plainEnv testState (Lstat.info (Node.dir hiddenVersionSource))).1.minVersion =
        ⟨0, 0, 0, "", ""⟩ ∧
      versionOf plainEnv (testSourcePath ++ "/.hidden/.chezmoiversion", Node.file "9.9.9\n") =
        some ⟨9, 9, 9, "", ""⟩ ∧
      plainEnv.LessThan ⟨0, 0, 0, "", ""⟩ ⟨9, 9, 9, "", ""⟩ = true := by
  decide

/-- C14, amended: when the walk of `Read` returns no error, every entry named `.chezmoiversion`
that the walk function is called on (`versionVisits`) and that is no directory holds a version,
and the minimum version that `Read` leaves is what `addVersionFile` makes of the minimum version
before and these versions in the order of the walk; it is one of them and none of them is greater
(`LessThan`, the precedence, taken to be irreflexive and transitive); reading the versions in any
other order gives a version of the same precedence; `addVersionFile` keeps the minimum version or
raises it.  The walk function is called on a directory and then on what the directory holds,
unless it returns `vfs.SkipDir` for the directory (`skipsDirectory`: the name begins with a dot
and is none of `.chezmoidata...`, `.chezmoiignore`, `.chezmoiremove`, `.chezmoiversion`, and for
`.chezmoitemplates` the partials were read without an error). -/
theorem C14_min_version {TD : Type} (env : Env TD) (s : SourceState TD) (children : Entries)
    (hirr : ∀ a, env.LessThan a a = false)
    (htrans : ∀ a b c, env.LessThan a b = true → env.LessThan b c = true →
      env.LessThan a c = true)
    (hwalk : (readWalk env s (Node.dir children)).2 = Ctl.next) :
    (∀ f ∈ versionVisits env s children, f.2.IsDir = false → (versionOf env f).isSome = true) ∧
    (Read env s (Lstat.info (Node.dir children))).1.minVersion =
      foldVersions env s.minVersion (versionVisits env s children) ∧
    (Read env s (Lstat.info (Node.dir children))).1.minVersion ∈
      s.minVersion :: (versionVisits env s children).filterMap (versionOf env) ∧
    (∀ v ∈ s.minVersion :: (versionVisits env s children).filterMap (versionOf env),
      env.LessThan (Read env s (Lstat.info (Node.dir children))).1.minVersion v = false) ∧
    (∀ versions : List Version,
      versions.Perm ((versionVisits env s children).filterMap (versionOf env)) →
      env.LessThan (Read env s (Lstat.info (Node.dir children))).1.minVersion
          (versions.foldl (raiseVersion env.LessThan) s.minVersion) = false ∧
        env.LessThan (versions.foldl (raiseVersion env.LessThan) s.minVersion)
          (Read env s (Lstat.info (Node.dir children))).1.minVersion = false) ∧
    (∀ (s0 : SourceState TD) (sourcePath : String) (node : Node),
      (addVersionFile env s0 sourcePath node).1.minVersion = s0.minVersion ∨
        env.LessThan s0.minVersion (addVersionFile env s0 sourcePath node).1.minVersion =
          true) ∧
    (∀ (st : ReadState TD) (sourcePath name : String) (es : Entries),
      sourcePath ≠ st.s.sourcePath →
      walkVisits (readWalkFn env) sourcePath name (Node.dir es) st =
        (st, sourcePath, name, Node.dir es) ::
          if skipsDirectory env st.s sourcePath name es then []
          else walkEntriesVisits (readWalkFn env) sourcePath es
            (readWalkFn env st sourcePath name (Node.dir es)).1) := by
  obtain ⟨h1, h2⟩ := Read_minVersion env s children hwalk
  have hmem := raiseFold_mem env.LessThan
    ((versionVisits env s children).filterMap (versionOf env)) s.minVersion
  have hmax := raiseFold_max env.LessThan hirr htrans
    ((versionVisits env s children).filterMap (versionOf env)) s.minVersion
  refine ⟨h2, h1, ?_, ?_, ?_, fun s0 sourcePath node => addVersionFile_raises env s0 sourcePath node,
    fun st sourcePath name es hp => walkVisits_readWalkFn_dir env st sourcePath name es hp⟩
  · rw [h1]
    exact hmem
  · rw [h1]
    exact hmax
  · intro versions hperm
    rw [h1]
    have hmem2 := raiseFold_mem env.LessThan versions s.minVersion
    have hmax2 := raiseFold_max env.LessThan hirr htrans versions s.minVersion
    constructor
    · exact hmax _ ((List.Perm.cons s.minVersion hperm).mem_iff.mp hmem2)
    · exact hmax2 _ ((List.Perm.cons s.minVersion hperm).mem_iff.mpr hmem)

/-- C14, amended, at the input of the scenario "chezmoiversion_multiple" of the tests: the files
hold 1.2.3 and 2.3.4, and the minimum version is 2.3.4.  In `versionDirSource` the walk enters
the directory named `.chezmoiversion`, and the file in it gives the minimum version 9.9.9. -/
theorem C14_min_version_witness :
    (versionVisits plainEnv testState versionsSource).filterMap (versionOf plainEnv) =
        [⟨1, 2, 3, "", ""⟩, ⟨2, 3, 4, "", ""⟩] ∧
      (Read plainEnv testState (Lstat.info (Node.dir versionsSource))).1.minVersion =
        ⟨2, 3, 4, "", ""⟩ ∧
      (Read plainEnv testState (Lstat.info (Node.dir versionsSource))).1.minVersion =
        foldVersions plainEnv testState.minVersion
          (versionVisits plainEnv testState versionsSource) ∧
      (Read plainEnv testState (Lstat.info (Node.dir versionDirSource))).2 = [] ∧
      (versionVisits plainEnv testState versionDirSource).map (fun f => (f.1, f.2.IsDir)) =
        [(testSourcePath ++ "/.chezmoiversion", true),
          (testSourcePath ++ "/.chezmoiversion/.chezmoiversion", false)] ∧
      (Read plainEnv testState (Lstat.info (Node.dir versionDirSource))).1.minVersion =
        ⟨9, 9, 9, "", ""⟩ ∧
      (Read plainEnv testState (Lstat.info (Node.dir versionDirSource))).1.minVersion =
        foldVersions plainEnv testState.minVersion
          (versionVisits plainEnv testState versionDirSource) :=
  ⟨by decide, by decide,
    (C14_min_version plainEnv testState versionsSource plainEnv_LessThan_irrefl
      plainEnv_LessThan_trans (by decide)).2.1, by decide, by decide, by decide,
    (C14_min_version plainEnv testState versionDirSource plainEnv_LessThan_irrefl
      plainEnv_LessThan_trans (by decide)).2.1⟩

/-- C15: from a new source state, after any sequence of `WithTemplateData`,
`WithPriorityTemplateData` and loads of `.chezmoidata` files (`addTemplateData`, failing or not),
every key path that `priorityTemplateData` binds to a value that is no mapping is bound to the same
value in `templateData`; `recursiveMerge` is the deep merge that the spec describes. -/
theorem C15_priority_precedence (env : Env Fields)
    (hmerge : env.recursiveMerge = specRecursiveMerge) (sourcePath : String)
    (steps : List (DataStep Fields)) (path : List String) (v : String)
    (h : (runDataSteps env (NewSourceState Fields.nil sourcePath)
      steps).priorityTemplateData.leafAt path = some v) :
    (runDataSteps env (NewSourceState Fields.nil sourcePath) steps).templateData.leafAt path =
      some v := by
  have hinv : ∀ (steps : List (DataStep Fields)) (s : SourceState Fields),
      (∀ path v, s.priorityTemplateData.leafAt path = some v →
        s.templateData.leafAt path = some v) →
      ∀ path v, (runDataSteps env s steps).priorityTemplateData.leafAt path = some v →
        (runDataSteps env s steps).templateData.leafAt path = some v := by
    intro steps
    induction steps with
    | nil => exact fun s hs => hs
    | cons step rest ih =>
      intro s hs
      refine ih (step.run env s) ?_
      rcases DataStep.run_merged env s step with h1 | ⟨data, h1⟩
      · rw [h1]
        exact hs
      · intro path v hp
        rw [h1, hmerge]
        exact specRecursiveMerge_keeps _ _ path v hp
  refine hinv steps _ ?_ path v h
  intro path v hp
  cases path with
  | nil => simp [Fields.leafAt] at hp
  | cons k rest => cases rest <;> simp [NewSourceState, Fields.leafAt, Fields.get] at hp

/-- C15, at a concrete input: priority data binds `a.b` to `1`; template data that binds `a.b` to
`2` and the load of a data file follow; `templateData` binds `a.b` to `1`. -/
theorem C15_priority_precedence_witness :
    (runDataSteps dataEnv (NewSourceState Fields.nil testSourcePath)
      [.WithPriorityTemplateData (.cons "a" (.mapping (.cons "b" (.leaf "1") .nil)) .nil),
        .WithTemplateData
          (.cons "a" (.mapping (.cons "b" (.leaf "2") (.cons "c" (.leaf "3") .nil))) .nil),
        .addTemplateData (testSourcePath ++ "/.chezmoidata.txt")
          (.file "x")]).templateData.leafAt ["a", "b"] = some "1" ∧
      (runDataSteps dataEnv (NewSourceState Fields.nil testSourcePath)
        [.WithPriorityTemplateData (.cons "a" (.mapping (.cons "b" (.leaf "1") .nil)) .nil),
          .WithTemplateData
            (.cons "a" (.mapping (.cons "b" (.leaf "2") (.cons "c" (.leaf "3") .nil))) .nil),
          .addTemplateData (testSourcePath ++ "/.chezmoidata.txt")
            (.file "x")]).templateData.leafAt ["a", "c"] = some "3" :=
  ⟨C15_priority_precedence dataEnv rfl testSourcePath
      [.WithPriorityTemplateData (.cons "a" (.mapping (.cons "b" (.leaf "1") .nil)) .nil),
        .WithTemplateData
          (.cons "a" (.mapping (.cons "b" (.leaf "2") (.cons "c" (.leaf "3") .nil))) .nil),
        .addTemplateData (testSourcePath ++ "/.chezmoidata.txt") (.file "x")]
      ["a", "b"] "1" (by decide),
    by decide⟩

/-- C16: every mutating method of a `ReadOnlySystem` returns the permission-denied error for every
argument, leaves the state of the wrapped system as it was and does not depend on the wrapped
system (it calls none of its methods); every reading method returns what the wrapped system
returns. -/
theorem C16_ReadOnlySystem {σ Info Cmd : Type} (system : System σ Info Cmd) (s : σ) :
    ((∀ name perm, (NewReadOnlySystem system).Chmod s name perm = (s, some ErrPermission)) ∧
      (∀ bucket key, (NewReadOnlySystem system).Delete s bucket key = (s, some ErrPermission)) ∧
      (∀ name perm, (NewReadOnlySystem system).Mkdir s name perm = (s, some ErrPermission)) ∧
      (∀ name, (NewReadOnlySystem system).RemoveAll s name = (s, some ErrPermission)) ∧
      (∀ oldpath newpath,
        (NewReadOnlySystem system).Rename s oldpath newpath = (s, some ErrPermission)) ∧
      (∀ cmd, (NewReadOnlySystem system).RunCmd s cmd = (s, some ErrPermission)) ∧
      (∀ scriptname dir data,
        (NewReadOnlySystem system).RunScript s scriptname dir data = (s, some ErrPermission)) ∧
      (∀ bucket key value,
        (NewReadOnlySystem system).Set s bucket key value = (s, some ErrPermission)) ∧
      (∀ filename data perm,
        (NewReadOnlySystem system).WriteFile s filename data perm = (s, some ErrPermission)) ∧
      (∀ oldname newname,
        (NewReadOnlySystem system).WriteSymlink s oldname newname = (s, some ErrPermission))) ∧
    (∀ other : System σ Info Cmd,
      (NewReadOnlySystem other).Chmod = (NewReadOnlySystem system).Chmod ∧
      (NewReadOnlySystem other).Delete = (NewReadOnlySystem system).Delete ∧
      (NewReadOnlySystem other).Mkdir = (NewReadOnlySystem system).Mkdir ∧
      (NewReadOnlySystem other).RemoveAll = (NewReadOnlySystem system).RemoveAll ∧
      (NewReadOnlySystem other).Rename = (NewReadOnlySystem system).Rename ∧
      (NewReadOnlySystem other).RunCmd = (NewReadOnlySystem system).RunCmd ∧
      (NewReadOnlySystem other).RunScript = (NewReadOnlySystem system).RunScript ∧
      (NewReadOnlySystem other).Set = (NewReadOnlySystem system).Set ∧
      (NewReadOnlySystem other).WriteFile = (NewReadOnlySystem system).WriteFile ∧
      (NewReadOnlySystem other).WriteSymlink = (NewReadOnlySystem system).WriteSymlink) ∧
    ((∀ bucket key, (NewReadOnlySystem system).Get s bucket key = system.Get s bucket key) ∧
      (∀ pattern, (NewReadOnlySystem system).Glob s pattern = system.Glob s pattern) ∧
      (∀ cmd, (NewReadOnlySystem system).IdempotentCmdOutput s cmd =
        system.IdempotentCmdOutput s cmd) ∧
      (∀ filename, (NewReadOnlySystem system).Lstat s filename = system.Lstat s filename) ∧
      (∀ path, (NewReadOnlySystem system).RawPath s path = system.RawPath s path) ∧
      (∀ dirname, (NewReadOnlySystem system).ReadDir s dirname = system.ReadDir s dirname) ∧
      (∀ filename, (NewReadOnlySystem system).ReadFile s filename = system.ReadFile s filename) ∧
      (∀ name, (NewReadOnlySystem system).Readlink s name = system.Readlink s name) ∧
      (∀ name, (NewReadOnlySystem system).Stat s name = system.Stat s name)) :=
  ⟨⟨fun _ _ => rfl, fun _ _ => rfl, fun _ _ => rfl, fun _ => rfl, fun _ _ => rfl, fun _ => rfl,
      fun _ _ _ => rfl, fun _ _ _ => rfl, fun _ _ _ => rfl, fun _ _ => rfl⟩,
    fun _ => ⟨rfl, rfl, rfl, rfl, rfl, rfl, rfl, rfl, rfl, rfl⟩,
    ⟨fun _ _ => rfl, fun _ => rfl, fun _ => rfl, fun _ => rfl, fun _ => rfl, fun _ => rfl,
      fun _ => rfl, fun _ => rfl, fun _ => rfl⟩⟩

/-- C17: on a `DumpSystem` (one reached from `NewDumpSystem` by any calls) in which the path is not
recorded, `Mkdir`, `WriteFile`, `WriteSymlink` and `RunScript` return no error and record under the
path (for `WriteSymlink` the new name, for `RunScript` the script name) the value the claim
describes, leaving every other key as it was; and every value in `Data()` has its name equal to its
key and its type tag equal to the tag of its variant. -/
theorem C17_DumpSystem_records (cs : List DumpCall) (p : String)
    (hp : mapGet (NewDumpSystem.calls cs).Data p = none) :
    (∀ perm, ((NewDumpSystem.calls cs).Mkdir p perm).2 = none ∧
      mapGet ((NewDumpSystem.calls cs).Mkdir p perm).1.Data p =
        some (DumpData.dirData "dir" p perm) ∧
      ∀ k, k ≠ p → mapGet ((NewDumpSystem.calls cs).Mkdir p perm).1.Data k =
        mapGet (NewDumpSystem.calls cs).Data k) ∧
    (∀ data perm, ((NewDumpSystem.calls cs).WriteFile p data perm).2 = none ∧
      mapGet ((NewDumpSystem.calls cs).WriteFile p data perm).1.Data p =
        some (DumpData.fileData "file" p data perm) ∧
      ∀ k, k ≠ p → mapGet ((NewDumpSystem.calls cs).WriteFile p data perm).1.Data k =
        mapGet (NewDumpSystem.calls cs).Data k) ∧
    (∀ oldname, ((NewDumpSystem.calls cs).WriteSymlink oldname p).2 = none ∧
      mapGet ((NewDumpSystem.calls cs).WriteSymlink oldname p).1.Data p =
        some (DumpData.symlinkData "symlink" p oldname) ∧
      ∀ k, k ≠ p → mapGet ((NewDumpSystem.calls cs).WriteSymlink oldname p).1.Data k =
        mapGet (NewDumpSystem.calls cs).Data k) ∧
    (∀ dir data, ((NewDumpSystem.calls cs).RunScript p dir data).2 = none ∧
      mapGet ((NewDumpSystem.calls cs).RunScript p dir data).1.Data p =
        some (DumpData.scriptData "script" p data) ∧
      ∀ k, k ≠ p → mapGet ((NewDumpSystem.calls cs).RunScript p dir data).1.Data k =
        mapGet (NewDumpSystem.calls cs).Data k) ∧
    (∀ (c : DumpCall) (k : String) (r : DumpData),
      (k, r) ∈ ((NewDumpSystem.calls cs).call c).1.Data →
        r.Name = k ∧ r.Type_ = r.variantTag ∧
        (r.variantTag = "dir" ∨ r.variantTag = "file" ∨ r.variantTag = "script" ∨
          r.variantTag = "symlink")) := by
  simp only [DumpSystem.Data] at hp
  refine ⟨?_, ?_, ?_, ?_, ?_⟩
  · intro perm
    simp only [DumpSystem.Mkdir, DumpSystem.Data, hp]
    refine ⟨trivial, ?_, ?_⟩
    · rw [mapGet_mapSet]
      simp [dataTypeDir]
    · intro k hk
      rw [mapGet_mapSet, if_neg hk]
  · intro data perm
    simp only [DumpSystem.WriteFile, DumpSystem.Data, hp]
    refine ⟨trivial, ?_, ?_⟩
    · rw [mapGet_mapSet]
      simp [dataTypeFile]
    · intro k hk
      rw [mapGet_mapSet, if_neg hk]
  · intro oldname
    simp only [DumpSystem.WriteSymlink, DumpSystem.Data, hp]
    refine ⟨trivial, ?_, ?_⟩
    · rw [mapGet_mapSet]
      simp [dataTypeSymlink]
    · intro k hk
      rw [mapGet_mapSet, if_neg hk]
  · intro dir data
    simp only [DumpSystem.RunScript, DumpSystem.Data, hp]
    refine ⟨trivial, ?_, ?_⟩
    · rw [mapGet_mapSet]
      simp [dataTypeScript]
    · intro k hk
      rw [mapGet_mapSet, if_neg hk]
  · intro c k r hmem
    have h := DumpSystem.call_inv (NewDumpSystem.calls cs) c
      (DumpSystem.calls_inv cs NewDumpSystem (by simp [NewDumpSystem])) (k, r) hmem
    refine ⟨h.1, h.2, ?_⟩
    cases r <;> simp [DumpData.variantTag]

/-- C17, at a concrete input: after `Mkdir("dir", 0o777)` the path `dir/foo` is not recorded, and
`WriteFile("dir/foo", "bar", 0o666)` records the file of the test `TestDumpSystem`. -/
theorem C17_DumpSystem_records_witness :
    mapGet (NewDumpSystem.calls [DumpCall.Mkdir "dir" 0o777]).Data "dir/foo" = none ∧
      ((NewDumpSystem.calls [DumpCall.Mkdir "dir" 0o777]).WriteFile "dir/foo" "bar" 0o666).2 =
        none ∧
      mapGet ((NewDumpSystem.calls [DumpCall.Mkdir "dir" 0o777]).WriteFile "dir/foo" "bar"
        0o666).1.Data "dir/foo" = some (DumpData.fileData "file" "dir/foo" "bar" 0o666) ∧
      mapGet ((NewDumpSystem.calls [DumpCall.Mkdir "dir" 0o777]).WriteFile "dir/foo" "bar"
        0o666).1.Data "dir" = some (DumpData.dirData "dir" "dir" 0o777) :=
  ⟨by decide,
    ((C17_DumpSystem_records [DumpCall.Mkdir "dir" 0o777] "dir/foo" (by decide)).2.1
      "bar" 0o666).1,
    ((C17_DumpSystem_records [DumpCall.Mkdir "dir" 0o777] "dir/foo" (by decide)).2.1
      "bar" 0o666).2.1,
    by decide⟩

/-- C18: for each of the ten attribute names `a`, `parseAttributesModifier` maps `a` and `+a` to
the modifier that sets the attribute of `a` and leaves the others unchanged, and `-a` and `noa` to
the one that clears it, without an error; `e`, `x`, `p`, `t` give the modifiers of `empty`,
`executable`, `private`, `template`. -/
theorem C18_modifier_grammar :
    (∀ a ∈ attributes,
      parseAttributesModifier a = .ok (modifierOf a .boolModifierSet) ∧
      parseAttributesModifier ("+" ++ a) = .ok (modifierOf a .boolModifierSet) ∧
      parseAttributesModifier ("-" ++ a) = .ok (modifierOf a .boolModifierClear) ∧
      parseAttributesModifier ("no" ++ a) = .ok (modifierOf a .boolModifierClear)) ∧
    (∀ bm, modifierOf "e" bm = modifierOf "empty" bm ∧
      modifierOf "x" bm = modifierOf "executable" bm ∧
      modifierOf "p" bm = modifierOf "private" bm ∧
      modifierOf "t" bm = modifierOf "template" bm) ∧
    (∀ bm, (modifierOf "empty" bm).empty = bm ∧ (modifierOf "encrypted" bm).encrypted = bm ∧
      (modifierOf "exact" bm).exact = bm ∧ (modifierOf "executable" bm).executable = bm ∧
      (modifierOf "private" bm).private_ = bm ∧ (modifierOf "template" bm).template = bm) := by
  refine ⟨by decide, ?_, ?_⟩
  · intro bm
    cases bm <;> decide
  · intro bm
    cases bm <;> decide

/-- C18, at a concrete input: `nox` clears `executable` and leaves the other attributes
unchanged. -/
theorem C18_modifier_grammar_witness :
    "x" ∈ attributes ∧
      parseAttributesModifier ("no" ++ "x") = .ok ⟨.boolModifierLeaveUnchanged,
        .boolModifierLeaveUnchanged, .boolModifierLeaveUnchanged, .boolModifierClear,
        .boolModifierLeaveUnchanged, .boolModifierLeaveUnchanged⟩ :=
  ⟨by decide, (C18_modifier_grammar.1 "x" (by decide)).2.2.2⟩

/-- C19: `parseAttributesModifier` returns an error exactly when some comma-separated item of the
input, trimmed, is not empty and is, without one leading `+`, `-` or `no`, none of the ten attribute
names; the error is `<attribute>: unknown attribute` for the first such item, and with an error no
modifier is returned. -/
theorem C19_unknown_attribute (s : String) :
    ((∃ err, parseAttributesModifier s = .error err) ↔
      ∃ item ∈ modifierItems s, unknownItem item = true) ∧
    (∀ pre item post, modifierItems s = pre ++ item :: post →
      (∀ x ∈ pre, unknownItem x = false) → unknownItem item = true →
      parseAttributesModifier s = .error (withoutSign item ++ ": unknown attribute") ∧
      (parseAttributesModifier s).toOption = none) := by
  have hfirst : ∀ pre item post, modifierItems s = pre ++ item :: post →
      (∀ x ∈ pre, unknownItem x = false) → unknownItem item = true →
      parseAttributesModifier s = .error (withoutSign item ++ ": unknown attribute") :=
    fun pre item post hl hpre hitem =>
      parseAttributesModifierLoop_error pre item post hpre hitem _ _ hl
  refine ⟨⟨?_, ?_⟩, ?_⟩
  · rintro ⟨err, herr⟩
    by_contra hno
    have hall : ∀ x ∈ modifierItems s, unknownItem x = false := by
      intro x hx
      cases hu : unknownItem x with
      | false => rfl
      | true => exact absurd ⟨x, hx, hu⟩ hno
    obtain ⟨am1, h1⟩ := parseAttributesModifierLoop_ok _ attributesModifier.zero hall
    unfold parseAttributesModifier at herr
    rw [h1] at herr
    cases herr
  · intro h
    obtain ⟨pre, item, post, h1, h2, h3⟩ := exists_first_split unknownItem _ h
    exact ⟨_, hfirst pre item post h1 h2 h3⟩
  · intro pre item post hl hpre hitem
    have h := hfirst pre item post hl hpre hitem
    exact ⟨h, by rw [h]; rfl⟩

/-- C19, at a concrete input: in `p, once ,zz` the first unknown item is `once`. -/
theorem C19_unknown_attribute_witness :
    modifierItems "p, once ,zz" = ["p"] ++ "once" :: ["zz"] ∧
      parseAttributesModifier "p, once ,zz" = .error "once: unknown attribute" :=
  ⟨by decide,
    ((C19_unknown_attribute "p, once ,zz").2 ["p"] "once" ["zz"] (by decide) (by decide)
      (by decide)).1⟩

/-- C20 fails as stated: for a script `modifyFileAttributes` returns nothing (the program stops),
for a symlink the modifier that sets `private` gives attributes in which `private` is false, and for
a file of kind present the modifier that sets `empty` gives attributes in which `empty` is false. -/
theorem C20_counterexample :
    attributesModifier.zero.modifyFileAttributes
        ⟨"foo", .SourceFileTypeScript, false, false, false, false, false, false⟩ = none ∧
      (modifierOf "private" .boolModifierSet).private_ = .boolModifierSet ∧
      (modifierOf "private" .boolModifierSet).modifyFileAttributes
        ⟨"foo", .SourceFileTypeSymlink, false, false, false, false, false, false⟩ =
        some ⟨"foo", .SourceFileTypeSymlink, false, false, false, false, false, false⟩ ∧
      (modifierOf "empty" .boolModifierSet).empty = .boolModifierSet ∧
      (modifierOf "empty" .boolModifierSet).modifyFileAttributes
        ⟨"foo", .SourceFileTypePresent, false, false, false, false, false, false⟩ =
        some ⟨"foo", .SourceFileTypePresent, false, false, false, false, false, false⟩ := by
  decide

/-- C20, amended: `modifyDirAttributes` keeps the name and modifies `exact` and `private` by the
tri-state; `modifyFileAttributes` keeps the name and the kind and modifies by the tri-state the flags
that the kind carries (kind file: `empty`, `encrypted`, `executable`, `private`, `template`; kind
present: all of these but `empty`; kind symlink: `template` alone), every other flag of the result
being false; for a script it returns nothing.  The all-leave-unchanged modifier returns directory
attributes unchanged, and file attributes unchanged when they are no script and hold no flag that
their kind does not carry.  `runChattrCmd` renames a target exactly when the base name that the
modified attributes compose differs from the base name of its source path, to that base name in
the same directory; so with the all-leave-unchanged modifier it renames nothing, and returns no
error, when every target keeps its base name (`keepsBaseName`). -/
theorem C20_tri_state {σ : Type} (ce : ChattrEnv σ) (SourceDir : String)
    (am : attributesModifier) (da : DirAttributes) (fa : FileAttributes) :
    ((am.modifyDirAttributes da).Name = da.Name ∧
      triState am.exact da.Exact (am.modifyDirAttributes da).Exact ∧
      triState am.private_ da.Private (am.modifyDirAttributes da).Private ∧
      attributesModifier.zero.modifyDirAttributes da = da) ∧
    (fa.Type_ = .SourceFileTypeFile → ∃ fa2, am.modifyFileAttributes fa = some fa2 ∧
      fa2.Name = fa.Name ∧ fa2.Type_ = fa.Type_ ∧
      triState am.empty fa.Empty fa2.Empty ∧ triState am.encrypted fa.Encrypted fa2.Encrypted ∧
      triState am.executable fa.Executable fa2.Executable ∧
      triState am.private_ fa.Private fa2.Private ∧
      triState am.template fa.Template fa2.Template ∧ fa2.Once = false) ∧
    (fa.Type_ = .SourceFileTypePresent → ∃ fa2, am.modifyFileAttributes fa = some fa2 ∧
      fa2.Name = fa.Name ∧ fa2.Type_ = fa.Type_ ∧
      triState am.encrypted fa.Encrypted fa2.Encrypted ∧
      triState am.executable fa.Executable fa2.Executable ∧
      triState am.private_ fa.Private fa2.Private ∧
      triState am.template fa.Template fa2.Template ∧ fa2.Empty = false ∧ fa2.Once = false) ∧
    (fa.Type_ = .SourceFileTypeSymlink → ∃ fa2, am.modifyFileAttributes fa = some fa2 ∧
      fa2.Name = fa.Name ∧ fa2.Type_ = fa.Type_ ∧
      triState am.template fa.Template fa2.Template ∧ fa2.Empty = false ∧
      fa2.Encrypted = false ∧ fa2.Executable = false ∧ fa2.Private = false ∧
      fa2.Once = false) ∧
    (fa.Type_ = .SourceFileTypeScript → am.modifyFileAttributes fa = none) ∧
    (fa.Type_ ≠ .SourceFileTypeScript → fa.Once = false →
      (fa.Type_ ≠ .SourceFileTypeFile → fa.Empty = false) →
      (fa.Type_ = .SourceFileTypeSymlink →
        fa.Encrypted = false ∧ fa.Executable = false ∧ fa.Private = false) →
      attributesModifier.zero.modifyFileAttributes fa = some fa) ∧
    (∀ (entries : List (String × SourceStateEntry)) (t path : String) (tse : TargetStateEntry)
        (system : σ),
      mapGet entries t = some (SourceStateEntry.SourceStateDir path da tse) →
      chattrLoop ce SourceDir am entries [t] system [] =
        some (if ce.dirBaseName (am.modifyDirAttributes da) =
            sourceBaseName SourceDir (SourceStateEntry.SourceStateDir path da tse)
          then ⟨system, none, []⟩
          else ⟨(ce.Rename system path (pathJoin [SourceDir,
              (pathSplit (TrimPrefix path (SourceDir ++ PathSeparatorStr))).1,
              ce.dirBaseName (am.modifyDirAttributes da)])).1,
            (ce.Rename system path (pathJoin [SourceDir,
              (pathSplit (TrimPrefix path (SourceDir ++ PathSeparatorStr))).1,
              ce.dirBaseName (am.modifyDirAttributes da)])).2,
            [(path, pathJoin [SourceDir,
              (pathSplit (TrimPrefix path (SourceDir ++ PathSeparatorStr))).1,
              ce.dirBaseName (am.modifyDirAttributes da)])]⟩)) ∧
    (∀ (entries : List (String × SourceStateEntry)) (t path targetName : String)
        (readFile : Except String String) (system : σ) (fa2 : FileAttributes),
      mapGet entries t = some (SourceStateEntry.SourceStateFile path fa targetName readFile) →
      am.modifyFileAttributes fa = some fa2 →
      chattrLoop ce SourceDir am entries [t] system [] =
        some (if ce.fileBaseName fa2 =
            sourceBaseName SourceDir
              (SourceStateEntry.SourceStateFile path fa targetName readFile)
          then ⟨system, none, []⟩
          else ⟨(ce.Rename system path (pathJoin [SourceDir,
              (pathSplit (TrimPrefix path (SourceDir ++ PathSeparatorStr))).1,
              ce.fileBaseName fa2])).1,
            (ce.Rename system path (pathJoin [SourceDir,
              (pathSplit (TrimPrefix path (SourceDir ++ PathSeparatorStr))).1,
              ce.fileBaseName fa2])).2,
            [(path, pathJoin [SourceDir,
              (pathSplit (TrimPrefix path (SourceDir ++ PathSeparatorStr))).1,
              ce.fileBaseName fa2])]⟩)) ∧
    (∀ (arg : String) (names : List String) (entries : List (String × SourceStateEntry))
        (system : σ),
      parseAttributesModifier arg = .ok attributesModifier.zero →
      (∀ t ∈ names, ∃ e, mapGet entries t = some e ∧ keepsBaseName ce SourceDir e) →
      runChattrCmd ce SourceDir arg (.ok names) entries system = some ⟨system, none, []⟩) := by
  obtain ⟨name, type, empty, encrypted, executable, once, priv, template⟩ := fa
  refine ⟨⟨rfl, triState_modify _ _, triState_modify _ _, rfl⟩, ?_, ?_, ?_, ?_, ?_, ?_, ?_, ?_⟩
  · intro h
    simp only at h
    subst h
    exact ⟨_, rfl, rfl, rfl, triState_modify _ _, triState_modify _ _, triState_modify _ _,
      triState_modify _ _, triState_modify _ _, rfl⟩
  · intro h
    simp only at h
    subst h
    exact ⟨_, rfl, rfl, rfl, triState_modify _ _, triState_modify _ _, triState_modify _ _,
      triState_modify _ _, rfl, rfl⟩
  · intro h
    simp only at h
    subst h
    exact ⟨_, rfl, rfl, rfl, triState_modify _ _, rfl, rfl, rfl, rfl, rfl⟩
  · intro h
    simp only at h
    subst h
    rfl
  · intro h1 h2 h3 h4
    exact zero_modifyFileAttributes _ h1 h2 h3 h4
  · intro entries t path tse system hget
    rw [chattrLoop, hget]
    simp only [sourceBaseName, SourceStateEntry.Path, ne_eq, ite_not]
    split_ifs with hb
    · rfl
    · rcases hr : ce.Rename system path (pathJoin [SourceDir,
        (pathSplit (TrimPrefix path (SourceDir ++ PathSeparatorStr))).1,
        ce.dirBaseName (am.modifyDirAttributes da)]) with ⟨system1, err⟩
      cases err <;> rfl
  · intro entries t path targetName readFile system fa2 hget hmod
    rw [chattrLoop, hget]
    simp only [hmod, sourceBaseName, SourceStateEntry.Path, ne_eq, ite_not]
    split_ifs with hb
    · rfl
    · rcases hr : ce.Rename system path (pathJoin [SourceDir,
        (pathSplit (TrimPrefix path (SourceDir ++ PathSeparatorStr))).1,
        ce.fileBaseName fa2]) with ⟨system1, err⟩
      cases err <;> rfl
  · intro arg names entries system harg hkeep
    unfold runChattrCmd
    rw [harg]
    simp only
    apply chattrLoop_zero
    intro t ht
    exact hkeep t ((sortStrings_perm names).mem_iff.mp (List.mem_reverse.mp ht))

/-- C20, amended, at concrete inputs: clearing `private` and setting `template` on the attributes
of an executable private file; the modifier parsed from the empty argument, which leaves all
unchanged, renames nothing for the file `foo`; and with the base names as the spec composes them
the same modifier renames `exists_symlink_x` to `symlink_x`. -/
theorem C20_tri_state_witness :
    (⟨.boolModifierLeaveUnchanged, .boolModifierLeaveUnchanged, .boolModifierLeaveUnchanged,
        .boolModifierLeaveUnchanged, .boolModifierClear, .boolModifierSet⟩ :
        attributesModifier).modifyFileAttributes
      ⟨"foo", .SourceFileTypeFile, false, false, true, false, true, false⟩ =
      some ⟨"foo", .SourceFileTypeFile, false, false, true, false, false, true⟩ ∧
    (∃ fa2, (⟨.boolModifierLeaveUnchanged, .boolModifierLeaveUnchanged,
        .boolModifierLeaveUnchanged, .boolModifierLeaveUnchanged, .boolModifierClear,
        .boolModifierSet⟩ : attributesModifier).modifyFileAttributes
      ⟨"foo", .SourceFileTypeFile, false, false, true, false, true, false⟩ = some fa2 ∧
      fa2.Name = "foo") ∧
    (runChattrCmd specChattrEnv testSourcePath "" (.ok ["foo"])
      [("foo", SourceStateEntry.SourceStateFile (testSourcePath ++ "/foo")
        (specParseFileAttributes "foo") "foo" (.ok "bar"))] 0).map (fun r => (r.system, r.renamed)) =
      some (0, []) ∧
    (chattrLoop specChattrEnv testSourcePath attributesModifier.zero
      [("x", SourceStateEntry.SourceStateFile (testSourcePath ++ "/exists_symlink_x")
        (specParseFileAttributes "exists_symlink_x") "x" (.ok "y"))] ["x"] 0 []).map
        (fun r => (r.system, r.renamed)) =
      some (1, [(testSourcePath ++ "/exists_symlink_x", testSourcePath ++ "/symlink_x")]) :=
  ⟨by decide,
    (((C20_tri_state specChattrEnv testSourcePath ⟨.boolModifierLeaveUnchanged,
        .boolModifierLeaveUnchanged, .boolModifierLeaveUnchanged, .boolModifierLeaveUnchanged,
        .boolModifierClear, .boolModifierSet⟩ ⟨"foo", false, false⟩
      ⟨"foo", .SourceFileTypeFile, false, false, true, false, true, false⟩).2.1 rfl).imp
      (fun _ h => ⟨h.1, h.2.1⟩)),
    by
      rw [(C20_tri_state specChattrEnv testSourcePath attributesModifier.zero ⟨"foo", false, false⟩
        (specParseFileAttributes "foo")).2.2.2.2.2.2.2.2 "" ["foo"]
        [("foo", SourceStateEntry.SourceStateFile (testSourcePath ++ "/foo")
          (specParseFileAttributes "foo") "foo" (.ok "bar"))] 0 (by decide)
        (fun t ht => ⟨SourceStateEntry.SourceStateFile (testSourcePath ++ "/foo")
          (specParseFileAttributes "foo") "foo" (.ok "bar"),
          by
            rw [List.mem_singleton.mp ht]
            rfl,
          by decide, by decide, by decide, by decide, by decide⟩)]
      rfl,
    by
      rw [(C20_tri_state specChattrEnv testSourcePath attributesModifier.zero ⟨"x", false, false⟩
        (specParseFileAttributes "exists_symlink_x")).2.2.2.2.2.2.2.1
        [("x", SourceStateEntry.SourceStateFile (testSourcePath ++ "/exists_symlink_x")
          (specParseFileAttributes "exists_symlink_x") "x" (.ok "y"))] "x"
        (testSourcePath ++ "/exists_symlink_x") "x" (.ok "y") 0
        ⟨"x", .SourceFileTypeSymlink, false, false, false, false, false, false⟩ rfl
        (by decide)]
      decide⟩

/-- C21 fails as stated: after a call of `secretFunc` with the empty tuple, two successful calls
with the tuple of one empty argument run the command not once but never (the one run in the
record has the empty tuple as its arguments), and they return the value that was stored for the
empty tuple, where in a new process the call returns another value. -/
theorem C21_counterexample :
    (callAll (secretFunc countingEnv) [[], [""], [""]] (newCache 0)).2 =
        [.ok "0 0", .ok "0 0", .ok "0 0"] ∧
      (callAll (secretFunc countingEnv) [[], [""], [""]] (newCache 0)).1.commands =
        [("secret", [], "0 0\n", none)] ∧
      ((callAll (secretFunc countingEnv) [[], [""], [""]] (newCache 0)).1.commands.filter
        (fun r => decide (r.2.1 = [""]))).length = 0 ∧
      (callAll (secretFunc countingEnv) [[""], [""]] (newCache 0)).2 = [.ok "0 1", .ok "0 1"] := by
  decide

/-- C21, amended: in a new process, for any calls of `secretFunc` (likewise `secretJSONFunc` and
`onepasswordOutput`) among which the tuple `A` occurs and no other tuple has the cache key of `A`:
when every call with `A` succeeds, all calls with `A` return one value, the record of commands
holds exactly one run with the arguments `A`, a run of the command of the helper without an
error, and the value is what the output of that run decodes to (trimmed of white space,
unmarshalled, or as it is). -/
theorem C21_secret_caching {ω V : Type} (c : SecretEnv ω V) (world : ω)
    (history : List (List String)) (A : List String) (hA : A ∈ history)
    (hkey : ∀ B ∈ history, cacheKey B = cacheKey A → B = A) :
    ((∀ p ∈ history.zip (callAll (secretFunc c) history (newCache world)).2,
        p.1 = A → p.2.isOk = true) →
      ∃ value output,
        (∀ p ∈ history.zip (callAll (secretFunc c) history (newCache world)).2,
          p.1 = A → p.2 = .ok value) ∧
        (callAll (secretFunc c) history (newCache world)).1.commands.filter
          (fun r => decide (r.2.1 = A)) = [(c.GenericSecretCommand, A, output, none)] ∧
        value = TrimSpace output) ∧
    ((∀ p ∈ history.zip (callAll (secretJSONFunc c) history (newCache world)).2,
        p.1 = A → p.2.isOk = true) →
      ∃ value output,
        (∀ p ∈ history.zip (callAll (secretJSONFunc c) history (newCache world)).2,
          p.1 = A → p.2 = .ok value) ∧
        (callAll (secretJSONFunc c) history (newCache world)).1.commands.filter
          (fun r => decide (r.2.1 = A)) = [(c.GenericSecretCommand, A, output, none)] ∧
        c.Unmarshal output = .ok value) ∧
    ((∀ p ∈ history.zip (callAll (onepasswordOutput c) history (newCache world)).2,
        p.1 = A → p.2.isOk = true) →
      ∃ value output,
        (∀ p ∈ history.zip (callAll (onepasswordOutput c) history (newCache world)).2,
          p.1 = A → p.2 = .ok value) ∧
        (callAll (onepasswordOutput c) history (newCache world)).1.commands.filter
          (fun r => decide (r.2.1 = A)) = [(c.OnepasswordCommand, A, output, none)] ∧
        value = output) := by
  have e1 : secretFunc c =
      cachedCall c c.GenericSecretCommand (fun output => .ok (TrimSpace output)) :=
    funext fun st => funext fun a => secretFunc_eq c st a
  have e2 : secretJSONFunc c = cachedCall c c.GenericSecretCommand c.Unmarshal :=
    funext fun st => funext fun a => secretJSONFunc_eq c st a
  have e3 : onepasswordOutput c = cachedCall c c.OnepasswordCommand (fun output => .ok output) :=
    funext fun st => funext fun a => onepasswordOutput_eq c st a
  refine ⟨?_, ?_, ?_⟩
  · intro hok
    rw [e1] at hok ⊢
    obtain ⟨value, output, h1, h2, h3⟩ := callAll_once c _ _ world history A hA hkey hok
    refine ⟨value, output, h1, h2, ?_⟩
    cases h3
    rfl
  · intro hok
    rw [e2] at hok ⊢
    exact callAll_once c _ _ world history A hA hkey hok
  · intro hok
    rw [e3] at hok ⊢
    obtain ⟨value, output, h1, h2, h3⟩ := callAll_once c _ _ world history A hA hkey hok
    refine ⟨value, output, h1, h2, ?_⟩
    cases h3
    rfl

/-- C21, amended, at a concrete input: in a new process the calls with the tuples `b`, `a`, `b`,
`a`, `a`, in this order; the command runs once for `b`, then once for `a`, and the three calls
with `a` return the output of that run, for each of the three helpers. -/
theorem C21_secret_caching_witness :
    (callAll (secretFunc countingEnv) [["b"], ["a"], ["b"], ["a"], ["a"]] (newCache 0)).2 =
        [.ok "0 1", .ok "1 1", .ok "0 1", .ok "1 1", .ok "1 1"] ∧
      (callAll (secretFunc countingEnv) [["b"], ["a"], ["b"], ["a"], ["a"]]
        (newCache 0)).1.commands =
        [("secret", ["b"], "0 1\n", none), ("secret", ["a"], "1 1\n", none)] ∧
      (∃ value output,
        (∀ p ∈ [["b"], ["a"], ["b"], ["a"], ["a"]].zip (callAll (secretFunc countingEnv)
            [["b"], ["a"], ["b"], ["a"], ["a"]] (newCache 0)).2,
          p.1 = ["a"] → p.2 = .ok value) ∧
        (callAll (secretFunc countingEnv) [["b"], ["a"], ["b"], ["a"], ["a"]]
          (newCache 0)).1.commands.filter (fun r => decide (r.2.1 = ["a"])) =
            [(countingEnv.GenericSecretCommand, ["a"], output, none)] ∧
        value = TrimSpace output) ∧
      (∃ value output,
        (∀ p ∈ [["b"], ["a"], ["b"], ["a"], ["a"]].zip (callAll (secretJSONFunc countingEnv)
            [["b"], ["a"], ["b"], ["a"], ["a"]] (newCache 0)).2,
          p.1 = ["a"] → p.2 = .ok value) ∧
        (callAll (secretJSONFunc countingEnv) [["b"], ["a"], ["b"], ["a"], ["a"]]
          (newCache 0)).1.commands.filter (fun r => decide (r.2.1 = ["a"])) =
            [(countingEnv.GenericSecretCommand, ["a"], output, none)] ∧
        countingEnv.Unmarshal output = .ok value) ∧
      (∃ value output,
        (∀ p ∈ [["b"], ["a"], ["b"], ["a"], ["a"]].zip (callAll (onepasswordOutput countingEnv)
            [["b"], ["a"], ["b"], ["a"], ["a"]] (newCache 0)).2,
          p.1 = ["a"] → p.2 = .ok value) ∧
        (callAll (onepasswordOutput countingEnv) [["b"], ["a"], ["b"], ["a"], ["a"]]
          (newCache 0)).1.commands.filter (fun r => decide (r.2.1 = ["a"])) =
            [(countingEnv.OnepasswordCommand, ["a"], output, none)] ∧
        value = output) :=
  ⟨by decide, by decide,
    (C21_secret_caching countingEnv 0 [["b"], ["a"], ["b"], ["a"], ["a"]] ["a"] (by decide)
      (by decide)).1 (by decide),
    (C21_secret_caching countingEnv 0 [["b"], ["a"], ["b"], ["a"], ["a"]] ["a"] (by decide)
      (by decide)).2.1 (by decide),
    (C21_secret_caching countingEnv 0 [["b"], ["a"], ["b"], ["a"], ["a"]] ["a"] (by decide)
      (by decide)).2.2 (by decide)⟩

/-- C22 fails as stated: the base name `.foo` has no prefix of the grammar, decodes to the name
`.foo`, and the base name composed for it is `dot_foo`, for the directory codec and for the file
codec; and the base name `run_once_symlink_x` decodes to a symbolic link with `once` set, for which
the file codec composes `symlink_x`, which decodes to other attributes. -/
theorem C22_counterexample :
    specDirBaseName (specParseDirAttributes ".foo") = "dot_foo" ∧
      specFileBaseName (specParseFileAttributes ".foo") = "dot_foo" ∧
      specFileBaseName (specParseFileAttributes "run_once_symlink_x") = "symlink_x" ∧
      specParseFileAttributes (specFileBaseName (specParseFileAttributes "run_once_symlink_x")) ≠
        specParseFileAttributes "run_once_symlink_x" := by
  decide

/-- C22, amended: for the attributes decoded from any base name `b`, decoding the base name
composed for them gives the attributes back, for the directory codec and, when `once` is set for
the kind script only, for the file codec (otherwise `once` is cleared and nothing else changes);
composing the attributes decoded from a composed base name gives that base name back, for both
codecs; and a base name with no prefix of the grammar and, for a file, without the suffix `.tmpl`
decodes to itself, with the kind file and with all flags false. -/
theorem C22_attribute_round_trip (b : String) :
    specParseDirAttributes (specDirBaseName (specParseDirAttributes b)) =
        specParseDirAttributes b ∧
    specDirBaseName (specParseDirAttributes (specDirBaseName (specParseDirAttributes b))) =
        specDirBaseName (specParseDirAttributes b) ∧
    (((specParseFileAttributes b).Once = true →
        (specParseFileAttributes b).Type_ = SourceFileType.SourceFileTypeScript) →
      specParseFileAttributes (specFileBaseName (specParseFileAttributes b)) =
        specParseFileAttributes b) ∧
    specParseFileAttributes (specFileBaseName (specParseFileAttributes b)) =
        (specParseFileAttributes b).withoutStrayOnce ∧
    specFileBaseName (specParseFileAttributes (specFileBaseName (specParseFileAttributes b))) =
        specFileBaseName (specParseFileAttributes b) ∧
    (HasPrefix b "exact_" = false → HasPrefix b "private_" = false →
      HasPrefix b "dot_" = false → specParseDirAttributes b = ⟨b, false, false⟩) ∧
    (HasPrefix b "encrypted_" = false → HasPrefix b "private_" = false →
      HasPrefix b "empty_" = false → HasPrefix b "exists_" = false →
      HasPrefix b "executable_" = false → HasPrefix b "run_" = false →
      HasPrefix b "symlink_" = false → HasPrefix b "dot_" = false →
      isTemplateName b = false →
      specParseFileAttributes b =
        ⟨b, SourceFileType.SourceFileTypeFile, false, false, false, false, false, false⟩) := by
  refine ⟨specParseDirAttributes_baseName b, ?_, ?_, specParseFileAttributes_baseName b, ?_,
    specParseDirAttributes_plain b, specParseFileAttributes_plain b⟩
  · rw [specParseDirAttributes_baseName]
  · intro h
    rw [specParseFileAttributes_baseName, FileAttributes.withoutStrayOnce_eq _ h]
  · rw [specParseFileAttributes_baseName, specFileBaseName_withoutStrayOnce]

/-- C22, amended, at concrete inputs: the base name `encrypted_private_executable_dot_x.tmpl`
decodes to attributes whose composed base name decodes to them again and is the base name itself,
and `README.md` decodes to itself without flags. -/
theorem C22_attribute_round_trip_witness :
    specParseFileAttributes (specFileBaseName
        (specParseFileAttributes "encrypted_private_executable_dot_x.tmpl")) =
        specParseFileAttributes "encrypted_private_executable_dot_x.tmpl" ∧
      specFileBaseName (specParseFileAttributes "encrypted_private_executable_dot_x.tmpl") =
        "encrypted_private_executable_dot_x.tmpl" ∧
      specParseFileAttributes "encrypted_private_executable_dot_x.tmpl" =
        ⟨".x", SourceFileType.SourceFileTypeFile, false, true, true, false, true, true⟩ ∧
      specParseDirAttributes "README.md" = ⟨"README.md", false, false⟩ ∧
      specParseFileAttributes "README.md" =
        ⟨"README.md", SourceFileType.SourceFileTypeFile, false, false, false, false, false,
          false⟩ :=
  ⟨(C22_attribute_round_trip "encrypted_private_executable_dot_x.tmpl").2.2.1 (by decide),
    by decide, by decide,
    (C22_attribute_round_trip "README.md").2.2.2.2.2.1 (by decide) (by decide) (by decide),
    (C22_attribute_round_trip "README.md").2.2.2.2.2.2 (by decide) (by decide) (by decide)
      (by decide) (by decide) (by decide) (by decide) (by decide) (by decide)⟩

/-- C23: with a directory and a file that are both relative, `PathJoin` returns the cleaned join
of the two, which is not an absolute path: for the directory `home/user` and the file `file` it
returns `home/user/file`. -/
theorem C23_PathJoin_relative_directory :
    PathJoin "home/user" "file" = "home/user/file" ∧
      PathJoin "home/user" "file" = pathClean (pathJoin ["home/user", "file"]) ∧
      IsAbs (PathJoin "home/user" "file") = false ∧
      pathClean (PathJoin "home/user" "file") = PathJoin "home/user" "file" := by
  decide

/-- C24: when `ApplyOne` succeeds on the sorted target names before `n` and fails on `n`,
`ApplyAll` returns the error of that call, has called `ApplyOne` on the names before `n` and on `n`
and on no other name, so every key less than `n` has been applied and no key greater than `n` is;
and it leaves the target system as the failing call left it: nothing is undone. -/
theorem C24_abort_at_first_failure {TD σ δ : Type} (env : Env TD) (s : SourceState TD)
    (sys : TargetSystem σ δ) (system : σ) (targetDir : String) (umask : Nat)
    (before : List String) (n : String) (after : List String) (e : Error)
    (hmap : (mapKeys s.entries).Nodup)
    (hnames : sortedTargetNames s = before ++ n :: after)
    (hbefore : (applyLoop env s sys targetDir umask before ⟨system, none, [], []⟩).err = none)
    (hfail : (ApplyOne env s sys
      (applyLoop env s sys targetDir umask before ⟨system, none, [], []⟩).system
      targetDir n umask).err = some e) :
    (ApplyAll env s sys system targetDir umask).err = some e ∧
    (ApplyAll env s sys system targetDir umask).applied = before ++ [n] ∧
    (∀ k ∈ mapKeys s.entries, strLt k n = true →
      k ∈ (ApplyAll env s sys system targetDir umask).applied) ∧
    (∀ k ∈ mapKeys s.entries, strLt n k = true →
      k ∉ (ApplyAll env s sys system targetDir umask).applied) ∧
    (ApplyAll env s sys system targetDir umask).system =
      (ApplyOne env s sys
        (applyLoop env s sys targetDir umask before ⟨system, none, [], []⟩).system
        targetDir n umask).system := by
  obtain ⟨l, _, hl2, hl3⟩ := applyLoop_applied env s sys targetDir umask before
    ⟨system, none, [], []⟩
  have hl : l = before := hl3 hbefore rfl
  rw [hl] at hl2
  simp only [List.nil_append] at hl2
  have hone := ApplyOne_applied env s sys
    (applyLoop env s sys targetDir umask before ⟨system, none, [], []⟩).system targetDir n umask
  have hall : ApplyAll env s sys system targetDir umask =
      ⟨(ApplyOne env s sys
          (applyLoop env s sys targetDir umask before ⟨system, none, [], []⟩).system
          targetDir n umask).system, some e, before ++ [n],
        (applyLoop env s sys targetDir umask before ⟨system, none, [], []⟩).removed ++
          (ApplyOne env s sys
            (applyLoop env s sys targetDir umask before ⟨system, none, [], []⟩).system
            targetDir n umask).removed⟩ := by
    unfold ApplyAll
    rw [hnames, applyLoop_append env s sys targetDir umask before (n :: after) _ hbefore rfl]
    simp only [applyLoop, hfail, hone, hl2]
  have hsorted := sortStrings_strict (mapKeys s.entries) hmap
  have hsorted2 : (before ++ n :: after).Pairwise (fun a b => strLt a b = true) := by
    rw [← hnames]
    exact hsorted
  rw [List.pairwise_append] at hsorted2
  obtain ⟨_, hs2, hs3⟩ := hsorted2
  rw [List.pairwise_cons] at hs2
  have hkeys : ∀ k, k ∈ mapKeys s.entries → k ∈ before ∨ k = n ∨ k ∈ after := by
    intro k hk
    have h1 : k ∈ sortedTargetNames s := (sortStrings_perm _).mem_iff.mpr hk
    rw [hnames] at h1
    simpa using h1
  rw [hall]
  refine ⟨rfl, rfl, ?_, ?_, rfl⟩
  · intro k hk hlt
    simp only [List.mem_append, List.mem_singleton]
    rcases hkeys k hk with h1 | h1 | h1
    · exact Or.inl h1
    · exact Or.inr h1
    · have h2 := hs2.1 k h1
      exact absurd hlt (by rw [strLt_asymm n k h2]; simp)
  · intro k hk hlt hmem
    simp only [List.mem_append, List.mem_singleton] at hmem
    rcases hmem with h1 | h1
    · have h2 := hs3 k h1 n (List.mem_cons_self _ _)
      rw [strLt_asymm k n h2] at hlt
      cases hlt
    · rw [h1, strLt_irrefl] at hlt
      cases hlt

/-- C24, at a concrete input: the source file of the entry `a` of `unreadableState` cannot be
read, so `ApplyAll` returns its error, and the entry `b` is not applied. -/
theorem C24_abort_at_first_failure_witness :
    sortedTargetNames unreadableState = [] ++ "a" :: ["b"] ∧
      (ApplyAll plainEnv unreadableState (memSystem (fun _ => true)) homeDest "/home/user"
        0o22).err = some (Error.text "permission denied") ∧
      (ApplyAll plainEnv unreadableState (memSystem (fun _ => true)) homeDest "/home/user"
        0o22).applied = [] ++ ["a"] :=
  ⟨by decide,
    (C24_abort_at_first_failure plainEnv unreadableState (memSystem (fun _ => true)) homeDest
      "/home/user" 0o22 [] "a" ["b"] (Error.text "permission denied") (by decide) (by decide)
      (by decide) (by decide)).1,
    (C24_abort_at_first_failure plainEnv unreadableState (memSystem (fun _ => true)) homeDest
      "/home/user" 0o22 [] "a" ["b"] (Error.text "permission denied") (by decide) (by decide)
      (by decide) (by decide)).2.1⟩

/-- C25 fails as stated: the name `.chezmoidatax` begins with `.chezmoi` and is none of the special
names, and `Read` fails on the source directory `strayDataSource` that holds it, with the error of
an unknown data format and without an entry for the file `foo`; without `.chezmoidatax` the file
`foo` is recorded. -/
theorem C25_counterexample :
    HasPrefix ".chezmoidatax" ChezmoiPrefix = true ∧
      (Read dataEnv dataTestState (Lstat.info (Node.dir strayDataSource))).2 =
        [Error.text "/home/user/.local/share/chezmoi/.chezmoidatax: unknown format"] ∧
      mapKeys (Read dataEnv dataTestState (Lstat.info (Node.dir strayDataSource))).1.entries = [] ∧
      (Read dataEnv dataTestState
        (Lstat.info (Node.dir (.cons "foo" (.file "bar") .nil)))).2 = [] ∧
      mapKeys (Read dataEnv dataTestState
        (Lstat.info (Node.dir (.cons "foo" (.file "bar") .nil)))).1.entries = ["foo"] := by
  decide

/-- C25, amended: for an entry of a source directory whose name begins with `.chezmoi` or with `.`,
does not begin with `.chezmoidata` and is none of `.chezmoiignore`, `.chezmoiremove`,
`.chezmoitemplates` and `.chezmoiversion`, whatever its file type: the walk function of `Read`
returns no error and changes nothing, and returns `SkipDir` exactly when the entry is a directory;
the walk of the entry with all that is beneath it leaves the state as it is, so that nothing is
recorded, and goes on with the next entry; the walk of the directory that holds the entry is the
walk of that directory without the entry; and for an entry of the source directory itself `Read`
returns what it returns without the entry. -/
theorem C25_dot_entries_skipped {TD : Type} (env : Env TD) (st : ReadState TD)
    (dirPath name : String) (node : Node) (pre rest : Entries)
    (hname : HasPrefix name ChezmoiPrefix = true ∨ HasPrefix name ignorePrefix = true)
    (hdata : HasPrefix name dataName = false) (hignore : name ≠ ignoreName)
    (hremove : name ≠ removeName) (htemplates : name ≠ templatesDirName)
    (hversion : name ≠ versionName)
    (hpath : pathJoin [dirPath, name] ≠ st.s.sourcePath) :
    readWalkFn env st (pathJoin [dirPath, name]) name node =
        (st, if node.IsDir then Ctl.skipDir else Ctl.next) ∧
      walk (readWalkFn env) (pathJoin [dirPath, name]) name node st = (st, Ctl.next) ∧
      walkEntries (readWalkFn env) dirPath (pre.append (Entries.cons name node rest)) st =
        walkEntries (readWalkFn env) dirPath (pre.append rest) st ∧
      (dirPath = st.s.sourcePath →
        Read env st.s (Lstat.info (Node.dir (pre.append (Entries.cons name node rest)))) =
          Read env st.s (Lstat.info (Node.dir (pre.append rest)))) := by
  have hcongr : ∀ (st0 : ReadState TD), st0.s.sourcePath = st.s.sourcePath →
      walkEntries (readWalkFn env) dirPath (pre.append (Entries.cons name node rest)) st0 =
        walkEntries (readWalkFn env) dirPath (pre.append rest) st0 := by
    intro st0 h0
    refine walkEntries_append_congr env dirPath st.s.sourcePath _ _ ?_ pre st0 h0
    intro st1 h1
    rw [walkEntries, walk_skipped env st1 (pathJoin [dirPath, name]) name node hname hdata hignore
      hremove htemplates hversion (by rw [h1]; exact hpath)]
  refine ⟨readWalkFn_skipped env st _ name node hname hdata hignore hremove htemplates hversion
      hpath,
    walk_skipped env st _ name node hname hdata hignore hremove htemplates hversion hpath,
    hcongr st rfl, ?_⟩
  intro hdir
  have hw : ∀ children : Entries, readWalk env st.s (Node.dir children) =
      walkEntries (readWalkFn env) st.s.sourcePath children ⟨st.s, []⟩ := by
    intro children
    unfold readWalk
    rw [walk]
    have hroot : readWalkFn env ⟨st.s, []⟩ st.s.sourcePath (pathSplit st.s.sourcePath).2
        (Node.dir children) = (⟨st.s, []⟩, Ctl.next) := by
      unfold readWalkFn
      rw [if_pos rfl]
    rw [hroot]
  have hwalks : readWalk env st.s (Node.dir (pre.append (Entries.cons name node rest))) =
      readWalk env st.s (Node.dir (pre.append rest)) := by
    rw [hw, hw, ← hdir]
    exact hcongr ⟨st.s, []⟩ rfl
  unfold Read
  simp only [Node.IsDir, Bool.not_true, Bool.false_eq_true, if_false]
  rw [hwalks]

/-- C25, amended, at a concrete input: in the source directory `hiddenSource` the symbolic link
`.chezmoilink`, the directory `.git` with what it holds and the file `.gitignore` are skipped, and
`Read` records the file `foo` alone, as it does without the directory `.git`. -/
theorem C25_dot_entries_skipped_witness :
    walk (readWalkFn plainEnv) (pathJoin [testSourcePath, ".git"]) ".git"
        (.dir (.cons "config" (.file "x") (.cons "link" (.other (2 ^ 27) (.ok "x")) .nil)))
        ⟨testState, []⟩ = (⟨testState, []⟩, Ctl.next) ∧
      Read plainEnv testState (Lstat.info (Node.dir hiddenSource)) =
        Read plainEnv testState (Lstat.info (Node.dir
          (.cons ".chezmoilink" (.other (2 ^ 27) (.ok "x"))
            (.cons ".gitignore" (.file "x") (.cons "foo" (.file "bar") .nil))))) ∧
      (Read plainEnv testState (Lstat.info (Node.dir hiddenSource))).2 = [] ∧
      mapKeys (Read plainEnv testState (Lstat.info (Node.dir hiddenSource))).1.entries = ["foo"] :=
  ⟨(C25_dot_entries_skipped plainEnv ⟨testState, []⟩ testSourcePath ".git"
      (.dir (.cons "config" (.file "x") (.cons "link" (.other (2 ^ 27) (.ok "x")) .nil)))
      (.cons ".chezmoilink" (.other (2 ^ 27) (.ok "x")) .nil)
      (.cons ".gitignore" (.file "x") (.cons "foo" (.file "bar") .nil))
      (by decide) (by decide) (by decide) (by decide) (by decide) (by decide) (by decide)).2.1,
    (C25_dot_entries_skipped plainEnv ⟨testState, []⟩ testSourcePath ".git"
      (.dir (.cons "config" (.file "x") (.cons "link" (.other (2 ^ 27) (.ok "x")) .nil)))
      (.cons ".chezmoilink" (.other (2 ^ 27) (.ok "x")) .nil)
      (.cons ".gitignore" (.file "x") (.cons "foo" (.file "bar") .nil))
      (by decide) (by decide) (by decide) (by decide) (by decide) (by decide) (by decide)).2.2.2
      rfl,
    by decide, by decide⟩

/-- C26 fails as stated: in `hiddenLinkSource` the symbolic link `.git/link` has a name that does
not begin with a dot, and `Read` succeeds and records the file `foo`: the walk does not go down
into the directory `.git`, so the walk function is never called on the link. -/
theorem C26_counterexample :
    HasPrefix "link" ignorePrefix = false ∧
      (Node.other ModeSymlink (.ok "bar")).IsDir = false ∧
      (Node.other ModeSymlink (.ok "bar")).IsRegular = false ∧
      (Read plainEnv testState (Lstat.info (Node.dir hiddenLinkSource))).2 = [] ∧
      mapKeys (Read plainEnv testState (Lstat.info (Node.dir hiddenLinkSource))).1.entries =
        ["foo"] ∧
      readVisits plainEnv testState hiddenLinkSource =
        [testSourcePath, testSourcePath ++ "/.git", testSourcePath ++ "/foo"] := by
  decide

/-- C26, amended: for every entry of the source directory on which the walk of `Read` calls its
walk function (`walkVisits`; an entry beneath a directory that the walk skips, or after an entry
at which the walk has stopped, is not among them), whose name does not begin with a dot and whose
mode is neither a directory nor a regular file: `Read` returns the unsupported file type error of
that entry alone, whose message is the path, `: unsupported file type ` and the name of the type
(`symlink`, `named pipe`, `socket`, `device`, `char device`), and the entries of the source state
are what they were before. -/
theorem C26_unsupported_file_type {TD : Type} (env : Env TD) (s : SourceState TD)
    (children : Entries) (st : ReadState TD) (path name : String) (node : Node)
    (hvisit : (st, path, name, node) ∈
      walkVisits (readWalkFn env) s.sourcePath (pathSplit s.sourcePath).2 (Node.dir children)
        ⟨s, []⟩)
    (hpath : path ≠ s.sourcePath)
    (hname : HasPrefix name ignorePrefix = false)
    (hdir : node.IsDir = false) (hreg : node.IsRegular = false) :
    (Read env s (Lstat.info (Node.dir children))).2 =
        [Error.unsupportedFileType path node.Mode] ∧
      (Read env s (Lstat.info (Node.dir children))).1.entries = s.entries ∧
      (Error.unsupportedFileType path node.Mode).Error =
        path ++ ": unsupported file type " ++ modeTypeName node.Mode ∧
      (node.Mode &&& ModeType = ModeSymlink → modeTypeName node.Mode = "symlink") ∧
      (node.Mode &&& ModeType = ModeNamedPipe → modeTypeName node.Mode = "named pipe") ∧
      (node.Mode &&& ModeType = ModeSocket → modeTypeName node.Mode = "socket") ∧
      (node.Mode &&& ModeType = ModeDevice → modeTypeName node.Mode = "device") ∧
      (node.Mode &&& ModeType = ModeCharDevice → modeTypeName node.Mode = "char device") := by
  have hsp : st.s.sourcePath = s.sourcePath ∧ st.s.entries = s.entries :=
    walkVisits_inv (readWalkFn env)
      (fun st1 => st1.s.sourcePath = s.sourcePath ∧ st1.s.entries = s.entries)
      (fun st1 path1 name1 node1 hp => by
        simp only at hp ⊢
        rw [readWalkFn_sourcePath, readWalkFn_entries]
        exact hp)
      (Node.dir children) s.sourcePath (pathSplit s.sourcePath).2 ⟨s, []⟩ ⟨rfl, rfl⟩ _ hvisit
  have hfn := readWalkFn_other env st path name node (by rw [hsp.1]; exact hpath) hname hdir hreg
  have hwalk := walkVisits_stop (readWalkFn env) (st, path, name, node) st
    (Ctl.fail (Error.unsupportedFileType path node.Mode)) hfn (by simp) hdir (Node.dir children)
    s.sourcePath (pathSplit s.sourcePath).2 ⟨s, []⟩ hvisit
  have hread := Read_of_walk_fail env s children st (Error.unsupportedFileType path node.Mode)
    hwalk
  rw [hread]
  refine ⟨rfl, hsp.2, rfl, ?_, ?_, ?_, ?_, ?_⟩ <;>
    · intro h
      unfold modeTypeName
      rw [h]
      rfl

/-- C26, amended, at the input of the scenario "symlink" of the tests: the symbolic link `foo`. -/
theorem C26_unsupported_file_type_witness :
    (Read plainEnv testState (Lstat.info (Node.dir symlinkSource))).2 =
        [Error.unsupportedFileType "/home/user/.local/share/chezmoi/foo" ModeSymlink] ∧
      (Read plainEnv testState (Lstat.info (Node.dir symlinkSource))).1.entries = [] ∧
      (Error.unsupportedFileType "/home/user/.local/share/chezmoi/foo" ModeSymlink).Error =
        "/home/user/.local/share/chezmoi/foo: unsupported file type symlink" :=
  ⟨(C26_unsupported_file_type plainEnv testState symlinkSource ⟨testState, []⟩
      "/home/user/.local/share/chezmoi/foo" "foo" (.other ModeSymlink (.ok "bar"))
      (List.Mem.tail _ (List.Mem.head _)) (by decide) (by decide) (by decide) (by decide)).1,
    (C26_unsupported_file_type plainEnv testState symlinkSource ⟨testState, []⟩
      "/home/user/.local/share/chezmoi/foo" "foo" (.other ModeSymlink (.ok "bar"))
      (List.Mem.tail _ (List.Mem.head _)) (by decide) (by decide) (by decide) (by decide)).2.1,
    by decide⟩

/-- C27 fails as stated: the empty tuple and the tuple of one empty argument differ in length and
have the same key, and the tuple of the one argument `a`, NUL, `b` and the tuple of the arguments
`a` and `b` have the same key; after a call of `secretFunc` with the empty tuple, a call with the
tuple of one empty argument runs no command and returns the value that was stored for the empty
tuple, where in a new process it returns another value. -/
theorem C27_counterexample :
    ([] : List String) ≠ [""] ∧ cacheKey [] = cacheKey [""] ∧
      [String.mk ['a', NUL, 'b']] ≠ ["a", "b"] ∧
      cacheKey [String.mk ['a', NUL, 'b']] = cacheKey ["a", "b"] ∧
      (callAll (secretFunc countingEnv) [[], [""]] (newCache 0)).2 = [.ok "0 0", .ok "0 0"] ∧
      (callAll (secretFunc countingEnv) [[], [""]] (newCache 0)).1.commands =
        [("secret", [], "0 0\n", none)] ∧
      (callAll (secretFunc countingEnv) [[""]] (newCache 0)).2 = [.ok "0 1"] := by
  decide

/-- C27, amended: for two tuples that differ, each with at least one argument and without the
character NUL in its arguments, the keys that `secretFunc`, `secretJSONFunc` and
`onepasswordOutput` compute differ; and in a process in which the helper is called with such
tuples only, the value that a successful call with the tuple `A` returns was decoded from the
output of a run of the command with the arguments `A`, never from a run for another tuple. -/
theorem C27_cache_key_injective {ω V : Type} (c : SecretEnv ω V) (world : ω)
    (history : List (List String)) (A B : List String)
    (hplain : ∀ t ∈ A :: B :: history, plainTuple t = true) (hne : A ≠ B) :
    cacheKey A ≠ cacheKey B ∧
    (∀ value : String,
      (secretFunc c (callAll (secretFunc c) history (newCache world)).1 A).2 = .ok value →
      ∃ output, (c.GenericSecretCommand, A, output, none) ∈
          (secretFunc c (callAll (secretFunc c) history (newCache world)).1 A).1.commands ∧
        value = TrimSpace output) ∧
    (∀ value : V,
      (secretJSONFunc c (callAll (secretJSONFunc c) history (newCache world)).1 A).2 =
        .ok value →
      ∃ output, (c.GenericSecretCommand, A, output, none) ∈
          (secretJSONFunc c (callAll (secretJSONFunc c) history (newCache world)).1 A).1.commands ∧
        c.Unmarshal output = .ok value) ∧
    (∀ value : String,
      (onepasswordOutput c (callAll (onepasswordOutput c) history (newCache world)).1 A).2 =
        .ok value →
      ∃ output, (c.OnepasswordCommand, A, output, none) ∈
          (onepasswordOutput c (callAll (onepasswordOutput c) history
            (newCache world)).1 A).1.commands ∧
        value = output) := by
  have e1 : secretFunc c =
      cachedCall c c.GenericSecretCommand (fun output => .ok (TrimSpace output)) :=
    funext fun st => funext fun a => secretFunc_eq c st a
  have e2 : secretJSONFunc c = cachedCall c c.GenericSecretCommand c.Unmarshal :=
    funext fun st => funext fun a => secretJSONFunc_eq c st a
  have e3 : onepasswordOutput c = cachedCall c c.OnepasswordCommand (fun output => .ok output) :=
    funext fun st => funext fun a => onepasswordOutput_eq c st a
  have hA := hplain A (List.mem_cons_self _ _)
  have hB := hplain B (List.mem_cons_of_mem _ (List.mem_cons_self _ _))
  have hh : ∀ t ∈ A :: history, plainTuple t = true := by
    intro t ht
    rcases List.mem_cons.mp ht with h | h
    · rw [h]
      exact hA
    · exact hplain t (List.mem_cons_of_mem _ (List.mem_cons_of_mem _ h))
  refine ⟨fun h => hne (cacheKey_injective A B hA hB h), ?_, ?_, ?_⟩
  · intro value hok
    rw [e1] at hok ⊢
    obtain ⟨output, h1, h2⟩ := cachedCall_own c _ _ world history A value hh hok
    refine ⟨output, h1, ?_⟩
    cases h2
    rfl
  · intro value hok
    rw [e2] at hok ⊢
    exact cachedCall_own c _ _ world history A value hh hok
  · intro value hok
    rw [e3] at hok ⊢
    obtain ⟨output, h1, h2⟩ := cachedCall_own c _ _ world history A value hh hok
    refine ⟨output, h1, ?_⟩
    cases h2
    rfl

/-- C27, amended, at a concrete input: the tuples `a`, `b` and `ab` have different keys, and after
a call with `a`, `b` a call with `ab` runs the command and returns its own value. -/
theorem C27_cache_key_injective_witness :
    cacheKey ["ab"] ≠ cacheKey ["a", "b"] ∧
      (callAll (secretFunc countingEnv) [["a", "b"], ["ab"]] (newCache 0)).2 =
        [.ok "0 2", .ok "1 1"] :=
  ⟨(C27_cache_key_injective countingEnv 0 [["a", "b"]] ["ab"] ["a", "b"] (by decide)
      (by decide)).1,
    by decide⟩

/-- C28: over any number of calls of `TargetStateEntry` on one `SourceStateFile`, the producer is
invoked at most once, and only by the first call; every call returns the pair of entry and error
that the first call returned, whether or not that pair holds an error; and after the first call a
call in any world returns this pair without invoking the producer and leaves the world. -/
theorem C28_TargetStateEntry_memoized {ω : Type} (s : SourceStateFile ω) (world : ω) (n : Nat) :
    (s.calls world (n + 1)).2.2.1 = List.replicate (n + 1) (s.TargetStateEntry world).result ∧
    (s.calls world (n + 1)).2.2.2 = (s.TargetStateEntry world).invoked ∧
    (s.TargetStateEntry world).invoked ≤ 1 ∧
    ((s.TargetStateEntry world).invoked = 1 ↔ s.targetStateEntryFunc ≠ none) ∧
    (s.calls world (n + 1)).2.1 = (s.TargetStateEntry world).world ∧
    (∀ other : ω,
      ((s.TargetStateEntry world).file.TargetStateEntry other).result =
          (s.TargetStateEntry world).result ∧
        ((s.TargetStateEntry world).file.TargetStateEntry other).invoked = 0 ∧
        ((s.TargetStateEntry world).file.TargetStateEntry other).world = other ∧
        ((s.TargetStateEntry world).file.TargetStateEntry other).file =
          (s.TargetStateEntry world).file) := by
  obtain ⟨h1, h2, h3, h4⟩ := SourceStateFile.TargetStateEntry_stored s world
  have hcalls := SourceStateFile.calls_nil n (s.TargetStateEntry world).file
    (s.TargetStateEntry world).world h1
  refine ⟨?_, ?_, h3, h4, ?_, ?_⟩
  · simp only [SourceStateFile.calls, hcalls, List.replicate_succ, h2]
  · simp only [SourceStateFile.calls, hcalls, Nat.add_zero]
  · simp only [SourceStateFile.calls, hcalls]
  · intro other
    rw [SourceStateFile.TargetStateEntry_nil _ other h1]
    exact ⟨h2, rfl, rfl, rfl⟩

/-- C28, at a concrete input: three calls on a file whose producer fails return the error three
times and invoke the producer once. -/
theorem C28_TargetStateEntry_memoized_witness :
    ((⟨some failingProducer, none, none⟩ : SourceStateFile Nat).calls 0 3).2.2.1 =
        [(none, some "permission denied"), (none, some "permission denied"),
          (none, some "permission denied")] ∧
      ((⟨some failingProducer, none, none⟩ : SourceStateFile Nat).calls 0 3).2.2.2 = 1 ∧
      ((⟨some failingProducer, none, none⟩ : SourceStateFile Nat).calls 0 3).2.1 = 1 :=
  ⟨(C28_TargetStateEntry_memoized ⟨some failingProducer, none, none⟩ 0 2).1,
    (C28_TargetStateEntry_memoized ⟨some failingProducer, none, none⟩ 0 2).2.1,
    by decide⟩

/-- C29: `parseAttributesModifier` is the fold, from left to right and from the
all-leave-unchanged modifier, of the trimmed items of its input that are not empty; so inputs with
the same such items parse alike, and the empty string parses to the all-leave-unchanged modifier.
A step of the fold overwrites the field of the attribute of its item and no other field, so the
last modifier given for an attribute wins. -/
theorem C29_parse_is_fold (s : String) :
    parseAttributesModifier s =
      ((modifierItems s).filter (fun item => decide (item ≠ ""))).foldl foldItem
        (.ok attributesModifier.zero) ∧
    (∀ s2 : String,
      (modifierItems s2).filter (fun item => decide (item ≠ "")) =
        (modifierItems s).filter (fun item => decide (item ≠ "")) →
      parseAttributesModifier s2 = parseAttributesModifier s) ∧
    parseAttributesModifier "" = .ok attributesModifier.zero ∧
    (∀ (am : attributesModifier) (a : String) (bm : boolModifier),
      (am.overwrite a bm).empty = (if a ∈ ["empty", "e"] then bm else am.empty) ∧
      (am.overwrite a bm).encrypted = (if a = "encrypted" then bm else am.encrypted) ∧
      (am.overwrite a bm).exact = (if a = "exact" then bm else am.exact) ∧
      (am.overwrite a bm).executable = (if a ∈ ["executable", "x"] then bm else am.executable) ∧
      (am.overwrite a bm).private_ = (if a ∈ ["private", "p"] then bm else am.private_) ∧
      (am.overwrite a bm).template = (if a ∈ ["template", "t"] then bm else am.template)) ∧
    (∀ (am : attributesModifier) (a : String) (bm1 bm2 : boolModifier),
      (am.overwrite a bm1).overwrite a bm2 = am.overwrite a bm2) := by
  have hfold : ∀ t : String, parseAttributesModifier t =
      ((modifierItems t).filter (fun item => decide (item ≠ ""))).foldl foldItem
        (.ok attributesModifier.zero) := by
    intro t
    unfold parseAttributesModifier modifierItems
    exact parseAttributesModifierLoop_fold _ _
  refine ⟨hfold s, ?_, by decide, fun _ _ _ => ⟨rfl, rfl, rfl, rfl, rfl, rfl⟩, ?_⟩
  · intro s2 h
    rw [hfold s2, hfold s, h]
  · intro am a bm1 bm2
    simp only [attributesModifier.overwrite]
    congr 1 <;> split_ifs <;> rfl

/-- C29, at the inputs of the tests: `p,,-t` parses as `p,-t`, and in `t, -t` the last modifier
of `template` wins. -/
theorem C29_parse_is_fold_witness :
    parseAttributesModifier "p,,-t" = parseAttributesModifier "p,-t" ∧
      parseAttributesModifier "t, -t" = .ok (modifierOf "t" .boolModifierClear) :=
  ⟨(C29_parse_is_fold "p,-t").2.1 "p,,-t" (by decide),
    (C29_parse_is_fold "t, -t").1.trans (by decide)⟩

/-- C30: on a `DumpSystem` whose map holds the path, `Mkdir`, `WriteFile`, `WriteSymlink` (at the
new name) and `RunScript` (at the script name) return the already-exists error and leave the map;
`Chmod`, `RemoveAll`, `Rename` and `Delete` return permission-denied and leave the map; `Set` and
`RunCmd` return no error and leave the map.  Along any sequence of calls a key of the map stays a
key and the value under it stays the same. -/
theorem C30_DumpSystem_keeps (s : DumpSystem) :
    (∀ (p : String) (r : DumpData), mapGet s.Data p = some r →
      (∀ perm, s.Mkdir p perm = (s, some ErrExist)) ∧
      (∀ data perm, s.WriteFile p data perm = (s, some ErrExist)) ∧
      (∀ oldname, s.WriteSymlink oldname p = (s, some ErrExist)) ∧
      (∀ dir data, s.RunScript p dir data = (s, some ErrExist))) ∧
    ((∀ name mode, s.Chmod name mode = (s, some ErrPermission)) ∧
      (∀ name, s.RemoveAll name = (s, some ErrPermission)) ∧
      (∀ oldpath newpath, s.Rename oldpath newpath = (s, some ErrPermission)) ∧
      (∀ bucket key, s.Delete bucket key = (s, some ErrPermission))) ∧
    ((∀ bucket key value, s.Set bucket key value = (s, none)) ∧
      (s.RunCmd () = (s, none))) ∧
    (∀ (cs : List DumpCall) (k : String) (r : DumpData), mapGet s.Data k = some r →
      mapGet (s.calls cs).Data k = some r) ∧
    (∀ (cs : List DumpCall) (k : String), k ∈ mapKeys s.Data → k ∈ mapKeys (s.calls cs).Data) := by
  refine ⟨?_, ⟨fun _ _ => rfl, fun _ => rfl, fun _ _ => rfl, fun _ _ => rfl⟩,
    ⟨fun _ _ _ => rfl, rfl⟩, ?_, ?_⟩
  · intro p r h
    simp only [DumpSystem.Data] at h
    refine ⟨?_, ?_, ?_, ?_⟩
    · intro perm
      simp [DumpSystem.Mkdir, h]
    · intro data perm
      simp [DumpSystem.WriteFile, h]
    · intro oldname
      simp [DumpSystem.WriteSymlink, h]
    · intro dir data
      simp [DumpSystem.RunScript, h]
  · intro cs k r h
    exact DumpSystem.calls_keep cs s k r h
  · intro cs k h
    obtain ⟨v, hv⟩ := (mem_mapKeys_iff_mapGet _ _).mp h
    exact (mem_mapKeys_iff_mapGet _ _).mpr ⟨v, DumpSystem.calls_keep cs s k v hv⟩

/-- C30, at a concrete input: after `Mkdir("dir", 0o777)`, a `WriteFile` at `dir` fails and the
directory stays recorded. -/
theorem C30_DumpSystem_keeps_witness :
    ((NewDumpSystem.calls [DumpCall.Mkdir "dir" 0o777]).WriteFile "dir" "bar" 0o666).2 =
        some ErrExist ∧
      mapGet ((NewDumpSystem.calls [DumpCall.Mkdir "dir" 0o777]).calls
        [DumpCall.WriteFile "dir" "bar" 0o666, DumpCall.RemoveAll "dir"]).Data "dir" =
        some (DumpData.dirData "dir" "dir" 0o777) :=
  ⟨congrArg Prod.snd (((C30_DumpSystem_keeps (NewDumpSystem.calls [DumpCall.Mkdir "dir" 0o777])).1
      "dir" (DumpData.dirData "dir" "dir" 0o777) (by decide)).2.1 "bar" 0o666),
    by decide⟩

end Chezmoi
